import Mathlib

/-!
# Particle redistribution and the spatial locator (AMReX)

A shallow embedding of

* `Src/Particle/AMReX_ParticleLocator.H` (`assignGrid`, `ParticleLocator`),
* `Src/Particle/AMReX_ParticleCommunication.H` (`NeighborUnpackPolicy`,
  `RedistributeUnpackPolicy`, `ParticleCopyOp`, `ParticleCopyPlan`,
  `packBuffer`, `unpackBuffer`, `communicateParticlesStart`, `unpackRemotes`),
* `Src/Boundary/AMReX_InterpBndryData_3D_K.H` (`interpbndrydata_{x,y,z}_o1`,
  `interpbndrydata_{x,y,z}_o3`),
* `Src/EB/AMReX_EBMultiFabUtil_3D_C.H` (`eb_avgdown`),

for `AMREX_SPACEDIM = 3`, followed by theorems about the embedded code.

Conventions.

* C++ `int` values are `Int`; signed overflow is undefined behaviour in C++ and
  is not modelled (the values are assumed to fit in 32 bits).
* C++ `unsigned int` values are `Nat`; where the source converts a possibly
  negative `int` to `unsigned int`, or increments an unsigned counter, the
  reduction modulo `2^32` is explicit.
* C++ `long` values are `Int` as well; a value converted to `std::size_t` is
  reduced modulo `2^64`. A `size()` returned as `int` (`numCopies`) is reduced
  to 32 bits, so that it can be negative.
* A device/host vector is a `List`; an access outside the vector, a failed
  `std::map::at`, a negative size handed to `resize` and a failed assertion
  end the computation with an `Err`. Assertions (`AMREX_ASSERT`, `BL_ASSERT`)
  are modelled as enabled.
* `AMREX_FOR_1D` / `ParallelFor` bodies that communicate through an atomic
  fetch-and-increment take the order in which the iterations perform their
  atomic operation as an explicit argument (`List.range n` is the sequential
  CPU order). `ParticleCopyPlan.build` runs the loops of the boxes one after
  the other; `ParticleCopyPlan.buildInterleaved` takes one global order of the
  iterations of all boxes.
* A failure carries no state. Where the state that a call leaves matters (the
  level assertion), the functions are run on an `ExchangeState` and end in an
  `Outcome`.
* `Real` values are rationals (exact arithmetic); an `Array4` view is a total
  function of its four indices.
-/

set_option autoImplicit false

namespace amrex

/-! ## Outcomes -/

/-- Ways in which a modelled computation can stop without a result. -/
inductive Err where
  /-- the assertion `AMREX_ASSERT(pc.numLevels() == 1)` does not hold -/
  | assertion
  /-- `std::map::at` on a missing key -/
  | outOfRange
  /-- read or write outside a vector -/
  | badAccess
  /-- a negative element count handed to `resize` -/
  | badSize
  /-- integer division by zero -/
  | divByZero
  /-- a `BL_ASSERT` on the byte count or the peer of a message does not hold -/
  | messageAssertion
  /-- the assertion that the calling process owns the box of a received entry does not hold -/
  | ownerAssertion
  deriving DecidableEq, Repr

/-- Result of a modelled computation: a value, or the reason it stopped. -/
inductive Res (α : Type) where
  | ok (a : α)
  | fail (e : Err)
  deriving DecidableEq, Repr

/-- Sequencing of fallible computations. -/
def Res.bind {α β : Type} (r : Res α) (f : α → Res β) : Res β :=
  match r with
  | .ok a => f a
  | .fail e => .fail e

instance : Monad Res where
  pure := Res.ok
  bind := Res.bind

/-- Vector read `v[i]` with a natural index. -/
def readNat {α : Type} (v : List α) (i : Nat) : Res α :=
  match v[i]? with
  | some a => .ok a
  | none => .fail .badAccess

/-- Vector read `v[i]` with an `int` index. -/
def readAt {α : Type} (v : List α) (i : Int) : Res α :=
  if 0 ≤ i then readNat v i.toNat else .fail .badAccess

/-- Vector write `v[i] = a` with a natural index. -/
def writeNat {α : Type} (v : List α) (i : Nat) (a : α) : Res (List α) :=
  if i < v.length then .ok (v.set i a) else .fail .badAccess

/-- The call `v.resize(n, d)` of `std::vector`: keeps the first `n` elements and pads with `d`. -/
def resize {α : Type} (v : List α) (n : Nat) (d : α) : List α :=
  v.take n ++ List.replicate (n - v.length) d

/-- The call `v.resize(n, d)` with an `int` count; a negative count is not a size. -/
def resizeInt {α : Type} (v : List α) (n : Int) (d : α) : Res (List α) :=
  if 0 ≤ n then .ok (resize v n.toNat d) else .fail .badSize

/-- Division of `int` by `int`, truncating toward zero. -/
def divInt (a b : Int) : Res Int :=
  if b = 0 then .fail .divByZero else .ok (Int.tdiv a b)

/-- Run a loop body over the iteration values, threading the state. -/
def loopM {σ α : Type} (f : σ → α → Res σ) : σ → List α → Res σ
  | s, [] => .ok s
  | s, x :: xs =>
    match f s x with
    | .ok s' => loopM f s' xs
    | .fail e => .fail e

/-- Conversion of an `int` to `unsigned int`. -/
def toUInt32 (z : Int) : Nat := (z % 4294967296).toNat

/-- Conversion of an `unsigned int` to `int`. -/
def toInt32 (u : Nat) : Int :=
  if u % 4294967296 < 2147483648 then ((u % 4294967296 : Nat) : Int)
  else ((u % 4294967296 : Nat) : Int) - 4294967296

/-- Addition of `unsigned int`. -/
def u32add (a b : Nat) : Nat := (a + b) % 4294967296

/-- Multiplication of `unsigned int`. -/
def u32mul (a b : Nat) : Nat := (a * b) % 4294967296

/-- Modelled from the spec: `Gpu::Atomic::Inc(&c, max_unsigned_int)` (AMReX_GpuAtomic.H is
not among the sources) is the wait-free fetch-and-increment of an `unsigned int` counter: the
stored value becomes the old value plus one (modulo `2^32`) and the old value is returned. -/
def atomicInc (old : Nat) : Nat × Nat := (old, u32add old 1)

/-- Modelled from the spec: `Gpu::exclusive_scan(first, last, out)` (not among the sources)
writes to `out[k]` the sum of the inputs before position `k`, for every `k` of the input
range; `acc` is the running sum, in `unsigned int` arithmetic. -/
def exclusive_scan : Nat → List Nat → List Nat
  | _, [] => []
  | acc, x :: xs => acc :: exclusive_scan (u32add acc x) xs

/-- Run a loop body over the iteration values, stopping at the first `return`. -/
def firstM {α β : Type} (f : α → Res (Option β)) : List α → Res (Option β)
  | [] => .ok none
  | x :: xs =>
    match f x with
    | .ok none => firstM f xs
    | r => r

/-- The values of `for (int i = a; i <= b; ++i)`. -/
def intRange (a b : Int) : List Int :=
  (List.range (b + 1 - a).toNat).map fun (k : Nat) => a + (k : Int)

/-! ## Boxes -/

/-- Three `int` components (`Dim3`, and `IntVect` for three space dimensions). -/
structure Dim3 where
  x : Int
  y : Int
  z : Int
  deriving DecidableEq, Repr

/-- Modelled from the spec: `Box` (AMReX_Box.H is not among the sources) is an axis-aligned
integer index-space rectangle `[lo, hi]`, inclusive. -/
structure Box where
  smallEnd : Dim3
  bigEnd : Dim3
  deriving DecidableEq, Repr

/-- Modelled from the spec: `Box::contains(IntVect)` (not among the sources) is the inclusive
range containment check. -/
def Box.contains (b : Box) (iv : Dim3) : Bool :=
  decide (b.smallEnd.x ≤ iv.x) && decide (iv.x ≤ b.bigEnd.x) &&
  decide (b.smallEnd.y ≤ iv.y) && decide (iv.y ≤ b.bigEnd.y) &&
  decide (b.smallEnd.z ≤ iv.z) && decide (iv.z ≤ b.bigEnd.z)

/-- Modelled from the spec: `Box::length()` (not among the sources), the number of cells of
the inclusive range on each axis. -/
def Box.length (b : Box) : Dim3 :=
  ⟨b.bigEnd.x - b.smallEnd.x + 1, b.bigEnd.y - b.smallEnd.y + 1, b.bigEnd.z - b.smallEnd.z + 1⟩

/-- Modelled from the spec: `Box::ok()` (not among the sources): the box is a non-empty
rectangle, `lo ≤ hi` on every axis. -/
def Box.ok (b : Box) : Prop :=
  b.smallEnd.x ≤ b.bigEnd.x ∧ b.smallEnd.y ≤ b.bigEnd.y ∧ b.smallEnd.z ≤ b.bigEnd.z

instance (b : Box) : Decidable b.ok := by unfold Box.ok; exact inferInstance

/-- Modelled from the spec: `ReduceOpMin` over `n` values (AMReX_Reduce.H is not among the
sources): the minimum of the values, and the identity `INT_MAX` when there is none. -/
def reduceMin : List Int → Int
  | [] => 2147483647
  | v :: vs => vs.foldl min v

/-- Modelled from the spec: `ReduceOpMax` over `n` values (AMReX_Reduce.H is not among the
sources): the maximum of the values, and the identity `INT_MIN` when there is none. -/
def reduceMax : List Int → Int
  | [] => -2147483648
  | v :: vs => vs.foldl max v

/-! ## `assignGrid` -/

/-- The struct `assignGrid`: the three tables and the bin geometry. -/
structure assignGrid where
  m_boxes_ptr : List Box
  m_poffset : List Nat
  m_pperm : List Nat
  m_lo : Dim3
  m_hi : Dim3
  m_bin_size : Dim3
  deriving DecidableEq, Repr

/-- Constructor of `assignGrid`: stores its arguments and clamps the bin size to at least 1. -/
def assignGrid.construct (a_boxes_ptr : List Box) (a_poffset a_pperm : List Nat)
    (a_bins_lo a_bins_hi a_bin_size : Dim3) : assignGrid :=
  { m_boxes_ptr := a_boxes_ptr
    m_poffset := a_poffset
    m_pperm := a_pperm
    m_lo := a_bins_lo
    m_hi := a_bins_hi
    m_bin_size := ⟨max a_bin_size.x 1, max a_bin_size.y 1, max a_bin_size.z 1⟩ }

/-- The innermost loop of `assignGrid::operator()`: scan the boxes of bin `index`
(`for (int p = m_poffset[index]; p < m_poffset[index+1]; ++p)`). -/
def assignGrid.scanBin (g : assignGrid) (iv : Dim3) (index : Int) : Res (Option Int) := do
  let first ← readAt g.m_poffset index
  let last ← readAt g.m_poffset (index + 1)
  firstM (fun p => do
      let id ← readNat g.m_pperm p
      let box ← readNat g.m_boxes_ptr id
      if box.contains iv then pure (some (toInt32 id)) else pure none)
    (List.range' first (last - first))

/-- The three nested bin loops of `assignGrid::operator()`; `some id` is an early `return`. -/
def assignGrid.search (g : assignGrid) (iv : Dim3) : Res (Option Int) :=
  let ix := Int.tdiv (iv.x - g.m_lo.x) g.m_bin_size.x
  let iy := Int.tdiv (iv.y - g.m_lo.y) g.m_bin_size.y
  let iz := Int.tdiv (iv.z - g.m_lo.z) g.m_bin_size.z
  let nx := g.m_hi.x - g.m_lo.x + 1
  let ny := g.m_hi.y - g.m_lo.y + 1
  let nz := g.m_hi.z - g.m_lo.z + 1
  firstM (fun ii =>
    firstM (fun jj =>
      firstM (fun kk => g.scanBin iv ((ii * ny + jj) * nz + kk))
        (intRange (max (iz - 1) 0) (min iz (nz - 1))))
      (intRange (max (iy - 1) 0) (min iy (ny - 1))))
    (intRange (max (ix - 1) 0) (min ix (nx - 1)))

/-- The function `assignGrid::operator()`: the id of the first box found that contains `iv`,
or `-1`. -/
def assignGrid.call (g : assignGrid) (iv : Dim3) : Res Int := do
  match ← g.search iv with
  | some id => pure id
  | none => pure (-1)

/-! ## `ParticleLocator` -/

/-- The data members of `ParticleLocator`. -/
structure ParticleLocator where
  m_bins_lo : Dim3
  m_bins_hi : Dim3
  m_bin_size : Dim3
  m_host_boxes : List Box
  m_device_boxes : List Box
  m_counts : List Nat
  m_cells : List Nat
  m_offsets : List Nat
  m_permutation : List Nat
  deriving DecidableEq, Repr

/-- A freshly constructed `ParticleLocator`: all vectors are empty. -/
def ParticleLocator.fresh : ParticleLocator :=
  ⟨⟨0, 0, 0⟩, ⟨0, 0, 0⟩, ⟨0, 0, 0⟩, [], [], [], [], [], []⟩

/-- Body of the first `ParallelFor` of `build` up to the assignment to `pcell[i]`: the flat bin
index of a box, in `unsigned int` arithmetic. -/
def ParticleLocator.cellOf (lo hi bin_size : Dim3) (box : Box) : Res Nat := do
  let blo := box.smallEnd
  let ix ← divInt (blo.x - lo.x) bin_size.x
  let iy ← divInt (blo.y - lo.y) bin_size.y
  let iz ← divInt (blo.z - lo.z) bin_size.z
  let nx := hi.x - lo.x + 1
  let ny := hi.y - lo.y + 1
  let nz := hi.z - lo.z + 1
  let uix := toUInt32 (min (nx - 1) (max 0 ix))
  let uiy := toUInt32 (min (ny - 1) (max 0 iy))
  let uiz := toUInt32 (min (nz - 1) (max 0 iz))
  pure (u32add (u32mul (u32add (u32mul uix (toUInt32 ny)) uiy) (toUInt32 nz)) uiz)

/-- One iteration of the first `ParallelFor` of `build`: store the bin of box `i` in `pcell[i]`
and add one to that bin's counter. The state is `(m_cells, m_counts)`. -/
def ParticleLocator.countStep (boxes : List Box) (lo hi bin_size : Dim3)
    (st : List Nat × List Nat) (i : Nat) : Res (List Nat × List Nat) := do
  let box ← readNat boxes i
  let c ← ParticleLocator.cellOf lo hi bin_size box
  let cells ← writeNat st.1 i c
  let old ← readNat st.2 c
  let counts ← writeNat st.2 c (u32add old 1)
  pure (cells, counts)

/-- One iteration of the second loop of `build` (`AMREX_FOR_1D`): fetch-and-increment the
counter of the bin of box `i` and store `i` at the slot obtained. The state is
`(m_counts, m_permutation)`. -/
def ParticleLocator.placeStep (cells : List Nat)
    (st : List Nat × List Nat) (i : Nat) : Res (List Nat × List Nat) := do
  let c ← readNat cells i
  let old ← readNat st.1 c
  let counts ← writeNat st.1 c (atomicInc old).2
  let perm ← writeNat st.2 (atomicInc old).1 i
  pure (counts, perm)

/-- The method `ParticleLocator::build`. `order` lists the iterations of the second loop in
the order in which they perform their atomic increment. -/
def ParticleLocator.build (self : ParticleLocator) (ba : List Box) (order : List Nat) :
    Res ParticleLocator := do
  let num_boxes : Int := ba.length
  let boxes := ba
  -- compute the lo, hi and the max box size in each direction
  let lo : Dim3 := ⟨reduceMin (boxes.map fun b => b.smallEnd.x),
                    reduceMin (boxes.map fun b => b.smallEnd.y),
                    reduceMin (boxes.map fun b => b.smallEnd.z)⟩
  let hi0 : Dim3 := ⟨reduceMax (boxes.map fun b => b.bigEnd.x),
                     reduceMax (boxes.map fun b => b.bigEnd.y),
                     reduceMax (boxes.map fun b => b.bigEnd.z)⟩
  let bin_size : Dim3 := ⟨reduceMax (boxes.map fun b => b.length.x),
                          reduceMax (boxes.map fun b => b.length.y),
                          reduceMax (boxes.map fun b => b.length.z)⟩
  -- m_bins_hi = (m_bins_hi + m_bin_size - IntVect::TheUnitVector()) / m_bin_size
  let hx ← divInt (hi0.x + bin_size.x - 1) bin_size.x
  let hy ← divInt (hi0.y + bin_size.y - 1) bin_size.y
  let hz ← divInt (hi0.z + bin_size.z - 1) bin_size.z
  let hi : Dim3 := ⟨hx, hy, hz⟩
  let num_bins : Int := (hi.x - lo.x + 1) * (hi.y - lo.y + 1) * (hi.z - lo.z + 1)
  let cells0 := resize self.m_cells ba.length 0
  let counts0 ← resizeInt ([] : List Nat) num_bins 0
  let offsets0 ← resizeInt ([] : List Nat) (num_bins + 1) (toUInt32 num_boxes)
  let perm0 := resize self.m_permutation ba.length 0
  let (cells, counts1) ←
    loopM (ParticleLocator.countStep boxes lo hi bin_size) (cells0, counts0)
      (List.range ba.length)
  -- Gpu::exclusive_scan(m_counts.begin(), m_counts.end(), m_offsets.begin())
  let offsets := exclusive_scan 0 counts1 ++ offsets0.drop counts1.length
  -- Gpu::thrust_copy(m_offsets.begin(), m_offsets.end()-1, m_counts.begin())
  let counts2 := offsets.take (offsets.length - 1) ++ counts1.drop (offsets.length - 1)
  let (counts, perm) ← loopM (ParticleLocator.placeStep cells) (counts2, perm0) order
  pure { m_bins_lo := lo
         m_bins_hi := hi
         m_bin_size := bin_size
         m_host_boxes := boxes
         m_device_boxes := boxes
         m_counts := counts
         m_cells := cells
         m_offsets := offsets
         m_permutation := perm }

/-- The method `ParticleLocator::getGridAssignor`. -/
def ParticleLocator.getGridAssignor (self : ParticleLocator) : assignGrid :=
  assignGrid.construct self.m_device_boxes self.m_offsets self.m_permutation
    self.m_bins_lo self.m_bins_hi self.m_bin_size

/-- Build a locator on a fresh object, with the second loop in sequential order, and query it. -/
def locate (ba : List Box) (iv : Dim3) : Res Int := do
  let loc ← ParticleLocator.fresh.build ba (List.range ba.length)
  loc.getGridAssignor.call iv

/-! ## Particles, tiles and the container -/

/-- Modelled from the spec: a particle record (`SuperParticle`; AMReX_Particle.H is not among
the sources) is a fixed-size value holding a position, one real per axis (exact arithmetic
here), and auxiliary attributes `A`. -/
structure Particle (A : Type) where
  pos : Fin 3 → ℚ
  attr : A

instance {A : Type} [Inhabited A] : Inhabited (Particle A) := ⟨⟨fun _ => 0, default⟩⟩

/-- Modelled from the spec: a tile (`ParticleTile`; AMReX_ParticleTile.H is not among the
sources) holds a contiguous run of particle records, the primary particles first and the
neighbor (ghost) particles after them, and the number of neighbors. -/
structure ParticleTile (P : Type) where
  m_data : List P
  m_num_neighbors : Nat

namespace ParticleTile

variable {P : Type}

/-- Modelled from the spec: `ParticleTile::numTotalParticles()`, the primary plus neighbor
records held by the tile. -/
def numTotalParticles (t : ParticleTile P) : Nat := t.m_data.length

/-- Modelled from the spec: `ParticleTile::getNumNeighbors()`, the neighbor (ghost) count. -/
def getNumNeighbors (t : ParticleTile P) : Nat := t.m_num_neighbors

/-- Modelled from the spec: `ParticleTile::numParticles()`, the primary particle count. -/
def numParticles (t : ParticleTile P) : Nat := t.m_data.length - t.m_num_neighbors

/-- Modelled from the spec: `ParticleTile::resize(count)` sets the primary particle count to
`count`; the storage then holds `count` plus the neighbor count records. -/
def resize [Inhabited P] (t : ParticleTile P) (count : Nat) : ParticleTile P :=
  { t with m_data := amrex.resize t.m_data (count + t.m_num_neighbors) default }

/-- Modelled from the spec: `ParticleTile::setNumNeighbors(n)` sets the neighbor count to `n`
and leaves the primary particle count untouched. -/
def setNumNeighbors [Inhabited P] (t : ParticleTile P) (n : Nat) : ParticleTile P :=
  let nrp := t.numParticles
  ({ t with m_num_neighbors := n } : ParticleTile P).resize nrp

/-- Modelled from the spec: `getSuperParticle(i)` gathers record `i` of the tile into a
self-contained value. -/
def getSuperParticle (t : ParticleTile P) (i : Int) : Res P := readAt t.m_data i

/-- Modelled from the spec: `setSuperParticle(p, i)` scatters the value `p` into record `i` of
the tile. -/
def setSuperParticle (t : ParticleTile P) (p : P) (i : Nat) : Res (ParticleTile P) := do
  let d ← writeNat t.m_data i p
  pure { t with m_data := d }

/-- A default-constructed tile: no records. -/
def empty : ParticleTile P := ⟨[], 0⟩

end ParticleTile

/-- Modelled from the spec: the domain geometry (`Geometry`, not among the sources): per-axis
periodic flags and the physical lower and upper extents. -/
structure Geometry where
  ProbLoArray : Fin 3 → ℚ
  ProbHiArray : Fin 3 → ℚ
  isPeriodicArray : Fin 3 → Bool

/-- Modelled from the spec: `Geometry::isAnyPeriodic()`. -/
def Geometry.isAnyPeriodic (g : Geometry) : Bool :=
  g.isPeriodicArray 0 || g.isPeriodicArray 1 || g.isPeriodicArray 2

/-- Key of a tile in the per-level particle map: `(grid index, tile index)`. -/
abbrev TileIndex := Nat × Nat

/-- Modelled from the spec: what the communication code reads from the particle container `PC`
(not among the sources): the number of levels, the geometry, the size of the box array, the
box-to-bucket table of the buffer map, the neighbor processes, the `(index, LocalTileIndex)`
pairs that `MakeMFIter` visits in order, and the map from tile keys to tiles. -/
structure ParticleContainer (P : Type) where
  numLevels : Nat
  Geom : Geometry
  numBoxes : Nat
  gridToBucket : List Nat
  NeighborProcs : List Int
  MakeMFIter : List TileIndex
  GetParticles : TileIndex → Option (ParticleTile P)

/-! ## Growth policies -/

section Policies

variable {κ P : Type} [DecidableEq κ] [Inhabited P]

/-- Body of the loop of `NeighborUnpackPolicy::resizeTiles`; the state is the tiles (addressed
through their pointers `κ`) and the offsets pushed so far. -/
def NeighborUnpackPolicy.step (tiles : List κ) (sizes : List Nat)
    (st : (κ → ParticleTile P) × List Nat) (i : Nat) : Res ((κ → ParticleTile P) × List Nat) := do
  let t ← readNat tiles i
  let sz ← readNat sizes i
  let offset := (st.1 t).numTotalParticles
  let nn := (st.1 t).getNumNeighbors
  pure (Function.update st.1 t ((st.1 t).setNumNeighbors (nn + sz)), st.2 ++ [offset])

/-- The method `NeighborUnpackPolicy::resizeTiles`. -/
def NeighborUnpackPolicy.resizeTiles (heap : κ → ParticleTile P) (tiles : List κ)
    (sizes : List Nat) (offsets : List Nat) : Res ((κ → ParticleTile P) × List Nat) :=
  loopM (NeighborUnpackPolicy.step tiles sizes) (heap, offsets) (List.range sizes.length)

/-- First loop of `RedistributeUnpackPolicy::resizeTiles`:
`tile_sizes[tiles[i]] = tiles[i]->numParticles()`. The `std::map<PTile*, int>` is a function on
tile pointers (value-initialised to 0). -/
def RedistributeUnpackPolicy.initStep (heap : κ → ParticleTile P) (tiles : List κ)
    (tile_sizes : κ → Nat) (i : Nat) : Res (κ → Nat) := do
  let t ← readNat tiles i
  pure (Function.update tile_sizes t (heap t).numParticles)

/-- Second loop of `RedistributeUnpackPolicy::resizeTiles`:
`offsets.push_back(tile_sizes[tiles[i]]); tile_sizes[tiles[i]] += sizes[i]`. -/
def RedistributeUnpackPolicy.offsetStep (tiles : List κ) (sizes : List Nat)
    (st : (κ → Nat) × List Nat) (i : Nat) : Res ((κ → Nat) × List Nat) := do
  let t ← readNat tiles i
  let sz ← readNat sizes i
  pure (Function.update st.1 t (st.1 t + sz), st.2 ++ [st.1 t])

/-- The keys of `tile_sizes` after the first loop: the distinct tiles among the first `N`. -/
def RedistributeUnpackPolicy.keys (tiles : List κ) (N : Nat) : List κ := (tiles.take N).dedup

/-- Third loop of `RedistributeUnpackPolicy::resizeTiles`: one `resize` for every key of
`tile_sizes`. Every key occurs once and a `resize` changes only its own tile, so the order in
which the map is traversed does not matter. -/
def RedistributeUnpackPolicy.resizeAll (tile_sizes : κ → Nat) (heap : κ → ParticleTile P)
    (keys : List κ) : κ → ParticleTile P :=
  keys.foldl (fun h k => Function.update h k ((h k).resize (tile_sizes k))) heap

/-- The method `RedistributeUnpackPolicy::resizeTiles`. -/
def RedistributeUnpackPolicy.resizeTiles (heap : κ → ParticleTile P) (tiles : List κ)
    (sizes : List Nat) (offsets : List Nat) : Res ((κ → ParticleTile P) × List Nat) := do
  let N := sizes.length
  let tile_sizes0 ← loopM (RedistributeUnpackPolicy.initStep heap tiles) (fun _ => 0) (List.range N)
  let (tile_sizes, offsets) ←
    loopM (RedistributeUnpackPolicy.offsetStep tiles sizes) (tile_sizes0, offsets) (List.range N)
  pure (RedistributeUnpackPolicy.resizeAll tile_sizes heap (RedistributeUnpackPolicy.keys tiles N),
        offsets)

/-- The two growth policies handed to `unpackBuffer` and `unpackRemotes`. -/
inductive UnpackPolicy where
  | neighbor
  | redistribute
  deriving DecidableEq, Repr

/-- The call `policy.resizeTiles(tiles, sizes, offsets)`. -/
def UnpackPolicy.resizeTiles (policy : UnpackPolicy) (heap : κ → ParticleTile P)
    (tiles : List κ) (sizes : List Nat) (offsets : List Nat) :
    Res ((κ → ParticleTile P) × List Nat) :=
  match policy with
  | .neighbor => NeighborUnpackPolicy.resizeTiles heap tiles sizes offsets
  | .redistribute => RedistributeUnpackPolicy.resizeTiles heap tiles sizes offsets

end Policies

/-! ## Copy descriptors and the copy plan -/

/-- The call `m.at(key)` of a `std::map`. -/
def mapAt {κ α : Type} (m : κ → Option α) (key : κ) : Res α :=
  match m key with
  | some a => .ok a
  | none => .fail .outOfRange

/-- The struct `ParticleCopyOp`: per source box, the destination box of every copy (negative:
the particle is dropped), its source slot and its periodic shift. -/
structure ParticleCopyOp where
  m_boxes : Nat → Option (List Int)
  m_src_indices : Nat → Option (List Int)
  m_periodic_shift : Nat → Option (List (Fin 3 → Int))

/-- The method `ParticleCopyOp::numCopies`: the size of `m_boxes.at(gid)`, converted to the
return type `int`. -/
def ParticleCopyOp.numCopies (op : ParticleCopyOp) (gid : Nat) : Res Int := do
  let b ← mapAt op.m_boxes gid
  pure (toInt32 b.length)

/-- Modelled from the spec: the cross-process schedule that `buildMPIStart` (defined outside the
sources) records in the plan: per-process send and receive counts and the received boxes. -/
structure CommSchedule where
  m_rcv_box_counts : List Int
  m_rcv_box_offsets : List Int
  m_rcv_box_ids : List Int
  m_NumSnds : Int
  m_nrcvs : Int
  m_snd_num_particles : List Int
  m_rcv_num_particles : List Int

/-- Modelled from the spec: a posted non-blocking transfer (`ParallelDescriptor::Arecv` and
`Asend`, not among the sources): the buffer element at which it starts, its byte count, the
peer process and the tag. It also stands for the request handle of the transfer. -/
structure Message where
  offset : Int
  Cnt : Nat
  Who : Int
  SeqNum : Int
  deriving DecidableEq, Repr

/-- The struct `ParticleCopyPlan`. The members that `buildMPIStart` fills are grouped in `comm`;
`m_stats` holds one (opaque) status per receive and `m_rreqs` the request handles, a handle
that has not been assigned being `none`. -/
structure ParticleCopyPlan where
  m_dst_indices : Nat → Option (List Int)
  m_box_counts : List Nat
  m_box_offsets : List Nat
  m_neighbor_procs : List Int
  comm : CommSchedule
  m_stats : List Unit
  m_rreqs : List (Option Message)

/-- The first `MFIter` loop of `build`: `m_dst_indices[gid].resize(num_copies)`; a negative
`num_copies` is not a size. -/
def ParticleCopyPlan.resizeStep (op : ParticleCopyOp) (dst : Nat → Option (List Int))
    (mfi : TileIndex) : Res (Nat → Option (List Int)) := do
  let gid := mfi.1
  let num_copies ← op.numCopies gid
  let d ← resizeInt ((dst gid).getD []) num_copies 0
  pure (Function.update dst gid (some d))

/-- Body of the `AMREX_FOR_1D` loop of `build` for source box `gid`. The state is
`(m_box_counts, m_dst_indices)`. -/
def ParticleCopyPlan.slotStep (p_box_perm : List Nat) (p_boxes : List Int) (gid : Nat)
    (st : List Nat × (Nat → Option (List Int))) (i : Nat) :
    Res (List Nat × (Nat → Option (List Int))) := do
  let dst_box ← readNat p_boxes i
  if dst_box < 0 then pure st
  else
    let bucket ← readAt p_box_perm dst_box
    let old ← readNat st.1 bucket
    let counts ← writeNat st.1 bucket (atomicInc old).2
    let index : Int := toInt32 (atomicInc old).1
    let p_dst_indices ← writeNat ((st.2 gid).getD []) i index
    pure (counts, Function.update st.2 gid (some p_dst_indices))

/-- Body of the second `MFIter` loop of `build`. `orders gid` lists the iterations of the
inner loop in the order in which they perform their atomic increment; the loop
`AMREX_FOR_1D (num_copies, i, ...)` runs those below `num_copies`. -/
def ParticleCopyPlan.gridStep (p_box_perm : List Nat) (op : ParticleCopyOp)
    (orders : Nat → List Nat) (st : List Nat × (Nat → Option (List Int))) (mfi : TileIndex) :
    Res (List Nat × (Nat → Option (List Int))) := do
  let gid := mfi.1
  let num_copies ← op.numCopies gid
  let p_boxes ← mapAt op.m_boxes gid
  loopM (ParticleCopyPlan.slotStep p_box_perm p_boxes gid) st
    ((orders gid).filter fun (i : Nat) => decide ((i : Int) < num_copies))

/-- The method `ParticleCopyPlan::build`.

* `buildMPIStart` stands for the private method of that name, defined outside the sources; it
  reads the bucket layout and yields the cross-process schedule.
* `orders gid` is the order in which the iterations of the slot loop of box `gid` run.
* `pastEnd` is the value the scan reads at `m_box_counts.end()`, one element past the vector
  (the input range of the scan is `begin() .. end()+1`); no output depends on it. -/
def ParticleCopyPlan.build {P : Type} (self : ParticleCopyPlan) (pc : ParticleContainer P)
    (op : ParticleCopyOp) (do_handshake : Bool)
    (buildMPIStart : ParticleCopyPlan → Bool → Res CommSchedule)
    (orders : Nat → List Nat) (pastEnd : Nat) : Res ParticleCopyPlan := do
  if pc.numLevels ≠ 1 then Res.fail Err.assertion
  else
    let geom := pc.Geom
    let self := { self with m_neighbor_procs := pc.NeighborProcs }
    let num_boxes := pc.numBoxes
    if num_boxes = 1 ∧ ¬ geom.isAnyPeriodic then pure self
    else
      let counts0 : List Nat := resize [] num_boxes 0
      let offsets0 : List Nat := resize self.m_box_offsets (num_boxes + 1) 0
      let p_box_perm := pc.gridToBucket
      let dst0 ← loopM (ParticleCopyPlan.resizeStep op) self.m_dst_indices pc.MakeMFIter
      let (counts, dst) ←
        loopM (ParticleCopyPlan.gridStep p_box_perm op orders) (counts0, dst0) pc.MakeMFIter
      -- exclusive_scan(m_box_counts.begin(), m_box_counts.end()+1, m_box_offsets.begin())
      let scanned := exclusive_scan 0 (counts ++ [pastEnd])
      let offsets := scanned ++ offsets0.drop scanned.length
      let plan := { self with m_dst_indices := dst, m_box_counts := counts, m_box_offsets := offsets }
      let sched ← buildMPIStart plan do_handshake
      pure { plan with comm := sched }

/-! ## `packBuffer` and `unpackBuffer` -/

/-- The periodic shift of `packBuffer` on one axis: on a periodic axis a positive shift adds
and a negative shift subtracts one domain length. -/
def shiftAxis (geom : Geometry) (pshift : Fin 3 → Int) (pos : Fin 3 → ℚ) (idim : Fin 3) :
    Fin 3 → ℚ :=
  if ¬ geom.isPeriodicArray idim then pos
  else if pshift idim > 0 then
    Function.update pos idim (pos idim + (geom.ProbHiArray idim - geom.ProbLoArray idim))
  else if pshift idim < 0 then
    Function.update pos idim (pos idim - (geom.ProbHiArray idim - geom.ProbLoArray idim))
  else pos

/-- The loop `for (int idim = 0; idim < AMREX_SPACEDIM; ++idim)` of `packBuffer` applied to a
packed record. -/
def applyShift {A : Type} (geom : Geometry) (pshift : Fin 3 → Int) (p : Particle A) :
    Particle A :=
  { p with pos := [0, 1, 2].foldl (shiftAxis geom pshift) p.pos }

/-- Body of the `AMREX_FOR_1D` loop of `packBuffer` for one source box; the state is the send
buffer. -/
def packStep {A : Type} (geom : Geometry) (src_tile : ParticleTile (Particle A))
    (p_boxes p_src_indices p_dst_indices : List Int) (p_periodic_shift : List (Fin 3 → Int))
    (p_box_offsets p_box_perm : List Nat) (snd_buffer : List (Particle A)) (i : Nat) :
    Res (List (Particle A)) := do
  let dst_box ← readNat p_boxes i
  if dst_box < 0 then pure snd_buffer
  else
    let bucket ← readAt p_box_perm dst_box
    let box_offset : Int := toInt32 (← readNat p_box_offsets bucket)
    let dst_index : Int := box_offset + (← readNat p_dst_indices i)
    let src_index ← readNat p_src_indices i
    let sp ← src_tile.getSuperParticle src_index
    let pshift ← readNat p_periodic_shift i
    if 0 ≤ dst_index then writeNat snd_buffer dst_index.toNat (applyShift geom pshift sp)
    else Res.fail Err.badAccess

/-- Body of the `MFIter` loop of `packBuffer`; the loop `AMREX_FOR_1D (num_copies, i, ...)`
runs the iterations of `orders gid` below `num_copies`. -/
def packGrid {A : Type} (pc : ParticleContainer (Particle A)) (op : ParticleCopyOp)
    (plan : ParticleCopyPlan) (orders : Nat → List Nat) (snd_buffer : List (Particle A))
    (mfi : TileIndex) : Res (List (Particle A)) := do
  let gid := mfi.1
  let src_tile ← mapAt pc.GetParticles mfi
  let num_copies ← op.numCopies gid
  let p_boxes ← mapAt op.m_boxes gid
  let p_src_indices ← mapAt op.m_src_indices gid
  let p_dst_indices ← mapAt plan.m_dst_indices gid
  let p_periodic_shift ← mapAt op.m_periodic_shift gid
  loopM (packStep pc.Geom src_tile p_boxes p_src_indices p_dst_indices p_periodic_shift
      plan.m_box_offsets pc.gridToBucket) snd_buffer
    ((orders gid).filter fun (i : Nat) => decide ((i : Int) < num_copies))

/-- The function `packBuffer`. `orders gid` is the order in which the iterations of the copy
loop of box `gid` run. -/
def packBuffer {A : Type} [Inhabited A] (pc : ParticleContainer (Particle A))
    (op : ParticleCopyOp) (plan : ParticleCopyPlan) (snd_buffer : List (Particle A))
    (orders : Nat → List Nat) : Res (List (Particle A)) := do
  if pc.numLevels ≠ 1 then Res.fail Err.assertion
  else
    if pc.numBoxes = 1 ∧ ¬ pc.Geom.isAnyPeriodic then pure snd_buffer
    else
      let total_buffer_size : Int := toInt32 (← readNat plan.m_box_offsets pc.numBoxes)
      let snd_buffer ← resizeInt snd_buffer total_buffer_size default
      loopM (packGrid pc op plan orders) snd_buffer pc.MakeMFIter

/-- The call `plev[index]` of the tile map: the tile at `index`, created empty when missing. -/
def tileAt {P : Type} (plev : TileIndex → Option (ParticleTile P)) (index : TileIndex) :
    ParticleTile P :=
  (plev index).getD ParticleTile.empty

/-- Body of the first `MFIter` loop of `unpackBuffer`: create the tile when missing, push the
bucket count as size and the tile as pointer. The state is `(plev, sizes, tiles)`. A count that
does not fit `int` would become a negative size; sizes are naturals here, so it stops the
computation. -/
def unpackCount {P : Type} (gridToBucket : List Nat) (plan : ParticleCopyPlan)
    (st : (TileIndex → Option (ParticleTile P)) × List Nat × List TileIndex) (mfi : TileIndex) :
    Res ((TileIndex → Option (ParticleTile P)) × List Nat × List TileIndex) := do
  let gid := mfi.1
  let plev := Function.update st.1 mfi (some (tileAt st.1 mfi))
  let bucket ← readNat gridToBucket gid
  let num_copies : Int := toInt32 (← readNat plan.m_box_counts bucket)
  if num_copies < 0 then Res.fail Err.badSize
  else pure (plev, st.2.1 ++ [num_copies.toNat], st.2.2 ++ [mfi])

/-- Body of the `AMREX_FOR_1D` loop of the local unpack: copy record `box_offset + i` of the
buffer to record `offset + i` of the tile. -/
def unpackCopy {P : Type} (p_box_offsets p_box_perm : List Nat) (p_snd_buffer : List P)
    (gid : Nat) (offset : Nat) (tile : ParticleTile P) (i : Nat) : Res (ParticleTile P) := do
  let bucket ← readNat p_box_perm gid
  let box_offset : Int := toInt32 (← readNat p_box_offsets bucket)
  let src_index : Int := box_offset + i
  let dst_index := offset + i
  let p ← readAt p_snd_buffer src_index
  tile.setSuperParticle p dst_index

/-- Body of the second `MFIter` loop of `unpackBuffer`. The state is the tiles and `uindex`. -/
def unpackGrid {P : Type} (gridToBucket : List Nat) (plan : ParticleCopyPlan)
    (snd_buffer : List P) (sizes offsets : List Nat)
    (st : (TileIndex → ParticleTile P) × Nat) (mfi : TileIndex) :
    Res ((TileIndex → ParticleTile P) × Nat) := do
  let gid := mfi.1
  let uindex := st.2
  let offset ← readNat offsets uindex
  let size ← readNat sizes uindex
  let tile ← loopM (unpackCopy plan.m_box_offsets gridToBucket snd_buffer gid offset)
    (st.1 mfi) (List.range size)
  pure (Function.update st.1 mfi tile, uindex + 1)

/-- The function `unpackBuffer`; the result is the tile map of the container. -/
def unpackBuffer {P : Type} [Inhabited P] (pc : ParticleContainer P) (plan : ParticleCopyPlan)
    (snd_buffer : List P) (policy : UnpackPolicy) :
    Res (TileIndex → Option (ParticleTile P)) := do
  if pc.numLevels ≠ 1 then Res.fail Err.assertion
  else
    if pc.numBoxes = 1 ∧ ¬ pc.Geom.isAnyPeriodic then pure pc.GetParticles
    else
      -- count how many particles we have to add to each tile
      let (plev, sizes, tiles) ←
        loopM (unpackCount pc.gridToBucket plan) (pc.GetParticles, [], []) pc.MakeMFIter
      -- resize the tiles and compute offsets
      let (heap, offsets) ← policy.resizeTiles (tileAt plev) tiles sizes []
      -- local unpack
      let (heap, _) ←
        loopM (unpackGrid pc.gridToBucket plan snd_buffer sizes offsets) (heap, 0) pc.MakeMFIter
      pure fun index => (plev index).map fun _ => heap index

/-! ## Definitions used to state the properties of the growth policies -/

section PolicySpec

variable {κ P : Type} [DecidableEq κ] [Inhabited P]

/-- Sum of the sizes of the entries before position `i` that refer to tile `t`. -/
def addedBefore (tiles : List κ) (sizes : List Nat) (t : κ) (i : Nat) : Nat :=
  ((((tiles.zip sizes).take i).filter fun e => decide (e.1 = t)).map Prod.snd).sum

/-- A tile is well formed when its neighbor count does not exceed its record count. -/
def ParticleTile.wf (t : ParticleTile P) : Prop := t.m_num_neighbors ≤ t.m_data.length

/-- State of the loop of `NeighborUnpackPolicy::resizeTiles` after `i` entries. -/
def NeighborInv (heap : κ → ParticleTile P) (tiles : List κ) (sizes : List Nat)
    (offsets0 : List Nat) (i : Nat) (st : (κ → ParticleTile P) × List Nat) : Prop :=
  st.2.length = offsets0.length + i ∧ st.2.take offsets0.length = offsets0 ∧
  (∀ t, (st.1 t).m_num_neighbors = (heap t).m_num_neighbors + addedBefore tiles sizes t i) ∧
  (∀ t, (st.1 t).m_data =
    (heap t).m_data ++ List.replicate (addedBefore tiles sizes t i) default) ∧
  (∀ j t, j < i → tiles[j]? = some t →
    st.2[offsets0.length + j]? = some ((heap t).m_data.length + addedBefore tiles sizes t j))

/-- State of the first loop of `RedistributeUnpackPolicy::resizeTiles` after `i` entries. -/
def RedistInitInv (heap : κ → ParticleTile P) (tiles : List κ) (i : Nat) (ts : κ → Nat) : Prop :=
  i ≤ tiles.length ∧
  ∀ t, ts t = if t ∈ tiles.take i then (heap t).numParticles else 0

/-- State of the second loop of `RedistributeUnpackPolicy::resizeTiles` after `i` entries. -/
def RedistOffsetInv (ts0 : κ → Nat) (tiles : List κ) (sizes : List Nat) (offsets0 : List Nat)
    (i : Nat) (st : (κ → Nat) × List Nat) : Prop :=
  st.2.length = offsets0.length + i ∧ st.2.take offsets0.length = offsets0 ∧
  (∀ t, st.1 t = ts0 t + addedBefore tiles sizes t i) ∧
  (∀ j t, j < i → tiles[j]? = some t →
    st.2[offsets0.length + j]? = some (ts0 t + addedBefore tiles sizes t j))

end PolicySpec

/-- The value of a successful computation, and `d` for a stopped one. -/
def Res.getD {α : Type} (r : Res α) (d : α) : α :=
  match r with
  | .ok a => a
  | .fail _ => d

section PolicySpec
variable {κ P : Type} [DecidableEq κ] [Inhabited P]

/-- The count a growth policy appends after: the total record count for the neighbor policy, the
primary particle count for the redistribute policy. -/
def UnpackPolicy.recordCount (policy : UnpackPolicy) (t : ParticleTile P) : Nat :=
  match policy with
  | .neighbor => t.numTotalParticles
  | .redistribute => t.numParticles

/-- Every range `[offset, offset + size)` handed out lies between the value of `count` on the
tile before the call and its value after the call. -/
def RangesWithin (count : ParticleTile P → Nat) (heap heap' : κ → ParticleTile P)
    (tiles : List κ) (sizes offsets : List Nat) : Prop :=
  ∀ (i : Nat) (t : κ) (s o : Nat), tiles[i]? = some t → sizes[i]? = some s →
    offsets[i]? = some o → count (heap t) ≤ o ∧ o + s ≤ count (heap' t)

/-- The ranges handed to two entries of the same tile do not overlap: the earlier entry's range
ends before the later entry's range starts. -/
def RangesDisjoint (tiles : List κ) (sizes offsets : List Nat) : Prop :=
  ∀ (i j : Nat) (t : κ) (s o o' : Nat), i < j → tiles[i]? = some t → tiles[j]? = some t → sizes[i]? = some s →
    offsets[i]? = some o → offsets[j]? = some o' → o + s ≤ o'

/-- A tile store for examples: every tile holds three records, the last one a neighbor. -/
def exampleHeap : Nat → ParticleTile Nat := fun _ => ⟨[7, 8, 9], 1⟩

end PolicySpec

/-! ## Definitions used to state the properties of the locator tables -/

/-- State of the first loop of `ParticleLocator::build` after `k` boxes, for `n` boxes and `B`
bins: `pcell` holds valid bins for the boxes done and every counter holds the number of boxes
done in its bin. -/
def CountInv (n B : Nat) (k : Nat) (st : List Nat × List Nat) : Prop :=
  st.1.length = n ∧ st.2.length = B ∧
  (∀ i c, i < k → st.1[i]? = some c → c < B) ∧
  (∀ b v, st.2[b]? = some v → v = (st.1.take k).count b) ∧
  st.2.sum = k

/-- The boxes among `done` whose bin is `b`, in the order of `done`. -/
def binSegment (cells : List Nat) (done : List Nat) (b : Nat) : List Nat :=
  done.filter fun i => cells[i]? == some b

/-- State of the second loop of `ParticleLocator::build` after the iterations `done`: the
counter of bin `b` stands at the bin's offset plus the number of its boxes placed so far, and
the slots from the bin's offset on hold these boxes in the order of placement. `counts1` are
the bin counts of the first loop. -/
def PlaceInv (cells counts1 : List Nat) (n : Nat) (done : List Nat)
    (st : List Nat × List Nat) : Prop :=
  st.1.length = counts1.length ∧ st.2.length = n ∧
  (∀ b v, counts1[b]? = some v →
    st.1[b]? = some ((counts1.take b).sum + (binSegment cells done b).length)) ∧
  (∀ b j i, b < counts1.length → (binSegment cells done b)[j]? = some i →
    st.2[(counts1.take b).sum + j]? = some i)

/-- Number of bins of the grid of a locator, `nx * ny * nz` as `build` and `assignGrid` compute
it from the stored `m_bins_lo` and `m_bins_hi`. -/
def ParticleLocator.numBins (loc : ParticleLocator) : Int :=
  (loc.m_bins_hi.x - loc.m_bins_lo.x + 1) * (loc.m_bins_hi.y - loc.m_bins_lo.y + 1) *
    (loc.m_bins_hi.z - loc.m_bins_lo.z + 1)

/-- The tables of a locator built from the boxes `ba` with placement order `order`: the bin of
every box is a valid bin, the offset of bin `b` is the number of boxes in lower bins, and the
slots of bin `b` hold its boxes in the order of placement. -/
structure LocatorTables (ba : List Box) (order : List Nat) (loc : ParticleLocator) : Prop where
  boxes_eq : loc.m_device_boxes = ba
  numBins_nonneg : 0 ≤ loc.numBins
  cells_length : loc.m_cells.length = ba.length
  cells_lt : ∀ (i c : Nat), loc.m_cells[i]? = some c → (c : Int) < loc.numBins
  offsets_length : (loc.m_offsets.length : Int) = loc.numBins + 1
  offsets_eq : ∀ b : Nat, (b : Int) ≤ loc.numBins →
    loc.m_offsets[b]? = some (loc.m_cells.countP fun c => c < b)
  perm_length : loc.m_permutation.length = ba.length
  segment_length : ∀ b : Nat, (binSegment loc.m_cells order b).length = loc.m_cells.count b
  segment_eq : ∀ b j i : Nat, (b : Int) < loc.numBins → (binSegment loc.m_cells order b)[j]? = some i →
    loc.m_permutation[(loc.m_cells.countP fun c => c < b) + j]? = some i

/-- Three boxes of `2 x 2 x 2` cells side by side along `x`, the first with lower corner
`(6, 0, 0)`: a decomposition of the region `[6, 11] x [0, 1] x [0, 1]`. -/
def offsetBoxes : List Box :=
  [⟨⟨6, 0, 0⟩, ⟨7, 1, 1⟩⟩, ⟨⟨8, 0, 0⟩, ⟨9, 1, 1⟩⟩, ⟨⟨10, 0, 0⟩, ⟨11, 1, 1⟩⟩]

/-- Four boxes of `4 x 4 x 4` cells arranged `2 x 2 x 1`, the first with lower corner
`(0, 0, 0)`. -/
def originBoxes : List Box :=
  [⟨⟨0, 0, 0⟩, ⟨3, 3, 3⟩⟩, ⟨⟨4, 0, 0⟩, ⟨7, 3, 3⟩⟩, ⟨⟨0, 4, 0⟩, ⟨3, 7, 3⟩⟩, ⟨⟨4, 4, 0⟩, ⟨7, 7, 3⟩⟩]

/-! ## Definitions used to state the properties of the copy plan -/

/-- A copy descriptor is named by its source box and its position in that box's arrays. -/
abbrev Descriptor := Nat × Nat

/-- The destination box `op.m_boxes[gid][i]` of a descriptor, when it exists. -/
def ParticleCopyOp.dest (op : ParticleCopyOp) (e : Descriptor) : Option Int :=
  (op.m_boxes e.1).bind fun b => b[e.2]?

/-- A descriptor is copied (not dropped) when its destination box is non-negative. -/
def ParticleCopyOp.copied (op : ParticleCopyOp) (e : Descriptor) : Bool :=
  match op.dest e with
  | some d => decide (0 ≤ d)
  | none => false

/-- The bucket `p_box_perm[dst_box]` of a copied descriptor. -/
def ParticleCopyOp.bucketOf (op : ParticleCopyOp) (p_box_perm : List Nat) (e : Descriptor) :
    Option Nat :=
  match op.dest e with
  | some d => if d < 0 then none else p_box_perm[d.toNat]?
  | none => none

/-- The resolved slot `m_dst_indices[gid][i]` of a descriptor, when it exists. -/
def slotOf (dst : Nat → Option (List Int)) (e : Descriptor) : Option Int :=
  (dst e.1).bind fun l => l[e.2]?

/-- The descriptors in the order in which `build` and `packBuffer` run them: box by box as
`MakeMFIter` visits them, and within a box in the order `orders gid`. -/
def copyEvents (mfi : List TileIndex) (orders : Nat → List Nat) : List Descriptor :=
  mfi.flatMap fun m => (orders m.1).map fun i => (m.1, i)

/-- The sequential order of every `AMREX_FOR_1D` loop: `0, 1, ..., size - 1` for the `size`
descriptors of box `gid`, which is `numCopies(gid)` when the size fits `int`. -/
def sequentialOrders (op : ParticleCopyOp) (gid : Nat) : List Nat :=
  List.range ((op.m_boxes gid).getD []).length

/-- The number of descriptors of every box visited is below `2^31`, so that `numCopies`, an
`int`, returns it unchanged. -/
def ParticleCopyOp.fits (op : ParticleCopyOp) (mfi : List TileIndex) : Prop :=
  ∀ m ∈ mfi, ((op.m_boxes m.1).getD []).length < 2147483648

instance (op : ParticleCopyOp) (mfi : List TileIndex) : Decidable (op.fits mfi) := by
  unfold ParticleCopyOp.fits; exact inferInstance

/-- The iterations of `orders gid` that the loop `AMREX_FOR_1D (num_copies, i, ...)` of box
`gid` runs: those below `numCopies(gid)`. -/
def ParticleCopyOp.runOrder (op : ParticleCopyOp) (orders : Nat → List Nat) (gid : Nat) :
    List Nat :=
  (orders gid).filter fun (i : Nat) =>
    decide ((i : Int) < toInt32 ((op.m_boxes gid).getD []).length)

/-- The number of copied (non-dropped) descriptors over the source boxes that `MakeMFIter`
visits. -/
def numCopied (op : ParticleCopyOp) (mfi : List TileIndex) : Nat :=
  (mfi.map fun m => ((op.m_boxes m.1).getD []).countP fun d => decide (0 ≤ d)).sum

/-- The descriptors among `done` that are copied to bucket `b`, in the order of `done`. -/
def bucketSegment (op : ParticleCopyOp) (p_box_perm : List Nat) (done : List Descriptor)
    (b : Nat) : List Descriptor :=
  done.filter fun e => op.bucketOf p_box_perm e == some b

/-- One iteration of the slot loop of `build`, addressed by descriptor. -/
def ParticleCopyPlan.eventStep (p_box_perm : List Nat) (op : ParticleCopyOp)
    (st : List Nat × (Nat → Option (List Int))) (e : Descriptor) :
    Res (List Nat × (Nat → Option (List Int))) := do
  let p_boxes ← mapAt op.m_boxes e.1
  ParticleCopyPlan.slotStep p_box_perm p_boxes e.1 st e.2

/-- State of the slot loop of `build` after the descriptors `done`: the counters add up to the
number of copied descriptors done. -/
def SumInv (op : ParticleCopyOp) (done : List Descriptor)
    (st : List Nat × (Nat → Option (List Int))) : Prop :=
  st.1.sum = (done.filter op.copied).length

/-- State of the slot loop of `build` after the descriptors `done`: the counter of bucket `b`
is the number of descriptors done for `b`, the `j`-th of them holds slot `j`, and every bucket
used so far has a counter. -/
def SegInv (op : ParticleCopyOp) (p_box_perm : List Nat) (done : List Descriptor)
    (st : List Nat × (Nat → Option (List Int))) : Prop :=
  (∀ (b v : Nat), st.1[b]? = some v → v = (bucketSegment op p_box_perm done b).length) ∧
  (∀ (b j : Nat) (e : Descriptor), (bucketSegment op p_box_perm done b)[j]? = some e →
    slotOf st.2 e = some (j : Int)) ∧
  (∀ (e : Descriptor) (b : Nat), e ∈ done → op.bucketOf p_box_perm e = some b →
    b < st.1.length) ∧
  (∀ e : Descriptor, e ∈ done → op.copied e = true → ∃ b, op.bucketOf p_box_perm e = some b)

/-! ## A small redistribution used as example -/

/-- Example descriptors for two boxes: box 0 holds three particles, two of them move to box 1
(one across the periodic `x` boundary) and one leaves the domain; the particle of box 1 moves
to box 0 across the periodic `x` boundary. -/
def exampleOp : ParticleCopyOp where
  m_boxes := fun g => if g = 0 then some [1, -1, 1] else if g = 1 then some [0] else none
  m_src_indices := fun g => if g = 0 then some [0, 1, 2] else if g = 1 then some [0] else none
  m_periodic_shift := fun g =>
    if g = 0 then some [fun _ => 0, fun _ => 0, fun d => if d = 0 then -1 else 0]
    else if g = 1 then some [fun d => if d = 0 then 1 else 0] else none

/-- Example particle with position `(x, y, z)` and an integer attribute. -/
def exampleParticle (x y z : ℚ) (a : Nat) : Particle Nat :=
  ⟨fun d => if d = 0 then x else if d = 1 then y else z, a⟩

/-- Example container: two boxes on one process, one tile each, the domain `[0, 8] x [0, 4]
x [0, 4]` periodic in `x`; box 0 is stored in bucket 1 and box 1 in bucket 0. -/
def examplePC : ParticleContainer (Particle Nat) where
  numLevels := 1
  Geom := ⟨fun _ => 0, fun d => if d = 0 then 8 else 4, fun d => decide (d = 0)⟩
  numBoxes := 2
  gridToBucket := [1, 0]
  NeighborProcs := []
  MakeMFIter := [(0, 0), (1, 0)]
  GetParticles := fun m =>
    if m = (0, 0) then
      some ⟨[exampleParticle 5 1 1 10, exampleParticle 1 5 1 11, exampleParticle 9 2 2 12], 0⟩
    else if m = (1, 0) then some ⟨[exampleParticle (-1) 3 3 20], 0⟩
    else none

/-- A plan object before its first `build`. -/
def ParticleCopyPlan.fresh : ParticleCopyPlan :=
  ⟨fun _ => none, [], [], [], ⟨[], [], [], 0, 0, [], []⟩, [], []⟩

/-- Example stand-in for `buildMPIStart` on one process: nothing to send or receive. -/
def exampleMPIStart : ParticleCopyPlan → Bool → Res CommSchedule :=
  fun _ _ => Res.ok ⟨[], [], [], 0, 0, [], []⟩

/-- Example order of the slot loop: the iterations of box 0 run in the order `2, 0, 1`. -/
def exampleOrders : Nat → List Nat := fun g => if g = 0 then [2, 0, 1] else [0]

/-- The plan built in the example. -/
def examplePlan : ParticleCopyPlan :=
  (ParticleCopyPlan.fresh.build examplePC exampleOp true exampleMPIStart exampleOrders 0).getD
    ParticleCopyPlan.fresh

/-- The tables of a plan built for the container `pc` from the descriptors `op`, with the slot
loops run in the order `orders`: one counter per bucket holding the number of descriptors
copied to the bucket, the `j`-th descriptor of a bucket (in the order of the run) holding slot
`j`, and the offsets being the running sums of the counters. -/
structure PlanTables {P : Type} (pc : ParticleContainer P) (op : ParticleCopyOp)
    (orders : Nat → List Nat) (plan : ParticleCopyPlan) : Prop where
  counts_length : plan.m_box_counts.length = pc.numBoxes
  counts_eq : ∀ (b v : Nat), plan.m_box_counts[b]? = some v →
    v = (bucketSegment op pc.gridToBucket (copyEvents pc.MakeMFIter orders) b).length
  slot_eq : ∀ (b j : Nat) (e : Descriptor),
    (bucketSegment op pc.gridToBucket (copyEvents pc.MakeMFIter orders) b)[j]? = some e →
    slotOf plan.m_dst_indices e = some (j : Int)
  bucket_lt : ∀ (e : Descriptor) (b : Nat), e ∈ copyEvents pc.MakeMFIter orders →
    op.bucketOf pc.gridToBucket e = some b → b < pc.numBoxes
  counts_sum : plan.m_box_counts.sum = numCopied op pc.MakeMFIter
  offsets_length : plan.m_box_offsets.length = pc.numBoxes + 1
  offsets_eq : ∀ k : Nat, k ≤ pc.numBoxes →
    plan.m_box_offsets[k]? = some (plan.m_box_counts.take k).sum
  events_nodup : (copyEvents pc.MakeMFIter orders).Nodup
  copied_lt : numCopied op pc.MakeMFIter < 2147483648
  copied_bucket : ∀ e : Descriptor, e ∈ copyEvents pc.MakeMFIter orders → op.copied e = true →
    ∃ b, op.bucketOf pc.gridToBucket e = some b

/-! ## Definitions used to state the properties of `packBuffer` -/

/-- The send-buffer index `m_box_offsets[bucket(dst_box)] + m_dst_indices[gid][i]` that
`packBuffer` computes for a copied descriptor. -/
def ParticleCopyPlan.address (plan : ParticleCopyPlan) (p_box_perm : List Nat)
    (op : ParticleCopyOp) (e : Descriptor) : Option Int :=
  (op.bucketOf p_box_perm e).bind fun b =>
    (plan.m_box_offsets[b]?).bind fun off =>
      (slotOf plan.m_dst_indices e).map fun s => toInt32 off + s

/-- The super-particle gathered from source slot `m_src_indices[gid][i]` of the tile `m`. -/
def gathered {P : Type} (pc : ParticleContainer P) (op : ParticleCopyOp) (m : TileIndex)
    (i : Nat) : Option P :=
  (pc.GetParticles m).bind fun tile =>
    (op.m_src_indices m.1).bind fun srcs =>
      (srcs[i]?).bind fun src => if 0 ≤ src then tile.m_data[src.toNat]? else none

/-- The periodic shift `m_periodic_shift[gid][i]` of a descriptor. -/
def ParticleCopyOp.shiftOf (op : ParticleCopyOp) (e : Descriptor) : Option (Fin 3 → Int) :=
  (op.m_periodic_shift e.1).bind fun l => l[e.2]?

/-- The record `packBuffer` writes for descriptor `i` of the tile `m`: the gathered
super-particle with the periodic shift applied. -/
def packedRecord {A : Type} (pc : ParticleContainer (Particle A)) (op : ParticleCopyOp)
    (m : TileIndex) (i : Nat) : Option (Particle A) :=
  (gathered pc op m i).bind fun sp =>
    (op.shiftOf (m.1, i)).map fun sh => applyShift pc.Geom sh sp

/-- The iterations of `packBuffer` in the order in which they run: tile by tile as `MakeMFIter`
visits them, and within the tile's box in the order `orders gid`. -/
def packEvents (mfi : List TileIndex) (orders : Nat → List Nat) : List (TileIndex × Nat) :=
  mfi.flatMap fun m => (orders m.1).map fun i => (m, i)

/-- One iteration of the copy loop of `packBuffer`, addressed by tile and descriptor. -/
def packEventStep {A : Type} (pc : ParticleContainer (Particle A)) (op : ParticleCopyOp)
    (plan : ParticleCopyPlan) (snd_buffer : List (Particle A)) (x : TileIndex × Nat) :
    Res (List (Particle A)) := do
  let src_tile ← mapAt pc.GetParticles x.1
  let p_boxes ← mapAt op.m_boxes x.1.1
  let p_src_indices ← mapAt op.m_src_indices x.1.1
  let p_dst_indices ← mapAt plan.m_dst_indices x.1.1
  let p_periodic_shift ← mapAt op.m_periodic_shift x.1.1
  packStep pc.Geom src_tile p_boxes p_src_indices p_dst_indices p_periodic_shift
    plan.m_box_offsets pc.gridToBucket snd_buffer x.2

/-- The length a position changes by on a periodic axis. -/
def Geometry.domainLength (geom : Geometry) (d : Fin 3) : ℚ :=
  geom.ProbHiArray d - geom.ProbLoArray d

/-- State of the copy loop of `packBuffer` after the iterations `done`: the buffer keeps its
size and holds, at the address of every copied descriptor done, the record packed for it. -/
def PackInv {A : Type} (pc : ParticleContainer (Particle A)) (op : ParticleCopyOp)
    (plan : ParticleCopyPlan) (total : Nat) (done : List (TileIndex × Nat))
    (buf : List (Particle A)) : Prop :=
  buf.length = total ∧
  ∀ x ∈ done, op.copied (x.1.1, x.2) = true →
    ∃ (k : Nat) (rec : Particle A), plan.address pc.gridToBucket op (x.1.1, x.2) = some (k : Int) ∧
      packedRecord pc op x.1 x.2 = some rec ∧ buf[k]? = some rec

/-- The send buffer packed in the example, with the loop of box 0 in the order `1, 2, 0`. -/
def exampleBuffer : List (Particle Nat) :=
  (packBuffer examplePC exampleOp examplePlan [] (fun g => if g = 0 then [1, 2, 0] else [0])).getD
    []

/-! ## Definitions used to state the properties of `unpackBuffer` -/

/-- State of the first loop of `unpackBuffer` after the tiles `done`: the tiles pushed are the
tiles visited, the size pushed for a tile is the count of its bucket, and the tiles visited
exist in the tile map. -/
def UnpackCountInv {P : Type} (pc : ParticleContainer P) (plan : ParticleCopyPlan)
    (done : List TileIndex)
    (st : (TileIndex → Option (ParticleTile P)) × List Nat × List TileIndex) : Prop :=
  st.2.2 = done ∧ st.2.1.length = done.length ∧
  (∀ (j : Nat) (m : TileIndex), done[j]? = some m →
    ∃ b c : Nat, pc.gridToBucket[m.1]? = some b ∧ plan.m_box_counts[b]? = some c ∧
      0 ≤ toInt32 c ∧ st.2.1[j]? = some (toInt32 c).toNat) ∧
  (∀ idx, st.1 idx = if idx ∈ done then some (tileAt pc.GetParticles idx)
    else pc.GetParticles idx)

/-- State of the copy loop of the local unpack after `j` records: the records `offset ..
offset + j - 1` of the tile are the records `off .. off + j - 1` of the buffer and nothing else
changed. -/
def UnpackCopyInv {P : Type} (buf : List P) (off offset : Nat) (tile : ParticleTile P)
    (j : Nat) (t : ParticleTile P) : Prop :=
  t.m_num_neighbors = tile.m_num_neighbors ∧ t.m_data.length = tile.m_data.length ∧
  (∀ i, i < j → offset + i < tile.m_data.length ∧ (buf[off + i]?).isSome = true ∧
    t.m_data[offset + i]? = buf[off + i]?) ∧
  (∀ p, (p < offset ∨ offset + j ≤ p) → t.m_data[p]? = tile.m_data[p]?)

/-- State of the second loop of `unpackBuffer` after the tiles `done`: `uindex` counts them,
the tiles not yet visited are as the growth policy left them (`heap0`), and the `j`-th tile
visited has received the records of its bucket at the offset handed out for entry `j`. -/
def UnpackGridInv {P : Type} (pc : ParticleContainer P) (plan : ParticleCopyPlan)
    (buf : List P) (sizes offsets : List Nat) (heap0 : TileIndex → ParticleTile P)
    (done : List TileIndex) (st : (TileIndex → ParticleTile P) × Nat) : Prop :=
  st.2 = done.length ∧ (∀ idx, idx ∉ done → st.1 idx = heap0 idx) ∧
  ∀ (j : Nat) (m : TileIndex), done[j]? = some m →
    ∃ b off offset size : Nat, pc.gridToBucket[m.1]? = some b ∧
      plan.m_box_offsets[b]? = some off ∧ offsets[j]? = some offset ∧ sizes[j]? = some size ∧
      UnpackCopyInv buf off offset (heap0 m) size (st.1 m)

/-- The iterations, in the order `orders`, whose descriptor is copied to bucket `b`. -/
def packSegment (pc_mfi : List TileIndex) (op : ParticleCopyOp) (p_box_perm : List Nat)
    (orders : Nat → List Nat) (b : Nat) : List (TileIndex × Nat) :=
  (packEvents pc_mfi orders).filter fun x => op.bucketOf p_box_perm (x.1.1, x.2) == some b

/-- The descriptors routed to box `g`: those whose destination is `g`, tile by tile as
`MakeMFIter` visits them and each box's descriptors in index order. -/
def routedEvents {P : Type} (pc : ParticleContainer P) (op : ParticleCopyOp) (g : Nat) :
    List (TileIndex × Nat) :=
  (packEvents pc.MakeMFIter (sequentialOrders op)).filter
    fun x => op.dest (x.1.1, x.2) == some (g : Int)

/-- The tile map after `unpackBuffer` with the redistribute policy in the example. -/
def exampleResult : TileIndex → Option (ParticleTile (Particle Nat)) :=
  (unpackBuffer examplePC examplePlan exampleBuffer UnpackPolicy.redistribute).getD fun _ => none

/-! ## Examples for the bucket offsets -/

/-- Example descriptors that leave a bucket empty: two particles of box 0 move to box 1, one
leaves the domain, and the particle of box 1 leaves the domain, so nothing moves to box 0. -/
def emptyBucketOp : ParticleCopyOp where
  m_boxes := fun g => if g = 0 then some [1, -1, 1] else if g = 1 then some [-1] else none
  m_src_indices := fun g => if g = 0 then some [0, 1, 2] else if g = 1 then some [0] else none
  m_periodic_shift := fun g =>
    if g = 0 then some [fun _ => 0, fun _ => 0, fun _ => 0]
    else if g = 1 then some [fun _ => 0] else none

/-- The plan built for `emptyBucketOp` on the example container, loops in sequential order. -/
def emptyBucketPlan : ParticleCopyPlan :=
  (ParticleCopyPlan.fresh.build examplePC emptyBucketOp true exampleMPIStart
    (sequentialOrders emptyBucketOp) 0).getD ParticleCopyPlan.fresh

/-- The example plan after a second `build` with the same container and descriptors, the slot
loops now in sequential order. -/
def exampleRebuilt : ParticleCopyPlan :=
  (examplePlan.build examplePC exampleOp true exampleMPIStart (sequentialOrders exampleOp) 7).getD
    ParticleCopyPlan.fresh

/-- Example container with a single box and no periodic axis. -/
def singleBoxPC : ParticleContainer (Particle Nat) where
  numLevels := 1
  Geom := ⟨fun _ => 0, fun _ => 4, fun _ => false⟩
  numBoxes := 1
  gridToBucket := [0]
  NeighborProcs := []
  MakeMFIter := [(0, 0)]
  GetParticles := fun m => if m = (0, 0) then some ⟨[exampleParticle 1 1 1 10], 0⟩ else none

/-! ## The exchange: `communicateParticlesStart` and `unpackRemotes`

The code between `#ifdef BL_USE_MPI` and `#endif` is modelled (a build with MPI). The number of
processes `NProcs` and the rank `MyProc` of the caller are naturals. -/

/-- Conversion of a `long` to `std::size_t` (64 bits). -/
def toUInt64 (z : Int) : Nat := (z % 18446744073709551616).toNat

/-- Multiplication of `std::size_t` values. -/
def u64mul (a b : Nat) : Nat := (a * b) % 18446744073709551616

/-- The byte count `n * sizeof(ParticleType)` of `n` records: the `long` count is converted to
`std::size_t` and multiplied there. -/
def byteCount (n : Int) (sizeofParticle : Nat) : Nat := u64mul (toUInt64 n) sizeofParticle

/-- Modelled from the spec: the transport (`ParallelDescriptor`, not among the sources), as the
receives and the sends posted so far, in the order in which they were posted. -/
structure Transport where
  recvs : List Message
  sends : List Message
  deriving DecidableEq, Repr

/-- Body of the first loop of `communicateParticlesStart`; the state is
`(RcvProc, rOffset, TotRcvParticles)`. -/
def rcvCount (m_rcv_num_particles : List Int) (st : List Int × List Int × Int) (i : Nat) :
    Res (List Int × List Int × Int) := do
  let n ← readNat m_rcv_num_particles i
  if n > 0 then pure (st.1 ++ [(i : Int)], st.2.1 ++ [st.2.2], st.2.2 + n)
  else pure st

/-- Body of the loop `// Post receives.` of `communicateParticlesStart`; the state is the
request handles `m_rreqs` and the transport. -/
def postReceive (NProcs : Nat) (SeqNum : Int) (sizeofParticle : Nat)
    (m_rcv_num_particles RcvProc rOffset : List Int)
    (st : List (Option Message) × Transport) (i : Nat) :
    Res (List (Option Message) × Transport) := do
  let Who ← readNat RcvProc i
  let offset ← readNat rOffset i
  let Cnt := byteCount (← readAt m_rcv_num_particles Who) sizeofParticle
  if ¬ (Cnt > 0) then Res.fail Err.messageAssertion
  else if ¬ (Cnt < 2147483647) then Res.fail Err.messageAssertion
  else if ¬ (Who ≥ 0 ∧ Who < (NProcs : Int)) then Res.fail Err.messageAssertion
  else
    let req : Message := ⟨offset, Cnt, Who, SeqNum⟩
    let m_rreqs ← writeNat st.1 i (some req)
    pure (m_rreqs, { st.2 with recvs := st.2.recvs ++ [req] })

/-- Body of the loop `// Send.` of `communicateParticlesStart`; the state is the transport.
`firstBucketOnProc` is the method of that name of the buffer map (not among the sources). -/
def postSend (NProcs MyProc : Nat) (SeqNum : Int) (sizeofParticle : Nat)
    (firstBucketOnProc : Nat → Int) (m_snd_num_particles : List Int) (m_box_offsets : List Nat)
    (net : Transport) (i : Nat) : Res Transport := do
  if i = MyProc then pure net
  else
    let Who : Int := i
    let Cnt := byteCount (← readNat m_snd_num_particles i) sizeofParticle
    if Cnt = 0 then pure net
    else if ¬ (Who ≥ 0 ∧ Who < (NProcs : Int)) then Res.fail Err.messageAssertion
    else if ¬ (Cnt < 2147483647) then Res.fail Err.messageAssertion
    else
      let bucket := firstBucketOnProc i
      let snd_offset ← readAt m_box_offsets bucket
      pure { net with sends := net.sends ++ [⟨(snd_offset : Int), Cnt, Who, SeqNum⟩] }

/-- The function `communicateParticlesStart`. The send buffer is used only through the address
of its elements, so it is no argument; the result is the plan, the receive buffer and the
transport. `SeqNum` is the tag that `ParallelDescriptor::SeqNum()` returns and `sizeofParticle`
is `sizeof(ParticleType)`. -/
def communicateParticlesStart {P : Type} [Inhabited P] (pc : ParticleContainer P)
    (plan : ParticleCopyPlan) (rcv_buffer : List P) (NProcs MyProc : Nat) (SeqNum : Int)
    (sizeofParticle : Nat) (firstBucketOnProc : Nat → Int) (net : Transport) :
    Res (ParticleCopyPlan × List P × Transport) := do
  if pc.numLevels ≠ 1 then Res.fail Err.assertion
  else
    if NProcs = 1 ∨ plan.comm.m_NumSnds = 0 then pure (plan, rcv_buffer, net)
    else
      let rcv ← loopM (rcvCount plan.comm.m_rcv_num_particles) ([], [], 0) (List.range NProcs)
      let RcvProc := rcv.1
      let rOffset := rcv.2.1
      let TotRcvParticles := rcv.2.2
      let rcv_buffer ← resizeInt rcv_buffer TotRcvParticles default
      let m_nrcvs : Int := toInt32 RcvProc.length
      let m_stats ← resizeInt ([] : List Unit) m_nrcvs ()
      let m_rreqs ← resizeInt ([] : List (Option Message)) m_nrcvs none
      -- Post receives.
      let posted ← loopM (postReceive NProcs SeqNum sizeofParticle plan.comm.m_rcv_num_particles
        RcvProc rOffset) (m_rreqs, net) (List.range m_nrcvs.toNat)
      -- Send.
      let net ← loopM (postSend NProcs MyProc SeqNum sizeofParticle firstBucketOnProc
        plan.comm.m_snd_num_particles plan.m_box_offsets) posted.2 (List.range NProcs)
      pure ({ plan with comm := { plan.comm with m_nrcvs := m_nrcvs }, m_stats := m_stats,
                        m_rreqs := posted.1 }, rcv_buffer, net)

/-- Body of the first loop of `unpackRemotes`: create the tile `(gid, 0)` when missing, push
the received count as size and the tile as pointer. The state is `(plev, sizes, tiles)`. Tiles
are keyed by naturals and sizes are naturals here, so a negative box id or count stops the
computation. -/
def remoteCount {P : Type} (plan : ParticleCopyPlan)
    (st : (TileIndex → Option (ParticleTile P)) × List Nat × List TileIndex) (i : Nat) :
    Res ((TileIndex → Option (ParticleTile P)) × List Nat × List TileIndex) := do
  let copy_size ← readNat plan.comm.m_rcv_box_counts i
  let gid ← readNat plan.comm.m_rcv_box_ids i
  if gid < 0 then Res.fail Err.badAccess
  else
    let index : TileIndex := (gid.toNat, 0)
    let plev := Function.update st.1 index (some (tileAt st.1 index))
    if copy_size < 0 then Res.fail Err.badSize
    else pure (plev, st.2.1 ++ [copy_size.toNat], st.2.2 ++ [index])

/-- Body of the `AMREX_FOR_1D` loop of `unpackRemotes`: copy record `offset + ip` of the
receive buffer to record `dst_offset + ip` of the tile. -/
def remoteCopy {P : Type} (p_rcv_buffer : List P) (offset : Int) (dst_offset : Nat)
    (tile : ParticleTile P) (ip : Nat) : Res (ParticleTile P) := do
  let src_index : Int := offset + ip
  let dst_index := dst_offset + ip
  let p ← readAt p_rcv_buffer src_index
  tile.setSuperParticle p dst_index

/-- Body of the second loop of `unpackRemotes`. The state is the tiles and `uindex`.
`ParticleDistributionMap` is the owning process of every box (`pc.ParticleDistributionMap(0)`,
not among the sources). -/
def remoteGrid {P : Type} (plan : ParticleCopyPlan) (rcv_buffer : List P) (MyProc : Nat)
    (ParticleDistributionMap : List Int) (sizes offsets : List Nat)
    (st : (TileIndex → ParticleTile P) × Nat) (i : Nat) :
    Res ((TileIndex → ParticleTile P) × Nat) := do
  let gid ← readNat plan.comm.m_rcv_box_ids i
  let offset ← readNat plan.comm.m_rcv_box_offsets i
  if gid < 0 then Res.fail Err.badAccess
  else
    let index : TileIndex := (gid.toNat, 0)
    let owner ← readAt ParticleDistributionMap gid
    if ¬ ((MyProc : Int) = owner) then Res.fail Err.ownerAssertion
    else
      let uindex := st.2
      let dst_offset ← readNat offsets uindex
      let size ← readNat sizes uindex
      let tile ← loopM (remoteCopy rcv_buffer offset dst_offset) (st.1 index) (List.range size)
      pure (Function.update st.1 index tile, uindex + 1)

/-- The function `unpackRemotes`; the result is the tile map of the container. -/
def unpackRemotes {P : Type} [Inhabited P] (pc : ParticleContainer P) (plan : ParticleCopyPlan)
    (rcv_buffer : List P) (policy : UnpackPolicy) (NProcs MyProc : Nat)
    (ParticleDistributionMap : List Int) : Res (TileIndex → Option (ParticleTile P)) := do
  if pc.numLevels ≠ 1 then Res.fail Err.assertion
  else
    if NProcs = 1 then pure pc.GetParticles
    else
      if plan.comm.m_nrcvs > 0 then
        let n := plan.comm.m_rcv_box_counts.length
        let counted ← loopM (remoteCount plan) (pc.GetParticles, [], []) (List.range n)
        let plev := counted.1
        let sizes := counted.2.1
        let tiles := counted.2.2
        let resized ← policy.resizeTiles (tileAt plev) tiles sizes []
        let offsets := resized.2
        let copied ← loopM (remoteGrid plan rcv_buffer MyProc ParticleDistributionMap sizes
          offsets) (resized.1, 0) (List.range n)
        pure fun index => (plev index).map fun _ => copied.1 index
      else pure pc.GetParticles

/-! ## A small exchange used as example -/

/-- Example schedule on three processes, seen from process 1: it expects 2 particles from
process 0 and 3 from process 2, sends 2 particles to process 0 and 1 to process 2 (the entry
for process 1 itself is not used), and the received particles are for box 1 (two entries) and
box 0. -/
def exampleSchedule : CommSchedule where
  m_rcv_box_counts := [2, 1, 2]
  m_rcv_box_offsets := [0, 2, 3]
  m_rcv_box_ids := [1, 0, 1]
  m_NumSnds := 3
  m_nrcvs := 2
  m_snd_num_particles := [2, 5, 1]
  m_rcv_num_particles := [2, 0, 3]

/-- Example buffer map: the first bucket of process 0 is bucket 0, that of the others
bucket 1. -/
def exampleFirstBucket : Nat → Int := fun i => if i = 0 then 0 else 1

/-- Example plan for the exchange: the bucket tables of the example and `exampleSchedule`. -/
def exchangePlan : ParticleCopyPlan :=
  { examplePlan with comm := exampleSchedule }

/-- The outcome of `communicateParticlesStart` in the example: process 1 of 3, records of 8
bytes, tag 5. -/
def exampleStarted : ParticleCopyPlan × List (Particle Nat) × Transport :=
  (communicateParticlesStart examplePC exchangePlan [] 3 1 5 8 exampleFirstBucket
    ⟨[], []⟩).getD (exchangePlan, [], ⟨[], []⟩)

/-- Example receive buffer of five records, numbered by their attribute. -/
def exampleReceived : List (Particle Nat) :=
  [exampleParticle 1 1 1 30, exampleParticle 2 1 1 31, exampleParticle 3 1 1 32,
   exampleParticle 5 1 1 33, exampleParticle 6 1 1 34]

/-- The tile map after `unpackRemotes` in the example (neighbor policy, process 1 of 3 owning
both boxes). -/
def exampleMerged : TileIndex → Option (ParticleTile (Particle Nat)) :=
  (unpackRemotes examplePC exchangePlan exampleReceived UnpackPolicy.neighbor 3 1 [1, 1]).getD
    fun _ => none

/-! ## Definitions used to state the properties of `communicateParticlesStart` -/

/-- The processes below `n` from which a positive number of particles is expected, in
increasing rank order. -/
def rcvProcs (m_rcv_num_particles : List Int) (n : Nat) : List Nat :=
  (List.range n).filter fun i => decide (0 < (m_rcv_num_particles[i]?).getD 0)

/-- The receive expected for process `i`: it starts at the sum of the expected counts of the
processes of lower rank and has the byte count of the expected count of process `i`. -/
def expectedRecv (m_rcv_num_particles : List Int) (SeqNum : Int) (sizeofParticle : Nat)
    (i : Nat) : Message :=
  ⟨(m_rcv_num_particles.take i).sum, byteCount ((m_rcv_num_particles[i]?).getD 0) sizeofParticle,
    i, SeqNum⟩

/-- The range of receive-buffer elements `(first element, number of elements)` that the
receive from process `i` fills. -/
def rcvRange (m_rcv_num_particles : List Int) (i : Nat) : Int × Int :=
  ((m_rcv_num_particles.take i).sum, (m_rcv_num_particles[i]?).getD 0)

/-- The ranges `(first, count)` are non-empty and follow each other without gap from `start`
to `stop`. -/
def chained : Int → List (Int × Int) → Int → Bool
  | start, [], stop => decide (start = stop)
  | start, r :: rest, stop => decide (r.1 = start) && decide (0 < r.2) &&
      chained (start + r.2) rest stop

/-- State of the first loop of `communicateParticlesStart` after `i` processes. -/
def RcvCountInv (m_rcv_num_particles : List Int) (i : Nat) (st : List Int × List Int × Int) :
    Prop :=
  st.1 = (rcvProcs m_rcv_num_particles i).map (fun (j : Nat) => (j : Int)) ∧
  st.2.1 = (rcvProcs m_rcv_num_particles i).map (fun j => (m_rcv_num_particles.take j).sum) ∧
  st.2.2 = (m_rcv_num_particles.take i).sum

/-- State of the loop that posts the receives after `k` of the messages `msgs`, from the
transport `net0`: the first `k` requests are assigned, the first `k` messages are posted. -/
def PostRecvInv (msgs : List Message) (net0 : Transport) (k : Nat)
    (st : List (Option Message) × Transport) : Prop :=
  st.1.length = msgs.length ∧
  (∀ j, j < k → st.1[j]? = (msgs[j]?).map some) ∧
  (∀ j, k ≤ j → j < msgs.length → st.1[j]? = some none) ∧
  st.2.recvs = net0.recvs ++ msgs.take k ∧ st.2.sends = net0.sends

/-- The processes below `n` to which `communicateParticlesStart` sends: all but the caller
with a byte count other than 0. -/
def sndProcs (m_snd_num_particles : List Int) (MyProc sizeofParticle : Nat) (n : Nat) :
    List Nat :=
  (List.range n).filter fun i =>
    decide (i ≠ MyProc) && decide (byteCount ((m_snd_num_particles[i]?).getD 0) sizeofParticle ≠ 0)

/-- The send posted for process `i`: it starts at the offset of the first bucket of `i`. -/
def expectedSend (m_snd_num_particles : List Int) (m_box_offsets : List Nat)
    (firstBucketOnProc : Nat → Int) (SeqNum : Int) (sizeofParticle : Nat) (i : Nat) : Message :=
  ⟨((m_box_offsets[(firstBucketOnProc i).toNat]?).getD 0 : Nat),
    byteCount ((m_snd_num_particles[i]?).getD 0) sizeofParticle, i, SeqNum⟩

/-- The processes below `n` other than the caller for which the send count is not 0. -/
def sendTargets (m_snd_num_particles : List Int) (MyProc : Nat) (n : Nat) : List Nat :=
  (List.range n).filter fun i =>
    decide (i ≠ MyProc) && decide ((m_snd_num_particles[i]?).getD 0 ≠ 0)

/-! ## Definitions used to state the properties of `unpackRemotes` -/

/-- State of the first loop of `unpackRemotes` after `i` entries: entry `j` pushed the tile
`(m_rcv_box_ids[j], 0)` and the size `m_rcv_box_counts[j]`, and the tiles pushed exist in the
tile map. -/
def RemoteCountInv {P : Type} (pc : ParticleContainer P) (plan : ParticleCopyPlan) (i : Nat)
    (st : (TileIndex → Option (ParticleTile P)) × List Nat × List TileIndex) : Prop :=
  st.2.1.length = i ∧ st.2.2.length = i ∧
  (∀ j, j < i → ∃ c g : Int, plan.comm.m_rcv_box_counts[j]? = some c ∧
    plan.comm.m_rcv_box_ids[j]? = some g ∧ 0 ≤ c ∧ 0 ≤ g ∧
    st.2.1[j]? = some c.toNat ∧ st.2.2[j]? = some (g.toNat, 0)) ∧
  (∀ idx, st.1 idx = if idx ∈ st.2.2 then some (tileAt pc.GetParticles idx)
    else pc.GetParticles idx)

/-- State of the copy loop of `unpackRemotes` after `j` records: the records `offset ..
offset + j - 1` of the tile are the records `ro .. ro + j - 1` of the receive buffer and
nothing else changed. -/
def RemoteCopyInv {P : Type} (buf : List P) (ro : Int) (offset : Nat) (tile : ParticleTile P)
    (j : Nat) (t : ParticleTile P) : Prop :=
  t.m_num_neighbors = tile.m_num_neighbors ∧ t.m_data.length = tile.m_data.length ∧
  (∀ i, i < j → 0 ≤ ro + (i : Int) ∧ (buf[(ro + (i : Int)).toNat]?).isSome = true ∧
    t.m_data[offset + i]? = buf[(ro + (i : Int)).toNat]?) ∧
  (∀ p, (p < offset ∨ offset + j ≤ p) → t.m_data[p]? = tile.m_data[p]?)

/-- State of the second loop of `unpackRemotes` after `i` entries: `uindex` counts them, the
tiles keep their size, every entry done has its records in its range of its tile, and the
records outside the ranges of the entries done are as the growth policy left them. -/
def RemoteGridInv {P : Type} (plan : ParticleCopyPlan) (buf : List P)
    (tiles : List TileIndex) (sizes offsets : List Nat) (heap0 : TileIndex → ParticleTile P)
    (i : Nat) (st : (TileIndex → ParticleTile P) × Nat) : Prop :=
  st.2 = i ∧
  (∀ t, (st.1 t).m_data.length = (heap0 t).m_data.length ∧
    (st.1 t).m_num_neighbors = (heap0 t).m_num_neighbors) ∧
  (∀ (j : Nat) (t : TileIndex) (s o : Nat) (ro : Int), j < i → tiles[j]? = some t →
    sizes[j]? = some s → offsets[j]? = some o → plan.comm.m_rcv_box_offsets[j]? = some ro →
    ∀ k, k < s → 0 ≤ ro + (k : Int) ∧ (buf[(ro + (k : Int)).toNat]?).isSome = true ∧
      (st.1 t).m_data[o + k]? = buf[(ro + (k : Int)).toNat]?) ∧
  (∀ (t : TileIndex) (p : Nat),
    (∀ (j : Nat) (s o : Nat), j < i → tiles[j]? = some t → sizes[j]? = some s →
      offsets[j]? = some o → p < o ∨ o + s ≤ p) →
    (st.1 t).m_data[p]? = (heap0 t).m_data[p]?)

/-- Example container with two levels: the example container with `numLevels() == 2`. -/
def twoLevelPC : ParticleContainer (Particle Nat) :=
  { examplePC with numLevels := 2 }

/-! ## A bucket that receives many particles -/

/-- Example container with a single box, periodic in `x`, so that `build` runs its loops:
every copy goes to bucket 0. -/
def oneBucketPC : ParticleContainer (Particle Nat) where
  numLevels := 1
  Geom := ⟨fun _ => 0, fun d => if d = 0 then 8 else 4, fun d => decide (d = 0)⟩
  numBoxes := 1
  gridToBucket := [0]
  NeighborProcs := []
  MakeMFIter := [(0, 0)]
  GetParticles := fun _ => none

/-- Descriptors of `n` copies from box 0 to box 0 (across the periodic boundary). Only the
destinations are given, `build` reads nothing else. -/
def floodOp (n : Nat) : ParticleCopyOp where
  m_boxes := fun g => if g = 0 then some (List.replicate n 0) else none
  m_src_indices := fun _ => none
  m_periodic_shift := fun _ => none

/-- The locator built from `originBoxes` with the placement pass in the order `3, 1, 0, 2`. -/
def exampleLocator : ParticleLocator :=
  (ParticleLocator.fresh.build originBoxes [3, 1, 0, 2]).getD ParticleLocator.fresh


/-! ## Definitions used to state the properties of the bin grid and of the query -/

/-- A single box of `2 x 2 x 2` cells with lower corner `(100, 0, 0)`. -/
def farBox : List Box := [⟨⟨100, 0, 0⟩, ⟨101, 1, 1⟩⟩]

/-- The locator built from `offsetBoxes` with the placement pass in sequential order. -/
def offsetLocator : ParticleLocator :=
  (ParticleLocator.fresh.build offsetBoxes [0, 1, 2]).getD ParticleLocator.fresh

/-- Reference query, following the words of the specification: compute the bin coordinates of
the point, clamp them to the grid, scan the bins `ix-1 .. ix+1` of the grid on each axis in
ascending order, each bin in permutation order, and return the first box that contains the
point. -/
def assignGrid.referenceSearch (g : assignGrid) (iv : Dim3) : Res (Option Int) :=
  let nx := g.m_hi.x - g.m_lo.x + 1
  let ny := g.m_hi.y - g.m_lo.y + 1
  let nz := g.m_hi.z - g.m_lo.z + 1
  let ix := min (nx - 1) (max 0 (Int.tdiv (iv.x - g.m_lo.x) g.m_bin_size.x))
  let iy := min (ny - 1) (max 0 (Int.tdiv (iv.y - g.m_lo.y) g.m_bin_size.y))
  let iz := min (nz - 1) (max 0 (Int.tdiv (iv.z - g.m_lo.z) g.m_bin_size.z))
  firstM (fun ii =>
    firstM (fun jj =>
      firstM (fun kk => g.scanBin iv ((ii * ny + jj) * nz + kk))
        (intRange (max (iz - 1) 0) (min (iz + 1) (nz - 1))))
      (intRange (max (iy - 1) 0) (min (iy + 1) (ny - 1))))
    (intRange (max (ix - 1) 0) (min (ix + 1) (nx - 1)))

/-- Reference query: the id of the first box found by `referenceSearch`, or `-1`. -/
def assignGrid.referenceCall (g : assignGrid) (iv : Dim3) : Res Int := do
  match ← g.referenceSearch iv with
  | some id => pure id
  | none => pure (-1)

/-- Example tables of the shape `build` produces, for a grid of `2 x 1 x 1` bins over
`originBoxes`. -/
def exampleAssignor : assignGrid :=
  assignGrid.construct originBoxes [0, 2, 4] [0, 2, 1, 3] ⟨0, 0, 0⟩ ⟨1, 0, 0⟩ ⟨4, 8, 4⟩

/-! ## Example for the frame of `unpackBuffer` -/

/-- The example container with a neighbor record: the tile of box 1 holds its primary particle
and, behind it, one neighbor (ghost) record with attribute 99. -/
def ghostPC : ParticleContainer (Particle Nat) :=
  { examplePC with
    GetParticles := fun m =>
      if m = (0, 0) then
        some ⟨[exampleParticle 5 1 1 10, exampleParticle 1 5 1 11, exampleParticle 9 2 2 12], 0⟩
      else if m = (1, 0) then some ⟨[exampleParticle (-1) 3 3 20, exampleParticle 2 2 2 99], 1⟩
      else none }

/-- The plan built for `ghostPC` from the example descriptors. -/
def ghostPlan : ParticleCopyPlan :=
  (ParticleCopyPlan.fresh.build ghostPC exampleOp true exampleMPIStart exampleOrders 0).getD
    ParticleCopyPlan.fresh

/-- The send buffer packed for `ghostPC`. -/
def ghostBuffer : List (Particle Nat) :=
  (packBuffer ghostPC exampleOp ghostPlan [] exampleOrders).getD []

/-- The tile map after `unpackBuffer` on `ghostPC` with the policy given. -/
def ghostResult (policy : UnpackPolicy) : TileIndex → Option (ParticleTile (Particle Nat)) :=
  (unpackBuffer ghostPC ghostPlan ghostBuffer policy).getD fun _ => none

/-! ## Interpolation of boundary data (`AMReX_InterpBndryData_3D_K.H`) -/

/-- The view `Array4<T>` (AMReX_Array4.H is not among the sources; the arrays are parameters of
the kernels) is addressed by `(i, j, k, n)`, and `a(i,j,k)` is component `n = 0`. The kernels
do not check bounds, so a view is a total function here. `Real` is exact (rational) arithmetic
and index arithmetic is in the integers. -/
abbrev Array4 (T : Type) : Type := Int → Int → Int → Int → T

/-- The store `a(i,j,k,n) = v`. -/
def Array4.set {T : Type} (a : Array4 T) (i j k n : Int) (v : T) : Array4 T :=
  fun i' j' k' n' => if i' = i ∧ j' = j ∧ k' = k ∧ n' = n then v else a i' j' k' n'

/-- The function `interpbndrydata_x_o1`; the result is `bdry` after the call. -/
def interpbndrydata_x_o1 (islo ic jc kc n : Int) (bdry : Array4 ℚ) (nb : Int)
    (crse : Array4 ℚ) (nc : Int) (r : Dim3) : Array4 ℚ :=
  let c := crse ic jc kc (n + nc)
  let i := ic * r.x + islo * (r.x - 1)
  (intRange 0 (r.z - 1)).foldl (fun bdry koff =>
    let k := kc * r.z + koff
    (intRange 0 (r.y - 1)).foldl (fun bdry joff =>
      let j := jc * r.y + joff
      Array4.set bdry i j k (n + nb) c) bdry) bdry

/-- The function `interpbndrydata_y_o1`. -/
def interpbndrydata_y_o1 (islo ic jc kc n : Int) (bdry : Array4 ℚ) (nb : Int)
    (crse : Array4 ℚ) (nc : Int) (r : Dim3) : Array4 ℚ :=
  let c := crse ic jc kc (n + nc)
  let j := jc * r.y + islo * (r.y - 1)
  (intRange 0 (r.z - 1)).foldl (fun bdry koff =>
    let k := kc * r.z + koff
    (intRange 0 (r.x - 1)).foldl (fun bdry ioff =>
      let i := ic * r.x + ioff
      Array4.set bdry i j k (n + nb) c) bdry) bdry

/-- The function `interpbndrydata_z_o1`. -/
def interpbndrydata_z_o1 (islo ic jc kc n : Int) (bdry : Array4 ℚ) (nb : Int)
    (crse : Array4 ℚ) (nc : Int) (r : Dim3) : Array4 ℚ :=
  let c := crse ic jc kc (n + nc)
  let k := kc * r.z + islo * (r.z - 1)
  (intRange 0 (r.y - 1)).foldl (fun bdry joff =>
    let j := jc * r.y + joff
    (intRange 0 (r.x - 1)).foldl (fun bdry ioff =>
      let i := ic * r.x + ioff
      Array4.set bdry i j k (n + nb) c) bdry) bdry

/-- The function `interpbndrydata_x_o3`. -/
def interpbndrydata_x_o3 (islo ic jc kc n : Int) (bdry : Array4 ℚ) (nb : Int)
    (crse : Array4 ℚ) (nc : Int) (r : Dim3) (mask : Array4 Int) (not_covered : Int) :
    Array4 ℚ :=
  let i := ic * r.x + islo * (r.x - 1)
  let j := jc * r.y
  let k := kc * r.z
  let lo := if mask i (j - 1) k 0 = not_covered then jc - 1 else jc
  let hi := if mask i (j + r.y) k 0 = not_covered then jc + 1 else jc
  let fac : ℚ := if hi = lo + 1 then 1 else 1 / 2
  let dy : ℚ := fac * (crse ic hi kc (n + nc) - crse ic lo kc (n + nc))
  let dy2 : ℚ := if hi = lo + 2 then
      1 / 2 * (crse ic (jc + 1) kc (n + nc) - 2 * crse ic jc kc (n + nc)
        + crse ic (jc - 1) kc (n + nc))
    else 0
  let lo := if mask i j (k - 1) 0 = not_covered then kc - 1 else kc
  let hi := if mask i j (k + r.z) 0 = not_covered then kc + 1 else kc
  let fac : ℚ := if hi = lo + 1 then 1 else 1 / 2
  let dz : ℚ := fac * (crse ic jc hi (n + nc) - crse ic jc lo (n + nc))
  let dz2 : ℚ := if hi = lo + 2 then
      1 / 2 * (crse ic jc (kc + 1) (n + nc) - 2 * crse ic jc kc (n + nc)
        + crse ic jc (kc - 1) (n + nc))
    else 0
  let dyz : ℚ :=
    if mask i (j - 1) (k - 1) 0 = not_covered ∧ mask i (j + r.y) (k - 1) 0 = not_covered
        ∧ mask i (j - 1) (k + r.z) 0 = not_covered ∧ mask i (j + r.y) (k + r.z) 0 = not_covered
    then 1 / 4 * (crse ic (jc + 1) (kc + 1) (n + nc) - crse ic (jc - 1) (kc + 1) (n + nc)
        + crse ic (jc - 1) (kc - 1) (n + nc) - crse ic (jc + 1) (kc - 1) (n + nc))
    else 0
  let c := crse ic jc kc (n + nc)
  (intRange 0 (r.z - 1)).foldl (fun bdry koff =>
    let k := kc * r.z + koff
    let z : ℚ := (1 / 2 + ((koff - Int.tdiv r.z 2 : Int) : ℚ)) / (r.z : ℚ)
    (intRange 0 (r.y - 1)).foldl (fun bdry joff =>
      let j := jc * r.y + joff
      let y : ℚ := (1 / 2 + ((joff - Int.tdiv r.y 2 : Int) : ℚ)) / (r.y : ℚ)
      Array4.set bdry i j k (n + nb)
        (c + y * dy + (y * y) * dy2 + z * dz + (z * z) * dz2 + y * z * dyz)) bdry) bdry

/-- The function `interpbndrydata_y_o3`. -/
def interpbndrydata_y_o3 (islo ic jc kc n : Int) (bdry : Array4 ℚ) (nb : Int)
    (crse : Array4 ℚ) (nc : Int) (r : Dim3) (mask : Array4 Int) (not_covered : Int) :
    Array4 ℚ :=
  let i := ic * r.x
  let j := jc * r.y + islo * (r.y - 1)
  let k := kc * r.z
  let lo := if mask (i - 1) j k 0 = not_covered then ic - 1 else ic
  let hi := if mask (i + r.x) j k 0 = not_covered then ic + 1 else ic
  let fac : ℚ := if hi = lo + 1 then 1 else 1 / 2
  let dx : ℚ := fac * (crse hi jc kc (n + nc) - crse lo jc kc (n + nc))
  let dx2 : ℚ := if hi = lo + 2 then
      1 / 2 * (crse (ic + 1) jc kc (n + nc) - 2 * crse ic jc kc (n + nc)
        + crse (ic - 1) jc kc (n + nc))
    else 0
  let lo := if mask i j (k - 1) 0 = not_covered then kc - 1 else kc
  let hi := if mask i j (k + r.z) 0 = not_covered then kc + 1 else kc
  let fac : ℚ := if hi = lo + 1 then 1 else 1 / 2
  let dz : ℚ := fac * (crse ic jc hi (n + nc) - crse ic jc lo (n + nc))
  let dz2 : ℚ := if hi = lo + 2 then
      1 / 2 * (crse ic jc (kc + 1) (n + nc) - 2 * crse ic jc kc (n + nc)
        + crse ic jc (kc - 1) (n + nc))
    else 0
  let dxz : ℚ :=
    if mask (i - 1) j (k - 1) 0 = not_covered ∧ mask (i + r.x) j (k - 1) 0 = not_covered
        ∧ mask (i - 1) j (k + r.z) 0 = not_covered ∧ mask (i + r.x) j (k + r.z) 0 = not_covered
    then 1 / 4 * (crse (ic + 1) jc (kc + 1) (n + nc) - crse (ic - 1) jc (kc + 1) (n + nc)
        + crse (ic - 1) jc (kc - 1) (n + nc) - crse (ic + 1) jc (kc - 1) (n + nc))
    else 0
  let c := crse ic jc kc (n + nc)
  (intRange 0 (r.z - 1)).foldl (fun bdry koff =>
    let k := kc * r.z + koff
    let z : ℚ := (1 / 2 + ((koff - Int.tdiv r.z 2 : Int) : ℚ)) / (r.z : ℚ)
    (intRange 0 (r.x - 1)).foldl (fun bdry ioff =>
      let i := ic * r.x + ioff
      let x : ℚ := (1 / 2 + ((ioff - Int.tdiv r.x 2 : Int) : ℚ)) / (r.x : ℚ)
      Array4.set bdry i j k (n + nb)
        (c + x * dx + (x * x) * dx2 + z * dz + (z * z) * dz2 + x * z * dxz)) bdry) bdry

/-- The function `interpbndrydata_z_o3`. -/
def interpbndrydata_z_o3 (islo ic jc kc n : Int) (bdry : Array4 ℚ) (nb : Int)
    (crse : Array4 ℚ) (nc : Int) (r : Dim3) (mask : Array4 Int) (not_covered : Int) :
    Array4 ℚ :=
  let i := ic * r.x
  let j := jc * r.y
  let k := kc * r.z + islo * (r.z - 1)
  let lo := if mask (i - 1) j k 0 = not_covered then ic - 1 else ic
  let hi := if mask (i + r.x) j k 0 = not_covered then ic + 1 else ic
  let fac : ℚ := if hi = lo + 1 then 1 else 1 / 2
  let dx : ℚ := fac * (crse hi jc kc (n + nc) - crse lo jc kc (n + nc))
  let dx2 : ℚ := if hi = lo + 2 then
      1 / 2 * (crse (ic + 1) jc kc (n + nc) - 2 * crse ic jc kc (n + nc)
        + crse (ic - 1) jc kc (n + nc))
    else 0
  let lo := if mask i (j - 1) k 0 = not_covered then jc - 1 else jc
  let hi := if mask i (j + r.y) k 0 = not_covered then jc + 1 else jc
  let fac : ℚ := if hi = lo + 1 then 1 else 1 / 2
  let dy : ℚ := fac * (crse ic hi kc (n + nc) - crse ic lo kc (n + nc))
  let dy2 : ℚ := if hi = lo + 2 then
      1 / 2 * (crse ic (jc + 1) kc (n + nc) - 2 * crse ic jc kc (n + nc)
        + crse ic (jc - 1) kc (n + nc))
    else 0
  let dxy : ℚ :=
    if mask (i - 1) (j - 1) k 0 = not_covered ∧ mask (i + r.x) (j - 1) k 0 = not_covered
        ∧ mask (i - 1) (j + r.y) k 0 = not_covered ∧ mask (i + r.x) (j + r.y) k 0 = not_covered
    then 1 / 4 * (crse (ic + 1) (jc + 1) kc (n + nc) - crse (ic - 1) (jc + 1) kc (n + nc)
        + crse (ic - 1) (jc - 1) kc (n + nc) - crse (ic + 1) (jc - 1) kc (n + nc))
    else 0
  let c := crse ic jc kc (n + nc)
  (intRange 0 (r.y - 1)).foldl (fun bdry joff =>
    let j := jc * r.y + joff
    let y : ℚ := (1 / 2 + ((joff - Int.tdiv r.y 2 : Int) : ℚ)) / (r.y : ℚ)
    (intRange 0 (r.x - 1)).foldl (fun bdry ioff =>
      let i := ic * r.x + ioff
      let x : ℚ := (1 / 2 + ((ioff - Int.tdiv r.x 2 : Int) : ℚ)) / (r.x : ℚ)
      Array4.set bdry i j k (n + nb)
        (c + x * dx + (x * x) * dx2 + y * dy + (y * y) * dy2 + x * y * dxy)) bdry) bdry

/-- The mask cells that `interpbndrydata_x_o3` consults when none of them equals
`not_covered` (the `and` of the corner test stops at its first operand): none of them is
`not_covered`. -/
def maskClear_x (islo ic jc kc : Int) (r : Dim3) (mask : Array4 Int) (not_covered : Int) :
    Prop :=
  let i := ic * r.x + islo * (r.x - 1)
  let j := jc * r.y
  let k := kc * r.z
  mask i (j - 1) k 0 ≠ not_covered ∧ mask i (j + r.y) k 0 ≠ not_covered ∧
  mask i j (k - 1) 0 ≠ not_covered ∧ mask i j (k + r.z) 0 ≠ not_covered ∧
  mask i (j - 1) (k - 1) 0 ≠ not_covered

/-- The mask cells that `interpbndrydata_y_o3` consults when none of them equals
`not_covered`: none of them is `not_covered`. -/
def maskClear_y (islo ic jc kc : Int) (r : Dim3) (mask : Array4 Int) (not_covered : Int) :
    Prop :=
  let i := ic * r.x
  let j := jc * r.y + islo * (r.y - 1)
  let k := kc * r.z
  mask (i - 1) j k 0 ≠ not_covered ∧ mask (i + r.x) j k 0 ≠ not_covered ∧
  mask i j (k - 1) 0 ≠ not_covered ∧ mask i j (k + r.z) 0 ≠ not_covered ∧
  mask (i - 1) j (k - 1) 0 ≠ not_covered

/-- The mask cells that `interpbndrydata_z_o3` consults when none of them equals
`not_covered`: none of them is `not_covered`. -/
def maskClear_z (islo ic jc kc : Int) (r : Dim3) (mask : Array4 Int) (not_covered : Int) :
    Prop :=
  let i := ic * r.x
  let j := jc * r.y
  let k := kc * r.z + islo * (r.z - 1)
  mask (i - 1) j k 0 ≠ not_covered ∧ mask (i + r.x) j k 0 ≠ not_covered ∧
  mask i (j - 1) k 0 ≠ not_covered ∧ mask i (j + r.y) k 0 ≠ not_covered ∧
  mask (i - 1) (j - 1) k 0 ≠ not_covered

instance (islo ic jc kc : Int) (r : Dim3) (mask : Array4 Int) (not_covered : Int) :
    Decidable (maskClear_x islo ic jc kc r mask not_covered) := by
  unfold maskClear_x; exact inferInstance

instance (islo ic jc kc : Int) (r : Dim3) (mask : Array4 Int) (not_covered : Int) :
    Decidable (maskClear_y islo ic jc kc r mask not_covered) := by
  unfold maskClear_y; exact inferInstance

instance (islo ic jc kc : Int) (r : Dim3) (mask : Array4 Int) (not_covered : Int) :
    Decidable (maskClear_z islo ic jc kc r mask not_covered) := by
  unfold maskClear_z; exact inferInstance

/-- Example coarse data: the value of cell `(i, j, k)` is `i + 10 j + 100 k`. -/
def exampleCrse : Array4 ℚ := fun i j k _ => i + 10 * j + 100 * k

/-- Example mask without a cell equal to `not_covered = 1`. -/
def exampleMask : Array4 Int := fun _ _ _ _ => 0

/-- Example fine boundary data before the call: zero everywhere. -/
def exampleBdry : Array4 ℚ := fun _ _ _ _ => 0

/-! ## Averaging down with volume fractions (`AMReX_EBMultiFabUtil_3D_C.H`) -/

/-- The three inner loops of `eb_avgdown` for component `n`: the sums `(c, cv)` over the fine
cells of the coarse cell `(i, j, k)`. -/
def eb_avgdown_sums (i j k : Int) (fine : Array4 ℚ) (fcomp : Int) (vfrc : Array4 ℚ)
    (ratio : Dim3) (n : Int) : ℚ × ℚ :=
  (intRange (k * ratio.z) ((k + 1) * ratio.z - 1)).foldl (fun acc kk =>
    (intRange (j * ratio.y) ((j + 1) * ratio.y - 1)).foldl (fun acc jj =>
      (intRange (i * ratio.x) ((i + 1) * ratio.x - 1)).foldl (fun acc ii =>
        let tmp := vfrc ii jj kk 0
        (acc.1 + fine ii jj kk (n + fcomp) * tmp, acc.2 + tmp)) acc) acc) ((0 : ℚ), (0 : ℚ))

/-- The function `eb_avgdown`; the result is `crse` after the call. `Real` is exact (rational)
arithmetic. -/
def eb_avgdown (i j k : Int) (fine : Array4 ℚ) (fcomp : Int) (crse : Array4 ℚ) (ccomp : Int)
    (vfrc : Array4 ℚ) (ratio : Dim3) (ncomp : Int) : Array4 ℚ :=
  (intRange 0 (ncomp - 1)).foldl (fun crse n =>
    let s := eb_avgdown_sums i j k fine fcomp vfrc ratio n
    if s.2 > 1 / 10 ^ 30 then Array4.set crse i j k (n + ccomp) (s.1 / s.2)
    else Array4.set crse i j k (n + ccomp)
      (fine (i * ratio.x) (j * ratio.y) (k * ratio.z) (n + fcomp))) crse

/-- The fine cells of the coarse cell `(i, j, k)`, in the order of the loops of `eb_avgdown`. -/
def blockCells (i j k : Int) (ratio : Dim3) : List (Int × Int × Int) :=
  (intRange (k * ratio.z) ((k + 1) * ratio.z - 1)).flatMap fun kk =>
    (intRange (j * ratio.y) ((j + 1) * ratio.y - 1)).flatMap fun jj =>
      (intRange (i * ratio.x) ((i + 1) * ratio.x - 1)).map fun ii => (ii, jj, kk)

/-- The sum of `f` over a list of cells. -/
def blockSum (cells : List (Int × Int × Int)) (f : Int → Int → Int → ℚ) : ℚ :=
  (cells.map fun p => f p.1 p.2.1 p.2.2).sum

/-- Example fine data on a block of two cells along `x`: the values 1 and 3. -/
def exampleFine : Array4 ℚ := fun ii _ _ _ => if ii = 0 then 1 else 3

/-- Example volume fractions on a block of two cells along `x`: 1 and one half. -/
def exampleVfrc : Array4 ℚ := fun ii _ _ _ => if ii = 0 then 1 else 1 / 2


/-! ## `build` with the slot loops of the boxes overlapping -/

/-- One iteration of the loop `AMREX_FOR_1D (num_copies, i, ...)` that `build` launches for
source box `gid`, addressed by the descriptor `(gid, i)`: the iteration exists when
`i < num_copies`, and then it is the loop body. -/
def ParticleCopyPlan.interleavedStep (p_box_perm : List Nat) (op : ParticleCopyOp)
    (st : List Nat × (Nat → Option (List Int))) (e : Descriptor) :
    Res (List Nat × (Nat → Option (List Int))) := do
  let gid := e.1
  let num_copies ← op.numCopies gid
  let p_boxes ← mapAt op.m_boxes gid
  if (e.2 : Int) < num_copies then ParticleCopyPlan.slotStep p_box_perm p_boxes gid st e.2
  else pure st

/-- The method `ParticleCopyPlan::build` with the loops `AMREX_FOR_1D` of the second `MFIter`
loop run as device kernels that may overlap: the iterations of all the source boxes perform
their `Gpu::Atomic::Inc` on the shared counters `m_box_counts` one at a time, in the global
order `events`, which may alternate between boxes. Everything else is as in
`ParticleCopyPlan.build`, which is the case where `events` goes box by box. -/
def ParticleCopyPlan.buildInterleaved {P : Type} (self : ParticleCopyPlan)
    (pc : ParticleContainer P) (op : ParticleCopyOp) (do_handshake : Bool)
    (buildMPIStart : ParticleCopyPlan → Bool → Res CommSchedule)
    (events : List Descriptor) (pastEnd : Nat) : Res ParticleCopyPlan := do
  if pc.numLevels ≠ 1 then Res.fail Err.assertion
  else
    let geom := pc.Geom
    let self := { self with m_neighbor_procs := pc.NeighborProcs }
    let num_boxes := pc.numBoxes
    if num_boxes = 1 ∧ ¬ geom.isAnyPeriodic then pure self
    else
      let counts0 : List Nat := resize [] num_boxes 0
      let offsets0 : List Nat := resize self.m_box_offsets (num_boxes + 1) 0
      let p_box_perm := pc.gridToBucket
      let dst0 ← loopM (ParticleCopyPlan.resizeStep op) self.m_dst_indices pc.MakeMFIter
      let (counts, dst) ←
        loopM (ParticleCopyPlan.interleavedStep p_box_perm op) (counts0, dst0) events
      let scanned := exclusive_scan 0 (counts ++ [pastEnd])
      let offsets := scanned ++ offsets0.drop scanned.length
      let plan := { self with m_dst_indices := dst, m_box_counts := counts, m_box_offsets := offsets }
      let sched ← buildMPIStart plan do_handshake
      pure { plan with comm := sched }

/-- Example global order of the slot iterations in which the two boxes alternate: box 0
descriptor 0, box 1 descriptor 0, box 0 descriptor 1, box 0 descriptor 2. -/
def exampleInterleaving : List Descriptor := [(0, 0), (1, 0), (0, 1), (0, 2)]

/-- The plan built in the example with the slot iterations in the order
`exampleInterleaving`. -/
def exampleInterleavedPlan : ParticleCopyPlan :=
  (ParticleCopyPlan.fresh.buildInterleaved examplePC exampleOp true exampleMPIStart
    exampleInterleaving 0).getD ParticleCopyPlan.fresh


/-! ## The five functions as procedures that write through their arguments -/

/-- The objects that `build`, `packBuffer`, `unpackBuffer`, `communicateParticlesStart` and
`unpackRemotes` read and write through their reference arguments: the container, the plan,
the send buffer, the receive buffer and the message transport. -/
structure ExchangeState (P : Type) where
  pc : ParticleContainer P
  plan : ParticleCopyPlan
  snd_buffer : List P
  rcv_buffer : List P
  net : Transport

/-- How a call of one of the five `void` functions ends, with what it leaves in the objects.

* `returned s`: the call returned and left the state `s`;
* `asserted s`: the call stopped at `AMREX_ASSERT(pc.numLevels() == 1)` and left the state `s`;
* `stopped e`: the call stopped at a later statement, for the reason `e`; what the objects
  hold then is not described. -/
inductive Outcome (σ : Type) where
  | returned (s : σ)
  | asserted (s : σ)
  | stopped (e : Err)

/-- The outcome of the statements that follow the assertion: they return a value `a`, stored
in the state as `k a`, or stop. -/
def Outcome.ofRes {σ α : Type} (r : Res α) (k : α → σ) : Outcome σ :=
  match r with
  | Res.ok a => Outcome.returned (k a)
  | Res.fail e => Outcome.stopped e

/-- The call `plan.build(pc, op, do_handshake)` on the state `w`. The statements before the
assertion are `BL_PROFILE` only, which writes to none of the objects, so that the assertion
stops the call in the state `w`; the statements after it are those of
`ParticleCopyPlan.build` and write to the plan. -/
def InPlace.build {P : Type} (w : ExchangeState P) (op : ParticleCopyOp) (do_handshake : Bool)
    (buildMPIStart : ParticleCopyPlan → Bool → Res CommSchedule)
    (orders : Nat → List Nat) (pastEnd : Nat) : Outcome (ExchangeState P) :=
  if w.pc.numLevels ≠ 1 then Outcome.asserted w
  else
    Outcome.ofRes (w.plan.build w.pc op do_handshake buildMPIStart orders pastEnd)
      fun plan => { w with plan := plan }

/-- The call `packBuffer(pc, op, plan, snd_buffer)` on the state `w`: `BL_PROFILE`, the
assertion, then the statements of `packBuffer`, which write to the send buffer. -/
def InPlace.packBuffer {A : Type} [Inhabited A] (w : ExchangeState (Particle A))
    (op : ParticleCopyOp) (orders : Nat → List Nat) : Outcome (ExchangeState (Particle A)) :=
  if w.pc.numLevels ≠ 1 then Outcome.asserted w
  else
    Outcome.ofRes (amrex.packBuffer w.pc op w.plan w.snd_buffer orders)
      fun snd_buffer => { w with snd_buffer := snd_buffer }

/-- The call `unpackBuffer(pc, plan, snd_buffer, policy)` on the state `w`: `BL_PROFILE`, the
assertion, then the statements of `unpackBuffer`, which write to the tiles of the
container. -/
def InPlace.unpackBuffer {P : Type} [Inhabited P] (w : ExchangeState P) (policy : UnpackPolicy) :
    Outcome (ExchangeState P) :=
  if w.pc.numLevels ≠ 1 then Outcome.asserted w
  else
    Outcome.ofRes (amrex.unpackBuffer w.pc w.plan w.snd_buffer policy)
      fun tiles => { w with pc := { w.pc with GetParticles := tiles } }

/-- The call `communicateParticlesStart(pc, plan, snd_buffer, rcv_buffer)` on the state `w`:
`BL_PROFILE`, the assertion, then the statements of `communicateParticlesStart`, which write
to the plan, to the receive buffer and to the transport. -/
def InPlace.communicateParticlesStart {P : Type} [Inhabited P] (w : ExchangeState P)
    (NProcs MyProc : Nat) (SeqNum : Int) (sizeofParticle : Nat) (firstBucketOnProc : Nat → Int) :
    Outcome (ExchangeState P) :=
  if w.pc.numLevels ≠ 1 then Outcome.asserted w
  else
    Outcome.ofRes (amrex.communicateParticlesStart w.pc w.plan w.rcv_buffer NProcs MyProc SeqNum
        sizeofParticle firstBucketOnProc w.net)
      fun out => { w with plan := out.1, rcv_buffer := out.2.1, net := out.2.2 }

/-- The call `unpackRemotes(pc, plan, rcv_buffer, policy)` on the state `w`: `BL_PROFILE`, the
assertion, then the statements of `unpackRemotes`, which write to the tiles of the
container. -/
def InPlace.unpackRemotes {P : Type} [Inhabited P] (w : ExchangeState P) (policy : UnpackPolicy)
    (NProcs MyProc : Nat) (ParticleDistributionMap : List Int) : Outcome (ExchangeState P) :=
  if w.pc.numLevels ≠ 1 then Outcome.asserted w
  else
    Outcome.ofRes (amrex.unpackRemotes w.pc w.plan w.rcv_buffer policy NProcs MyProc
        ParticleDistributionMap)
      fun tiles => { w with pc := { w.pc with GetParticles := tiles } }

/-- Example state with two levels: the example container with `numLevels() == 2`, the example
plan for the exchange, the example send buffer and the example receive buffer, no message in
flight. -/
def twoLevelState : ExchangeState (Particle Nat) :=
  ⟨twoLevelPC, exchangePlan, exampleBuffer, exampleReceived, ⟨[], []⟩⟩

/-! # Theorems -/

set_option linter.unusedSectionVars false

/-! ## Basic facts about outcomes and loops -/

@[simp] theorem Res.ok_bind {α β : Type} (a : α) (f : α → Res β) :
    (Res.ok a >>= f) = f a := rfl

@[simp] theorem Res.fail_bind {α β : Type} (e : Err) (f : α → Res β) :
    (Res.fail e >>= f) = Res.fail e := rfl

@[simp] theorem Res.pure_eq {α : Type} (a : α) : (pure a : Res α) = Res.ok a := rfl

theorem Res.bind_eq_ok {α β : Type} {r : Res α} {f : α → Res β} {b : β} :
    (r >>= f) = Res.ok b ↔ ∃ a, r = Res.ok a ∧ f a = Res.ok b := by
  cases r with
  | ok a => simp
  | fail e => simp

theorem readNat_eq_ok {α : Type} {v : List α} {i : Nat} {a : α} :
    readNat v i = Res.ok a ↔ v[i]? = some a := by
  unfold readNat
  cases h : v[i]? <;> simp

theorem readAt_eq_ok {α : Type} {v : List α} {i : Int} {a : α} :
    readAt v i = Res.ok a ↔ 0 ≤ i ∧ v[i.toNat]? = some a := by
  unfold readAt
  by_cases h : 0 ≤ i <;> simp [h, readNat_eq_ok]

theorem writeNat_eq_ok {α : Type} {v w : List α} {i : Nat} {a : α} :
    writeNat v i a = Res.ok w ↔ i < v.length ∧ w = v.set i a := by
  unfold writeNat
  by_cases h : i < v.length <;> simp [h, eq_comm]

theorem loopM_nil {σ α : Type} (f : σ → α → Res σ) (s : σ) : loopM f s [] = Res.ok s := rfl

theorem loopM_cons {σ α : Type} (f : σ → α → Res σ) (s : σ) (x : α) (xs : List α) :
    loopM f s (x :: xs) = (f s x >>= fun s' => loopM f s' xs) := by
  show loopM f s (x :: xs) = Res.bind (f s x) _
  rw [loopM]
  cases f s x <;> rfl

theorem loopM_append {σ α : Type} (f : σ → α → Res σ) (s : σ) (xs ys : List α) :
    loopM f s (xs ++ ys) = (loopM f s xs >>= fun s' => loopM f s' ys) := by
  induction xs generalizing s with
  | nil => simp [loopM_nil]
  | cons x xs ih =>
    rw [List.cons_append, loopM_cons, loopM_cons]
    cases h : f s x with
    | ok s' => simp [ih]
    | fail e => simp

/-- Invariant rule for a loop: the invariant is indexed by the iterations already run. -/
theorem loopM_inv {σ α : Type} (f : σ → α → Res σ) (Inv : List α → σ → Prop) (xs : List α)
    (hstep : ∀ (done : List α) (x : α) (rest : List α) (s s' : σ),
      done ++ x :: rest = xs → Inv done s → f s x = Res.ok s' → Inv (done ++ [x]) s') :
    ∀ (rest done : List α) (s s' : σ), done ++ rest = xs → Inv done s →
      loopM f s rest = Res.ok s' → Inv xs s' := by
  intro rest
  induction rest with
  | nil =>
    intro done s s' hxs hinv h
    simp [loopM_nil] at h
    subst h
    simpa [← hxs] using hinv
  | cons x rest ih =>
    intro done s s' hxs hinv h
    rw [loopM_cons, Res.bind_eq_ok] at h
    obtain ⟨s1, h1, h2⟩ := h
    exact ih (done ++ [x]) s1 s' (by simpa using hxs) (hstep done x rest s s1 hxs hinv h1) h2

/-- Invariant rule for a counting loop `for (i = 0; i < n; ++i)`. -/
theorem loopM_range_inv {σ : Type} (f : σ → Nat → Res σ) (Inv : Nat → σ → Prop) (n : Nat)
    (s0 s : σ) (h0 : Inv 0 s0)
    (hstep : ∀ (i : Nat) (s s' : σ), i < n → Inv i s → f s i = Res.ok s' → Inv (i + 1) s')
    (h : loopM f s0 (List.range n) = Res.ok s) : Inv n s := by
  have key := loopM_inv f (fun done s => Inv done.length s) (List.range n)
    (by
      intro done x rest s s' hxs hinv hf
      have hlen : done.length < n := by
        have := congrArg List.length hxs
        simp at this
        omega
      have hx : x = done.length := by
        have h1 : (List.range n)[done.length]? = some x := by
          rw [← hxs, List.getElem?_append_right (Nat.le_refl _)]; simp
        rw [List.getElem?_range hlen] at h1
        exact (Option.some.inj h1).symm
      simp only [List.length_append, List.length_singleton]
      exact hstep done.length s s' hlen hinv (hx ▸ hf))
    (List.range n) [] s0 s (by simp) (by simpa using h0) h
  simpa using key


theorem resize_length {α : Type} (v : List α) (n : Nat) (d : α) : (resize v n d).length = n := by
  unfold resize
  simp only [List.length_append, List.length_take, List.length_replicate]
  omega

theorem resize_of_le {α : Type} (v : List α) (n : Nat) (d : α) (h : v.length ≤ n) :
    resize v n d = v ++ List.replicate (n - v.length) d := by
  unfold resize
  rw [List.take_of_length_le h]

section Policies

variable {κ P : Type} [DecidableEq κ] [Inhabited P]

theorem addedBefore_zero (tiles : List κ) (sizes : List Nat) (t : κ) :
    addedBefore tiles sizes t 0 = 0 := by
  simp [addedBefore]

theorem addedBefore_succ (tiles : List κ) (sizes : List Nat) (t u : κ) (i s : Nat)
    (hu : tiles[i]? = some u) (hs : sizes[i]? = some s) :
    addedBefore tiles sizes t (i + 1) = addedBefore tiles sizes t i + if u = t then s else 0 := by
  unfold addedBefore
  have hz : (tiles.zip sizes)[i]? = some (u, s) := by
    rw [List.getElem?_zip_eq_some]; exact ⟨hu, hs⟩
  rw [List.take_succ, hz]
  by_cases h : u = t <;> simp [List.filter_append, h]

theorem addedBefore_mono (tiles : List κ) (sizes : List Nat) (t : κ) {i j : Nat} (h : i ≤ j) :
    addedBefore tiles sizes t i ≤ addedBefore tiles sizes t j := by
  unfold addedBefore
  obtain ⟨k, rfl⟩ := Nat.exists_eq_add_of_le h
  rw [List.take_add]
  simp [List.filter_append]

/-- No entry of `t` between `i` and `j`: nothing is added for `t` there. -/
theorem addedBefore_eq_of_no_entry (tiles : List κ) (sizes : List Nat) (t : κ) (i j : Nat)
    (hij : i ≤ j) (hno : ∀ k, i ≤ k → k < j → tiles[k]? ≠ some t) :
    addedBefore tiles sizes t j = addedBefore tiles sizes t i := by
  induction j with
  | zero => simp [Nat.le_zero.mp hij]
  | succ j ih =>
    rcases Nat.eq_or_lt_of_le hij with h | h
    · rw [h]
    · have hij' : i ≤ j := Nat.lt_succ_iff.mp h
      rw [← ih hij' (fun k hk hkj => hno k hk (Nat.lt_succ_of_lt hkj))]
      cases hu : tiles[j]? with
      | none =>
        unfold addedBefore
        have : (tiles.zip sizes)[j]? = none := by
          rw [List.getElem?_eq_none_iff] at hu ⊢
          simp only [List.length_zip]; omega
        rw [List.take_succ, this]; simp
      | some u =>
        cases hs : sizes[j]? with
        | none =>
          unfold addedBefore
          have : (tiles.zip sizes)[j]? = none := by
            rw [List.getElem?_eq_none_iff] at hs ⊢
            simp only [List.length_zip]; omega
          rw [List.take_succ, this]; simp
        | some s =>
          rw [addedBefore_succ tiles sizes t u j s hu hs]
          have : u ≠ t := by
            intro hut; exact hno j hij' (Nat.lt_succ_self j) (by rw [hu, hut])
          simp [this]

theorem NeighborUnpackPolicy.step_inv (heap : κ → ParticleTile P) (tiles : List κ)
    (sizes : List Nat) (offsets0 : List Nat) (hwf : ∀ t, (heap t).wf)
    (i : Nat) (st st' : (κ → ParticleTile P) × List Nat)
    (hinv : NeighborInv heap tiles sizes offsets0 i st)
    (h : NeighborUnpackPolicy.step tiles sizes st i = Res.ok st') :
    NeighborInv heap tiles sizes offsets0 (i + 1) st' := by
  obtain ⟨hlen, htake, hnn, hdata, hoff⟩ := hinv
  unfold NeighborUnpackPolicy.step at h
  rw [Res.bind_eq_ok] at h
  obtain ⟨u, hu, h⟩ := h
  rw [Res.bind_eq_ok] at h
  obtain ⟨s, hs, h⟩ := h
  rw [readNat_eq_ok] at hu hs
  simp only [Res.pure_eq, Res.ok.injEq] at h
  subst h
  have hadd := fun t => addedBefore_succ tiles sizes t u i s hu hs
  have hwfu := hwf u
  unfold ParticleTile.wf at hwfu
  refine ⟨?_, ?_, ?_, ?_, ?_⟩
  · simp [hlen]; omega
  · simp only []
    rw [List.take_append_of_le_length (by omega)]
    exact htake
  · intro t
    by_cases htu : t = u
    · subst htu
      simp [ParticleTile.setNumNeighbors, ParticleTile.resize, ParticleTile.getNumNeighbors,
        hnn, hadd]
      omega
    · have : ¬ u = t := fun h => htu h.symm
      simp [Function.update_noteq htu, hnn, hadd, this]
  · intro t
    by_cases htu : t = u
    · subst htu
      simp only [Function.update_same, ParticleTile.setNumNeighbors, ParticleTile.resize,
        ParticleTile.getNumNeighbors, ParticleTile.numParticles, hnn, hdata, hadd, if_true]
      rw [resize_of_le]
      · simp only [List.length_append, List.length_replicate, List.append_assoc,
          List.append_cancel_left_eq, ← List.replicate_add]
        congr 1
        omega
      · simp only [List.length_append, List.length_replicate]
        omega
    · have : ¬ u = t := fun h => htu h.symm
      simp [Function.update_noteq htu, hdata, hadd, this]
  · intro j t hj ht
    rcases Nat.lt_succ_iff_lt_or_eq.mp hj with hj' | hj'
    · have := hoff j t hj' ht
      rw [List.getElem?_append_left (by omega)]
      exact this
    · subst hj'
      rw [hu] at ht
      cases ht
      simp only []
      rw [← hlen, List.getElem?_concat_length]
      simp [ParticleTile.numTotalParticles, hdata]


theorem NeighborUnpackPolicy.resizeTiles_inv (heap : κ → ParticleTile P) (tiles : List κ)
    (sizes : List Nat) (offsets0 : List Nat) (hwf : ∀ t, (heap t).wf)
    (st : (κ → ParticleTile P) × List Nat)
    (h : NeighborUnpackPolicy.resizeTiles heap tiles sizes offsets0 = Res.ok st) :
    NeighborInv heap tiles sizes offsets0 sizes.length st := by
  unfold NeighborUnpackPolicy.resizeTiles at h
  refine loopM_range_inv _ (NeighborInv heap tiles sizes offsets0) sizes.length _ st ?_ ?_ h
  · refine ⟨by simp, by simp, ?_, ?_, ?_⟩
    · intro t; simp [addedBefore_zero]
    · intro t; simp [addedBefore_zero]
    · intro j t hj; omega
  · intro i s s' _ hinv hs
    exact NeighborUnpackPolicy.step_inv heap tiles sizes offsets0 hwf i s s' hinv hs

/-- A loop over `range n` that reads `tiles[i]` succeeds only if `tiles` has `n` entries. -/
theorem loopM_range_reads {σ : Type} (f : σ → Nat → Res σ) (tiles : List κ) (n : Nat)
    (hread : ∀ s i s', f s i = Res.ok s' → i < tiles.length) (s0 s : σ)
    (h : loopM f s0 (List.range n) = Res.ok s) : n ≤ tiles.length := by
  refine loopM_range_inv f (fun i _ => i ≤ tiles.length) n s0 s (Nat.zero_le _) ?_ h
  intro i s s' _ _ hs
  exact hread s i s' hs

theorem NeighborUnpackPolicy.step_reads (tiles : List κ) (sizes : List Nat)
    (st : (κ → ParticleTile P) × List Nat) (i : Nat) (st' : (κ → ParticleTile P) × List Nat)
    (h : NeighborUnpackPolicy.step tiles sizes st i = Res.ok st') : i < tiles.length := by
  unfold NeighborUnpackPolicy.step at h
  rw [Res.bind_eq_ok] at h
  obtain ⟨u, hu, -⟩ := h
  rw [readNat_eq_ok] at hu
  exact (List.getElem?_eq_some.mp hu).1

theorem RedistributeUnpackPolicy.initStep_inv (heap : κ → ParticleTile P) (tiles : List κ)
    (i : Nat) (ts ts' : κ → Nat) (hinv : RedistInitInv heap tiles i ts)
    (h : RedistributeUnpackPolicy.initStep heap tiles ts i = Res.ok ts') :
    RedistInitInv heap tiles (i + 1) ts' := by
  unfold RedistributeUnpackPolicy.initStep at h
  rw [Res.bind_eq_ok] at h
  obtain ⟨u, hu, h⟩ := h
  rw [readNat_eq_ok] at hu
  simp only [Res.pure_eq, Res.ok.injEq] at h
  subst h
  refine ⟨(List.getElem?_eq_some.mp hu).1, ?_⟩
  intro t
  rw [List.take_succ, hu]
  by_cases htu : t = u
  · subst htu; simp
  · simp [Function.update_noteq htu, hinv.2 t, htu]

theorem RedistributeUnpackPolicy.offsetStep_inv (ts0 : κ → Nat) (tiles : List κ)
    (sizes : List Nat) (offsets0 : List Nat) (i : Nat) (st st' : (κ → Nat) × List Nat)
    (hinv : RedistOffsetInv ts0 tiles sizes offsets0 i st)
    (h : RedistributeUnpackPolicy.offsetStep tiles sizes st i = Res.ok st') :
    RedistOffsetInv ts0 tiles sizes offsets0 (i + 1) st' := by
  obtain ⟨hlen, htake, hts, hoff⟩ := hinv
  unfold RedistributeUnpackPolicy.offsetStep at h
  rw [Res.bind_eq_ok] at h
  obtain ⟨u, hu, h⟩ := h
  rw [Res.bind_eq_ok] at h
  obtain ⟨s, hs, h⟩ := h
  rw [readNat_eq_ok] at hu hs
  simp only [Res.pure_eq, Res.ok.injEq] at h
  subst h
  have hadd := fun t => addedBefore_succ tiles sizes t u i s hu hs
  refine ⟨?_, ?_, ?_, ?_⟩
  · simp [hlen]; omega
  · simp only []
    rw [List.take_append_of_le_length (by omega)]
    exact htake
  · intro t
    by_cases htu : t = u
    · subst htu; simp [hts, hadd]; omega
    · have : ¬ u = t := fun h => htu h.symm
      simp [Function.update_noteq htu, hts, hadd, this]
  · intro j t hj ht
    rcases Nat.lt_succ_iff_lt_or_eq.mp hj with hj' | hj'
    · have := hoff j t hj' ht
      rw [List.getElem?_append_left (by omega)]
      exact this
    · subst hj'
      rw [hu] at ht
      cases ht
      simp only []
      rw [← hlen, List.getElem?_concat_length]
      simp [hts]

theorem RedistributeUnpackPolicy.resizeAll_apply (ts : κ → Nat) (keys : List κ)
    (hnd : keys.Nodup) (heap : κ → ParticleTile P) (t : κ) :
    RedistributeUnpackPolicy.resizeAll ts heap keys t =
      if t ∈ keys then (heap t).resize (ts t) else heap t := by
  unfold RedistributeUnpackPolicy.resizeAll
  induction keys generalizing heap with
  | nil => simp
  | cons k ks ih =>
    rw [List.foldl_cons, ih (List.nodup_cons.mp hnd).2]
    have hk : k ∉ ks := (List.nodup_cons.mp hnd).1
    by_cases htk : t = k
    · subst htk; simp [hk]
    · by_cases hmem : t ∈ ks
      · simp [hmem, Function.update_noteq htk]
      · simp [hmem, htk, Function.update_noteq htk]

/-- What `RedistributeUnpackPolicy::resizeTiles` computes. -/
theorem RedistributeUnpackPolicy.resizeTiles_spec (heap : κ → ParticleTile P) (tiles : List κ)
    (sizes : List Nat) (offsets0 : List Nat) (st : (κ → ParticleTile P) × List Nat)
    (h : RedistributeUnpackPolicy.resizeTiles heap tiles sizes offsets0 = Res.ok st) :
    sizes.length ≤ tiles.length ∧
    st.2.length = offsets0.length + sizes.length ∧ st.2.take offsets0.length = offsets0 ∧
    (∀ t, st.1 t = if t ∈ tiles.take sizes.length then
        (heap t).resize ((heap t).numParticles + addedBefore tiles sizes t sizes.length)
      else heap t) ∧
    (∀ j t, j < sizes.length → tiles[j]? = some t →
      st.2[offsets0.length + j]? = some ((heap t).numParticles + addedBefore tiles sizes t j)) := by
  unfold RedistributeUnpackPolicy.resizeTiles at h
  rw [Res.bind_eq_ok] at h
  obtain ⟨ts0, h0, h⟩ := h
  rw [Res.bind_eq_ok] at h
  obtain ⟨⟨ts, offs⟩, h1, h⟩ := h
  simp only [Res.pure_eq, Res.ok.injEq] at h
  subst h
  have inv0 : RedistInitInv heap tiles sizes.length ts0 :=
    loopM_range_inv _ (RedistInitInv heap tiles) sizes.length _ ts0
      ⟨Nat.zero_le _, by intro t; simp⟩
      (fun i s s' _ hinv hs => RedistributeUnpackPolicy.initStep_inv heap tiles i s s' hinv hs) h0
  have inv1 : RedistOffsetInv ts0 tiles sizes offsets0 sizes.length (ts, offs) :=
    loopM_range_inv _ (RedistOffsetInv ts0 tiles sizes offsets0) sizes.length _ (ts, offs)
      ⟨by simp, by simp, by intro t; simp [addedBefore_zero], by intro j t hj; omega⟩
      (fun i s s' _ hinv hs =>
        RedistributeUnpackPolicy.offsetStep_inv ts0 tiles sizes offsets0 i s s' hinv hs) h1
  obtain ⟨hlen, htake, hts, hoff⟩ := inv1
  refine ⟨inv0.1, hlen, htake, ?_, ?_⟩
  · intro t
    simp only []
    unfold RedistributeUnpackPolicy.keys
    rw [RedistributeUnpackPolicy.resizeAll_apply ts _ (List.nodup_dedup _)]
    simp only [List.mem_dedup]
    by_cases hmem : t ∈ tiles.take sizes.length
    · have e1 : ts t = ts0 t + addedBefore tiles sizes t sizes.length := hts t
      have e2 := inv0.2 t
      rw [if_pos hmem] at e2
      rw [if_pos hmem, if_pos hmem, e1, e2]
    · simp [hmem]
  · intro j t hj ht
    have hmem : t ∈ tiles.take sizes.length := by
      rw [List.mem_iff_getElem?]
      exact ⟨j, by rw [List.getElem?_take_of_lt hj]; exact ht⟩
    have := hoff j t hj ht
    rw [inv0.2 t] at this
    simpa [hmem] using this

end Policies

section Policies
variable {κ P : Type} [DecidableEq κ] [Inhabited P]

theorem loopM_range_split {σ : Type} (f : σ → Nat → Res σ) (n : Nat) (s0 s : σ)
    (h : loopM f s0 (List.range n) = Res.ok s) (i : Nat) (hi : i ≤ n) :
    ∃ si, loopM f s0 (List.range i) = Res.ok si ∧
      loopM f si (List.range' i (n - i)) = Res.ok s := by
  have hsplit : List.range n = List.range i ++ List.range' i (n - i) := by
    rw [List.range_eq_range', List.range_eq_range']
    have := List.range'_append 0 i (n - i) 1
    simp only [Nat.zero_add, Nat.one_mul] at this
    rw [this]
    congr 1
    omega
  rw [hsplit, loopM_append, Res.bind_eq_ok] at h
  exact h


theorem NeighborUnpackPolicy.prefix_inv (heap : κ → ParticleTile P) (tiles : List κ)
    (sizes : List Nat) (offsets0 : List Nat) (hwf : ∀ t, (heap t).wf) (i : Nat)
    (st : (κ → ParticleTile P) × List Nat)
    (h : loopM (NeighborUnpackPolicy.step tiles sizes) (heap, offsets0) (List.range i) =
      Res.ok st) :
    NeighborInv heap tiles sizes offsets0 i st := by
  refine loopM_range_inv _ (NeighborInv heap tiles sizes offsets0) i _ st ?_ ?_ h
  · refine ⟨by simp, by simp, ?_, ?_, ?_⟩
    · intro t; simp [addedBefore_zero]
    · intro t; simp [addedBefore_zero]
    · intro j t hj; omega
  · intro k s s' _ hinv hs
    exact NeighborUnpackPolicy.step_inv heap tiles sizes offsets0 hwf k s s' hinv hs

/-- C10. `NeighborUnpackPolicy::resizeTiles` never changes a tile's primary particle count
(`numParticles`); the neighbor count of a tile grows by the sizes of its entries; and for every
entry `i`, in the state `before` reached after the entries `0 .. i-1`, the offset returned is
the tile's total count `numTotalParticles` (primary plus neighbor), and the iteration for entry
`i` adds exactly `sizes[i]` to the neighbor count of that tile, leaves its primary count alone
and leaves every other tile alone. -/
theorem NeighborUnpackPolicy.resizeTiles_grows_neighbors_only
    (heap : κ → ParticleTile P) (tiles : List κ) (sizes : List Nat)
    (heap' : κ → ParticleTile P) (offsets : List Nat) (hwf : ∀ t, (heap t).wf)
    (h : NeighborUnpackPolicy.resizeTiles heap tiles sizes [] = Res.ok (heap', offsets)) :
    offsets.length = sizes.length ∧
    (∀ t, (heap' t).numParticles = (heap t).numParticles) ∧
    (∀ t, (heap' t).getNumNeighbors =
      (heap t).getNumNeighbors + addedBefore tiles sizes t sizes.length) ∧
    (∀ (i : Nat) (t : κ) (s : Nat), tiles[i]? = some t → sizes[i]? = some s →
      ∃ before after : (κ → ParticleTile P) × List Nat,
        loopM (NeighborUnpackPolicy.step tiles sizes) (heap, []) (List.range i) = Res.ok before ∧
        NeighborUnpackPolicy.step tiles sizes before i = Res.ok after ∧
        offsets[i]? = some (before.1 t).numTotalParticles ∧
        (after.1 t).getNumNeighbors = (before.1 t).getNumNeighbors + s ∧
        (after.1 t).numParticles = (before.1 t).numParticles ∧
        (∀ u, u ≠ t → after.1 u = before.1 u)) := by
  have hN := NeighborUnpackPolicy.resizeTiles_inv heap tiles sizes [] hwf (heap', offsets) h
  obtain ⟨hlen, -, hnn, hdata, hoff⟩ := hN
  dsimp only at hlen hnn hdata hoff
  have hw := fun t => hwf t
  simp only [ParticleTile.wf] at hw
  refine ⟨by simpa using hlen, ?_, ?_, ?_⟩
  · intro t
    have := hw t
    simp only [ParticleTile.numParticles, hnn t, hdata t, List.length_append,
      List.length_replicate]
    omega
  · intro t
    simp only [ParticleTile.getNumNeighbors, hnn t]
  · intro i t s ht hs
    have hi : i < sizes.length := (List.getElem?_eq_some.mp hs).1
    unfold NeighborUnpackPolicy.resizeTiles at h
    obtain ⟨before, hb, hrest⟩ := loopM_range_split _ _ _ _ h i (Nat.le_of_lt hi)
    have hr : List.range' i (sizes.length - i) = i :: List.range' (i + 1) (sizes.length - i - 1) := by
      have : sizes.length - i = (sizes.length - i - 1) + 1 := by omega
      rw [this, List.range'_succ]
      simp
    rw [hr, loopM_cons, Res.bind_eq_ok] at hrest
    obtain ⟨after, ha, -⟩ := hrest
    have hbi := NeighborUnpackPolicy.prefix_inv heap tiles sizes [] hwf i before hb
    have hai := NeighborUnpackPolicy.step_inv heap tiles sizes [] hwf i before after hbi ha
    obtain ⟨-, -, bnn, bdata, -⟩ := hbi
    obtain ⟨-, -, ann, adata, -⟩ := hai
    have hadd := addedBefore_succ tiles sizes t t i s ht hs
    refine ⟨before, after, hb, ha, ?_, ?_, ?_, ?_⟩
    · have := hoff i t hi ht
      simp only [List.length_nil, Nat.zero_add] at this
      rw [this]
      simp [ParticleTile.numTotalParticles, bdata t]
    · simp only [ParticleTile.getNumNeighbors, ann t, bnn t, hadd, if_true]
      omega
    · have := hw t
      simp only [ParticleTile.numParticles, ann t, bnn t, adata t, bdata t, List.length_append,
        List.length_replicate]
      omega
    · intro u hu
      unfold NeighborUnpackPolicy.step at ha
      rw [Res.bind_eq_ok] at ha
      obtain ⟨t', ht', ha⟩ := ha
      rw [Res.bind_eq_ok] at ha
      obtain ⟨s', -, ha⟩ := ha
      rw [readNat_eq_ok] at ht'
      rw [ht] at ht'
      cases ht'
      simp only [Res.pure_eq, Res.ok.injEq] at ha
      subst ha
      simp [Function.update_noteq hu]

/-- Witness for C10: three entries over two tiles, tile `0` named twice. -/
theorem NeighborUnpackPolicy.resizeTiles_grows_neighbors_only_witness :
    (∀ t, (exampleHeap t).wf) ∧
    NeighborUnpackPolicy.resizeTiles exampleHeap [0, 1, 0] [2, 1, 3] [] =
      Res.ok ((NeighborUnpackPolicy.resizeTiles exampleHeap [0, 1, 0] [2, 1, 3] []).getD
        (exampleHeap, [])) ∧
    ((NeighborUnpackPolicy.resizeTiles exampleHeap [0, 1, 0] [2, 1, 3] []).getD
        (exampleHeap, [])).2 = [3, 3, 5] ∧
    (∀ t, (((NeighborUnpackPolicy.resizeTiles exampleHeap [0, 1, 0] [2, 1, 3] []).getD
        (exampleHeap, [])).1 t).numParticles = (exampleHeap t).numParticles) :=
  ⟨fun _ => (by decide : (1 : Nat) ≤ 3), rfl, rfl,
    (NeighborUnpackPolicy.resizeTiles_grows_neighbors_only exampleHeap [0, 1, 0] [2, 1, 3] _ _
      (fun _ => (by decide : (1 : Nat) ≤ 3)) rfl).2.1⟩


theorem ParticleTile.numParticles_resize (t : ParticleTile P) (count : Nat) :
    (t.resize count).numParticles = count := by
  simp [ParticleTile.numParticles, ParticleTile.resize, resize_length]

/-- Offsets of the form `base t + addedBefore t i` give ranges that are disjoint within a tile
and lie between `base t` and `base t` plus everything added for `t`. -/
theorem ranges_of_closed_form (base : κ → Nat) (tiles : List κ) (sizes offsets : List Nat)
    (hlen : offsets.length = sizes.length)
    (hoff : ∀ j t, j < sizes.length → tiles[j]? = some t →
      offsets[j]? = some (base t + addedBefore tiles sizes t j)) :
    RangesDisjoint tiles sizes offsets ∧
    ∀ (i : Nat) (t : κ) (s o : Nat), tiles[i]? = some t → sizes[i]? = some s →
      offsets[i]? = some o →
      base t ≤ o ∧ o + s ≤ base t + addedBefore tiles sizes t sizes.length := by
  have hkey : ∀ (i : Nat) (t : κ) (s o : Nat), tiles[i]? = some t → sizes[i]? = some s →
      offsets[i]? = some o → o = base t + addedBefore tiles sizes t i ∧
        o + s = base t + addedBefore tiles sizes t (i + 1) := by
    intro i t s o ht hs ho
    have hi : i < sizes.length := (List.getElem?_eq_some.mp hs).1
    have h1 := hoff i t hi ht
    rw [ho] at h1
    have h2 := addedBefore_succ tiles sizes t t i s ht hs
    simp only [if_true] at h2
    have h3 : o = base t + addedBefore tiles sizes t i := Option.some.inj h1
    exact ⟨h3, by omega⟩
  constructor
  · intro i j t s o o' hij hti htj hs ho ho'
    have hj : j < offsets.length := (List.getElem?_eq_some.mp ho').1
    have hjt : j < tiles.length := (List.getElem?_eq_some.mp htj).1
    obtain ⟨-, e1⟩ := hkey i t s o hti hs ho
    have hjs : j < sizes.length := by omega
    have h1 := hoff j t hjs htj
    rw [ho'] at h1
    have h3 : o' = base t + addedBefore tiles sizes t j := Option.some.inj h1
    have := addedBefore_mono tiles sizes t (show i + 1 ≤ j from hij)
    omega
  · intro i t s o ht hs ho
    obtain ⟨e0, e1⟩ := hkey i t s o ht hs ho
    have hi : i < sizes.length := (List.getElem?_eq_some.mp hs).1
    have := addedBefore_mono tiles sizes t (show i + 1 ≤ sizes.length from hi)
    omega

/-- C8, as amended. For both growth policies `resizeTiles` returns one offset per entry; the
ranges `[offset_i, offset_i + size_i)` of entries that refer to the same tile are pairwise
disjoint (also when a tile occurs several times); and every range lies between the tile's count
before the call and its count after the call, where the count is the total record count
(`numTotalParticles`) for `NeighborUnpackPolicy` and the primary particle count
(`numParticles`) for `RedistributeUnpackPolicy`. -/
theorem UnpackPolicy.resizeTiles_ranges (policy : UnpackPolicy)
    (heap : κ → ParticleTile P) (tiles : List κ) (sizes : List Nat)
    (heap' : κ → ParticleTile P) (offsets : List Nat) (hwf : ∀ t, (heap t).wf)
    (h : policy.resizeTiles heap tiles sizes [] = Res.ok (heap', offsets)) :
    offsets.length = sizes.length ∧ RangesDisjoint tiles sizes offsets ∧
    RangesWithin policy.recordCount heap heap' tiles sizes offsets := by
  cases policy with
  | neighbor =>
    have hN := NeighborUnpackPolicy.resizeTiles_inv heap tiles sizes [] hwf (heap', offsets) h
    obtain ⟨hlen, -, -, hdata, hoff⟩ := hN
    dsimp only at hlen hdata hoff
    simp only [List.length_nil, Nat.zero_add] at hlen hoff
    obtain ⟨hd, hw⟩ := ranges_of_closed_form (fun t => (heap t).m_data.length) tiles sizes
      offsets hlen hoff
    refine ⟨hlen, hd, ?_⟩
    intro i t s o ht hs ho
    have := hw i t s o ht hs ho
    simpa [UnpackPolicy.recordCount, ParticleTile.numTotalParticles, hdata t] using this
  | redistribute =>
    obtain ⟨-, hlen, -, hheap, hoff⟩ :=
      RedistributeUnpackPolicy.resizeTiles_spec heap tiles sizes [] (heap', offsets) h
    dsimp only at hlen hheap hoff
    simp only [List.length_nil, Nat.zero_add] at hlen hoff
    obtain ⟨hd, hw⟩ := ranges_of_closed_form (fun t => (heap t).numParticles) tiles sizes
      offsets hlen hoff
    refine ⟨hlen, hd, ?_⟩
    intro i t s o ht hs ho
    have := hw i t s o ht hs ho
    have hi : i < sizes.length := (List.getElem?_eq_some.mp hs).1
    have hmem : t ∈ tiles.take sizes.length := by
      rw [List.mem_iff_getElem?]
      exact ⟨i, by rw [List.getElem?_take_of_lt hi]; exact ht⟩
    simp only [UnpackPolicy.recordCount, hheap t, if_pos hmem,
      ParticleTile.numParticles_resize]
    exact this

/-- Witness for C8 (amended): the redistribute policy on three entries, tile `0` named twice,
every tile holding a neighbor record. -/
theorem UnpackPolicy.resizeTiles_ranges_witness :
    (∀ t, (exampleHeap t).wf) ∧
    UnpackPolicy.redistribute.resizeTiles exampleHeap [0, 1, 0] [2, 1, 3] [] =
      Res.ok ((UnpackPolicy.redistribute.resizeTiles exampleHeap [0, 1, 0] [2, 1, 3] []).getD
        (exampleHeap, [])) ∧
    ((UnpackPolicy.redistribute.resizeTiles exampleHeap [0, 1, 0] [2, 1, 3] []).getD
        (exampleHeap, [])).2 = [2, 2, 4] ∧
    RangesDisjoint [0, 1, 0] [2, 1, 3]
      ((UnpackPolicy.redistribute.resizeTiles exampleHeap [0, 1, 0] [2, 1, 3] []).getD
        (exampleHeap, [])).2 :=
  ⟨fun _ => (by decide : (1 : Nat) ≤ 3), rfl, rfl,
    (UnpackPolicy.resizeTiles_ranges UnpackPolicy.redistribute exampleHeap [0, 1, 0] [2, 1, 3]
      _ _ (fun _ => (by decide : (1 : Nat) ≤ 3)) rfl).2.1⟩

/-- C8, counterexample to the claim as stated (ranges between the tile's record counts before
and after the call, for both policies): the redistribute policy on a tile with two primary
particles and one neighbor returns offset `2` for a single entry of size `1`, below the tile's
record count `3` before the call. -/
theorem UnpackPolicy.resizeTiles_total_count_counterexample :
    UnpackPolicy.redistribute.resizeTiles exampleHeap [0] [1] [] =
      Res.ok ((UnpackPolicy.redistribute.resizeTiles exampleHeap [0] [1] []).getD
        (exampleHeap, [])) ∧
    ((UnpackPolicy.redistribute.resizeTiles exampleHeap [0] [1] []).getD (exampleHeap, [])).2
      = [2] ∧
    (exampleHeap 0).numTotalParticles = 3 ∧
    ¬ RangesWithin ParticleTile.numTotalParticles exampleHeap
      ((UnpackPolicy.redistribute.resizeTiles exampleHeap [0] [1] []).getD (exampleHeap, [])).1
      [0] [1]
      ((UnpackPolicy.redistribute.resizeTiles exampleHeap [0] [1] []).getD (exampleHeap, [])).2 :=
  ⟨rfl, rfl, rfl, fun hR => absurd (hR 0 0 1 2 rfl rfl rfl).1 (by decide)⟩


/-- C9. `RedistributeUnpackPolicy::resizeTiles` performs one `resize` for each distinct tile
of the list (`keys` has no repetition and holds exactly the tiles of the entries), to the
tile's primary particle count before the call plus the sum of the sizes of all entries that
refer to it; tiles that are not in the list are untouched. The offsets of the entries of one
tile, in entry order, start at the old primary count (first entry), continue where the previous
entry of the same tile ended (consecutive entries) and end at the new primary count (last
entry). -/
theorem RedistributeUnpackPolicy.resizeTiles_one_resize_per_tile
    (heap : κ → ParticleTile P) (tiles : List κ) (sizes : List Nat)
    (heap' : κ → ParticleTile P) (offsets : List Nat)
    (h : RedistributeUnpackPolicy.resizeTiles heap tiles sizes [] = Res.ok (heap', offsets)) :
    offsets.length = sizes.length ∧
    (RedistributeUnpackPolicy.keys tiles sizes.length).Nodup ∧
    (∀ t, t ∈ RedistributeUnpackPolicy.keys tiles sizes.length ↔ t ∈ tiles.take sizes.length) ∧
    heap' = RedistributeUnpackPolicy.resizeAll
      (fun t => (heap t).numParticles + addedBefore tiles sizes t sizes.length) heap
      (RedistributeUnpackPolicy.keys tiles sizes.length) ∧
    (∀ t, t ∈ tiles.take sizes.length →
      heap' t = (heap t).resize ((heap t).numParticles + addedBefore tiles sizes t sizes.length) ∧
      (heap' t).numParticles = (heap t).numParticles + addedBefore tiles sizes t sizes.length) ∧
    (∀ t, t ∉ tiles.take sizes.length → heap' t = heap t) ∧
    (∀ (i : Nat) (t : κ), i < sizes.length → tiles[i]? = some t →
      (∀ k, k < i → tiles[k]? ≠ some t) → offsets[i]? = some (heap t).numParticles) ∧
    (∀ (i j : Nat) (t : κ) (s o : Nat), i < j → j < sizes.length → tiles[i]? = some t →
      tiles[j]? = some t → sizes[i]? = some s → offsets[i]? = some o →
      (∀ k, i < k → k < j → tiles[k]? ≠ some t) → offsets[j]? = some (o + s)) ∧
    (∀ (i : Nat) (t : κ) (s o : Nat), tiles[i]? = some t → sizes[i]? = some s →
      offsets[i]? = some o → (∀ k, i < k → k < sizes.length → tiles[k]? ≠ some t) →
      o + s = (heap' t).numParticles) := by
  obtain ⟨-, hlen, -, hheap, hoff⟩ :=
    RedistributeUnpackPolicy.resizeTiles_spec heap tiles sizes [] (heap', offsets) h
  dsimp only at hlen hheap hoff
  simp only [List.length_nil, Nat.zero_add] at hlen hoff
  have hkeys : ∀ t, t ∈ RedistributeUnpackPolicy.keys tiles sizes.length ↔
      t ∈ tiles.take sizes.length := by
    intro t; simp [RedistributeUnpackPolicy.keys]
  have hnd : (RedistributeUnpackPolicy.keys tiles sizes.length).Nodup := List.nodup_dedup _
  have hsucc : ∀ (i : Nat) (t : κ) (s o : Nat), tiles[i]? = some t → sizes[i]? = some s →
      offsets[i]? = some o → o + s = (heap t).numParticles + addedBefore tiles sizes t (i + 1) := by
    intro i t s o ht hs ho
    have hi : i < sizes.length := (List.getElem?_eq_some.mp hs).1
    have h1 := hoff i t hi ht
    rw [ho] at h1
    have h2 := addedBefore_succ tiles sizes t t i s ht hs
    simp only [if_true] at h2
    have h3 : o = (heap t).numParticles + addedBefore tiles sizes t i := Option.some.inj h1
    omega
  refine ⟨hlen, hnd, hkeys, ?_, ?_, ?_, ?_, ?_, ?_⟩
  · funext t
    rw [RedistributeUnpackPolicy.resizeAll_apply _ _ hnd, hheap t]
    simp only [hkeys t]
  · intro t ht
    have e := hheap t
    rw [if_pos ht] at e
    exact ⟨e, by rw [e, ParticleTile.numParticles_resize]⟩
  · intro t ht
    have e := hheap t
    rw [if_neg ht] at e
    exact e
  · intro i t hi ht hfirst
    rw [hoff i t hi ht,
      addedBefore_eq_of_no_entry tiles sizes t 0 i (Nat.zero_le _) (fun k _ hk => hfirst k hk),
      addedBefore_zero]
    rfl
  · intro i j t s o hij hj hti htj hs ho hno
    rw [hoff j t hj htj,
      addedBefore_eq_of_no_entry tiles sizes t (i + 1) j hij (fun k hk hkj => hno k hk hkj),
      ← hsucc i t s o hti hs ho]
  · intro i t s o ht hs ho hno
    have hi : i < sizes.length := (List.getElem?_eq_some.mp hs).1
    have hmem : t ∈ tiles.take sizes.length := by
      rw [List.mem_iff_getElem?]
      exact ⟨i, by rw [List.getElem?_take_of_lt hi]; exact ht⟩
    rw [hheap t, if_pos hmem, ParticleTile.numParticles_resize, hsucc i t s o ht hs ho,
      addedBefore_eq_of_no_entry tiles sizes t (i + 1) sizes.length hi
        (fun k hk hkj => hno k hk hkj)]

/-- Witness for C9: three entries over two tiles, tile `0` named twice. -/
theorem RedistributeUnpackPolicy.resizeTiles_one_resize_per_tile_witness :
    RedistributeUnpackPolicy.resizeTiles exampleHeap [0, 1, 0] [2, 1, 3] [] =
      Res.ok ((RedistributeUnpackPolicy.resizeTiles exampleHeap [0, 1, 0] [2, 1, 3] []).getD
        (exampleHeap, [])) ∧
    ((RedistributeUnpackPolicy.resizeTiles exampleHeap [0, 1, 0] [2, 1, 3] []).getD
        (exampleHeap, [])).2 = [2, 2, 4] ∧
    RedistributeUnpackPolicy.keys [0, 1, 0] 3 = [1, 0] ∧
    ((RedistributeUnpackPolicy.resizeTiles exampleHeap [0, 1, 0] [2, 1, 3] []).getD
        (exampleHeap, [])).2.length = 3 :=
  ⟨rfl, rfl, by decide,
    (RedistributeUnpackPolicy.resizeTiles_one_resize_per_tile exampleHeap [0, 1, 0] [2, 1, 3]
      _ _ rfl).1⟩

end Policies
/-! ## Arithmetic of 32-bit values -/

theorem u32add_of_lt (a b : Nat) (h : a + b < 4294967296) : u32add a b = a + b := by
  unfold u32add
  exact Nat.mod_eq_of_lt h

theorem toInt32_of_lt (u : Nat) (h : u < 2147483648) : toInt32 u = (u : Int) := by
  unfold toInt32
  have : u % 4294967296 = u := Nat.mod_eq_of_lt (by omega)
  rw [this, if_pos h]

theorem toUInt32_of_lt (n : Nat) (h : n < 4294967296) : toUInt32 (n : Int) = n := by
  unfold toUInt32
  have : ((n : Int) % 4294967296) = (n : Int) := Int.emod_eq_of_lt (by omega) (by omega)
  rw [this]
  simp

/-! ## Lists of counters -/

theorem sum_set_add (l : List Nat) (i v : Nat) (h : i < l.length) :
    (l.set i v).sum + l[i] = l.sum + v := by
  induction l generalizing i with
  | nil => simp at h
  | cons x xs ih =>
    cases i with
    | zero => simp; omega
    | succ i =>
      simp only [List.set_cons_succ, List.sum_cons, List.getElem_cons_succ]
      have := ih i (by simpa using h)
      omega

theorem le_sum_of_getElem? (l : List Nat) (i v : Nat) (h : l[i]? = some v) : v ≤ l.sum := by
  obtain ⟨hi, rfl⟩ := List.getElem?_eq_some.mp h
  exact List.single_le_sum (by simp) _ (List.getElem_mem hi)

theorem sum_take_succ (l : List Nat) (i v : Nat) (h : l[i]? = some v) :
    (l.take (i + 1)).sum = (l.take i).sum + v := by
  rw [List.take_succ, h]
  simp

theorem sum_take_le (l : List Nat) (i : Nat) : (l.take i).sum ≤ l.sum := by
  have h := congrArg List.sum (List.take_append_drop i l)
  rw [List.sum_append] at h
  omega

theorem sum_take_mono (l : List Nat) {i j : Nat} (h : i ≤ j) :
    (l.take i).sum ≤ (l.take j).sum := by
  have : l.take i = (l.take j).take i := by
    rw [List.take_take, Nat.min_eq_left h]
  rw [this]
  exact sum_take_le _ _

/-- Without wrap-around the scan writes the running sums. -/
theorem exclusive_scan_length (acc : Nat) (xs : List Nat) :
    (exclusive_scan acc xs).length = xs.length := by
  induction xs generalizing acc with
  | nil => rfl
  | cons x xs ih => simp [exclusive_scan, ih]

theorem exclusive_scan_getElem? (acc : Nat) (xs : List Nat) (k : Nat) (hk : k < xs.length)
    (hsum : acc + (xs.take k).sum < 4294967296) :
    (exclusive_scan acc xs)[k]? = some (acc + (xs.take k).sum) := by
  induction xs generalizing acc k with
  | nil => simp at hk
  | cons x xs ih =>
    cases k with
    | zero => simp [exclusive_scan]
    | succ k =>
      simp only [exclusive_scan, List.getElem?_cons_succ, List.take_succ_cons, List.sum_cons]
      simp only [List.take_succ_cons, List.sum_cons] at hsum
      have hax : u32add acc x = acc + x := u32add_of_lt _ _ (by omega)
      rw [hax, ih (acc + x) k (by simpa using hk) (by omega)]
      congr 1
      omega

theorem take_succ_set {α : Type} (l : List α) (k : Nat) (c : α) (h : k < l.length) :
    (l.set k c).take (k + 1) = l.take k ++ [c] := by
  apply List.ext_getElem?
  intro i
  by_cases hi : i < k
  · rw [List.getElem?_take_of_lt (by omega), List.getElem?_set,
      List.getElem?_append_left (by simp; omega), List.getElem?_take_of_lt hi]
    simp [show ¬ k = i by omega]
  · by_cases hik : i = k
    · subst hik
      rw [List.getElem?_take_of_lt (by omega), List.getElem?_set,
        List.getElem?_append_right (by simp)]
      simp [h, Nat.min_eq_left (Nat.le_of_lt h)]
    · rw [List.getElem?_eq_none (by simp; omega), List.getElem?_eq_none (by simp; omega)]

/-! ## The first loop of `ParticleLocator::build` -/

theorem ParticleLocator.countStep_inv (boxes : List Box) (lo hi bin_size : Dim3) (n B : Nat)
    (hn : n < 4294967296) (k : Nat) (hk : k < n) (st st' : List Nat × List Nat)
    (hinv : CountInv n B k st)
    (h : ParticleLocator.countStep boxes lo hi bin_size st k = Res.ok st') :
    CountInv n B (k + 1) st' := by
  obtain ⟨hcl, hnl, hcells, hcounts, hsum⟩ := hinv
  unfold ParticleLocator.countStep at h
  rw [Res.bind_eq_ok] at h
  obtain ⟨box, -, h⟩ := h
  rw [Res.bind_eq_ok] at h
  obtain ⟨c, -, h⟩ := h
  rw [Res.bind_eq_ok] at h
  obtain ⟨cells', hw1, h⟩ := h
  rw [Res.bind_eq_ok] at h
  obtain ⟨old, hr, h⟩ := h
  rw [Res.bind_eq_ok] at h
  obtain ⟨counts', hw2, h⟩ := h
  simp only [Res.pure_eq, Res.ok.injEq] at h
  subst h
  rw [writeNat_eq_ok] at hw1 hw2
  rw [readNat_eq_ok] at hr
  obtain ⟨hk1, rfl⟩ := hw1
  obtain ⟨hc, rfl⟩ := hw2
  have hold : old = (st.1.take k).count c := hcounts c old hr
  have hold_le : old ≤ k := by
    have := le_sum_of_getElem? st.2 c old hr
    omega
  have hadd : u32add old 1 = old + 1 := u32add_of_lt _ _ (by omega)
  have htake : (st.1.set k c).take (k + 1) = st.1.take k ++ [c] := take_succ_set _ _ _ hk1
  refine ⟨by simp [hcl], by simp [hnl], ?_, ?_, ?_⟩
  · intro i c' hi hci
    dsimp only at hci
    rw [List.getElem?_set] at hci
    by_cases hik : k = i
    · subst hik
      simp only [if_true, hk1] at hci
      cases hci
      omega
    · rw [if_neg hik] at hci
      exact hcells i c' (by omega) hci
  · intro b v hb
    dsimp only at hb ⊢
    rw [htake, List.count_append]
    rw [List.getElem?_set] at hb
    by_cases hcb : c = b
    · subst hcb
      simp only [if_true, hc] at hb
      cases hb
      rw [hadd, hold]
      simp
    · rw [if_neg hcb] at hb
      have := hcounts b v hb
      have hcb' : ¬ b = c := fun h => hcb h.symm
      simp [this, List.count_singleton, hcb']
  · dsimp only
    rw [hadd]
    have := sum_set_add st.2 c (old + 1) hc
    have hget : st.2[c] = old := by
      have := List.getElem?_eq_some.mp hr
      exact this.2
    rw [hget] at this
    omega

theorem ParticleLocator.countLoop_inv (boxes : List Box) (lo hi bin_size : Dim3) (n B : Nat)
    (hn : n < 4294967296) (cells0 cells counts1 : List Nat) (hc0 : cells0.length = n)
    (h : loopM (ParticleLocator.countStep boxes lo hi bin_size) (cells0, List.replicate B 0)
      (List.range n) = Res.ok (cells, counts1)) :
    CountInv n B n (cells, counts1) := by
  refine loopM_range_inv _ (CountInv n B) n _ _ ?_ ?_ h
  · refine ⟨hc0, by simp, ?_, ?_, by simp⟩
    · intro i c hi; omega
    · intro b v hb
      rw [List.getElem?_replicate] at hb
      split at hb
      · cases hb; simp
      · cases hb
  · intro i s s' hin hinv hs
    exact ParticleLocator.countStep_inv boxes lo hi bin_size n B hn i hin s s' hinv hs

/-! ## The second loop of `ParticleLocator::build` -/

theorem binSegment_append (cells done : List Nat) (x b : Nat) :
    binSegment cells (done ++ [x]) b =
      binSegment cells done b ++ if cells[x]? = some b then [x] else [] := by
  unfold binSegment
  rw [List.filter_append]
  by_cases h : cells[x]? = some b <;> simp [h]

theorem binSegment_length_le (cells done rest : List Nat) (b : Nat) :
    (binSegment cells done b).length ≤ (binSegment cells (done ++ rest) b).length := by
  unfold binSegment
  rw [List.filter_append, List.length_append]
  omega

theorem binSegment_range_length (cells : List Nat) (b : Nat) :
    (binSegment cells (List.range cells.length) b).length = cells.count b := by
  unfold binSegment
  rw [← List.countP_eq_length_filter]
  have h1 : cells.map some = (List.range cells.length).map fun i => cells[i]? := by
    apply List.ext_getElem?
    intro i
    by_cases hi : i < cells.length
    · simp [hi, List.getElem?_range hi]
    · rw [List.getElem?_eq_none (by simp; omega), List.getElem?_eq_none (by simp; omega)]
  have h2 : List.countP (fun o => o == some b) (cells.map some) = cells.count b := by
    rw [List.countP_map, List.count]
    congr 1
  have h3 := congrArg (List.countP (fun o => o == some b)) h1
  rw [h2, List.countP_map] at h3
  rw [h3]
  congr 1

theorem binSegment_perm_length (cells order : List Nat) (b : Nat)
    (h : order.Perm (List.range cells.length)) :
    (binSegment cells order b).length = cells.count b := by
  rw [← binSegment_range_length cells b]
  unfold binSegment
  exact (h.filter _).length_eq

theorem binSegment_mem (cells done : List Nat) (b i : Nat) (h : i ∈ binSegment cells done b) :
    i ∈ done ∧ cells[i]? = some b := by
  unfold binSegment at h
  rw [List.mem_filter] at h
  exact ⟨h.1, by simpa using h.2⟩

theorem ParticleLocator.placeStep_inv (cells counts1 : List Nat) (n : Nat)
    (hn : n < 4294967296) (hcl : cells.length = n) (hsum : counts1.sum = n)
    (hcount : ∀ b v, counts1[b]? = some v → v = cells.count b)
    (order : List Nat) (horder : order.Perm (List.range n))
    (done : List Nat) (x : Nat) (rest : List Nat) (hxs : done ++ x :: rest = order)
    (st st' : List Nat × List Nat) (hinv : PlaceInv cells counts1 n done st)
    (h : ParticleLocator.placeStep cells st x = Res.ok st') :
    PlaceInv cells counts1 n (done ++ [x]) st' := by
  obtain ⟨hlen, hplen, hctr, hslot⟩ := hinv
  unfold ParticleLocator.placeStep at h
  rw [Res.bind_eq_ok] at h
  obtain ⟨c, hrc, h⟩ := h
  rw [Res.bind_eq_ok] at h
  obtain ⟨old, hro, h⟩ := h
  rw [Res.bind_eq_ok] at h
  obtain ⟨counts', hw1, h⟩ := h
  rw [Res.bind_eq_ok] at h
  obtain ⟨perm', hw2, h⟩ := h
  simp only [Res.pure_eq, Res.ok.injEq] at h
  subst h
  rw [readNat_eq_ok] at hrc hro
  rw [writeNat_eq_ok] at hw1 hw2
  simp only [atomicInc] at hw1 hw2
  obtain ⟨hc, rfl⟩ := hw1
  obtain ⟨hold, rfl⟩ := hw2
  have hcB : c < counts1.length := by omega
  obtain ⟨v, hv⟩ : ∃ v, counts1[c]? = some v := ⟨counts1[c], List.getElem?_eq_getElem hcB⟩
  have hvc := hcount c v hv
  have hold_eq : old = (counts1.take c).sum + (binSegment cells done c).length := by
    have := hctr c v hv
    rw [hro] at this
    exact Option.some.inj this
  -- the segment of a bin never holds more boxes than the bin
  have hseg_le : ∀ b, (binSegment cells (done ++ [x]) b).length ≤ cells.count b := by
    intro b
    rw [← binSegment_perm_length cells order b (hcl ▸ horder), ← hxs]
    have : done ++ x :: rest = (done ++ [x]) ++ rest := by simp
    rw [this]
    exact binSegment_length_le _ _ _ _
  have hseg_c : (binSegment cells done c).length + 1 ≤ v := by
    have := hseg_le c
    rw [binSegment_append, if_pos hrc] at this
    simp only [List.length_append, List.length_singleton] at this
    omega
  have hoff_succ : ∀ b w, counts1[b]? = some w →
      (counts1.take (b + 1)).sum = (counts1.take b).sum + w := fun b w hw =>
    sum_take_succ counts1 b w hw
  have hold_lt : old < (counts1.take (c + 1)).sum := by
    rw [hoff_succ c v hv]; omega
  have htot : (counts1.take (c + 1)).sum ≤ n := hsum ▸ sum_take_le counts1 (c + 1)
  have hadd : u32add old 1 = old + 1 := u32add_of_lt _ _ (by omega)
  refine ⟨by simp [hlen], by simp [hplen], ?_, ?_⟩
  · intro b w hw
    dsimp only
    rw [List.getElem?_set, binSegment_append]
    by_cases hcb : c = b
    · subst hcb
      simp only [if_true, hc, hrc, List.length_append, List.length_singleton, hadd]
      rw [hold_eq, Nat.add_assoc]
    · have : ¬ cells[x]? = some b := by
        rw [hrc]; intro h; exact hcb (Option.some.inj h)
      simp only [if_neg hcb, if_neg this, List.append_nil]
      exact hctr b w hw
  · intro b j i hb hj
    dsimp only
    rw [binSegment_append] at hj
    rw [List.getElem?_set]
    by_cases hcb : c = b
    · subst hcb
      rw [if_pos hrc] at hj
      by_cases hjl : j < (binSegment cells done c).length
      · rw [List.getElem?_append_left hjl] at hj
        have hne : ¬ old = (counts1.take c).sum + j := by omega
        rw [if_neg hne]
        exact hslot c j i hb hj
      · have hjl' : j = (binSegment cells done c).length := by
          have := (List.getElem?_eq_some.mp hj).1
          simp only [List.length_append, List.length_singleton] at this
          omega
        subst hjl'
        rw [List.getElem?_concat_length] at hj
        cases hj
        rw [← hold_eq]
        simp [hold]
    · have hnot : ¬ cells[x]? = some b := by
        rw [hrc]; intro h; exact hcb (Option.some.inj h)
      rw [if_neg hnot, List.append_nil] at hj
      have hjlt : j < (binSegment cells done b).length := (List.getElem?_eq_some.mp hj).1
      obtain ⟨w, hw⟩ : ∃ w, counts1[b]? = some w := ⟨counts1[b], List.getElem?_eq_getElem hb⟩
      have hwb := hcount b w hw
      have hsb : (binSegment cells done b).length ≤ w := by
        have := hseg_le b
        rw [binSegment_append, if_neg hnot, List.append_nil] at this
        omega
      have hne : ¬ old = (counts1.take b).sum + j := by
        rcases Nat.lt_or_gt_of_ne hcb with hlt | hgt
        · -- c < b
          have := sum_take_mono counts1 (show c + 1 ≤ b from hlt)
          omega
        · have := sum_take_mono counts1 (show b + 1 ≤ c from hgt)
          have := hoff_succ b w hw
          omega
      rw [if_neg hne]
      exact hslot b j i hb hj
theorem countP_lt_succ (cells : List Nat) (b : Nat) :
    cells.countP (fun c => c < b + 1) = cells.countP (fun c => c < b) + cells.count b := by
  induction cells with
  | nil => simp
  | cons c cs ih =>
    simp only [List.countP_cons, List.count_cons, ih]
    by_cases h1 : c < b
    · have h2 : c < b + 1 := by omega
      have h3 : ¬ c = b := by omega
      simp [h1, h2, h3]; omega
    · by_cases h3 : c = b
      · subst h3; simp
        omega
      · have h2 : ¬ c < b + 1 := by omega
        simp [h1, h2, h3]

theorem sum_take_counts (cells counts1 : List Nat)
    (hcount : ∀ b v, counts1[b]? = some v → v = cells.count b) (b : Nat)
    (hb : b ≤ counts1.length) : (counts1.take b).sum = cells.countP fun c => c < b := by
  induction b with
  | zero => simp
  | succ b ih =>
    have hb' : b < counts1.length := hb
    have hv : counts1[b]? = some counts1[b] := List.getElem?_eq_getElem hb'
    rw [sum_take_succ counts1 b _ hv, ih (Nat.le_of_lt hb'), countP_lt_succ,
      hcount b _ hv]

theorem countP_lt_of_all_lt (cells : List Nat) (B : Nat) (h : ∀ c ∈ cells, c < B) :
    cells.countP (fun c => c < B) = cells.length := by
  rw [List.countP_eq_length]
  intro c hc
  simpa using h c hc

theorem resizeInt_eq_ok {α : Type} {v w : List α} {n : Int} {d : α} :
    resizeInt v n d = Res.ok w ↔ 0 ≤ n ∧ w = resize v n.toNat d := by
  unfold resizeInt
  by_cases h : 0 ≤ n <;> simp [h, eq_comm]

theorem resize_nil {α : Type} (n : Nat) (d : α) : resize ([] : List α) n d = List.replicate n d := by
  simp [resize]


theorem ParticleLocator.placeLoop_inv (cells counts1 : List Nat) (n : Nat)
    (hn : n < 4294967296) (hcl : cells.length = n) (hsum : counts1.sum = n)
    (hcount : ∀ b v, counts1[b]? = some v → v = cells.count b)
    (order : List Nat) (horder : order.Perm (List.range n))
    (st0 st : List Nat × List Nat) (h0 : PlaceInv cells counts1 n [] st0)
    (h : loopM (ParticleLocator.placeStep cells) st0 order = Res.ok st) :
    PlaceInv cells counts1 n order st :=
  loopM_inv (ParticleLocator.placeStep cells) (PlaceInv cells counts1 n) order
    (fun done x rest s s' hxs hinv hs =>
      ParticleLocator.placeStep_inv cells counts1 n hn hcl hsum hcount order horder done x rest
        hxs s s' hinv hs)
    order [] st0 st (by simp) h0 h

/-- What `ParticleLocator::build` leaves in the tables. -/
theorem ParticleLocator.build_locatorTables (self : ParticleLocator) (ba : List Box)
    (order : List Nat) (loc : ParticleLocator) (hn : ba.length < 2147483648)
    (horder : order.Perm (List.range ba.length))
    (h : self.build ba order = Res.ok loc) : LocatorTables ba order loc := by
  unfold ParticleLocator.build at h
  rw [Res.bind_eq_ok] at h
  obtain ⟨hx, -, h⟩ := h
  rw [Res.bind_eq_ok] at h
  obtain ⟨hy, -, h⟩ := h
  rw [Res.bind_eq_ok] at h
  obtain ⟨hz, -, h⟩ := h
  rw [Res.bind_eq_ok] at h
  obtain ⟨counts0, hc0, h⟩ := h
  rw [Res.bind_eq_ok] at h
  obtain ⟨offsets0, ho0, h⟩ := h
  rw [Res.bind_eq_ok] at h
  obtain ⟨⟨cells, counts1⟩, hloop1, h⟩ := h
  dsimp only at h
  rw [Res.bind_eq_ok] at h
  obtain ⟨⟨counts, perm⟩, hloop2, h⟩ := h
  simp only [Res.pure_eq, Res.ok.injEq] at h
  subst h
  rw [resizeInt_eq_ok] at hc0 ho0
  obtain ⟨hB, rfl⟩ := hc0
  obtain ⟨-, rfl⟩ := ho0
  rw [resize_nil] at hloop1
  simp only [resize_nil] at hloop2 ⊢
  generalize hBdef : ((hx - reduceMin (List.map (fun b => b.smallEnd.x) ba) + 1) *
    (hy - reduceMin (List.map (fun b => b.smallEnd.y) ba) + 1) *
    (hz - reduceMin (List.map (fun b => b.smallEnd.z) ba) + 1) : Int) = Bint at hB hloop1 hloop2 ⊢
  have hn32 : ba.length < 4294967296 := by omega
  have hB1 : (Bint + 1).toNat = Bint.toNat + 1 := by omega
  have hBcast : ((Bint.toNat : Nat) : Int) = Bint := Int.toNat_of_nonneg hB
  rw [hB1, toUInt32_of_lt _ hn32] at hloop2 ⊢
  have hci := ParticleLocator.countLoop_inv ba _ _ _ ba.length Bint.toNat hn32 _ cells counts1
    (resize_length _ _ _) hloop1
  obtain ⟨hcl, hc1l, hcells, hcounts, hsum⟩ := hci
  dsimp only at hcl hc1l hcells hcounts hsum
  rw [List.take_of_length_le (Nat.le_of_eq hcl)] at hcounts
  have hdrop : List.drop counts1.length (List.replicate (Bint.toNat + 1) ba.length) =
      [ba.length] := by
    rw [hc1l, List.drop_replicate]
    simp
  rw [hdrop] at hloop2 ⊢
  have hscanl : (exclusive_scan 0 counts1).length = Bint.toNat := by
    rw [exclusive_scan_length, hc1l]
  have hcounts2 : List.take ((exclusive_scan 0 counts1 ++ [ba.length]).length - 1)
      (exclusive_scan 0 counts1 ++ [ba.length]) ++
      List.drop ((exclusive_scan 0 counts1 ++ [ba.length]).length - 1) counts1 =
      exclusive_scan 0 counts1 := by
    simp only [List.length_append, List.length_singleton, Nat.add_sub_cancel, hscanl]
    rw [List.take_append_of_le_length (by omega), List.take_of_length_le (by omega),
      List.drop_of_length_le (by omega), List.append_nil]
  rw [hcounts2] at hloop2
  have hscan : ∀ b, b < counts1.length →
      (exclusive_scan 0 counts1)[b]? = some ((counts1.take b).sum) := by
    intro b hb
    have := exclusive_scan_getElem? 0 counts1 b hb (by
      have := sum_take_le counts1 b
      omega)
    simpa using this
  have hp0 : PlaceInv cells counts1 ba.length [] (exclusive_scan 0 counts1,
      resize self.m_permutation ba.length 0) := by
    refine ⟨exclusive_scan_length _ _, resize_length _ _ _, ?_, ?_⟩
    · intro b v hv
      have hb : b < counts1.length := (List.getElem?_eq_some.mp hv).1
      simpa [binSegment] using hscan b hb
    · intro b j i _ hj
      simp [binSegment] at hj
  have hpi := ParticleLocator.placeLoop_inv cells counts1 ba.length hn32 hcl hsum hcounts order
    horder _ _ hp0 hloop2
  obtain ⟨-, hpl, -, hslot⟩ := hpi
  dsimp only at hpl hslot
  have hcells_lt : ∀ c ∈ cells, c < Bint.toNat := by
    intro c hc
    obtain ⟨i, hi⟩ := List.mem_iff_getElem?.mp hc
    exact hcells i c (hcl ▸ (List.getElem?_eq_some.mp hi).1) hi
  refine ⟨rfl, ?_, hcl, ?_, ?_, ?_, hpl, ?_, ?_⟩
  · simp only [ParticleLocator.numBins]
    rw [hBdef]; exact hB
  · intro i c hi
    simp only [ParticleLocator.numBins]
    rw [hBdef]
    have := hcells_lt c (List.mem_iff_getElem?.mpr ⟨i, hi⟩)
    omega
  · simp only [ParticleLocator.numBins]
    rw [hBdef]
    simp only [List.length_append, List.length_singleton, hscanl]
    omega
  · intro b hb
    simp only [ParticleLocator.numBins] at hb
    rw [hBdef] at hb
    dsimp only
    have hbn : b ≤ Bint.toNat := by omega
    rcases Nat.lt_or_eq_of_le hbn with hlt | heq
    · rw [List.getElem?_append_left (by omega), hscan b (by omega),
        sum_take_counts cells counts1 hcounts b (by omega)]
    · rw [List.getElem?_append_right (by omega), hscanl, heq, Nat.sub_self,
        countP_lt_of_all_lt cells _ hcells_lt, hcl]
      rfl
  · intro b
    exact binSegment_perm_length cells order b (hcl ▸ horder)
  · intro b j i hb hj
    simp only [ParticleLocator.numBins] at hb
    rw [hBdef] at hb
    dsimp only at hj ⊢
    have hbn : b < counts1.length := by omega
    rw [← sum_take_counts cells counts1 hcounts b (Nat.le_of_lt hbn)]
    exact hslot b j i hbn hj

/-! ## The query `assignGrid::operator()` -/

theorem mem_intRange (a b x : Int) : x ∈ intRange a b ↔ a ≤ x ∧ x ≤ b := by
  unfold intRange
  simp only [List.mem_map, List.mem_range]
  constructor
  · rintro ⟨k, hk, rfl⟩
    constructor <;> omega
  · intro h
    refine ⟨(x - a).toNat, by omega, ?_⟩
    have : (((x - a).toNat : Nat) : Int) = x - a := Int.toNat_of_nonneg (by omega)
    rw [this]; ring

/-- A loop with early return whose body always succeeds, and returns only good values, succeeds
and returns nothing or a good value. -/
theorem firstM_total {α β : Type} (f : α → Res (Option β)) (good : β → Prop) (xs : List α)
    (h : ∀ x ∈ xs, ∃ r, f x = Res.ok r ∧ ∀ v, r = some v → good v) :
    ∃ r, firstM f xs = Res.ok r ∧ ∀ v, r = some v → good v := by
  induction xs with
  | nil => exact ⟨none, rfl, by intro v hv; cases hv⟩
  | cons x xs ih =>
    obtain ⟨r, hr, hg⟩ := h x (List.mem_cons_self _ _)
    cases r with
    | none =>
      obtain ⟨r', hr', hg'⟩ := ih (fun y hy => h y (List.mem_cons_of_mem _ hy))
      exact ⟨r', by simp only [firstM, hr]; exact hr', hg'⟩
    | some v => exact ⟨some v, by simp only [firstM, hr], hg⟩

theorem flat_index_bounds (nx ny nz ii jj kk : Int) (hi0 : 0 ≤ ii) (hi1 : ii ≤ nx - 1)
    (hj0 : 0 ≤ jj) (hj1 : jj ≤ ny - 1) (hk0 : 0 ≤ kk) (hk1 : kk ≤ nz - 1) :
    0 ≤ (ii * ny + jj) * nz + kk ∧ (ii * ny + jj) * nz + kk < nx * ny * nz := by
  have hny : 0 ≤ ny := by omega
  have hnz : 0 ≤ nz := by omega
  have h1 : 0 ≤ ii * ny := Int.mul_nonneg hi0 hny
  have h2 : ii * ny ≤ (nx - 1) * ny := Int.mul_le_mul_of_nonneg_right hi1 hny
  have h3 : ii * ny + jj ≤ nx * ny - 1 := by
    have : (nx - 1) * ny = nx * ny - ny := by ring
    omega
  have h4 : 0 ≤ (ii * ny + jj) * nz := Int.mul_nonneg (by omega) hnz
  have h5 : (ii * ny + jj) * nz ≤ (nx * ny - 1) * nz := Int.mul_le_mul_of_nonneg_right h3 hnz
  have h6 : (nx * ny - 1) * nz = nx * ny * nz - nz := by ring
  constructor
  · omega
  · omega

/-- Scanning a valid bin of a built locator succeeds and returns nothing or a box that contains
the point. -/
theorem assignGrid.scanBin_total (ba : List Box) (order : List Nat) (loc : ParticleLocator)
    (hn : ba.length < 2147483648) (horder : order.Perm (List.range ba.length))
    (ht : LocatorTables ba order loc) (iv : Dim3) (index : Int) (h0 : 0 ≤ index)
    (h1 : index < loc.numBins) :
    ∃ r, loc.getGridAssignor.scanBin iv index = Res.ok r ∧
      ∀ v, r = some v → ∃ (i : Nat) (b : Box), v = (i : Int) ∧ ba[i]? = some b ∧
        b.contains iv = true := by
  have hidx : ((index.toNat : Nat) : Int) = index := Int.toNat_of_nonneg h0
  have hfirst := ht.offsets_eq index.toNat (by omega)
  have hlast := ht.offsets_eq (index.toNat + 1) (by push_cast; omega)
  have hr1 : readAt loc.m_offsets index =
      Res.ok (loc.m_cells.countP fun c => c < index.toNat) := by
    rw [readAt_eq_ok]; exact ⟨h0, hfirst⟩
  have hr2 : readAt loc.m_offsets (index + 1) =
      Res.ok (loc.m_cells.countP fun c => c < index.toNat + 1) := by
    rw [readAt_eq_ok]
    refine ⟨by omega, ?_⟩
    have : (index + 1).toNat = index.toNat + 1 := by omega
    rw [this]; exact hlast
  unfold assignGrid.scanBin
  simp only [ParticleLocator.getGridAssignor, assignGrid.construct, hr1, hr2, Res.ok_bind]
  apply firstM_total
  intro p hp
  rw [List.mem_range'_1] at hp
  rw [countP_lt_succ] at hp
  obtain ⟨j, hj⟩ : ∃ j, p = (loc.m_cells.countP fun c => c < index.toNat) + j :=
    ⟨p - (loc.m_cells.countP fun c => c < index.toNat), by omega⟩
  have hjlt : j < (binSegment loc.m_cells order index.toNat).length := by
    rw [ht.segment_length]; omega
  have hseg := List.getElem?_eq_getElem hjlt
  have hperm := ht.segment_eq index.toNat j _ (by omega) hseg
  have hmem := binSegment_mem _ _ _ _ (List.getElem_mem hjlt)
  have hi_lt : (binSegment loc.m_cells order index.toNat)[j] < ba.length := by
    have := horder.mem_iff.mp hmem.1
    simpa using this
  obtain ⟨box, hbox⟩ : ∃ box, loc.m_device_boxes[(binSegment loc.m_cells order index.toNat)[j]]? =
      some box := by
    have hlt : (binSegment loc.m_cells order index.toNat)[j] < loc.m_device_boxes.length := by
      rw [ht.boxes_eq]; exact hi_lt
    exact ⟨_, List.getElem?_eq_getElem hlt⟩
  have hrp : readNat loc.m_permutation p =
      Res.ok (binSegment loc.m_cells order index.toNat)[j] := by
    rw [readNat_eq_ok, hj]; exact hperm
  have hrb : readNat loc.m_device_boxes (binSegment loc.m_cells order index.toNat)[j] =
      Res.ok box := by
    rw [readNat_eq_ok]; exact hbox
  simp only [hrp, hrb, Res.ok_bind]
  split
  · rename_i hc
    refine ⟨_, rfl, ?_⟩
    intro v hv
    cases hv
    refine ⟨_, _, toInt32_of_lt _ (by omega), ?_, hc⟩
    rw [← ht.boxes_eq]; exact hbox
  · exact ⟨none, rfl, by intro v hv; cases hv⟩

/-- The three nested bin loops succeed on a built locator and return nothing or a box that
contains the point. -/
theorem assignGrid.search_total (ba : List Box) (order : List Nat) (loc : ParticleLocator)
    (hn : ba.length < 2147483648) (horder : order.Perm (List.range ba.length))
    (ht : LocatorTables ba order loc) (iv : Dim3) :
    ∃ r, loc.getGridAssignor.search iv = Res.ok r ∧
      ∀ v, r = some v → ∃ (i : Nat) (b : Box), v = (i : Int) ∧ ba[i]? = some b ∧
        b.contains iv = true := by
  unfold assignGrid.search
  apply firstM_total
  intro ii hii
  apply firstM_total
  intro jj hjj
  apply firstM_total
  intro kk hkk
  rw [mem_intRange] at hii hjj hkk
  have hb := flat_index_bounds
    (loc.getGridAssignor.m_hi.x - loc.getGridAssignor.m_lo.x + 1)
    (loc.getGridAssignor.m_hi.y - loc.getGridAssignor.m_lo.y + 1)
    (loc.getGridAssignor.m_hi.z - loc.getGridAssignor.m_lo.z + 1) ii jj kk
    (by omega) (by omega) (by omega) (by omega) (by omega) (by omega)
  exact assignGrid.scanBin_total ba order loc hn horder ht iv _ hb.1 hb.2

/-- C2. For a locator built from at most `INT_MAX` boxes (the box count is an `int`), with the
placement loop run in any order, `assignGrid::operator()` always returns a value; a returned
`id >= 0` is a valid box index and `boxes[id]` contains the point under the inclusive range
check; hence for a point contained in none of the boxes the value returned is `-1`. -/
theorem assignGrid.call_owner_or_none (self : ParticleLocator) (ba : List Box)
    (order : List Nat) (loc : ParticleLocator) (iv : Dim3) (hn : ba.length < 2147483648)
    (horder : order.Perm (List.range ba.length)) (h : self.build ba order = Res.ok loc) :
    (∃ id, loc.getGridAssignor.call iv = Res.ok id) ∧
    (∀ id, loc.getGridAssignor.call iv = Res.ok id → 0 ≤ id →
      ∃ b, ba[id.toNat]? = some b ∧ b.contains iv = true) ∧
    ((∀ b ∈ ba, b.contains iv = false) → loc.getGridAssignor.call iv = Res.ok (-1)) := by
  have ht := ParticleLocator.build_locatorTables self ba order loc hn horder h
  obtain ⟨r, hr, hgood⟩ := assignGrid.search_total ba order loc hn horder ht iv
  have hcall : loc.getGridAssignor.call iv = Res.ok (r.getD (-1)) := by
    unfold assignGrid.call
    rw [hr]
    cases r <;> rfl
  have hvalid : ∀ id, loc.getGridAssignor.call iv = Res.ok id → 0 ≤ id →
      ∃ b, ba[id.toNat]? = some b ∧ b.contains iv = true := by
    intro id hid hpos
    rw [hcall] at hid
    cases r with
    | none =>
      simp only [Res.ok.injEq, Option.getD_none] at hid
      omega
    | some v =>
      simp only [Res.ok.injEq, Option.getD_some] at hid
      subst hid
      obtain ⟨i, b, hv, hb, hc⟩ := hgood v rfl
      refine ⟨b, ?_, hc⟩
      rw [hv]
      simpa using hb
  refine ⟨⟨_, hcall⟩, hvalid, ?_⟩
  intro hnone
  rw [hcall]
  cases r with
  | none => rfl
  | some v =>
    obtain ⟨i, b, -, hb, hc⟩ := hgood v rfl
    have := hnone b (List.mem_iff_getElem?.mpr ⟨i, hb⟩)
    rw [this] at hc
    cases hc
/-- C1, the code at the failing input. `offsetBoxes` are three well-formed, pairwise disjoint
boxes and the point `(10, 0, 0)` lies in the third one only, yet the locator built from them
answers `-1`: `build` stores `m_bins_hi = (11 + 2 - 1) / 2 = 6` in bin units next to
`m_bins_lo = 6` in cell units, so `nx = 6 - 6 + 1 = 1`, while the point has bin coordinate
`ix = (10 - 6) / 2 = 2` and the loop `for (ii = max(ix-1, 0); ii <= min(ix, nx-1); ++ii)` runs
from 1 to 0. -/
theorem locate_offsetBoxes_misses_owner :
    (∀ b ∈ offsetBoxes, b.ok) ∧
    offsetBoxes.map (fun b => b.contains ⟨10, 0, 0⟩) = [false, false, true] ∧
    ((ParticleLocator.fresh.build offsetBoxes [0, 1, 2]).getD ParticleLocator.fresh).m_bins_lo
      = ⟨6, 0, 0⟩ ∧
    ((ParticleLocator.fresh.build offsetBoxes [0, 1, 2]).getD ParticleLocator.fresh).m_bins_hi
      = ⟨6, 1, 1⟩ ∧
    locate offsetBoxes ⟨10, 0, 0⟩ = Res.ok (-1) := by
  decide

/-- Witness for C2: a locator for `originBoxes`, placement loop in the order `3, 1, 0, 2`; the
point `(9, 0, 0)` lies in no box. -/
theorem assignGrid.call_owner_or_none_witness :
    originBoxes.length < 2147483648 ∧ [3, 1, 0, 2].Perm (List.range originBoxes.length) ∧
    ParticleLocator.fresh.build originBoxes [3, 1, 0, 2] =
      Res.ok ((ParticleLocator.fresh.build originBoxes [3, 1, 0, 2]).getD ParticleLocator.fresh) ∧
    (∀ b ∈ originBoxes, b.contains ⟨9, 0, 0⟩ = false) ∧
    ((ParticleLocator.fresh.build originBoxes [3, 1, 0, 2]).getD
      ParticleLocator.fresh).getGridAssignor.call ⟨9, 0, 0⟩ = Res.ok (-1) :=
  ⟨by decide, by decide, by decide, by decide,
    (assignGrid.call_owner_or_none ParticleLocator.fresh originBoxes [3, 1, 0, 2] _ ⟨9, 0, 0⟩
      (by decide) (by decide) (by decide)).2.2 (by decide)⟩

/-! ## The slot loop of `ParticleCopyPlan::build` -/

theorem loopM_map {σ α β : Type} (f : σ → β → Res σ) (g : α → β) (s : σ) (xs : List α) :
    loopM f s (xs.map g) = loopM (fun s x => f s (g x)) s xs := by
  induction xs generalizing s with
  | nil => rfl
  | cons x xs ih =>
    rw [List.map_cons, loopM_cons, loopM_cons]
    cases f s (g x) with
    | ok s' => simp [ih]
    | fail e => simp

theorem loopM_congr {σ α : Type} (f g : σ → α → Res σ) (s : σ) (xs : List α)
    (h : ∀ s x, x ∈ xs → f s x = g s x) : loopM f s xs = loopM g s xs := by
  induction xs generalizing s with
  | nil => rfl
  | cons x xs ih =>
    rw [loopM_cons, loopM_cons, h s x (List.mem_cons_self _ _)]
    cases g s x with
    | ok s' => simp [ih s' (fun s y hy => h s y (List.mem_cons_of_mem _ hy))]
    | fail e => simp

theorem mapAt_eq_ok {κ α : Type} {m : κ → Option α} {key : κ} {a : α} :
    mapAt m key = Res.ok a ↔ m key = some a := by
  unfold mapAt
  cases h : m key <;> simp

/-- The count `numCopies` returns: the size of the box's descriptor array as an `int`. -/
theorem ParticleCopyOp.numCopies_eq_ok (op : ParticleCopyOp) (gid : Nat) (n : Int) :
    op.numCopies gid = Res.ok n ↔ ∃ b, op.m_boxes gid = some b ∧ n = toInt32 b.length := by
  unfold ParticleCopyOp.numCopies mapAt
  cases h : op.m_boxes gid with
  | none => simp
  | some b => simp [eq_comm]

/-- When the descriptor count of a box fits `int`, the loop `AMREX_FOR_1D (num_copies, ...)`
runs every iteration of a rearrangement of `0 .. size - 1`. -/
theorem filter_lt_numCopies (orders : List Nat) (len : Nat) (hlen : len < 2147483648)
    (h : orders.Perm (List.range len)) :
    orders.filter (fun (i : Nat) => decide ((i : Int) < toInt32 len)) = orders := by
  rw [List.filter_eq_self]
  intro i hi
  have := List.mem_range.mp (h.mem_iff.mp hi)
  rw [toInt32_of_lt len hlen]
  simp only [decide_eq_true_eq]
  omega

/-- The iterations that the loop of a box runs, when the box's descriptor count fits `int` and
`orders` rearranges `0 .. size - 1`. -/
theorem filter_lt_of_fits (op : ParticleCopyOp) (orders : Nat → List Nat) (m : TileIndex)
    (nc : Int) (hlen : ((op.m_boxes m.1).getD []).length < 2147483648)
    (horder : (orders m.1).Perm (sequentialOrders op m.1))
    (hnc : op.numCopies m.1 = Res.ok nc) :
    (orders m.1).filter (fun (i : Nat) => decide ((i : Int) < nc)) = orders m.1 := by
  rw [ParticleCopyOp.numCopies_eq_ok] at hnc
  obtain ⟨b, hb, rfl⟩ := hnc
  unfold sequentialOrders at horder
  rw [hb] at hlen horder
  exact filter_lt_numCopies _ _ hlen horder

/-- The nested loops of `build` run the descriptors of `copyEvents` one after the other. -/
theorem ParticleCopyPlan.gridLoop_events (p_box_perm : List Nat) (op : ParticleCopyOp)
    (orders : Nat → List Nat) (mfi : List TileIndex) (hfit : op.fits mfi)
    (horders : ∀ m ∈ mfi, (orders m.1).Perm (sequentialOrders op m.1))
    (st st' : List Nat × (Nat → Option (List Int)))
    (h : loopM (ParticleCopyPlan.gridStep p_box_perm op orders) st mfi = Res.ok st') :
    loopM (ParticleCopyPlan.eventStep p_box_perm op) st (copyEvents mfi orders) = Res.ok st' := by
  induction mfi generalizing st with
  | nil => simpa [copyEvents, loopM_nil] using h
  | cons m ms ih =>
    rw [loopM_cons, Res.bind_eq_ok] at h
    obtain ⟨s1, h1, h2⟩ := h
    have hev : copyEvents (m :: ms) orders =
        (orders m.1).map (fun i => (m.1, i)) ++ copyEvents ms orders := by
      simp [copyEvents]
    rw [hev, loopM_append, Res.bind_eq_ok]
    refine ⟨s1, ?_, ih (fun k hk => hfit k (List.mem_cons_of_mem _ hk))
      (fun k hk => horders k (List.mem_cons_of_mem _ hk)) s1 h2⟩
    unfold ParticleCopyPlan.gridStep at h1
    rw [Res.bind_eq_ok] at h1
    obtain ⟨nc, hnc, h1⟩ := h1
    rw [Res.bind_eq_ok] at h1
    obtain ⟨pb, hpb, h1⟩ := h1
    rw [filter_lt_of_fits op orders m nc (hfit m (List.mem_cons_self _ _))
      (horders m (List.mem_cons_self _ _)) hnc] at h1
    rw [loopM_map, ← h1]
    apply loopM_congr
    intro s x _
    simp [ParticleCopyPlan.eventStep, hpb]


/-- The two outcomes of one iteration of the slot loop. -/
theorem ParticleCopyPlan.eventStep_cases (p_box_perm : List Nat) (op : ParticleCopyOp)
    (st st' : List Nat × (Nat → Option (List Int))) (e : Descriptor)
    (h : ParticleCopyPlan.eventStep p_box_perm op st e = Res.ok st') :
    (op.copied e = false ∧ op.bucketOf p_box_perm e = none ∧ st' = st) ∨
    (∃ b old, op.copied e = true ∧ op.bucketOf p_box_perm e = some b ∧
      st.1[b]? = some old ∧ e.2 < ((st.2 e.1).getD []).length ∧
      st' = (st.1.set b (u32add old 1),
        Function.update st.2 e.1 (some (((st.2 e.1).getD []).set e.2 (toInt32 old))))) := by
  unfold ParticleCopyPlan.eventStep at h
  rw [Res.bind_eq_ok] at h
  obtain ⟨pb, hpb, h⟩ := h
  rw [mapAt_eq_ok] at hpb
  unfold ParticleCopyPlan.slotStep at h
  rw [Res.bind_eq_ok] at h
  obtain ⟨d, hd, h⟩ := h
  rw [readNat_eq_ok] at hd
  have hdest : op.dest e = some d := by simp [ParticleCopyOp.dest, hpb, hd]
  by_cases hneg : d < 0
  · left
    rw [if_pos hneg] at h
    simp only [Res.pure_eq, Res.ok.injEq] at h
    refine ⟨?_, ?_, h.symm⟩
    · simp [ParticleCopyOp.copied, hdest]; omega
    · simp [ParticleCopyOp.bucketOf, hdest, hneg]
  · right
    rw [if_neg hneg] at h
    rw [Res.bind_eq_ok] at h
    obtain ⟨b, hb, h⟩ := h
    rw [Res.bind_eq_ok] at h
    obtain ⟨old, hold, h⟩ := h
    rw [Res.bind_eq_ok] at h
    obtain ⟨counts, hw1, h⟩ := h
    rw [Res.bind_eq_ok] at h
    obtain ⟨dl, hw2, h⟩ := h
    simp only [Res.pure_eq, Res.ok.injEq] at h
    rw [readAt_eq_ok] at hb
    rw [readNat_eq_ok] at hold
    rw [writeNat_eq_ok] at hw1 hw2
    simp only [atomicInc] at hw1 hw2
    obtain ⟨-, rfl⟩ := hw1
    obtain ⟨hi, rfl⟩ := hw2
    refine ⟨b, old, ?_, ?_, hold, hi, h.symm⟩
    · simp [ParticleCopyOp.copied, hdest]; omega
    · simp [ParticleCopyOp.bucketOf, hdest, hneg, hb.2]

theorem filter_length_prefix {α : Type} (p : α → Bool) (done : List α) (x : α) (rest : List α)
    (hx : p x = true) : (done.filter p).length + 1 ≤ ((done ++ x :: rest).filter p).length := by
  simp [List.filter_append, List.filter_cons, hx]

theorem ParticleCopyPlan.eventStep_sum (p_box_perm : List Nat) (op : ParticleCopyOp)
    (all done : List Descriptor) (e : Descriptor) (rest : List Descriptor)
    (hall : done ++ e :: rest = all) (hN : (all.filter op.copied).length < 2147483648)
    (st st' : List Nat × (Nat → Option (List Int))) (hinv : SumInv op done st)
    (h : ParticleCopyPlan.eventStep p_box_perm op st e = Res.ok st') :
    SumInv op (done ++ [e]) st' := by
  unfold SumInv at hinv ⊢
  rcases ParticleCopyPlan.eventStep_cases p_box_perm op st st' e h with
    ⟨hc, -, rfl⟩ | ⟨b, old, hc, -, hold, -, rfl⟩
  · simp [List.filter_append, List.filter_cons, hc, hinv]
  · have hb : b < st.1.length := (List.getElem?_eq_some.mp hold).1
    have hle := le_sum_of_getElem? st.1 b old hold
    have hpre := filter_length_prefix op.copied done e rest hc
    rw [hall] at hpre
    have hadd : u32add old 1 = old + 1 := u32add_of_lt _ _ (by omega)
    have hset := sum_set_add st.1 b (old + 1) hb
    have hget : st.1[b] = old := (List.getElem?_eq_some.mp hold).2
    rw [hget] at hset
    simp only [hadd, List.filter_append, List.filter_cons, hc, if_true, List.length_append,
      List.length_singleton, List.filter_nil]
    omega


theorem countP_range_getElem? {α : Type} (l : List α) (p : Option α → Bool) :
    (List.range l.length).countP (fun i => p l[i]?) = l.countP fun a => p (some a) := by
  have h1 : l.map some = (List.range l.length).map fun i => l[i]? := by
    apply List.ext_getElem?
    intro i
    by_cases hi : i < l.length
    · simp [hi, List.getElem?_range hi]
    · rw [List.getElem?_eq_none (by simp; omega), List.getElem?_eq_none (by simp; omega)]
  have h3 := congrArg (List.countP p) h1
  rw [List.countP_map, List.countP_map] at h3
  exact h3.symm

/-- With every box's loop a rearrangement of `0 .. numCopies-1`, the copied descriptors among
the events are as many as the non-negative destinations. -/
theorem copyEvents_copied_length (op : ParticleCopyOp) (mfi : List TileIndex)
    (orders : Nat → List Nat)
    (horders : ∀ m ∈ mfi, (orders m.1).Perm (sequentialOrders op m.1)) :
    ((copyEvents mfi orders).filter op.copied).length = numCopied op mfi := by
  induction mfi with
  | nil => simp [copyEvents, numCopied]
  | cons m ms ih =>
    have hev : copyEvents (m :: ms) orders =
        (orders m.1).map (fun i => (m.1, i)) ++ copyEvents ms orders := by
      simp [copyEvents]
    rw [hev, List.filter_append, List.length_append,
      ih (fun k hk => horders k (List.mem_cons_of_mem _ hk))]
    simp only [numCopied, List.map_cons, List.sum_cons]
    congr 1
    rw [← List.countP_eq_length_filter, List.countP_map,
      (horders m (List.mem_cons_self _ _)).countP_eq]
    unfold sequentialOrders
    have := countP_range_getElem? ((op.m_boxes m.1).getD [])
      (fun o => match o with | some d => decide (0 ≤ d) | none => false)
    rw [← this]
    congr 1
    funext i
    simp only [Function.comp, ParticleCopyOp.copied, ParticleCopyOp.dest]
    cases op.m_boxes m.1 <;> simp

/-- The parts of a successful, non-trivial `build`. -/
theorem ParticleCopyPlan.build_parts {P : Type} (self : ParticleCopyPlan)
    (pc : ParticleContainer P) (op : ParticleCopyOp) (do_handshake : Bool)
    (buildMPIStart : ParticleCopyPlan → Bool → Res CommSchedule)
    (orders : Nat → List Nat) (pastEnd : Nat) (plan : ParticleCopyPlan)
    (hnt : ¬ (pc.numBoxes = 1 ∧ ¬ pc.Geom.isAnyPeriodic))
    (h : self.build pc op do_handshake buildMPIStart orders pastEnd = Res.ok plan) :
    pc.numLevels = 1 ∧
    ∃ dst0, loopM (ParticleCopyPlan.resizeStep op) self.m_dst_indices pc.MakeMFIter =
        Res.ok dst0 ∧
      loopM (ParticleCopyPlan.gridStep pc.gridToBucket op orders)
        (List.replicate pc.numBoxes 0, dst0) pc.MakeMFIter =
        Res.ok (plan.m_box_counts, plan.m_dst_indices) ∧
      plan.m_box_offsets = exclusive_scan 0 (plan.m_box_counts ++ [pastEnd]) ++
        (resize self.m_box_offsets (pc.numBoxes + 1) 0).drop
          (exclusive_scan 0 (plan.m_box_counts ++ [pastEnd])).length := by
  unfold ParticleCopyPlan.build at h
  by_cases hl : pc.numLevels = 1
  · refine ⟨hl, ?_⟩
    simp only [hl, ne_eq, not_true_eq_false, if_false, hnt] at h
    rw [Res.bind_eq_ok] at h
    obtain ⟨dst0, h0, h⟩ := h
    rw [Res.bind_eq_ok] at h
    obtain ⟨⟨counts, dst⟩, h1, h⟩ := h
    dsimp only at h
    rw [Res.bind_eq_ok] at h
    obtain ⟨sched, -, h⟩ := h
    simp only [Res.pure_eq, Res.ok.injEq] at h
    subst h
    rw [resize_nil] at h1
    exact ⟨dst0, h0, h1, rfl⟩
  · simp [hl] at h


theorem ParticleCopyPlan.eventLoop_sum (p_box_perm : List Nat) (op : ParticleCopyOp)
    (all : List Descriptor) (hN : (all.filter op.copied).length < 2147483648)
    (st0 st : List Nat × (Nat → Option (List Int))) (h0 : st0.1.sum = 0)
    (h : loopM (ParticleCopyPlan.eventStep p_box_perm op) st0 all = Res.ok st) :
    st.1.sum = (all.filter op.copied).length :=
  loopM_inv (ParticleCopyPlan.eventStep p_box_perm op) (SumInv op) all
    (fun done x rest s s' hxs hinv hs =>
      ParticleCopyPlan.eventStep_sum p_box_perm op all done x rest hxs hN s s' hinv hs)
    all [] st0 st (by simp) (by simpa [SumInv] using h0) h

/-- C3. After a non-trivial `ParticleCopyPlan::build` (slot loops run in any order, fewer than
`2^31` copied descriptors so that no `unsigned int` counter wraps), the sum over all buckets of
`m_box_counts` equals the number of descriptors, over the source boxes visited, whose
destination box is non-negative; and an iteration of the slot loop for a dropped descriptor
(destination `< 0`) leaves every counter and every slot as it was.
Every box visited holds fewer than `2^31` descriptors (`op.fits`), so that `numCopies`, an
`int`, returns the number of its descriptors. -/
theorem ParticleCopyPlan.build_counts_sum {P : Type} (self : ParticleCopyPlan)
    (pc : ParticleContainer P) (op : ParticleCopyOp) (do_handshake : Bool)
    (buildMPIStart : ParticleCopyPlan → Bool → Res CommSchedule)
    (orders : Nat → List Nat) (pastEnd : Nat) (plan : ParticleCopyPlan)
    (hnt : ¬ (pc.numBoxes = 1 ∧ ¬ pc.Geom.isAnyPeriodic))
    (horders : ∀ m ∈ pc.MakeMFIter, (orders m.1).Perm (sequentialOrders op m.1))
    (hN : numCopied op pc.MakeMFIter < 2147483648)
    (hfit : op.fits pc.MakeMFIter)
    (h : self.build pc op do_handshake buildMPIStart orders pastEnd = Res.ok plan) :
    plan.m_box_counts.sum = numCopied op pc.MakeMFIter ∧
    (∀ (p_boxes : List Int) (gid i : Nat) (d : Int)
      (st : List Nat × (Nat → Option (List Int))), p_boxes[i]? = some d → d < 0 →
      ParticleCopyPlan.slotStep pc.gridToBucket p_boxes gid st i = Res.ok st) := by
  obtain ⟨-, dst0, -, hloop, -⟩ :=
    ParticleCopyPlan.build_parts self pc op do_handshake buildMPIStart orders pastEnd plan hnt h
  have hev := ParticleCopyPlan.gridLoop_events _ _ _ _ hfit horders _ _ hloop
  have hlen := copyEvents_copied_length op pc.MakeMFIter orders horders
  constructor
  · rw [← hlen]
    exact ParticleCopyPlan.eventLoop_sum pc.gridToBucket op _ (by rw [hlen]; exact hN) _ _
      (by simp) hev
  · intro p_boxes gid i d st hd hneg
    unfold ParticleCopyPlan.slotStep
    rw [(readNat_eq_ok).mpr hd]
    simp [hneg]

/-- Witness for C3: the example, where three of the four descriptors are copied. -/
theorem ParticleCopyPlan.build_counts_sum_witness :
    ¬ (examplePC.numBoxes = 1 ∧ ¬ examplePC.Geom.isAnyPeriodic) ∧
    (∀ m ∈ examplePC.MakeMFIter, (exampleOrders m.1).Perm (sequentialOrders exampleOp m.1)) ∧
    numCopied exampleOp examplePC.MakeMFIter < 2147483648 ∧
    exampleOp.fits examplePC.MakeMFIter ∧
    ParticleCopyPlan.fresh.build examplePC exampleOp true exampleMPIStart exampleOrders 0 =
      Res.ok examplePlan ∧
    examplePlan.m_box_counts = [2, 1] ∧
    examplePlan.m_box_counts.sum = 3 :=
  ⟨by decide, by decide, by decide, by decide, rfl, by decide,
    (ParticleCopyPlan.build_counts_sum ParticleCopyPlan.fresh examplePC exampleOp true
      exampleMPIStart exampleOrders 0 examplePlan (by decide) (by decide) (by decide)
      (by decide) rfl).1⟩

theorem bucketSegment_append (op : ParticleCopyOp) (p_box_perm : List Nat)
    (done : List Descriptor) (e : Descriptor) (b : Nat) :
    bucketSegment op p_box_perm (done ++ [e]) b =
      bucketSegment op p_box_perm done b ++
        if op.bucketOf p_box_perm e = some b then [e] else [] := by
  unfold bucketSegment
  rw [List.filter_append]
  by_cases h : op.bucketOf p_box_perm e = some b <;> simp [h]

theorem bucketSegment_mem (op : ParticleCopyOp) (p_box_perm : List Nat)
    (done : List Descriptor) (e : Descriptor) (b : Nat) :
    e ∈ bucketSegment op p_box_perm done b ↔ e ∈ done ∧ op.bucketOf p_box_perm e = some b := by
  unfold bucketSegment
  rw [List.mem_filter]
  simp

theorem slotOf_update_ne (dst : Nat → Option (List Int)) (e e' : Descriptor) (v : Int)
    (hne : e' ≠ e) :
    slotOf (Function.update dst e.1 (some (((dst e.1).getD []).set e.2 v))) e' = slotOf dst e' := by
  unfold slotOf
  by_cases h1 : e'.1 = e.1
  · have h2 : e'.2 ≠ e.2 := by
      intro h2; exact hne (Prod.ext h1 h2)
    rw [h1, Function.update_same]
    cases hd : dst e.1 with
    | none => simp
    | some l =>
      simp only [Option.getD_some, Option.some_bind]
      rw [List.getElem?_set]
      simp [Ne.symm h2]
  · rw [Function.update_noteq h1]

theorem slotOf_update_self (dst : Nat → Option (List Int)) (e : Descriptor) (v : Int)
    (h : e.2 < ((dst e.1).getD []).length) :
    slotOf (Function.update dst e.1 (some (((dst e.1).getD []).set e.2 v))) e = some v := by
  unfold slotOf
  rw [Function.update_same]
  simp only [Option.some_bind]
  rw [List.getElem?_set]
  simp [h]

theorem ParticleCopyPlan.eventStep_seg (p_box_perm : List Nat) (op : ParticleCopyOp)
    (all done : List Descriptor) (e : Descriptor) (rest : List Descriptor)
    (hall : done ++ e :: rest = all) (hnd : all.Nodup)
    (hN : (all.filter op.copied).length < 2147483648)
    (st st' : List Nat × (Nat → Option (List Int)))
    (hinv : SumInv op done st ∧ SegInv op p_box_perm done st)
    (h : ParticleCopyPlan.eventStep p_box_perm op st e = Res.ok st') :
    SumInv op (done ++ [e]) st' ∧ SegInv op p_box_perm (done ++ [e]) st' := by
  refine ⟨ParticleCopyPlan.eventStep_sum p_box_perm op all done e rest hall hN st st' hinv.1 h,
    ?_⟩
  obtain ⟨hsum, hcnt, hslot, hbkt, hcb⟩ := hinv
  unfold SumInv at hsum
  have he_not : e ∉ done := by
    rw [← hall] at hnd
    have := List.nodup_append.mp hnd
    intro hmem
    exact this.2.2 hmem (List.mem_cons_self _ _) 
  rcases ParticleCopyPlan.eventStep_cases p_box_perm op st st' e h with
    ⟨hdr, hb, rfl⟩ | ⟨b0, old, hc, hb, hold, hi, rfl⟩
  · refine ⟨?_, ?_, ?_, ?_⟩
    · intro b v hv
      rw [bucketSegment_append, hb]
      simpa using hcnt b v hv
    · intro b j e' hj
      rw [bucketSegment_append, hb] at hj
      simp only [reduceCtorEq, if_false, List.append_nil] at hj
      exact hslot b j e' hj
    · intro e' b hmem hbe
      rcases List.mem_append.mp hmem with hm | hm
      · exact hbkt e' b hm hbe
      · rw [List.mem_singleton] at hm
        subst hm
        rw [hb] at hbe
        cases hbe
    · intro e' hmem hce
      rcases List.mem_append.mp hmem with hm | hm
      · exact hcb e' hm hce
      · rw [List.mem_singleton] at hm
        subst hm
        rw [hdr] at hce
        cases hce
  · have hb0 : b0 < st.1.length := (List.getElem?_eq_some.mp hold).1
    have hold_eq : old = (bucketSegment op p_box_perm done b0).length := hcnt b0 old hold
    have hle := le_sum_of_getElem? st.1 b0 old hold
    have hpre := filter_length_prefix op.copied done e rest hc
    rw [hall] at hpre
    have hadd : u32add old 1 = old + 1 := u32add_of_lt _ _ (by omega)
    have hint : toInt32 old = (old : Int) := toInt32_of_lt _ (by omega)
    refine ⟨?_, ?_, ?_, ?_⟩
    · intro b v hv
      dsimp only at hv
      rw [bucketSegment_append, hb]
      rw [List.getElem?_set] at hv
      by_cases hbb : b0 = b
      · subst hbb
        simp only [if_true, hb0] at hv
        cases hv
        rw [hadd, hold_eq]
        simp
      · rw [if_neg hbb] at hv
        have : ¬ (some b0 = some b) := fun h => hbb (Option.some.inj h)
        simp only [this, if_false, List.append_nil]
        exact hcnt b v hv
    · intro b j e' hj
      dsimp only
      rw [bucketSegment_append, hb] at hj
      by_cases hbb : b0 = b
      · subst hbb
        simp only [if_true] at hj
        by_cases hjl : j < (bucketSegment op p_box_perm done b0).length
        · rw [List.getElem?_append_left hjl] at hj
          have hmem : e' ∈ done :=
            ((bucketSegment_mem op p_box_perm done e' b0).mp
              (List.mem_iff_getElem?.mpr ⟨j, hj⟩)).1
          have hne : e' ≠ e := fun h => he_not (h ▸ hmem)
          rw [slotOf_update_ne _ _ _ _ hne]
          exact hslot b0 j e' hj
        · have hjl' : j = (bucketSegment op p_box_perm done b0).length := by
            have := (List.getElem?_eq_some.mp hj).1
            simp only [List.length_append, List.length_singleton] at this
            omega
          subst hjl'
          rw [List.getElem?_concat_length] at hj
          cases hj
          rw [slotOf_update_self _ _ _ hi, hint, hold_eq]
      · have : ¬ (some b0 = some b) := fun h => hbb (Option.some.inj h)
        simp only [this, if_false, List.append_nil] at hj
        have hmem : e' ∈ done :=
          ((bucketSegment_mem op p_box_perm done e' b).mp
            (List.mem_iff_getElem?.mpr ⟨j, hj⟩)).1
        have hne : e' ≠ e := fun h => he_not (h ▸ hmem)
        rw [slotOf_update_ne _ _ _ _ hne]
        exact hslot b j e' hj
    · intro e' b hmem hbe
      dsimp only
      rw [List.length_set]
      rcases List.mem_append.mp hmem with hm | hm
      · exact hbkt e' b hm hbe
      · rw [List.mem_singleton] at hm
        subst hm
        rw [hb] at hbe
        cases hbe
        exact hb0
    · intro e' hmem hce
      rcases List.mem_append.mp hmem with hm | hm
      · exact hcb e' hm hce
      · rw [List.mem_singleton] at hm
        subst hm
        exact ⟨b0, hb⟩


theorem mem_copyEvents (mfi : List TileIndex) (orders : Nat → List Nat) (e : Descriptor) :
    e ∈ copyEvents mfi orders ↔ e.1 ∈ mfi.map Prod.fst ∧ e.2 ∈ orders e.1 := by
  unfold copyEvents
  simp only [List.mem_flatMap, List.mem_map]
  constructor
  · rintro ⟨m, hm, i, hi, rfl⟩
    exact ⟨⟨m, hm, rfl⟩, hi⟩
  · rintro ⟨⟨m, hm, h1⟩, h2⟩
    exact ⟨m, hm, e.2, h1 ▸ h2, by rw [h1]⟩

theorem copyEvents_nodup (mfi : List TileIndex) (orders : Nat → List Nat)
    (hmfi : (mfi.map Prod.fst).Nodup) (hord : ∀ m ∈ mfi, (orders m.1).Nodup) :
    (copyEvents mfi orders).Nodup := by
  induction mfi with
  | nil => simp [copyEvents]
  | cons m ms ih =>
    have hev : copyEvents (m :: ms) orders =
        (orders m.1).map (fun i => (m.1, i)) ++ copyEvents ms orders := by
      simp [copyEvents]
    rw [List.map_cons, List.nodup_cons] at hmfi
    rw [hev, List.nodup_append]
    refine ⟨?_, ih hmfi.2 (fun k hk => hord k (List.mem_cons_of_mem _ hk)), ?_⟩
    · exact (hord m (List.mem_cons_self _ _)).map (fun a b hab => by
        simpa using congrArg Prod.snd hab)
    · intro e h1 h2
      rw [List.mem_map] at h1
      obtain ⟨i, -, rfl⟩ := h1
      exact hmfi.1 ((mem_copyEvents ms orders _).mp h2).1

theorem sequentialOrders_nodup_of_perm (op : ParticleCopyOp) (l : List Nat) (g : Nat)
    (h : l.Perm (sequentialOrders op g)) : l.Nodup :=
  h.nodup_iff.mpr (List.nodup_range _)

theorem ParticleCopyPlan.eventLoop_inv (p_box_perm : List Nat) (op : ParticleCopyOp)
    (all : List Descriptor) (hnd : all.Nodup) (hN : (all.filter op.copied).length < 2147483648)
    (st0 st : List Nat × (Nat → Option (List Int))) (nb : Nat)
    (h0 : st0.1 = List.replicate nb 0)
    (h : loopM (ParticleCopyPlan.eventStep p_box_perm op) st0 all = Res.ok st) :
    SumInv op all st ∧ SegInv op p_box_perm all st :=
  loopM_inv (ParticleCopyPlan.eventStep p_box_perm op)
    (fun done s => SumInv op done s ∧ SegInv op p_box_perm done s) all
    (fun done x rest s s' hxs hinv hs =>
      ParticleCopyPlan.eventStep_seg p_box_perm op all done x rest hxs hnd hN s s' hinv hs)
    all [] st0 st (by simp)
    (by
      refine ⟨by simp [SumInv, h0], ?_, ?_, ?_, ?_⟩
      · intro b v hv
        rw [h0, List.getElem?_replicate] at hv
        split at hv
        · cases hv; simp [bucketSegment]
        · cases hv
      · intro b j e hj
        simp [bucketSegment] at hj
      · intro e b hmem
        simp at hmem
      · intro e hmem
        simp at hmem) h

theorem ParticleCopyPlan.eventLoop_length (p_box_perm : List Nat) (op : ParticleCopyOp)
    (all : List Descriptor) (st0 st : List Nat × (Nat → Option (List Int)))
    (h : loopM (ParticleCopyPlan.eventStep p_box_perm op) st0 all = Res.ok st) :
    st.1.length = st0.1.length :=
  loopM_inv (ParticleCopyPlan.eventStep p_box_perm op)
    (fun _ s => s.1.length = st0.1.length) all
    (fun done x rest s s' _ hinv hs => by
      rcases ParticleCopyPlan.eventStep_cases p_box_perm op s s' x hs with
        ⟨-, -, rfl⟩ | ⟨b, old, -, -, -, -, rfl⟩
      · exact hinv
      · simpa using hinv)
    all [] st0 st (by simp) rfl h

/-- What a non-trivial `ParticleCopyPlan::build` leaves in the plan. -/
theorem ParticleCopyPlan.build_planTables {P : Type} (self : ParticleCopyPlan)
    (pc : ParticleContainer P) (op : ParticleCopyOp) (do_handshake : Bool)
    (buildMPIStart : ParticleCopyPlan → Bool → Res CommSchedule)
    (orders : Nat → List Nat) (pastEnd : Nat) (plan : ParticleCopyPlan)
    (hnt : ¬ (pc.numBoxes = 1 ∧ ¬ pc.Geom.isAnyPeriodic))
    (hmfi : (pc.MakeMFIter.map Prod.fst).Nodup)
    (horders : ∀ m ∈ pc.MakeMFIter, (orders m.1).Perm (sequentialOrders op m.1))
    (hN : numCopied op pc.MakeMFIter < 2147483648)
    (hfit : op.fits pc.MakeMFIter)
    (h : self.build pc op do_handshake buildMPIStart orders pastEnd = Res.ok plan) :
    PlanTables pc op orders plan := by
  obtain ⟨-, dst0, -, hloop, hoff⟩ :=
    ParticleCopyPlan.build_parts self pc op do_handshake buildMPIStart orders pastEnd plan hnt h
  have hev := ParticleCopyPlan.gridLoop_events _ _ _ _ hfit horders _ _ hloop
  have hlen := copyEvents_copied_length op pc.MakeMFIter orders horders
  have hnd : (copyEvents pc.MakeMFIter orders).Nodup :=
    copyEvents_nodup _ _ hmfi
      (fun m hm => sequentialOrders_nodup_of_perm op _ _ (horders m hm))
  obtain ⟨hsum, hcnt, hslot, hbkt, hcb⟩ := ParticleCopyPlan.eventLoop_inv pc.gridToBucket op _ hnd
    (by rw [hlen]; exact hN) _ _ pc.numBoxes rfl hev
  have hcl : plan.m_box_counts.length = pc.numBoxes := by
    have := ParticleCopyPlan.eventLoop_length pc.gridToBucket op _ _ _ hev
    simpa using this
  have hsum' : plan.m_box_counts.sum = numCopied op pc.MakeMFIter := by
    rw [← hlen]; exact hsum
  have hscanl : (exclusive_scan 0 (plan.m_box_counts ++ [pastEnd])).length =
      pc.numBoxes + 1 := by
    rw [exclusive_scan_length]; simp [hcl]
  have hoff' : plan.m_box_offsets = exclusive_scan 0 (plan.m_box_counts ++ [pastEnd]) := by
    rw [hoff, hscanl, List.drop_of_length_le (by rw [resize_length]), List.append_nil]
  refine ⟨hcl, hcnt, hslot, ?_, hsum', ?_, ?_, hnd, hN, hcb⟩
  · intro e b hmem hb
    have := hbkt e b hmem hb
    dsimp only at this
    omega
  · rw [hoff', hscanl]
  · intro k hk
    have htake : (plan.m_box_counts ++ [pastEnd]).take k = plan.m_box_counts.take k :=
      List.take_append_of_le_length (by omega)
    have hle := sum_take_le plan.m_box_counts k
    have := exclusive_scan_getElem? 0 (plan.m_box_counts ++ [pastEnd]) k
      (by simp [hcl]; omega) (by rw [htake]; omega)
    rw [hoff', this, htake]
    simp


/-- A descriptor with a bucket is one of the events of the run. -/
theorem mem_copyEvents_of_bucketOf {P : Type} (pc : ParticleContainer P) (op : ParticleCopyOp)
    (orders : Nat → List Nat)
    (horders : ∀ m ∈ pc.MakeMFIter, (orders m.1).Perm (sequentialOrders op m.1))
    (e : Descriptor) (b : Nat) (hg : e.1 ∈ pc.MakeMFIter.map Prod.fst)
    (hb : op.bucketOf pc.gridToBucket e = some b) : e ∈ copyEvents pc.MakeMFIter orders := by
  rw [mem_copyEvents]
  refine ⟨hg, ?_⟩
  rw [List.mem_map] at hg
  obtain ⟨m, hm, hm1⟩ := hg
  have hp := horders m hm
  rw [hm1] at hp
  rw [hp.mem_iff]
  unfold sequentialOrders
  rw [List.mem_range]
  unfold ParticleCopyOp.bucketOf ParticleCopyOp.dest at hb
  cases hbx : op.m_boxes e.1 with
  | none => simp [hbx] at hb
  | some l =>
    simp only [hbx, Option.some_bind] at hb
    cases hl : l[e.2]? with
    | none => simp [hl] at hb
    | some d => exact (List.getElem?_eq_some.mp hl).1

/-- Position and slot of a descriptor in its bucket. -/
theorem PlanTables.slot_of_bucket {P : Type} {pc : ParticleContainer P} {op : ParticleCopyOp}
    {orders : Nat → List Nat} {plan : ParticleCopyPlan} (ht : PlanTables pc op orders plan)
    (e : Descriptor) (b : Nat) (he : e ∈ copyEvents pc.MakeMFIter orders)
    (hb : op.bucketOf pc.gridToBucket e = some b) :
    ∃ j : Nat, (bucketSegment op pc.gridToBucket (copyEvents pc.MakeMFIter orders) b)[j]? =
        some e ∧ slotOf plan.m_dst_indices e = some (j : Int) ∧
      plan.m_box_counts[b]? = some
        (bucketSegment op pc.gridToBucket (copyEvents pc.MakeMFIter orders) b).length ∧
      j < (bucketSegment op pc.gridToBucket (copyEvents pc.MakeMFIter orders) b).length := by
  have hmem := (bucketSegment_mem op pc.gridToBucket _ e b).mpr ⟨he, hb⟩
  obtain ⟨j, hj⟩ := List.mem_iff_getElem?.mp hmem
  have hblt : b < plan.m_box_counts.length := by
    rw [ht.counts_length]; exact ht.bucket_lt e b he hb
  have hc := List.getElem?_eq_getElem hblt
  have hv := ht.counts_eq b _ hc
  exact ⟨j, hj, ht.slot_eq b j e hj, by rw [hc, hv], (List.getElem?_eq_some.mp hj).1⟩

/-- C4. After a non-trivial `ParticleCopyPlan::build` (every source box visited once, slot
loops run in any order, fewer than `2^31` copied descriptors), two distinct copied descriptors,
from the same or from different source boxes, whose destinations map to the same bucket have
different resolved slots in `m_dst_indices`, and the resolved slot `s` of a descriptor copied
to bucket `b` satisfies `0 <= s < m_box_counts[b]`.
Every box visited holds fewer than `2^31` descriptors (`op.fits`), so that `numCopies`, an
`int`, returns the number of its descriptors. -/
theorem ParticleCopyPlan.build_slots_unique_in_range {P : Type} (self : ParticleCopyPlan)
    (pc : ParticleContainer P) (op : ParticleCopyOp) (do_handshake : Bool)
    (buildMPIStart : ParticleCopyPlan → Bool → Res CommSchedule)
    (orders : Nat → List Nat) (pastEnd : Nat) (plan : ParticleCopyPlan)
    (hnt : ¬ (pc.numBoxes = 1 ∧ ¬ pc.Geom.isAnyPeriodic))
    (hmfi : (pc.MakeMFIter.map Prod.fst).Nodup)
    (horders : ∀ m ∈ pc.MakeMFIter, (orders m.1).Perm (sequentialOrders op m.1))
    (hN : numCopied op pc.MakeMFIter < 2147483648)
    (hfit : op.fits pc.MakeMFIter)
    (h : self.build pc op do_handshake buildMPIStart orders pastEnd = Res.ok plan) :
    (∀ (e1 e2 : Descriptor) (b : Nat), e1.1 ∈ pc.MakeMFIter.map Prod.fst →
      e2.1 ∈ pc.MakeMFIter.map Prod.fst → op.bucketOf pc.gridToBucket e1 = some b →
      op.bucketOf pc.gridToBucket e2 = some b → e1 ≠ e2 →
      slotOf plan.m_dst_indices e1 ≠ slotOf plan.m_dst_indices e2) ∧
    (∀ (e : Descriptor) (b : Nat), e.1 ∈ pc.MakeMFIter.map Prod.fst →
      op.bucketOf pc.gridToBucket e = some b →
      ∃ (s : Int) (c : Nat), slotOf plan.m_dst_indices e = some s ∧
        plan.m_box_counts[b]? = some c ∧ 0 ≤ s ∧ s < (c : Int)) := by
  have ht := ParticleCopyPlan.build_planTables self pc op do_handshake buildMPIStart orders pastEnd
    plan hnt hmfi horders hN hfit h
  constructor
  · intro e1 e2 b hg1 hg2 hb1 hb2 hne heq
    have he1 := mem_copyEvents_of_bucketOf pc op orders horders e1 b hg1 hb1
    have he2 := mem_copyEvents_of_bucketOf pc op orders horders e2 b hg2 hb2
    obtain ⟨j1, hj1, hs1, -, -⟩ := ht.slot_of_bucket e1 b he1 hb1
    obtain ⟨j2, hj2, hs2, -, -⟩ := ht.slot_of_bucket e2 b he2 hb2
    rw [hs1, hs2] at heq
    have hj : j1 = j2 := by
      have := Option.some.inj heq
      exact_mod_cast this
    rw [hj, hj2] at hj1
    exact hne (Option.some.inj hj1).symm
  · intro e b hg hb
    have he := mem_copyEvents_of_bucketOf pc op orders horders e b hg hb
    obtain ⟨j, -, hs, hc, hjl⟩ := ht.slot_of_bucket e b he hb
    exact ⟨j, _, hs, hc, by omega, by exact_mod_cast hjl⟩

/-- Witness for C4: in the example the descriptors 0 and 2 of box 0 both go to bucket 0 and
hold the slots 1 and 0 (the loop of box 0 ran in the order 2, 0, 1). -/
theorem ParticleCopyPlan.build_slots_unique_in_range_witness :
    ¬ (examplePC.numBoxes = 1 ∧ ¬ examplePC.Geom.isAnyPeriodic) ∧
    (examplePC.MakeMFIter.map Prod.fst).Nodup ∧
    (∀ m ∈ examplePC.MakeMFIter, (exampleOrders m.1).Perm (sequentialOrders exampleOp m.1)) ∧
    numCopied exampleOp examplePC.MakeMFIter < 2147483648 ∧
    exampleOp.fits examplePC.MakeMFIter ∧
    ParticleCopyPlan.fresh.build examplePC exampleOp true exampleMPIStart exampleOrders 0 =
      Res.ok examplePlan ∧
    exampleOp.bucketOf examplePC.gridToBucket (0, 0) = some 0 ∧
    exampleOp.bucketOf examplePC.gridToBucket (0, 2) = some 0 ∧
    slotOf examplePlan.m_dst_indices (0, 0) = some 1 ∧
    slotOf examplePlan.m_dst_indices (0, 2) = some 0 ∧
    slotOf examplePlan.m_dst_indices (0, 0) ≠ slotOf examplePlan.m_dst_indices (0, 2) :=
  ⟨by decide, by decide, by decide, by decide, by decide, rfl, by decide, by decide, by decide,
    by decide,
    (ParticleCopyPlan.build_slots_unique_in_range ParticleCopyPlan.fresh examplePC exampleOp true
      exampleMPIStart exampleOrders 0 examplePlan (by decide) (by decide) (by decide)
      (by decide) (by decide) rfl).1 (0, 0) (0, 2) 0 (by decide) (by decide) (by decide) (by decide)
      (by decide)⟩

/-! ## `packBuffer` -/

theorem shiftAxis_apply (geom : Geometry) (pshift : Fin 3 → Int) (pos : Fin 3 → ℚ)
    (idim d : Fin 3) :
    shiftAxis geom pshift pos idim d =
      if d = idim then
        (if geom.isPeriodicArray d = false then pos d
         else if pshift d > 0 then pos d + geom.domainLength d
         else if pshift d < 0 then pos d - geom.domainLength d
         else pos d)
      else pos d := by
  unfold shiftAxis Geometry.domainLength
  by_cases hd : d = idim
  · subst hd
    by_cases hp : geom.isPeriodicArray d = true
    · by_cases h1 : pshift d > 0
      · simp [hp, h1]
      · by_cases h2 : pshift d < 0
        · simp [hp, h1, h2]
        · simp [hp, h1, h2]
    · simp [hp]
  · by_cases hp : geom.isPeriodicArray idim = true
    · by_cases h1 : pshift idim > 0
      · simp [hp, h1, hd, Function.update_noteq hd]
      · by_cases h2 : pshift idim < 0
        · simp [hp, h1, h2, hd, Function.update_noteq hd]
        · simp [hp, h1, h2, hd]
    · simp [hp, hd]

/-- The position of a packed record, axis by axis. -/
theorem applyShift_pos {A : Type} (geom : Geometry) (pshift : Fin 3 → Int) (p : Particle A)
    (d : Fin 3) :
    (applyShift geom pshift p).pos d =
      if geom.isPeriodicArray d = false then p.pos d
      else if pshift d > 0 then p.pos d + geom.domainLength d
      else if pshift d < 0 then p.pos d - geom.domainLength d
      else p.pos d := by
  unfold applyShift
  simp only [List.foldl_cons, List.foldl_nil]
  fin_cases d <;> simp [shiftAxis_apply]


/-- The nested loops of `packBuffer` run, one after the other, the iterations below the count
of their box. -/
theorem packGrid_events_run {A : Type} (pc : ParticleContainer (Particle A))
    (op : ParticleCopyOp) (plan : ParticleCopyPlan) (orders : Nat → List Nat)
    (mfi : List TileIndex) (buf buf' : List (Particle A))
    (h : loopM (packGrid pc op plan orders) buf mfi = Res.ok buf') :
    loopM (packEventStep pc op plan) buf (packEvents mfi (op.runOrder orders)) = Res.ok buf' := by
  induction mfi generalizing buf with
  | nil => simpa [packEvents, loopM_nil] using h
  | cons m ms ih =>
    rw [loopM_cons, Res.bind_eq_ok] at h
    obtain ⟨s1, h1, h2⟩ := h
    have hev : packEvents (m :: ms) (op.runOrder orders) =
        (op.runOrder orders m.1).map (fun i => (m, i)) ++
          packEvents ms (op.runOrder orders) := by
      simp [packEvents]
    rw [hev, loopM_append, Res.bind_eq_ok]
    refine ⟨s1, ?_, ih s1 h2⟩
    unfold packGrid at h1
    rw [Res.bind_eq_ok] at h1
    obtain ⟨tile, htile, h1⟩ := h1
    rw [Res.bind_eq_ok] at h1
    obtain ⟨nc, hnc, h1⟩ := h1
    rw [Res.bind_eq_ok] at h1
    obtain ⟨pb, hpb, h1⟩ := h1
    rw [Res.bind_eq_ok] at h1
    obtain ⟨ps, hps, h1⟩ := h1
    rw [Res.bind_eq_ok] at h1
    obtain ⟨pd, hpd, h1⟩ := h1
    rw [Res.bind_eq_ok] at h1
    obtain ⟨psh, hpsh, h1⟩ := h1
    rw [ParticleCopyOp.numCopies_eq_ok] at hnc
    obtain ⟨b, hb, rfl⟩ := hnc
    have hrun : op.runOrder orders m.1 =
        (orders m.1).filter fun (i : Nat) => decide ((i : Int) < toInt32 b.length) := by
      unfold ParticleCopyOp.runOrder
      rw [hb]
      rfl
    rw [hrun, loopM_map, ← h1]
    apply loopM_congr
    intro s x _
    simp [packEventStep, htile, hpb, hps, hpd, hpsh]

/-- The nested loops of `packBuffer` run the iterations of `packEvents` one after the other. -/
theorem packGrid_events {A : Type} (pc : ParticleContainer (Particle A)) (op : ParticleCopyOp)
    (plan : ParticleCopyPlan) (orders : Nat → List Nat) (mfi : List TileIndex)
    (hfit : op.fits mfi) (horders : ∀ m ∈ mfi, (orders m.1).Perm (sequentialOrders op m.1))
    (buf buf' : List (Particle A))
    (h : loopM (packGrid pc op plan orders) buf mfi = Res.ok buf') :
    loopM (packEventStep pc op plan) buf (packEvents mfi orders) = Res.ok buf' := by
  induction mfi generalizing buf with
  | nil => simpa [packEvents, loopM_nil] using h
  | cons m ms ih =>
    rw [loopM_cons, Res.bind_eq_ok] at h
    obtain ⟨s1, h1, h2⟩ := h
    have hev : packEvents (m :: ms) orders =
        (orders m.1).map (fun i => (m, i)) ++ packEvents ms orders := by
      simp [packEvents]
    rw [hev, loopM_append, Res.bind_eq_ok]
    refine ⟨s1, ?_, ih (fun k hk => hfit k (List.mem_cons_of_mem _ hk))
      (fun k hk => horders k (List.mem_cons_of_mem _ hk)) s1 h2⟩
    unfold packGrid at h1
    rw [Res.bind_eq_ok] at h1
    obtain ⟨tile, htile, h1⟩ := h1
    rw [Res.bind_eq_ok] at h1
    obtain ⟨nc, hnc, h1⟩ := h1
    rw [Res.bind_eq_ok] at h1
    obtain ⟨pb, hpb, h1⟩ := h1
    rw [Res.bind_eq_ok] at h1
    obtain ⟨ps, hps, h1⟩ := h1
    rw [Res.bind_eq_ok] at h1
    obtain ⟨pd, hpd, h1⟩ := h1
    rw [Res.bind_eq_ok] at h1
    obtain ⟨psh, hpsh, h1⟩ := h1
    rw [filter_lt_of_fits op orders m nc (hfit m (List.mem_cons_self _ _))
      (horders m (List.mem_cons_self _ _)) hnc] at h1
    rw [loopM_map, ← h1]
    apply loopM_congr
    intro s x _
    simp [packEventStep, htile, hpb, hps, hpd, hpsh]

/-- The two outcomes of one iteration of the copy loop of `packBuffer`. -/
theorem packEventStep_cases {A : Type} (pc : ParticleContainer (Particle A))
    (op : ParticleCopyOp) (plan : ParticleCopyPlan) (buf buf' : List (Particle A))
    (x : TileIndex × Nat) (h : packEventStep pc op plan buf x = Res.ok buf') :
    (op.copied (x.1.1, x.2) = false ∧ buf' = buf) ∨
    (∃ (b k : Nat) (sp rec : Particle A) (sh : Fin 3 → Int),
      op.copied (x.1.1, x.2) = true ∧ op.bucketOf pc.gridToBucket (x.1.1, x.2) = some b ∧
      plan.address pc.gridToBucket op (x.1.1, x.2) = some (k : Int) ∧
      gathered pc op x.1 x.2 = some sp ∧ op.shiftOf (x.1.1, x.2) = some sh ∧
      rec = applyShift pc.Geom sh sp ∧ packedRecord pc op x.1 x.2 = some rec ∧
      k < buf.length ∧ buf' = buf.set k rec) := by
  unfold packEventStep at h
  rw [Res.bind_eq_ok] at h
  obtain ⟨tile, htile, h⟩ := h
  have htile' : pc.GetParticles x.1 = some tile := mapAt_eq_ok.mp htile
  rw [Res.bind_eq_ok] at h
  obtain ⟨pb, hpb, h⟩ := h
  rw [Res.bind_eq_ok] at h
  obtain ⟨ps, hps, h⟩ := h
  rw [Res.bind_eq_ok] at h
  obtain ⟨pd, hpd, h⟩ := h
  rw [Res.bind_eq_ok] at h
  obtain ⟨psh, hpsh, h⟩ := h
  rw [mapAt_eq_ok] at hpb hps hpd hpsh
  unfold packStep at h
  rw [Res.bind_eq_ok] at h
  obtain ⟨d, hd, h⟩ := h
  rw [readNat_eq_ok] at hd
  have hdest : op.dest (x.1.1, x.2) = some d := by simp [ParticleCopyOp.dest, hpb, hd]
  by_cases hneg : d < 0
  · left
    rw [if_pos hneg] at h
    simp only [Res.pure_eq, Res.ok.injEq] at h
    refine ⟨?_, h.symm⟩
    simp [ParticleCopyOp.copied, hdest]; omega
  · right
    rw [if_neg hneg] at h
    rw [Res.bind_eq_ok] at h
    obtain ⟨b, hb, h⟩ := h
    rw [Res.bind_eq_ok] at h
    obtain ⟨off, hoff, h⟩ := h
    rw [Res.bind_eq_ok] at h
    obtain ⟨di, hdi, h⟩ := h
    rw [Res.bind_eq_ok] at h
    obtain ⟨src, hsrc, h⟩ := h
    rw [Res.bind_eq_ok] at h
    obtain ⟨sp, hsp, h⟩ := h
    rw [Res.bind_eq_ok] at h
    obtain ⟨sh, hsh, h⟩ := h
    rw [readAt_eq_ok] at hb
    rw [readNat_eq_ok] at hoff hdi hsrc hsh
    unfold ParticleTile.getSuperParticle at hsp
    rw [readAt_eq_ok] at hsp
    by_cases hk : 0 ≤ toInt32 off + di
    · rw [if_pos hk, writeNat_eq_ok] at h
      obtain ⟨hlt, rfl⟩ := h
      have hbk : op.bucketOf pc.gridToBucket (x.1.1, x.2) = some b := by
        simp [ParticleCopyOp.bucketOf, hdest, hneg, hb.2]
      have hga : gathered pc op x.1 x.2 = some sp := by
        simp [gathered, htile', hps, hsrc, hsp.1, hsp.2]
      have hsf : op.shiftOf (x.1.1, x.2) = some sh := by
        simp [ParticleCopyOp.shiftOf, hpsh, hsh]
      refine ⟨b, (toInt32 off + di).toNat, sp, applyShift pc.Geom sh sp, sh, ?_, hbk, ?_, hga,
        hsf, rfl, ?_, hlt, rfl⟩
      · simp [ParticleCopyOp.copied, hdest]; omega
      · simp only [ParticleCopyPlan.address, hbk, Option.some_bind, hoff, slotOf, hpd, hdi,
          Option.map_some']
        rw [Int.toNat_of_nonneg hk]
      · simp [packedRecord, hga, hsf]
    · rw [if_neg hk] at h
      cases h

/-- C6. In `packBuffer`, every packed record is the gathered super-particle with `applyShift`
applied, and for every axis: if the axis is not periodic the position is unchanged whatever the
shift value; if the axis is periodic the packed position equals the source position plus one
domain length `ProbHi - ProbLo` when the shift is positive, minus one domain length when the
shift is negative, and is unchanged when the shift is zero (positions are rationals: exact
arithmetic). The other attributes are unchanged. -/
theorem packEventStep_periodic_shift {A : Type} (pc : ParticleContainer (Particle A))
    (op : ParticleCopyOp) (plan : ParticleCopyPlan) (buf buf' : List (Particle A))
    (x : TileIndex × Nat) (hc : op.copied (x.1.1, x.2) = true)
    (h : packEventStep pc op plan buf x = Res.ok buf') :
    ∃ (k : Nat) (sp rec : Particle A) (sh : Fin 3 → Int),
      plan.address pc.gridToBucket op (x.1.1, x.2) = some (k : Int) ∧
      gathered pc op x.1 x.2 = some sp ∧ op.shiftOf (x.1.1, x.2) = some sh ∧
      buf'[k]? = some rec ∧ rec.attr = sp.attr ∧
      ∀ d : Fin 3,
        (pc.Geom.isPeriodicArray d = false → rec.pos d = sp.pos d) ∧
        (pc.Geom.isPeriodicArray d = true → sh d > 0 →
          rec.pos d = sp.pos d + (pc.Geom.ProbHiArray d - pc.Geom.ProbLoArray d)) ∧
        (pc.Geom.isPeriodicArray d = true → sh d < 0 →
          rec.pos d = sp.pos d - (pc.Geom.ProbHiArray d - pc.Geom.ProbLoArray d)) ∧
        (pc.Geom.isPeriodicArray d = true → sh d = 0 → rec.pos d = sp.pos d) := by
  rcases packEventStep_cases pc op plan buf buf' x h with
    ⟨hc', -⟩ | ⟨b, k, sp, rec, sh, -, -, hadr, hga, hsf, hrec, -, hlt, rfl⟩
  · rw [hc] at hc'; cases hc'
  · refine ⟨k, sp, rec, sh, hadr, hga, hsf, by simp [hlt], by rw [hrec]; rfl, ?_⟩
    intro d
    rw [hrec, applyShift_pos]
    refine ⟨?_, ?_, ?_, ?_⟩
    · intro hp; simp [hp]
    · intro hp hs; simp [hp, hs, Geometry.domainLength]
    · intro hp hs
      have : ¬ sh d > 0 := by omega
      simp [hp, hs, this, Geometry.domainLength]
    · intro hp hs; simp [hp, hs]


/-- Witness for C6: in the example, packing the descriptor of box 1 (shift `+1` on the periodic
`x` axis) into a buffer of three records. -/
theorem packEventStep_periodic_shift_witness :
    exampleOp.copied (1, 0) = true ∧
    packEventStep examplePC exampleOp examplePlan (List.replicate 3 default) ((1, 0), 0) =
      Res.ok ((packEventStep examplePC exampleOp examplePlan (List.replicate 3 default)
        ((1, 0), 0)).getD []) ∧
    ∃ (k : Nat) (sp rec : Particle Nat) (sh : Fin 3 → Int),
      examplePlan.address examplePC.gridToBucket exampleOp (1, 0) = some (k : Int) ∧
      gathered examplePC exampleOp (1, 0) 0 = some sp ∧ exampleOp.shiftOf (1, 0) = some sh ∧
      ((packEventStep examplePC exampleOp examplePlan (List.replicate 3 default)
        ((1, 0), 0)).getD [])[k]? = some rec ∧ rec.attr = sp.attr ∧
      ∀ d : Fin 3,
        (examplePC.Geom.isPeriodicArray d = false → rec.pos d = sp.pos d) ∧
        (examplePC.Geom.isPeriodicArray d = true → sh d > 0 →
          rec.pos d = sp.pos d + (examplePC.Geom.ProbHiArray d - examplePC.Geom.ProbLoArray d)) ∧
        (examplePC.Geom.isPeriodicArray d = true → sh d < 0 →
          rec.pos d = sp.pos d - (examplePC.Geom.ProbHiArray d - examplePC.Geom.ProbLoArray d)) ∧
        (examplePC.Geom.isPeriodicArray d = true → sh d = 0 → rec.pos d = sp.pos d) :=
  ⟨by decide, rfl,
    packEventStep_periodic_shift examplePC exampleOp examplePlan (List.replicate 3 default) _
      ((1, 0), 0) (by decide) rfl⟩


/-- The address of the `j`-th descriptor of bucket `b` is the bucket's offset plus `j`. -/
theorem PlanTables.address_eq {P : Type} {pc : ParticleContainer P} {op : ParticleCopyOp}
    {orders : Nat → List Nat} {plan : ParticleCopyPlan} (ht : PlanTables pc op orders plan)
    (e : Descriptor) (b j : Nat) (he : e ∈ copyEvents pc.MakeMFIter orders)
    (hb : op.bucketOf pc.gridToBucket e = some b)
    (hj : (bucketSegment op pc.gridToBucket (copyEvents pc.MakeMFIter orders) b)[j]? = some e) :
    plan.address pc.gridToBucket op e =
      some ((((plan.m_box_counts.take b).sum + j : Nat)) : Int) := by
  have hblt := ht.bucket_lt e b he hb
  have hoff := ht.offsets_eq b (Nat.le_of_lt hblt)
  have hslot := ht.slot_eq b j e hj
  have hle := sum_take_le plan.m_box_counts b
  have hs := ht.counts_sum
  have hN := ht.copied_lt
  have hint : toInt32 (plan.m_box_counts.take b).sum = ((plan.m_box_counts.take b).sum : Int) :=
    toInt32_of_lt _ (by omega)
  simp only [ParticleCopyPlan.address, hb, Option.some_bind, hoff, hslot, Option.map_some', hint]
  push_cast
  rfl

/-- Distinct copied descriptors are packed at distinct addresses. -/
theorem PlanTables.address_injective {P : Type} {pc : ParticleContainer P}
    {op : ParticleCopyOp} {orders : Nat → List Nat} {plan : ParticleCopyPlan}
    (ht : PlanTables pc op orders plan) (e1 e2 : Descriptor) (b1 b2 : Nat) (k1 k2 : Nat)
    (he1 : e1 ∈ copyEvents pc.MakeMFIter orders) (he2 : e2 ∈ copyEvents pc.MakeMFIter orders)
    (hb1 : op.bucketOf pc.gridToBucket e1 = some b1)
    (hb2 : op.bucketOf pc.gridToBucket e2 = some b2) (hne : e1 ≠ e2)
    (hk1 : plan.address pc.gridToBucket op e1 = some (k1 : Int))
    (hk2 : plan.address pc.gridToBucket op e2 = some (k2 : Int)) : k1 ≠ k2 := by
  obtain ⟨j1, hj1, -, hc1, hl1⟩ := ht.slot_of_bucket e1 b1 he1 hb1
  obtain ⟨j2, hj2, -, hc2, hl2⟩ := ht.slot_of_bucket e2 b2 he2 hb2
  have ha1 := ht.address_eq e1 b1 j1 he1 hb1 hj1
  have ha2 := ht.address_eq e2 b2 j2 he2 hb2 hj2
  rw [hk1] at ha1
  rw [hk2] at ha2
  have e1' : k1 = (plan.m_box_counts.take b1).sum + j1 := by
    have := Option.some.inj ha1; exact_mod_cast this
  have e2' : k2 = (plan.m_box_counts.take b2).sum + j2 := by
    have := Option.some.inj ha2; exact_mod_cast this
  have hs1 := sum_take_succ plan.m_box_counts b1 _ hc1
  have hs2 := sum_take_succ plan.m_box_counts b2 _ hc2
  intro hk
  rcases Nat.lt_trichotomy b1 b2 with hlt | heq | hgt
  · have := sum_take_mono plan.m_box_counts (show b1 + 1 ≤ b2 from hlt)
    omega
  · subst heq
    have hj : j1 = j2 := by omega
    rw [hj, hj2] at hj1
    exact hne (Option.some.inj hj1).symm
  · have := sum_take_mono plan.m_box_counts (show b2 + 1 ≤ b1 from hgt)
    omega

theorem mem_packEvents (mfi : List TileIndex) (orders : Nat → List Nat) (x : TileIndex × Nat) :
    x ∈ packEvents mfi orders ↔ x.1 ∈ mfi ∧ x.2 ∈ orders x.1.1 := by
  unfold packEvents
  simp only [List.mem_flatMap, List.mem_map]
  constructor
  · rintro ⟨m, hm, i, hi, rfl⟩
    exact ⟨hm, hi⟩
  · rintro ⟨h1, h2⟩
    exact ⟨x.1, h1, x.2, h2, rfl⟩

theorem packEvents_nodup (mfi : List TileIndex) (orders : Nat → List Nat)
    (hmfi : mfi.Nodup) (hord : ∀ m ∈ mfi, (orders m.1).Nodup) :
    (packEvents mfi orders).Nodup := by
  induction mfi with
  | nil => simp [packEvents]
  | cons m ms ih =>
    have hev : packEvents (m :: ms) orders =
        (orders m.1).map (fun i => (m, i)) ++ packEvents ms orders := by
      simp [packEvents]
    rw [List.nodup_cons] at hmfi
    rw [hev, List.nodup_append]
    refine ⟨?_, ih hmfi.2 (fun k hk => hord k (List.mem_cons_of_mem _ hk)), ?_⟩
    · exact (hord m (List.mem_cons_self _ _)).map (fun a b hab => by
        simpa using congrArg Prod.snd hab)
    · intro e h1 h2
      rw [List.mem_map] at h1
      obtain ⟨i, -, rfl⟩ := h1
      exact hmfi.1 ((mem_packEvents ms orders _).mp h2).1

theorem address_bucketOf (plan : ParticleCopyPlan) (p_box_perm : List Nat)
    (op : ParticleCopyOp) (e : Descriptor) (k : Int)
    (h : plan.address p_box_perm op e = some k) : ∃ b, op.bucketOf p_box_perm e = some b := by
  unfold ParticleCopyPlan.address at h
  cases hb : op.bucketOf p_box_perm e with
  | none => simp [hb] at h
  | some b => exact ⟨b, rfl⟩

theorem packEventStep_inv {A : Type} (pc : ParticleContainer (Particle A))
    (op : ParticleCopyOp) (plan : ParticleCopyPlan) (orders : Nat → List Nat)
    (ht : PlanTables pc op orders plan)
    (hmfi : (pc.MakeMFIter.map Prod.fst).Nodup)
    (horders : ∀ m ∈ pc.MakeMFIter, (orders m.1).Perm (sequentialOrders op m.1))
    (total : Nat) (all done : List (TileIndex × Nat)) (x : TileIndex × Nat)
    (rest : List (TileIndex × Nat)) (hall : done ++ x :: rest = all) (hnd : all.Nodup)
    (hsub : ∀ y ∈ all, y.1 ∈ pc.MakeMFIter)
    (buf buf' : List (Particle A)) (hinv : PackInv pc op plan total done buf)
    (h : packEventStep pc op plan buf x = Res.ok buf') :
    PackInv pc op plan total (done ++ [x]) buf' := by
  obtain ⟨hlen, hrec⟩ := hinv
  have hx_not : x ∉ done := by
    rw [← hall] at hnd
    have := List.nodup_append.mp hnd
    intro hmem
    exact this.2.2 hmem (List.mem_cons_self _ _)
  have hx_mem : x.1 ∈ pc.MakeMFIter := hsub x (by rw [← hall]; simp)
  rcases packEventStep_cases pc op plan buf buf' x h with
    ⟨hc, rfl⟩ | ⟨b, k, sp, rec, sh, hc, hb, hadr, -, -, -, hpr, hlt, rfl⟩
  · refine ⟨hlen, ?_⟩
    intro y hy hcy
    rcases List.mem_append.mp hy with hm | hm
    · exact hrec y hm hcy
    · rw [List.mem_singleton] at hm
      subst hm
      rw [hc] at hcy; cases hcy
  · refine ⟨by simp [hlen], ?_⟩
    intro y hy hcy
    rcases List.mem_append.mp hy with hm | hm
    · obtain ⟨k', rec', hadr', hpr', hbuf'⟩ := hrec y hm hcy
      obtain ⟨b', hb'⟩ := address_bucketOf _ _ _ _ _ hadr'
      have hy_mem : y.1 ∈ pc.MakeMFIter := hsub y (by rw [← hall]; simp [hm])
      have hne : (y.1.1, y.2) ≠ (x.1.1, x.2) := by
        intro heq
        have h1 : y.1.1 = x.1.1 := (Prod.mk.inj heq).1
        have h2 : y.2 = x.2 := (Prod.mk.inj heq).2
        have h3 : y.1 = x.1 := List.inj_on_of_nodup_map hmfi hy_mem hx_mem h1
        exact hx_not (by rw [← Prod.ext h3 h2]; exact hm)
      have hkk : k' ≠ k := ht.address_injective _ _ b' b k' k
        (mem_copyEvents_of_bucketOf pc op orders horders ((y.1.1, y.2) : Descriptor) b'
          (List.mem_map.mpr ⟨y.1, hy_mem, rfl⟩) hb')
        (mem_copyEvents_of_bucketOf pc op orders horders ((x.1.1, x.2) : Descriptor) b
          (List.mem_map.mpr ⟨x.1, hx_mem, rfl⟩) hb) hb' hb hne hadr' hadr
      refine ⟨k', rec', hadr', hpr', ?_⟩
      rw [List.getElem?_set]
      simp [Ne.symm hkk, hbuf']
    · rw [List.mem_singleton] at hm
      subst hm
      exact ⟨k, rec, hadr, hpr, by simp [hlt]⟩


/-- The parts of a successful, non-trivial `packBuffer`. -/
theorem packBuffer_parts {A : Type} [Inhabited A] (pc : ParticleContainer (Particle A))
    (op : ParticleCopyOp) (plan : ParticleCopyPlan) (snd0 : List (Particle A))
    (orders : Nat → List Nat) (buf : List (Particle A))
    (hnt : ¬ (pc.numBoxes = 1 ∧ ¬ pc.Geom.isAnyPeriodic))
    (h : packBuffer pc op plan snd0 orders = Res.ok buf) :
    pc.numLevels = 1 ∧
    ∃ total : Nat, plan.m_box_offsets[pc.numBoxes]? = some total ∧ 0 ≤ toInt32 total ∧
      loopM (packGrid pc op plan orders) (resize snd0 (toInt32 total).toNat default)
        pc.MakeMFIter = Res.ok buf := by
  unfold packBuffer at h
  by_cases hl : pc.numLevels = 1
  · refine ⟨hl, ?_⟩
    simp only [hl, ne_eq, not_true_eq_false, if_false, hnt] at h
    rw [Res.bind_eq_ok] at h
    obtain ⟨total, htot, h⟩ := h
    rw [Res.bind_eq_ok] at h
    obtain ⟨snd1, hs1, h⟩ := h
    rw [readNat_eq_ok] at htot
    rw [resizeInt_eq_ok] at hs1
    obtain ⟨hpos, rfl⟩ := hs1
    exact ⟨total, htot, hpos, h⟩
  · simp [hl] at h

theorem packLoop_inv {A : Type} (pc : ParticleContainer (Particle A))
    (op : ParticleCopyOp) (plan : ParticleCopyPlan) (orders orders' : Nat → List Nat)
    (ht : PlanTables pc op orders plan)
    (hmfi : (pc.MakeMFIter.map Prod.fst).Nodup)
    (horders : ∀ m ∈ pc.MakeMFIter, (orders m.1).Perm (sequentialOrders op m.1))
    (horders' : ∀ m ∈ pc.MakeMFIter, (orders' m.1).Perm (sequentialOrders op m.1))
    (hfit : op.fits pc.MakeMFIter)
    (buf0 buf : List (Particle A))
    (h : loopM (packGrid pc op plan orders') buf0 pc.MakeMFIter = Res.ok buf) :
    PackInv pc op plan buf0.length (packEvents pc.MakeMFIter orders') buf := by
  have hev := packGrid_events pc op plan orders' pc.MakeMFIter hfit horders' buf0 buf h
  have hnd : (packEvents pc.MakeMFIter orders').Nodup :=
    packEvents_nodup _ _ (List.Nodup.of_map _ hmfi)
      (fun m hm => sequentialOrders_nodup_of_perm op _ _ (horders' m hm))
  exact loopM_inv (packEventStep pc op plan) (PackInv pc op plan buf0.length)
    (packEvents pc.MakeMFIter orders')
    (fun done x rest s s' hxs hinv hs =>
      packEventStep_inv pc op plan orders ht hmfi horders buf0.length _ done x rest hxs hnd
        (fun y hy => ((mem_packEvents _ _ y).mp hy).1) s s' hinv hs)
    _ [] buf0 buf (by simp) ⟨rfl, by intro x hx; simp at hx⟩ hev

/-- C5. After a non-trivial `build` followed by `packBuffer` (every source box visited once,
the loops of both run in any order, fewer than `2^31` copied descriptors), for every copied
descriptor `i` of a source box `gid` the send-buffer entry at index
`m_box_offsets[bucket(d)] + m_dst_indices[gid][i]` holds the super-particle gathered from
source slot `m_src_indices[gid][i]` with the periodic shift applied: it equals the gathered
particle in its attributes and in every position component except on axes that are periodic
and carry a nonzero shift.
Every box visited holds fewer than `2^31` descriptors (`op.fits`), so that `numCopies`, an
`int`, returns the number of its descriptors. -/
theorem packBuffer_entry {A : Type} [Inhabited A] (self : ParticleCopyPlan)
    (pc : ParticleContainer (Particle A)) (op : ParticleCopyOp) (do_handshake : Bool)
    (buildMPIStart : ParticleCopyPlan → Bool → Res CommSchedule)
    (orders orders' : Nat → List Nat) (pastEnd : Nat) (plan : ParticleCopyPlan)
    (snd0 buf : List (Particle A))
    (hnt : ¬ (pc.numBoxes = 1 ∧ ¬ pc.Geom.isAnyPeriodic))
    (hmfi : (pc.MakeMFIter.map Prod.fst).Nodup)
    (horders : ∀ m ∈ pc.MakeMFIter, (orders m.1).Perm (sequentialOrders op m.1))
    (horders' : ∀ m ∈ pc.MakeMFIter, (orders' m.1).Perm (sequentialOrders op m.1))
    (hN : numCopied op pc.MakeMFIter < 2147483648)
    (hfit : op.fits pc.MakeMFIter)
    (hbuild : self.build pc op do_handshake buildMPIStart orders pastEnd = Res.ok plan)
    (hpack : packBuffer pc op plan snd0 orders' = Res.ok buf) :
    ∀ (m : TileIndex) (i : Nat) (d : Int), m ∈ pc.MakeMFIter → op.dest (m.1, i) = some d →
      0 ≤ d →
      ∃ (k : Nat) (sp rec : Particle A) (sh : Fin 3 → Int),
        plan.address pc.gridToBucket op (m.1, i) = some (k : Int) ∧
        gathered pc op m i = some sp ∧ op.shiftOf (m.1, i) = some sh ∧
        buf[k]? = some rec ∧ rec = applyShift pc.Geom sh sp ∧ rec.attr = sp.attr ∧
        ∀ axis : Fin 3, ¬ (pc.Geom.isPeriodicArray axis = true ∧ sh axis ≠ 0) →
          rec.pos axis = sp.pos axis := by
  intro m i d hm hd hpos
  have ht := ParticleCopyPlan.build_planTables self pc op do_handshake buildMPIStart orders pastEnd
    plan hnt hmfi horders hN hfit hbuild
  obtain ⟨-, total, -, -, hloop⟩ := packBuffer_parts pc op plan snd0 orders' buf hnt hpack
  obtain ⟨-, hrec⟩ := packLoop_inv pc op plan orders orders' ht hmfi horders horders' hfit _ _ hloop
  have hi : i ∈ orders' m.1 := by
    rw [(horders' m hm).mem_iff]
    unfold sequentialOrders
    rw [List.mem_range]
    unfold ParticleCopyOp.dest at hd
    cases hbx : op.m_boxes m.1 with
    | none => simp [hbx] at hd
    | some l =>
      simp only [hbx, Option.some_bind] at hd
      exact (List.getElem?_eq_some.mp hd).1
  have hcop : op.copied (m.1, i) = true := by
    simp [ParticleCopyOp.copied, hd, hpos]
  obtain ⟨k, rec, hadr, hpr, hbuf⟩ := hrec (m, i) ((mem_packEvents _ _ _).mpr ⟨hm, hi⟩) hcop
  unfold packedRecord at hpr
  cases hga : gathered pc op m i with
  | none => simp [hga] at hpr
  | some sp =>
    cases hsf : op.shiftOf (m.1, i) with
    | none => simp [hga, hsf] at hpr
    | some sh =>
      simp only [hga, Option.some_bind] at hpr
      rw [hsf] at hpr
      simp only [Option.map_some', Option.some.injEq] at hpr
      refine ⟨k, sp, rec, sh, hadr, rfl, rfl, hbuf, hpr.symm, by rw [← hpr]; rfl, ?_⟩
      intro axis hax
      rw [← hpr, applyShift_pos]
      by_cases hp : pc.Geom.isPeriodicArray axis = true
      · have hs : sh axis = 0 := by
          by_contra hne
          exact hax ⟨hp, hne⟩
        simp [hp, hs]
      · simp [hp]


/-- Witness for C5: the example, packed with the loop of box 0 in the order `1, 2, 0`; the
descriptor of box 1 is packed at address `2`. -/
theorem packBuffer_entry_witness :
    ¬ (examplePC.numBoxes = 1 ∧ ¬ examplePC.Geom.isAnyPeriodic) ∧
    (examplePC.MakeMFIter.map Prod.fst).Nodup ∧
    (∀ m ∈ examplePC.MakeMFIter, (exampleOrders m.1).Perm (sequentialOrders exampleOp m.1)) ∧
    (∀ m ∈ examplePC.MakeMFIter,
      ((fun g => if g = 0 then [1, 2, 0] else [0]) m.1).Perm (sequentialOrders exampleOp m.1)) ∧
    numCopied exampleOp examplePC.MakeMFIter < 2147483648 ∧
    exampleOp.fits examplePC.MakeMFIter ∧
    ParticleCopyPlan.fresh.build examplePC exampleOp true exampleMPIStart exampleOrders 0 =
      Res.ok examplePlan ∧
    packBuffer examplePC exampleOp examplePlan [] (fun g => if g = 0 then [1, 2, 0] else [0]) =
      Res.ok exampleBuffer ∧
    exampleBuffer.length = 3 ∧
    examplePlan.address examplePC.gridToBucket exampleOp (1, 0) = some 2 ∧
    ∃ (k : Nat) (sp rec : Particle Nat) (sh : Fin 3 → Int),
      examplePlan.address examplePC.gridToBucket exampleOp (1, 0) = some (k : Int) ∧
      gathered examplePC exampleOp (1, 0) 0 = some sp ∧ exampleOp.shiftOf (1, 0) = some sh ∧
      exampleBuffer[k]? = some rec ∧ rec = applyShift examplePC.Geom sh sp ∧
      rec.attr = sp.attr ∧
      ∀ axis : Fin 3, ¬ (examplePC.Geom.isPeriodicArray axis = true ∧ sh axis ≠ 0) →
        rec.pos axis = sp.pos axis :=
  ⟨by decide, by decide, by decide, by decide, by decide, by decide, rfl, rfl, rfl, by decide,
    packBuffer_entry ParticleCopyPlan.fresh examplePC exampleOp true exampleMPIStart
      exampleOrders (fun g => if g = 0 then [1, 2, 0] else [0]) 0 examplePlan [] exampleBuffer
      (by decide) (by decide) (by decide) (by decide) (by decide) (by decide) rfl rfl (1, 0) 0 0
      (by decide) (by decide) (by decide)⟩

/-! ## `unpackBuffer` -/

theorem unpackCount_inv {P : Type} (pc : ParticleContainer P) (plan : ParticleCopyPlan)
    (done : List TileIndex) (m : TileIndex)
    (st st' : (TileIndex → Option (ParticleTile P)) × List Nat × List TileIndex)
    (hinv : UnpackCountInv pc plan done st)
    (h : unpackCount pc.gridToBucket plan st m = Res.ok st') :
    UnpackCountInv pc plan (done ++ [m]) st' := by
  obtain ⟨htiles, hlen, hsizes, hplev⟩ := hinv
  unfold unpackCount at h
  rw [Res.bind_eq_ok] at h
  obtain ⟨b, hb, h⟩ := h
  rw [Res.bind_eq_ok] at h
  obtain ⟨c, hc, h⟩ := h
  rw [readNat_eq_ok] at hb hc
  by_cases hneg : toInt32 c < 0
  · simp [hneg] at h
  · simp only [hneg, if_false, Res.pure_eq, Res.ok.injEq] at h
    subst h
    refine ⟨by simp [htiles], by simp [hlen], ?_, ?_⟩
    · intro j m' hj
      dsimp only
      by_cases hjl : j < done.length
      · rw [List.getElem?_append_left hjl] at hj
        obtain ⟨b', c', h1, h2, h3, h4⟩ := hsizes j m' hj
        exact ⟨b', c', h1, h2, h3, by rw [List.getElem?_append_left (by omega)]; exact h4⟩
      · have hjl' : j = done.length := by
          have := (List.getElem?_eq_some.mp hj).1
          simp only [List.length_append, List.length_singleton] at this
          omega
        subst hjl'
        rw [List.getElem?_concat_length] at hj
        cases hj
        refine ⟨b, c, hb, hc, by omega, ?_⟩
        rw [← hlen, List.getElem?_concat_length]
    · intro idx
      dsimp only
      by_cases hidx : idx = m
      · subst hidx
        simp only [Function.update_same, List.mem_append, List.mem_singleton, or_true, if_true]
        congr 1
        unfold tileAt
        rw [hplev idx]
        by_cases hd : idx ∈ done <;> simp [hd, tileAt]
      · rw [Function.update_noteq hidx, hplev idx]
        simp [hidx]

theorem unpackCopy_inv {P : Type} (p_box_offsets p_box_perm : List Nat) (buf : List P)
    (gid b off offset : Nat) (hb : p_box_perm[gid]? = some b)
    (hoff : p_box_offsets[b]? = some off) (hlt : off < 2147483648)
    (tile : ParticleTile P) (j : Nat) (t t' : ParticleTile P)
    (hinv : UnpackCopyInv buf off offset tile j t)
    (h : unpackCopy p_box_offsets p_box_perm buf gid offset t j = Res.ok t') :
    UnpackCopyInv buf off offset tile (j + 1) t' := by
  obtain ⟨hnn, hlen, hin, hout⟩ := hinv
  unfold unpackCopy at h
  rw [readNat_eq_ok.mpr hb] at h
  simp only [Res.ok_bind] at h
  rw [readNat_eq_ok.mpr hoff] at h
  simp only [Res.ok_bind, toInt32_of_lt off hlt] at h
  rw [Res.bind_eq_ok] at h
  obtain ⟨p, hp, h⟩ := h
  rw [readAt_eq_ok] at hp
  have hidx : ((off : Int) + (j : Int)).toNat = off + j := by omega
  rw [hidx] at hp
  unfold ParticleTile.setSuperParticle at h
  rw [Res.bind_eq_ok] at h
  obtain ⟨d, hd, h⟩ := h
  rw [writeNat_eq_ok] at hd
  obtain ⟨hw, rfl⟩ := hd
  simp only [Res.pure_eq, Res.ok.injEq] at h
  subst h
  refine ⟨hnn, by simp [hlen], ?_, ?_⟩
  · intro i hi
    dsimp only
    rw [List.getElem?_set]
    by_cases hij : i = j
    · subst hij
      refine ⟨by omega, by rw [hp.2]; rfl, ?_⟩
      simp [hw, hp.2]
    · obtain ⟨h1, h2, h3⟩ := hin i (by omega)
      refine ⟨h1, h2, ?_⟩
      have : ¬ offset + j = offset + i := by omega
      rw [if_neg this]
      exact h3
  · intro q hq
    dsimp only
    rw [List.getElem?_set]
    have : ¬ offset + j = q := by omega
    rw [if_neg this]
    exact hout q (by omega)


theorem unpackCopy_loop {P : Type} (p_box_offsets p_box_perm : List Nat) (buf : List P)
    (gid b off offset : Nat) (hb : p_box_perm[gid]? = some b)
    (hoff : p_box_offsets[b]? = some off) (hlt : off < 2147483648)
    (tile : ParticleTile P) (size : Nat) (t' : ParticleTile P)
    (h : loopM (unpackCopy p_box_offsets p_box_perm buf gid offset) tile (List.range size) =
      Res.ok t') :
    UnpackCopyInv buf off offset tile size t' := by
  refine loopM_range_inv _ (UnpackCopyInv buf off offset tile) size tile t' ?_ ?_ h
  · exact ⟨rfl, rfl, by intro i hi; omega, by intro p _; rfl⟩
  · intro j t t1 _ hinv ht
    exact unpackCopy_inv p_box_offsets p_box_perm buf gid b off offset hb hoff hlt tile j t t1
      hinv ht

theorem unpackGrid_inv {P : Type} (pc : ParticleContainer P) (plan : ParticleCopyPlan)
    (buf : List P) (sizes offsets : List Nat) (heap0 : TileIndex → ParticleTile P)
    (hbk : ∀ m ∈ pc.MakeMFIter, ∃ b off : Nat, pc.gridToBucket[m.1]? = some b ∧
      plan.m_box_offsets[b]? = some off ∧ off < 2147483648)
    (all done : List TileIndex) (m : TileIndex) (rest : List TileIndex)
    (hall : done ++ m :: rest = all) (hnd : all.Nodup) (hsub : ∀ y ∈ all, y ∈ pc.MakeMFIter)
    (st st' : (TileIndex → ParticleTile P) × Nat)
    (hinv : UnpackGridInv pc plan buf sizes offsets heap0 done st)
    (h : unpackGrid pc.gridToBucket plan buf sizes offsets st m = Res.ok st') :
    UnpackGridInv pc plan buf sizes offsets heap0 (done ++ [m]) st' := by
  obtain ⟨hu, hrest, hdone⟩ := hinv
  have hm_not : m ∉ done := by
    rw [← hall] at hnd
    have := List.nodup_append.mp hnd
    intro hmem
    exact this.2.2 hmem (List.mem_cons_self _ _)
  obtain ⟨b, off, hb, hoff, hlt⟩ := hbk m (hsub m (by rw [← hall]; simp))
  unfold unpackGrid at h
  rw [Res.bind_eq_ok] at h
  obtain ⟨offset, hoffset, h⟩ := h
  rw [Res.bind_eq_ok] at h
  obtain ⟨size, hsize, h⟩ := h
  rw [Res.bind_eq_ok] at h
  obtain ⟨tile, htile, h⟩ := h
  simp only [Res.pure_eq, Res.ok.injEq] at h
  subst h
  rw [readNat_eq_ok] at hoffset hsize
  have hcopy := unpackCopy_loop plan.m_box_offsets pc.gridToBucket buf m.1 b off offset hb hoff
    hlt (st.1 m) size tile htile
  rw [hrest m hm_not] at hcopy
  refine ⟨by simp [hu], ?_, ?_⟩
  · intro idx hidx
    have h1 : idx ≠ m := by
      intro h; apply hidx; simp [h]
    have h2 : idx ∉ done := by
      intro h; apply hidx; simp [h]
    dsimp only
    rw [Function.update_noteq h1]
    exact hrest idx h2
  · intro j m' hj
    dsimp only
    by_cases hjl : j < done.length
    · rw [List.getElem?_append_left hjl] at hj
      have hmem : m' ∈ done := List.mem_iff_getElem?.mpr ⟨j, hj⟩
      have hne : m' ≠ m := fun h => hm_not (h ▸ hmem)
      rw [Function.update_noteq hne]
      exact hdone j m' hj
    · have hjl' : j = done.length := by
        have := (List.getElem?_eq_some.mp hj).1
        simp only [List.length_append, List.length_singleton] at this
        omega
      subst hjl'
      rw [List.getElem?_concat_length] at hj
      cases hj
      rw [Function.update_same]
      exact ⟨b, off, offset, size, hb, hoff, hu ▸ hoffset, hu ▸ hsize, hcopy⟩


section PolicyNodup

variable {κ P : Type} [DecidableEq κ] [Inhabited P]

theorem addedBefore_of_not_mem (tiles : List κ) (sizes : List Nat) (t : κ) (i : Nat)
    (h : t ∉ tiles) : addedBefore tiles sizes t i = 0 := by
  rw [addedBefore_eq_of_no_entry tiles sizes t 0 i (Nat.zero_le _), addedBefore_zero]
  intro k _ _ hk
  exact h (List.mem_iff_getElem?.mpr ⟨k, hk⟩)

theorem addedBefore_nodup (tiles : List κ) (sizes : List Nat) (hnd : tiles.Nodup) (j : Nat)
    (t : κ) (s : Nat) (ht : tiles[j]? = some t) (hs : sizes[j]? = some s) :
    addedBefore tiles sizes t j = 0 ∧ addedBefore tiles sizes t sizes.length = s := by
  have hj : j < sizes.length := (List.getElem?_eq_some.mp hs).1
  have hjt : j < tiles.length := (List.getElem?_eq_some.mp ht).1
  have hne : ∀ k, k ≠ j → tiles[k]? ≠ some t := by
    intro k hkj hk
    have hkt : k < tiles.length := (List.getElem?_eq_some.mp hk).1
    have h1 := (List.getElem?_eq_some.mp hk).2
    have h2 := (List.getElem?_eq_some.mp ht).2
    have := (List.Nodup.getElem_inj_iff hnd).mp (h1.trans h2.symm)
    exact hkj this
  have h0 : addedBefore tiles sizes t j = 0 := by
    rw [addedBefore_eq_of_no_entry tiles sizes t 0 j (Nat.zero_le _)
      (fun k _ hk => hne k (by omega)), addedBefore_zero]
  refine ⟨h0, ?_⟩
  rw [addedBefore_eq_of_no_entry tiles sizes t (j + 1) sizes.length hj
    (fun k hk _ => hne k (by omega)), addedBefore_succ tiles sizes t t j s ht hs, h0]
  simp

/-- The growth policies on a list of distinct tiles: entry `j` gets the tile's count as offset,
the count grows by the entry's size, the records below the old count stay, and tiles outside
the list are untouched. -/
theorem UnpackPolicy.resizeTiles_nodup (policy : UnpackPolicy)
    (heap0 : κ → ParticleTile P) (tiles : List κ) (sizes : List Nat)
    (heap : κ → ParticleTile P) (offsets : List Nat) (hwf : ∀ t, (heap0 t).wf)
    (hnd : tiles.Nodup)
    (h : policy.resizeTiles heap0 tiles sizes [] = Res.ok (heap, offsets)) :
    sizes.length ≤ tiles.length ∧
    (∀ t, t ∉ tiles → heap t = heap0 t) ∧
    ∀ (j : Nat) (t : κ) (s : Nat), tiles[j]? = some t → sizes[j]? = some s →
      offsets[j]? = some (policy.recordCount (heap0 t)) ∧
      policy.recordCount (heap0 t) ≤ (heap0 t).m_data.length ∧
      policy.recordCount (heap0 t) + s ≤ (heap t).m_data.length ∧
      (heap t).m_data.take (policy.recordCount (heap0 t)) =
        (heap0 t).m_data.take (policy.recordCount (heap0 t)) ∧
      (∀ t' : ParticleTile P, t'.m_data.length = (heap t).m_data.length →
        t'.m_num_neighbors = (heap t).m_num_neighbors →
        policy.recordCount t' = policy.recordCount (heap0 t) + s) := by
  cases policy with
  | neighbor =>
    have hreads := loopM_range_reads _ tiles sizes.length
      (fun s i s' hs => NeighborUnpackPolicy.step_reads tiles sizes s i s' hs) _ _ h
    have hN := NeighborUnpackPolicy.resizeTiles_inv heap0 tiles sizes [] hwf (heap, offsets) h
    obtain ⟨-, -, hnn, hdata, hoff⟩ := hN
    dsimp only at hnn hdata hoff
    simp only [List.length_nil, Nat.zero_add] at hoff
    refine ⟨hreads, ?_, ?_⟩
    · intro t ht
      have h1 := hnn t
      have h2 := hdata t
      rw [addedBefore_of_not_mem tiles sizes t _ ht] at h1 h2
      simp only [Nat.add_zero, List.replicate_zero, List.append_nil] at h1 h2
      cases hh : heap t
      cases hh0 : heap0 t
      simp only [hh, hh0] at h1 h2
      simp [h1, h2]
    · intro j t s ht hs
      have hj : j < sizes.length := (List.getElem?_eq_some.mp hs).1
      obtain ⟨a0, aN⟩ := addedBefore_nodup tiles sizes hnd j t s ht hs
      have h1 := hoff j t hj ht
      rw [a0] at h1
      have h2 := hdata t
      rw [aN] at h2
      refine ⟨by simpa [UnpackPolicy.recordCount, ParticleTile.numTotalParticles] using h1,
        by simp [UnpackPolicy.recordCount, ParticleTile.numTotalParticles],
        by simp [UnpackPolicy.recordCount, ParticleTile.numTotalParticles, h2],
        by simp [UnpackPolicy.recordCount, ParticleTile.numTotalParticles, h2], ?_⟩
      intro t' hl _
      simp [UnpackPolicy.recordCount, ParticleTile.numTotalParticles, hl, h2]
  | redistribute =>
    obtain ⟨hreads, -, -, hheap, hoff⟩ :=
      RedistributeUnpackPolicy.resizeTiles_spec heap0 tiles sizes [] (heap, offsets) h
    dsimp only at hheap hoff
    simp only [List.length_nil, Nat.zero_add] at hoff
    refine ⟨hreads, ?_, ?_⟩
    · intro t ht
      rw [hheap t, if_neg (fun hm => ht (List.mem_of_mem_take hm))]
    · intro j t s ht hs
      have hj : j < sizes.length := (List.getElem?_eq_some.mp hs).1
      obtain ⟨a0, aN⟩ := addedBefore_nodup tiles sizes hnd j t s ht hs
      have h1 := hoff j t hj ht
      rw [a0] at h1
      have hmem : t ∈ tiles.take sizes.length := by
        rw [List.mem_iff_getElem?]
        exact ⟨j, by rw [List.getElem?_take_of_lt hj]; exact ht⟩
      have h2 := hheap t
      rw [if_pos hmem, aN] at h2
      have hlen : (heap t).m_data.length =
          (heap0 t).numParticles + s + (heap0 t).m_num_neighbors := by
        rw [h2]; simp [ParticleTile.resize, resize_length]
      have hnn : (heap t).m_num_neighbors = (heap0 t).m_num_neighbors := by
        rw [h2]; rfl
      have hnp : (heap0 t).numParticles ≤ (heap0 t).m_data.length := by
        simp [ParticleTile.numParticles]
      refine ⟨by simpa [UnpackPolicy.recordCount] using h1,
        by simpa [UnpackPolicy.recordCount] using hnp,
        by simp only [UnpackPolicy.recordCount]; omega, ?_, ?_⟩
      · simp only [UnpackPolicy.recordCount]
        rw [h2]
        simp only [ParticleTile.resize, amrex.resize]
        rw [List.take_append_of_le_length (by
          simp only [List.length_take]; omega), List.take_take]
        congr 1
        omega
      · intro t' hl hn
        simp only [UnpackPolicy.recordCount, ParticleTile.numParticles, hl, hn, hlen, hnn]
        simp only [ParticleTile.numParticles] at hlen ⊢
        omega

end PolicyNodup


theorem copyEvents_eq_map (mfi : List TileIndex) (orders : Nat → List Nat) :
    copyEvents mfi orders = (packEvents mfi orders).map fun x => ((x.1.1, x.2) : Descriptor) := by
  unfold copyEvents packEvents
  induction mfi with
  | nil => rfl
  | cons m ms ih =>
    simp only [List.flatMap_cons, List.map_append, List.map_map]
    rw [ih]
    rfl

theorem bucketSegment_eq_map (mfi : List TileIndex) (op : ParticleCopyOp)
    (p_box_perm : List Nat) (orders : Nat → List Nat) (b : Nat) :
    bucketSegment op p_box_perm (copyEvents mfi orders) b =
      (packSegment mfi op p_box_perm orders b).map fun x => ((x.1.1, x.2) : Descriptor) := by
  unfold bucketSegment packSegment
  rw [copyEvents_eq_map, List.filter_map]
  rfl

/-- After `build` and `packBuffer`, the records of bucket `b` in the send buffer are the packed
records of the descriptors copied to `b`, in the order in which `build` gave them their
slots. -/
theorem buffer_segment {A : Type} (pc : ParticleContainer (Particle A))
    (op : ParticleCopyOp) (plan : ParticleCopyPlan) (orders orders' : Nat → List Nat)
    (ht : PlanTables pc op orders plan)
    (horders : ∀ m ∈ pc.MakeMFIter, (orders m.1).Perm (sequentialOrders op m.1))
    (horders' : ∀ m ∈ pc.MakeMFIter, (orders' m.1).Perm (sequentialOrders op m.1))
    (total : Nat) (buf : List (Particle A))
    (hpack : PackInv pc op plan total (packEvents pc.MakeMFIter orders') buf)
    (b off c : Nat) (hoff : plan.m_box_offsets[b]? = some off)
    (hc : plan.m_box_counts[b]? = some c) :
    ((buf.drop off).take c).map some =
      (packSegment pc.MakeMFIter op pc.gridToBucket orders b).map
        fun x => packedRecord pc op x.1 x.2 := by
  have hb : b < pc.numBoxes := by
    rw [← ht.counts_length]; exact (List.getElem?_eq_some.mp hc).1
  have hoff' := ht.offsets_eq b (Nat.le_of_lt hb)
  rw [hoff] at hoff'
  have hoffeq : off = (plan.m_box_counts.take b).sum := Option.some.inj hoff'
  have hceq := ht.counts_eq b c hc
  rw [bucketSegment_eq_map, List.length_map] at hceq
  have hkey : ∀ j x, (packSegment pc.MakeMFIter op pc.gridToBucket orders b)[j]? = some x →
      buf[off + j]? = packedRecord pc op x.1 x.2 ∧ (packedRecord pc op x.1 x.2).isSome := by
    intro j x hx
    have hxs : x ∈ packSegment pc.MakeMFIter op pc.gridToBucket orders b :=
      List.mem_iff_getElem?.mpr ⟨j, hx⟩
    unfold packSegment at hxs
    rw [List.mem_filter] at hxs
    obtain ⟨hxe, hxb⟩ := hxs
    have hxb' : op.bucketOf pc.gridToBucket (x.1.1, x.2) = some b := by simpa using hxb
    obtain ⟨hxm, hxi⟩ := (mem_packEvents _ _ x).mp hxe
    have hxi' : x.2 ∈ orders' x.1.1 := by
      rw [(horders' x.1 hxm).mem_iff, ← (horders x.1 hxm).mem_iff]; exact hxi
    have hcop : op.copied (x.1.1, x.2) = true := by
      unfold ParticleCopyOp.bucketOf at hxb'
      unfold ParticleCopyOp.copied
      cases hd : op.dest (x.1.1, x.2) with
      | none => simp [hd] at hxb'
      | some d =>
        simp only [hd] at hxb' ⊢
        by_cases hneg : d < 0
        · simp [hneg] at hxb'
        · simp; omega
    obtain ⟨k, rec, hadr, hpr, hbuf⟩ := hpack.2 x ((mem_packEvents _ _ x).mpr ⟨hxm, hxi'⟩) hcop
    have hseg : (bucketSegment op pc.gridToBucket (copyEvents pc.MakeMFIter orders) b)[j]? =
        some ((x.1.1, x.2) : Descriptor) := by
      rw [bucketSegment_eq_map, List.getElem?_map, hx]; rfl
    have hmemE : ((x.1.1, x.2) : Descriptor) ∈ copyEvents pc.MakeMFIter orders :=
      ((bucketSegment_mem op pc.gridToBucket _ _ b).mp
        (List.mem_iff_getElem?.mpr ⟨j, hseg⟩)).1
    have ha := ht.address_eq _ b j hmemE hxb' hseg
    rw [hadr] at ha
    have hk : k = (plan.m_box_counts.take b).sum + j := by
      have := Option.some.inj ha; exact_mod_cast this
    rw [hoffeq, ← hk, hbuf, hpr]
    exact ⟨rfl, rfl⟩
  apply List.ext_getElem?
  intro j
  rw [List.getElem?_map, List.getElem?_map]
  by_cases hj : j < c
  · have hjs : j < (packSegment pc.MakeMFIter op pc.gridToBucket orders b).length := by omega
    have hx := List.getElem?_eq_getElem hjs
    obtain ⟨h1, h2⟩ := hkey j _ hx
    rw [hx, List.getElem?_take_of_lt hj, List.getElem?_drop, h1]
    simp only [Option.map_some']
    cases hp : packedRecord pc op
        (packSegment pc.MakeMFIter op pc.gridToBucket orders b)[j].1
        (packSegment pc.MakeMFIter op pc.gridToBucket orders b)[j].2 with
    | none => rw [hp] at h2; cases h2
    | some r => rfl
  · rw [List.getElem?_eq_none (by simp only [List.length_take]; omega),
      List.getElem?_eq_none (by omega)]
    rfl


theorem packEvents_perm (mfi : List TileIndex) (orders orders' : Nat → List Nat)
    (h : ∀ m ∈ mfi, (orders m.1).Perm (orders' m.1)) :
    (packEvents mfi orders).Perm (packEvents mfi orders') := by
  unfold packEvents
  exact List.Perm.flatMap_left _ (fun m hm => (h m hm).map _)

/-- With an injective box-to-bucket table, the descriptors of the bucket of box `g` are the
descriptors whose destination is `g`. -/
theorem bucketOf_eq_iff_dest (op : ParticleCopyOp) (p_box_perm : List Nat)
    (hnd : p_box_perm.Nodup) (g b : Nat) (hg : p_box_perm[g]? = some b) (e : Descriptor) :
    op.bucketOf p_box_perm e = some b ↔ op.dest e = some (g : Int) := by
  unfold ParticleCopyOp.bucketOf
  cases hd : op.dest e with
  | none => simp
  | some d =>
    simp only [Option.some.injEq]
    by_cases hneg : d < 0
    · simp only [hneg, if_true, reduceCtorEq, false_iff]
      omega
    · simp only [hneg, if_false]
      constructor
      · intro h
        have hlt : d.toNat < p_box_perm.length := (List.getElem?_eq_some.mp h).1
        have hgl : g < p_box_perm.length := (List.getElem?_eq_some.mp hg).1
        have h1 := (List.getElem?_eq_some.mp h).2
        have h2 := (List.getElem?_eq_some.mp hg).2
        have := (List.Nodup.getElem_inj_iff hnd).mp (h1.trans h2.symm)
        omega
      · intro h
        have : d.toNat = g := by omega
        rw [this]; exact hg

theorem packSegment_perm_routed {P : Type} (pc : ParticleContainer P) (op : ParticleCopyOp)
    (orders : Nat → List Nat)
    (horders : ∀ m ∈ pc.MakeMFIter, (orders m.1).Perm (sequentialOrders op m.1))
    (hnd : pc.gridToBucket.Nodup) (g b : Nat) (hg : pc.gridToBucket[g]? = some b) :
    (packSegment pc.MakeMFIter op pc.gridToBucket orders b).Perm (routedEvents pc op g) := by
  unfold packSegment routedEvents
  have hfilter : ∀ l : List (TileIndex × Nat),
      l.filter (fun x => op.bucketOf pc.gridToBucket (x.1.1, x.2) == some b) =
      l.filter (fun x => op.dest (x.1.1, x.2) == some (g : Int)) := by
    intro l
    apply List.filter_congr
    intro x _
    have := bucketOf_eq_iff_dest op pc.gridToBucket hnd g b hg (x.1.1, x.2)
    by_cases h : op.bucketOf pc.gridToBucket (x.1.1, x.2) = some b
    · simp [h, this.mp h]
    · have h' : ¬ op.dest (x.1.1, x.2) = some (g : Int) := fun hh => h (this.mpr hh)
      simp [h, h']
  rw [hfilter]
  exact (packEvents_perm pc.MakeMFIter orders (sequentialOrders op) horders).filter _

/-- The parts of a successful, non-trivial `unpackBuffer`. -/
theorem unpackBuffer_parts {P : Type} [Inhabited P] (pc : ParticleContainer P)
    (plan : ParticleCopyPlan) (buf : List P) (policy : UnpackPolicy)
    (result : TileIndex → Option (ParticleTile P))
    (hnt : ¬ (pc.numBoxes = 1 ∧ ¬ pc.Geom.isAnyPeriodic))
    (h : unpackBuffer pc plan buf policy = Res.ok result) :
    ∃ (plev : TileIndex → Option (ParticleTile P)) (sizes : List Nat) (tiles : List TileIndex)
      (heap0 heap : TileIndex → ParticleTile P) (offsets : List Nat) (u : Nat),
      loopM (unpackCount pc.gridToBucket plan) (pc.GetParticles, [], []) pc.MakeMFIter =
        Res.ok (plev, sizes, tiles) ∧
      policy.resizeTiles (tileAt plev) tiles sizes [] = Res.ok (heap0, offsets) ∧
      loopM (unpackGrid pc.gridToBucket plan buf sizes offsets) (heap0, 0) pc.MakeMFIter =
        Res.ok (heap, u) ∧
      result = fun index => (plev index).map fun _ => heap index := by
  unfold unpackBuffer at h
  by_cases hl : pc.numLevels = 1
  · simp only [hl, ne_eq, not_true_eq_false, if_false, hnt] at h
    rw [Res.bind_eq_ok] at h
    obtain ⟨⟨plev, sizes, tiles⟩, h1, h⟩ := h
    dsimp only at h
    rw [Res.bind_eq_ok] at h
    obtain ⟨⟨heap0, offsets⟩, h2, h⟩ := h
    dsimp only at h
    rw [Res.bind_eq_ok] at h
    obtain ⟨⟨heap, u⟩, h3, h⟩ := h
    simp only [Res.pure_eq, Res.ok.injEq] at h
    exact ⟨plev, sizes, tiles, heap0, heap, offsets, u, h1, h2, h3, h.symm⟩
  · simp [hl] at h


theorem unpackCountLoop_inv {P : Type} (pc : ParticleContainer P) (plan : ParticleCopyPlan)
    (st : (TileIndex → Option (ParticleTile P)) × List Nat × List TileIndex)
    (h : loopM (unpackCount pc.gridToBucket plan) (pc.GetParticles, [], []) pc.MakeMFIter =
      Res.ok st) : UnpackCountInv pc plan pc.MakeMFIter st :=
  loopM_inv (unpackCount pc.gridToBucket plan) (UnpackCountInv pc plan) pc.MakeMFIter
    (fun done x _ s s' _ hinv hs => unpackCount_inv pc plan done x s s' hinv hs)
    pc.MakeMFIter [] _ st (by simp)
    ⟨rfl, rfl, by intro j m hj; simp at hj, by intro idx; simp⟩ h

theorem unpackGridLoop_inv {P : Type} (pc : ParticleContainer P) (plan : ParticleCopyPlan)
    (buf : List P) (sizes offsets : List Nat) (heap0 : TileIndex → ParticleTile P)
    (hbk : ∀ m ∈ pc.MakeMFIter, ∃ b off : Nat, pc.gridToBucket[m.1]? = some b ∧
      plan.m_box_offsets[b]? = some off ∧ off < 2147483648)
    (hnd : pc.MakeMFIter.Nodup) (st : (TileIndex → ParticleTile P) × Nat)
    (h : loopM (unpackGrid pc.gridToBucket plan buf sizes offsets) (heap0, 0) pc.MakeMFIter =
      Res.ok st) : UnpackGridInv pc plan buf sizes offsets heap0 pc.MakeMFIter st :=
  loopM_inv (unpackGrid pc.gridToBucket plan buf sizes offsets)
    (UnpackGridInv pc plan buf sizes offsets heap0) pc.MakeMFIter
    (fun done x rest s s' hxs hinv hs =>
      unpackGrid_inv pc plan buf sizes offsets heap0 hbk pc.MakeMFIter done x rest hxs hnd
        (fun _ hy => hy) s s' hinv hs)
    pc.MakeMFIter [] _ st (by simp)
    ⟨rfl, by intro idx _; rfl, by intro j m hj; simp at hj⟩ h

/-- What the copy loop leaves in a tile, as lists: the records below `offset` stay and the
`size` records from `offset` on are the `size` records of the buffer from `off` on. -/
theorem UnpackCopyInv.take_eq {P : Type} {buf : List P} {off offset size : Nat}
    {tile t : ParticleTile P} (h : UnpackCopyInv buf off offset tile size t)
    (hlen : offset + size ≤ tile.m_data.length) :
    ((buf.drop off).take size).length = size ∧
    t.m_data.take (offset + size) = tile.m_data.take offset ++ (buf.drop off).take size := by
  obtain ⟨-, hl, hin, hout⟩ := h
  have hL : ((buf.drop off).take size).length = size := by
    simp only [List.length_take, List.length_drop]
    by_cases hs : size = 0
    · omega
    · obtain ⟨-, h2, -⟩ := hin (size - 1) (by omega)
      rw [Option.isSome_iff_exists] at h2
      obtain ⟨r, hr⟩ := h2
      have := (List.getElem?_eq_some.mp hr).1
      omega
  refine ⟨hL, ?_⟩
  apply List.ext_getElem?
  intro p
  by_cases hp : p < offset
  · rw [List.getElem?_take_of_lt (by omega), List.getElem?_append_left (by
      simp only [List.length_take]; omega), List.getElem?_take_of_lt hp]
    exact hout p (Or.inl hp)
  · by_cases hp2 : p < offset + size
    · obtain ⟨i, rfl⟩ : ∃ i, p = offset + i := ⟨p - offset, by omega⟩
      obtain ⟨-, -, h3⟩ := hin i (by omega)
      rw [List.getElem?_take_of_lt hp2, h3, List.getElem?_append_right (by
        simp only [List.length_take]; omega)]
      have : offset + i - (tile.m_data.take offset).length = i := by
        simp only [List.length_take]; omega
      rw [this, List.getElem?_take_of_lt (by omega), List.getElem?_drop]
    · rw [List.getElem?_eq_none (by simp only [List.length_take]; omega),
        List.getElem?_eq_none (by
          simp only [List.length_append, List.length_take, hL]; omega)]


/-! ## `unpackBuffer` returns -/

/-- Total-correctness rule for a loop: when every iteration returns from a state that satisfies
the invariant and re-establishes it, the loop returns and the invariant holds at the end. -/
theorem loopM_ok_inv {σ α : Type} (f : σ → α → Res σ) (Inv : List α → σ → Prop) (xs : List α)
    (hstep : ∀ (done : List α) (x : α) (rest : List α) (s : σ),
      done ++ x :: rest = xs → Inv done s → ∃ s', f s x = Res.ok s' ∧ Inv (done ++ [x]) s') :
    ∀ (rest done : List α) (s : σ), done ++ rest = xs → Inv done s →
      ∃ s', loopM f s rest = Res.ok s' ∧ Inv xs s' := by
  intro rest
  induction rest with
  | nil =>
    intro done s hxs hinv
    refine ⟨s, rfl, ?_⟩
    simpa [← hxs] using hinv
  | cons x rest ih =>
    intro done s hxs hinv
    obtain ⟨s1, h1, hinv1⟩ := hstep done x rest s hxs hinv
    obtain ⟨s', h2, hinv'⟩ := ih (done ++ [x]) s1 (by simpa using hxs) hinv1
    refine ⟨s', ?_, hinv'⟩
    rw [loopM_cons, h1]
    exact h2

/-- Total-correctness rule for a counting loop `for (i = 0; i < n; ++i)`. -/
theorem loopM_range_ok_inv {σ : Type} (f : σ → Nat → Res σ) (Inv : Nat → σ → Prop) (n : Nat)
    (s0 : σ) (h0 : Inv 0 s0)
    (hstep : ∀ (i : Nat) (s : σ), i < n → Inv i s → ∃ s', f s i = Res.ok s' ∧ Inv (i + 1) s') :
    ∃ s, loopM f s0 (List.range n) = Res.ok s ∧ Inv n s := by
  have key := loopM_ok_inv f (fun done s => Inv done.length s) (List.range n)
    (by
      intro done x rest s hxs hinv
      have hlen : done.length < n := by
        have := congrArg List.length hxs
        simp at this
        omega
      have hx : x = done.length := by
        have h1 : (List.range n)[done.length]? = some x := by
          rw [← hxs, List.getElem?_append_right (Nat.le_refl _)]; simp
        rw [List.getElem?_range hlen] at h1
        exact (Option.some.inj h1).symm
      simp only [List.length_append, List.length_singleton]
      subst hx
      exact hstep done.length s hlen hinv)
    (List.range n) [] s0 (by simp) (by simpa using h0)
  simpa using key

theorem unpackCount_ok {P : Type} (pc : ParticleContainer P) (plan : ParticleCopyPlan)
    (st : (TileIndex → Option (ParticleTile P)) × List Nat × List TileIndex) (m : TileIndex)
    (hg : m.1 < pc.gridToBucket.length)
    (hb : ∀ b ∈ pc.gridToBucket, b < plan.m_box_counts.length)
    (hsum : plan.m_box_counts.sum < 2147483648) :
    ∃ st', unpackCount pc.gridToBucket plan st m = Res.ok st' := by
  have hb1 : pc.gridToBucket[m.1]? = some pc.gridToBucket[m.1] := List.getElem?_eq_getElem hg
  have hblt := hb _ (List.getElem_mem hg)
  have hc1 : plan.m_box_counts[pc.gridToBucket[m.1]]? = some plan.m_box_counts[pc.gridToBucket[m.1]] :=
    List.getElem?_eq_getElem hblt
  have hc_lt : plan.m_box_counts[pc.gridToBucket[m.1]] < 2147483648 := by
    have := le_sum_of_getElem? _ _ _ hc1
    omega
  unfold unpackCount
  dsimp only
  rw [readNat_eq_ok.mpr hb1]
  simp only [Res.ok_bind]
  rw [readNat_eq_ok.mpr hc1]
  simp only [Res.ok_bind, toInt32_of_lt _ hc_lt]
  rw [if_neg (by omega)]
  exact ⟨_, rfl⟩

theorem unpackCountLoop_ok {P : Type} (pc : ParticleContainer P) (plan : ParticleCopyPlan)
    (hg : ∀ m ∈ pc.MakeMFIter, m.1 < pc.gridToBucket.length)
    (hb : ∀ b ∈ pc.gridToBucket, b < plan.m_box_counts.length)
    (hsum : plan.m_box_counts.sum < 2147483648) :
    ∃ st, loopM (unpackCount pc.gridToBucket plan) (pc.GetParticles, [], []) pc.MakeMFIter =
      Res.ok st := by
  obtain ⟨st, h, -⟩ := loopM_ok_inv (unpackCount pc.gridToBucket plan) (fun _ _ => True)
    pc.MakeMFIter
    (fun done x rest s hxs _ => by
      obtain ⟨s', hs'⟩ := unpackCount_ok pc plan s x (hg x (by rw [← hxs]; simp)) hb hsum
      exact ⟨s', hs', trivial⟩)
    pc.MakeMFIter [] (pc.GetParticles, [], []) (by simp) trivial
  exact ⟨st, h⟩

section PolicyReturns

variable {κ P : Type} [DecidableEq κ] [Inhabited P]

/-- The growth policies return when there is a tile for every size. -/
theorem UnpackPolicy.resizeTiles_returns (policy : UnpackPolicy) (heap : κ → ParticleTile P)
    (tiles : List κ) (sizes : List Nat) (offsets : List Nat)
    (h : sizes.length ≤ tiles.length) :
    ∃ r, policy.resizeTiles heap tiles sizes offsets = Res.ok r := by
  cases policy with
  | neighbor =>
    obtain ⟨r, hr, -⟩ := loopM_range_ok_inv (NeighborUnpackPolicy.step tiles sizes)
      (fun _ _ => True) sizes.length (heap, offsets) trivial
      (fun i s hi _ => by
        have ht : tiles[i]? = some tiles[i] := List.getElem?_eq_getElem (by omega)
        have hs : sizes[i]? = some sizes[i] := List.getElem?_eq_getElem hi
        unfold NeighborUnpackPolicy.step
        rw [readNat_eq_ok.mpr ht, readNat_eq_ok.mpr hs]
        exact ⟨_, rfl, trivial⟩)
    exact ⟨r, hr⟩
  | redistribute =>
    obtain ⟨r1, hr1, -⟩ := loopM_range_ok_inv (RedistributeUnpackPolicy.initStep heap tiles)
      (fun _ _ => True) sizes.length (fun _ => 0) trivial
      (fun i s hi _ => by
        have ht : tiles[i]? = some tiles[i] := List.getElem?_eq_getElem (by omega)
        unfold RedistributeUnpackPolicy.initStep
        rw [readNat_eq_ok.mpr ht]
        exact ⟨_, rfl, trivial⟩)
    obtain ⟨r2, hr2, -⟩ := loopM_range_ok_inv (RedistributeUnpackPolicy.offsetStep tiles sizes)
      (fun _ _ => True) sizes.length (r1, offsets) trivial
      (fun i s hi _ => by
        have ht : tiles[i]? = some tiles[i] := List.getElem?_eq_getElem (by omega)
        have hs : sizes[i]? = some sizes[i] := List.getElem?_eq_getElem hi
        unfold RedistributeUnpackPolicy.offsetStep
        rw [readNat_eq_ok.mpr ht, readNat_eq_ok.mpr hs]
        exact ⟨_, rfl, trivial⟩)
    show ∃ r, RedistributeUnpackPolicy.resizeTiles heap tiles sizes offsets = Res.ok r
    unfold RedistributeUnpackPolicy.resizeTiles
    simp only [hr1, Res.ok_bind, hr2]
    exact ⟨_, rfl⟩

end PolicyReturns

theorem unpackCopy_ok {P : Type} (p_box_offsets p_box_perm : List Nat) (buf : List P)
    (gid b off offset : Nat) (hb : p_box_perm[gid]? = some b)
    (hoff : p_box_offsets[b]? = some off) (hlt : off < 2147483648)
    (t : ParticleTile P) (j : Nat) (hbuf : off + j < buf.length)
    (htile : offset + j < t.m_data.length) :
    ∃ t', unpackCopy p_box_offsets p_box_perm buf gid offset t j = Res.ok t' := by
  have hidx : ((off : Int) + (j : Int)).toNat = off + j := by omega
  have hp : buf[((off : Int) + (j : Int)).toNat]? = some buf[off + j] := by
    rw [hidx]; exact List.getElem?_eq_getElem hbuf
  unfold unpackCopy
  rw [readNat_eq_ok.mpr hb]
  simp only [Res.ok_bind]
  rw [readNat_eq_ok.mpr hoff]
  simp only [Res.ok_bind, toInt32_of_lt off hlt]
  rw [readAt_eq_ok.mpr ⟨by omega, hp⟩]
  simp only [Res.ok_bind]
  unfold ParticleTile.setSuperParticle
  rw [writeNat_eq_ok.mpr ⟨htile, rfl⟩]
  exact ⟨_, rfl⟩

theorem unpackCopy_loop_ok {P : Type} (p_box_offsets p_box_perm : List Nat) (buf : List P)
    (gid b off offset : Nat) (hb : p_box_perm[gid]? = some b)
    (hoff : p_box_offsets[b]? = some off) (hlt : off < 2147483648)
    (tile : ParticleTile P) (size : Nat) (hbuf : off + size ≤ buf.length)
    (htile : offset + size ≤ tile.m_data.length) :
    ∃ t', loopM (unpackCopy p_box_offsets p_box_perm buf gid offset) tile (List.range size) =
      Res.ok t' := by
  obtain ⟨t', h, -⟩ := loopM_range_ok_inv (unpackCopy p_box_offsets p_box_perm buf gid offset)
    (UnpackCopyInv buf off offset tile) size tile
    ⟨rfl, rfl, by intro i hi; omega, by intro p _; rfl⟩
    (fun j t hj hinv => by
      obtain ⟨t', ht'⟩ := unpackCopy_ok p_box_offsets p_box_perm buf gid b off offset hb hoff hlt
        t j (by omega) (by rw [hinv.2.1]; omega)
      exact ⟨t', ht', unpackCopy_inv p_box_offsets p_box_perm buf gid b off offset hb hoff hlt
        tile j t t' hinv ht'⟩)
  exact ⟨t', h⟩

theorem unpackGridLoop_ok {P : Type} (pc : ParticleContainer P) (plan : ParticleCopyPlan)
    (buf : List P) (sizes offsets : List Nat) (heap0 : TileIndex → ParticleTile P)
    (hnd : pc.MakeMFIter.Nodup)
    (hent : ∀ (j : Nat) (m : TileIndex), pc.MakeMFIter[j]? = some m →
      ∃ b off offset size : Nat, pc.gridToBucket[m.1]? = some b ∧
        plan.m_box_offsets[b]? = some off ∧ off < 2147483648 ∧ offsets[j]? = some offset ∧
        sizes[j]? = some size ∧ off + size ≤ buf.length ∧
        offset + size ≤ (heap0 m).m_data.length) :
    ∃ st, loopM (unpackGrid pc.gridToBucket plan buf sizes offsets) (heap0, 0) pc.MakeMFIter =
      Res.ok st := by
  have hbk : ∀ m ∈ pc.MakeMFIter, ∃ b off : Nat, pc.gridToBucket[m.1]? = some b ∧
      plan.m_box_offsets[b]? = some off ∧ off < 2147483648 := by
    intro m hm
    obtain ⟨j, hj⟩ := List.mem_iff_getElem?.mp hm
    obtain ⟨b, off, -, -, h1, h2, h3, -⟩ := hent j m hj
    exact ⟨b, off, h1, h2, h3⟩
  obtain ⟨st, h, -⟩ := loopM_ok_inv (unpackGrid pc.gridToBucket plan buf sizes offsets)
    (UnpackGridInv pc plan buf sizes offsets heap0) pc.MakeMFIter
    (fun done x rest s hxs hinv => by
      have hj : pc.MakeMFIter[done.length]? = some x := by
        rw [← hxs, List.getElem?_append_right (Nat.le_refl _)]; simp
      obtain ⟨b, off, offset, size, hb, hoff, hlt, hoffset, hsize, hbuf, htile⟩ :=
        hent done.length x hj
      have hx_not : x ∉ done := by
        rw [← hxs] at hnd
        have := List.nodup_append.mp hnd
        intro hmem
        exact this.2.2 hmem (List.mem_cons_self _ _)
      have hu := hinv.1
      have hrest := hinv.2.1
      obtain ⟨t', ht'⟩ := unpackCopy_loop_ok plan.m_box_offsets pc.gridToBucket buf x.1 b off
        offset hb hoff hlt (s.1 x) size hbuf (by rw [hrest x hx_not]; exact htile)
      have hok : unpackGrid pc.gridToBucket plan buf sizes offsets s x =
          Res.ok (Function.update s.1 x t', s.2 + 1) := by
        unfold unpackGrid
        dsimp only
        rw [hu, readNat_eq_ok.mpr hoffset]
        simp only [Res.ok_bind]
        rw [readNat_eq_ok.mpr hsize]
        simp only [Res.ok_bind]
        rw [ht']
        rfl
      exact ⟨_, hok, unpackGrid_inv pc plan buf sizes offsets heap0 hbk pc.MakeMFIter done x
        rest hxs hnd (fun _ hy => hy) s _ hinv hok⟩)
    pc.MakeMFIter [] (heap0, 0) (by simp)
    ⟨rfl, by intro idx _; rfl, by intro j m hj; simp at hj⟩
  exact ⟨st, h⟩

/-- The round trip through `build`, `packBuffer` and `unpackBuffer` when all three return. On a single process with one tile per box and an injective box-to-bucket map,
`build`, then `packBuffer`, then `unpackBuffer` (loops of `build` and `packBuffer` in any
order, fewer than `2^31` copied descriptors, well-formed tiles) leave every tile that is not
visited as it was and add to every visited tile `m` a list `L` of records:

* the tile's particles as the policy counts them (all records for the neighbor policy, the
  primary particles for the redistribute policy) are afterwards the old ones followed by `L`,
  and the count has grown by the length of `L`;
* `L` is, as a multiset, exactly the packed records (gathered super-particle with its periodic
  shift applied) of the descriptors whose destination is the tile's box: none is missing, none
  occurs twice, and a dropped descriptor (destination `< 0`) contributes nothing;
* when every box is visited (single process), every copied descriptor is among the descriptors
  routed to a visited tile, so no routed particle is lost. -/
theorem unpackBuffer_result_of_ok {A : Type} [Inhabited A] (self : ParticleCopyPlan)
    (pc : ParticleContainer (Particle A)) (op : ParticleCopyOp) (do_handshake : Bool)
    (buildMPIStart : ParticleCopyPlan → Bool → Res CommSchedule)
    (orders orders' : Nat → List Nat) (pastEnd : Nat) (plan : ParticleCopyPlan)
    (snd0 buf : List (Particle A)) (policy : UnpackPolicy)
    (result : TileIndex → Option (ParticleTile (Particle A)))
    (hnt : ¬ (pc.numBoxes = 1 ∧ ¬ pc.Geom.isAnyPeriodic))
    (hmfi : (pc.MakeMFIter.map Prod.fst).Nodup)
    (hlocal : ∀ g, g < pc.gridToBucket.length → g ∈ pc.MakeMFIter.map Prod.fst)
    (hbm : pc.gridToBucket.Nodup)
    (horders : ∀ m ∈ pc.MakeMFIter, (orders m.1).Perm (sequentialOrders op m.1))
    (horders' : ∀ m ∈ pc.MakeMFIter, (orders' m.1).Perm (sequentialOrders op m.1))
    (hN : numCopied op pc.MakeMFIter < 2147483648)
    (hfit : op.fits pc.MakeMFIter)
    (hwf : ∀ idx, (tileAt pc.GetParticles idx).wf)
    (hbuild : self.build pc op do_handshake buildMPIStart orders pastEnd = Res.ok plan)
    (hpack : packBuffer pc op plan snd0 orders' = Res.ok buf)
    (hunpack : unpackBuffer pc plan buf policy = Res.ok result) :
    (∀ idx, idx ∉ pc.MakeMFIter → result idx = pc.GetParticles idx) ∧
    (∀ m ∈ pc.MakeMFIter, ∃ (tile' : ParticleTile (Particle A)) (L : List (Particle A)),
      result m = some tile' ∧
      tile'.m_data.take (policy.recordCount (tileAt pc.GetParticles m) + L.length) =
        (tileAt pc.GetParticles m).m_data.take (policy.recordCount (tileAt pc.GetParticles m))
          ++ L ∧
      policy.recordCount tile' = policy.recordCount (tileAt pc.GetParticles m) + L.length ∧
      (L.map some).Perm ((routedEvents pc op m.1).map fun x => packedRecord pc op x.1 x.2)) ∧
    (∀ x ∈ packEvents pc.MakeMFIter (sequentialOrders op), op.copied (x.1.1, x.2) = true →
      ∃ m ∈ pc.MakeMFIter, x ∈ routedEvents pc op m.1) := by
  have ht := ParticleCopyPlan.build_planTables self pc op do_handshake buildMPIStart orders
    pastEnd plan hnt hmfi horders hN hfit hbuild
  obtain ⟨-, total, -, -, hploop⟩ := packBuffer_parts pc op plan snd0 orders' buf hnt hpack
  have hpinv := packLoop_inv pc op plan orders orders' ht hmfi horders horders' hfit _ _ hploop
  obtain ⟨plev, sizes, tiles, heap0, heap, offsets, u, h1, h2, h3, hres⟩ :=
    unpackBuffer_parts pc plan buf policy result hnt hunpack
  have hnd : pc.MakeMFIter.Nodup := List.Nodup.of_map _ hmfi
  obtain ⟨htiles, hslen, hsizes, hplev⟩ := unpackCountLoop_inv pc plan _ h1
  dsimp only at htiles hslen hsizes hplev
  subst htiles
  have hold : tileAt plev = tileAt pc.GetParticles := by
    funext idx
    unfold tileAt
    rw [hplev idx]
    by_cases hm : idx ∈ pc.MakeMFIter <;> simp [hm, tileAt]
  rw [hold] at h2
  obtain ⟨-, hpout, hpin⟩ := UnpackPolicy.resizeTiles_nodup policy _ _ _ _ _ hwf hnd h2
  have hsumN : plan.m_box_counts.sum < 2147483648 := by
    rw [ht.counts_sum]; exact hN
  have hbk : ∀ m ∈ pc.MakeMFIter, ∃ b off : Nat, pc.gridToBucket[m.1]? = some b ∧
      plan.m_box_offsets[b]? = some off ∧ off < 2147483648 := by
    intro m hm
    obtain ⟨j, hj⟩ := List.mem_iff_getElem?.mp hm
    obtain ⟨b, c, hb, hc, -, -⟩ := hsizes j m hj
    have hblt : b < pc.numBoxes := by
      rw [← ht.counts_length]; exact (List.getElem?_eq_some.mp hc).1
    refine ⟨b, _, hb, ht.offsets_eq b (Nat.le_of_lt hblt), ?_⟩
    have := sum_take_le plan.m_box_counts b
    omega
  obtain ⟨-, hgout, hgin⟩ := unpackGridLoop_inv pc plan buf sizes offsets heap0 hbk hnd _ h3
  dsimp only at hgout hgin
  refine ⟨?_, ?_, ?_⟩
  · intro idx hidx
    rw [hres]
    dsimp only
    rw [hplev idx, if_neg hidx, hgout idx hidx, hpout idx hidx]
    cases hg : pc.GetParticles idx <;> simp [tileAt, hg]
  · intro m hm
    obtain ⟨j, hj⟩ := List.mem_iff_getElem?.mp hm
    obtain ⟨b, c, hb, hc, hcpos, hsz⟩ := hsizes j m hj
    obtain ⟨b', off, offset, size, hb', hoff, hoffset, hsize, hcopy⟩ := hgin j m hj
    rw [hb] at hb'
    cases hb'
    rw [hsz] at hsize
    have hc_lt : c < 2147483648 := by
      have := le_sum_of_getElem? _ _ _ hc
      omega
    have hsize' : size = c := by
      have := Option.some.inj hsize
      rw [toInt32_of_lt c hc_lt] at this
      omega
    subst hsize'
    obtain ⟨ho, hrc_le, hlen, htake, hrc⟩ := hpin j m size hj (by
      rw [hsz, toInt32_of_lt size hc_lt]; simp)
    rw [hoffset] at ho
    have hoffset' : offset = policy.recordCount (tileAt pc.GetParticles m) := Option.some.inj ho
    subst hoffset'
    obtain ⟨hL, hdata⟩ := hcopy.take_eq hlen
    refine ⟨heap m, (buf.drop off).take size, ?_, ?_, ?_, ?_⟩
    · rw [hres]
      dsimp only
      rw [hplev m, if_pos hm]
      rfl
    · rw [hL, hdata, htake]
    · rw [hL]
      exact hrc (heap m) hcopy.2.1 hcopy.1
    · rw [buffer_segment pc op plan orders orders' ht horders horders' _ buf hpinv b off size
        hoff hc]
      exact (packSegment_perm_routed pc op orders horders hbm m.1 b hb).map _
  · intro x hx hcop
    obtain ⟨hxm, hxi⟩ := (mem_packEvents _ _ x).mp hx
    have hxi' : x.2 ∈ orders x.1.1 := by
      rw [(horders x.1 hxm).mem_iff]; exact hxi
    have hmemE : ((x.1.1, x.2) : Descriptor) ∈ copyEvents pc.MakeMFIter orders :=
      (mem_copyEvents _ _ _).mpr ⟨List.mem_map.mpr ⟨x.1, hxm, rfl⟩, hxi'⟩
    obtain ⟨b, hb⟩ := ht.copied_bucket _ hmemE hcop
    unfold ParticleCopyOp.bucketOf at hb
    cases hd : op.dest (x.1.1, x.2) with
    | none => simp [hd] at hb
    | some d =>
      simp only [hd] at hb
      by_cases hneg : d < 0
      · simp [hneg] at hb
      · simp only [hneg, if_false] at hb
        have hlt : d.toNat < pc.gridToBucket.length := (List.getElem?_eq_some.mp hb).1
        obtain ⟨m, hm, hm1⟩ := List.mem_map.mp (hlocal d.toNat hlt)
        refine ⟨m, hm, ?_⟩
        unfold routedEvents
        rw [List.mem_filter]
        refine ⟨hx, ?_⟩
        have : (m.1 : Int) = d := by rw [hm1]; omega
        simp [hd, this]



/-- After `build` and `packBuffer` have returned, `unpackBuffer` returns: all its reads of the
plan, of the send buffer and all its writes to the tiles are in range. -/
theorem unpackBuffer_returns {A : Type} [Inhabited A] (self : ParticleCopyPlan)
    (pc : ParticleContainer (Particle A)) (op : ParticleCopyOp) (do_handshake : Bool)
    (buildMPIStart : ParticleCopyPlan → Bool → Res CommSchedule)
    (orders orders' : Nat → List Nat) (pastEnd : Nat) (plan : ParticleCopyPlan)
    (snd0 buf : List (Particle A)) (policy : UnpackPolicy)
    (hnt : ¬ (pc.numBoxes = 1 ∧ ¬ pc.Geom.isAnyPeriodic))
    (hmfi : (pc.MakeMFIter.map Prod.fst).Nodup)
    (hgrid : ∀ m ∈ pc.MakeMFIter, m.1 < pc.gridToBucket.length)
    (hbucket : ∀ b ∈ pc.gridToBucket, b < pc.numBoxes)
    (horders : ∀ m ∈ pc.MakeMFIter, (orders m.1).Perm (sequentialOrders op m.1))
    (horders' : ∀ m ∈ pc.MakeMFIter, (orders' m.1).Perm (sequentialOrders op m.1))
    (hN : numCopied op pc.MakeMFIter < 2147483648)
    (hfit : op.fits pc.MakeMFIter)
    (hwf : ∀ idx, (tileAt pc.GetParticles idx).wf)
    (hbuild : self.build pc op do_handshake buildMPIStart orders pastEnd = Res.ok plan)
    (hpack : packBuffer pc op plan snd0 orders' = Res.ok buf) :
    ∃ result, unpackBuffer pc plan buf policy = Res.ok result := by
  have ht := ParticleCopyPlan.build_planTables self pc op do_handshake buildMPIStart orders
    pastEnd plan hnt hmfi horders hN hfit hbuild
  obtain ⟨hlev, total, htotal, -, hploop⟩ := packBuffer_parts pc op plan snd0 orders' buf hnt hpack
  have hpinv := packLoop_inv pc op plan orders orders' ht hmfi horders horders' hfit _ _ hploop
  have hnd : pc.MakeMFIter.Nodup := List.Nodup.of_map _ hmfi
  have hsumN : plan.m_box_counts.sum < 2147483648 := by
    rw [ht.counts_sum]; exact hN
  have htot_eq : total = (plan.m_box_counts.take pc.numBoxes).sum := by
    have := ht.offsets_eq pc.numBoxes (Nat.le_refl _)
    rw [htotal] at this
    exact Option.some.inj this
  have hbuflen : buf.length = (plan.m_box_counts.take pc.numBoxes).sum := by
    rw [hpinv.1, resize_length, ← htot_eq, toInt32_of_lt total (by
      rw [htot_eq]
      have := sum_take_le plan.m_box_counts pc.numBoxes
      omega)]
    simp
  obtain ⟨⟨plev, sizes, tiles⟩, h1⟩ := unpackCountLoop_ok pc plan hgrid
    (by rw [ht.counts_length]; exact hbucket) hsumN
  obtain ⟨htiles, hslen, hsizes, hplev⟩ := unpackCountLoop_inv pc plan _ h1
  dsimp only at htiles hslen hsizes hplev
  subst htiles
  obtain ⟨⟨heap0, offsets⟩, h2⟩ := UnpackPolicy.resizeTiles_returns policy (tileAt plev)
    pc.MakeMFIter sizes [] (Nat.le_of_eq hslen)
  have hold : tileAt plev = tileAt pc.GetParticles := by
    funext idx
    unfold tileAt
    rw [hplev idx]
    by_cases hm : idx ∈ pc.MakeMFIter <;> simp [hm, tileAt]
  have h2' := h2
  rw [hold] at h2'
  obtain ⟨-, -, hpin⟩ := UnpackPolicy.resizeTiles_nodup policy _ _ _ _ _ hwf hnd h2'
  have hent : ∀ (j : Nat) (m : TileIndex), pc.MakeMFIter[j]? = some m →
      ∃ b off offset size : Nat, pc.gridToBucket[m.1]? = some b ∧
        plan.m_box_offsets[b]? = some off ∧ off < 2147483648 ∧ offsets[j]? = some offset ∧
        sizes[j]? = some size ∧ off + size ≤ buf.length ∧
        offset + size ≤ (heap0 m).m_data.length := by
    intro j m hj
    obtain ⟨b, c, hb, hc, -, hsz⟩ := hsizes j m hj
    have hblt : b < pc.numBoxes := by
      rw [← ht.counts_length]; exact (List.getElem?_eq_some.mp hc).1
    have hc_lt : c < 2147483648 := by
      have := le_sum_of_getElem? _ _ _ hc
      omega
    have hsz' : sizes[j]? = some c := by
      rw [hsz, toInt32_of_lt c hc_lt]; simp
    obtain ⟨ho, -, hlen, -, -⟩ := hpin j m c hj hsz'
    refine ⟨b, _, _, c, hb, ht.offsets_eq b (Nat.le_of_lt hblt), ?_, ho, hsz', ?_, hlen⟩
    · have := sum_take_le plan.m_box_counts b
      omega
    · rw [hbuflen, ← sum_take_succ plan.m_box_counts b c hc]
      exact sum_take_mono plan.m_box_counts hblt
  obtain ⟨⟨heap, u⟩, h3⟩ := unpackGridLoop_ok pc plan buf sizes offsets heap0 hnd hent
  refine ⟨fun index => (plev index).map fun _ => heap index, ?_⟩
  unfold unpackBuffer
  simp only [hlev, ne_eq, not_true_eq_false, if_false, hnt]
  rw [h1]
  simp only [Res.ok_bind]
  rw [h2]
  simp only [Res.ok_bind]
  rw [h3]
  rfl

/-- C7. On a single process with one tile per box and an injective box-to-bucket map, after
`build` and `packBuffer` have returned (their loops in any order, fewer than `2^31` copied
descriptors, well-formed tiles), `unpackBuffer` returns, leaves every tile that is not visited
as it was and adds to every visited tile `m` a list `L` of records:

* the tile's particles as the policy counts them (all records for the neighbor policy, the
  primary particles for the redistribute policy) are afterwards the old ones followed by `L`,
  and the count has grown by the length of `L`;
* `L` is, as a multiset, exactly the packed records (gathered super-particle with its periodic
  shift applied) of the descriptors whose destination is the tile's box: none is missing, none
  occurs twice, and a dropped descriptor (destination `< 0`) contributes nothing;
* every box is visited (single process), so every copied descriptor is among the descriptors
  routed to a visited tile: no routed particle is lost.

Every box visited holds fewer than `2^31` descriptors (`op.fits`), so that `numCopies`, an
`int`, returns the number of its descriptors. -/
theorem unpackBuffer_round_trip {A : Type} [Inhabited A] (self : ParticleCopyPlan)
    (pc : ParticleContainer (Particle A)) (op : ParticleCopyOp) (do_handshake : Bool)
    (buildMPIStart : ParticleCopyPlan → Bool → Res CommSchedule)
    (orders orders' : Nat → List Nat) (pastEnd : Nat) (plan : ParticleCopyPlan)
    (snd0 buf : List (Particle A)) (policy : UnpackPolicy)
    (hnt : ¬ (pc.numBoxes = 1 ∧ ¬ pc.Geom.isAnyPeriodic))
    (hmfi : (pc.MakeMFIter.map Prod.fst).Nodup)
    (hlocal : ∀ g, g < pc.gridToBucket.length → g ∈ pc.MakeMFIter.map Prod.fst)
    (hgrid : ∀ m ∈ pc.MakeMFIter, m.1 < pc.gridToBucket.length)
    (hbm : pc.gridToBucket.Nodup)
    (hbucket : ∀ b ∈ pc.gridToBucket, b < pc.numBoxes)
    (horders : ∀ m ∈ pc.MakeMFIter, (orders m.1).Perm (sequentialOrders op m.1))
    (horders' : ∀ m ∈ pc.MakeMFIter, (orders' m.1).Perm (sequentialOrders op m.1))
    (hN : numCopied op pc.MakeMFIter < 2147483648)
    (hfit : op.fits pc.MakeMFIter)
    (hwf : ∀ idx, (tileAt pc.GetParticles idx).wf)
    (hbuild : self.build pc op do_handshake buildMPIStart orders pastEnd = Res.ok plan)
    (hpack : packBuffer pc op plan snd0 orders' = Res.ok buf) :
    ∃ result : TileIndex → Option (ParticleTile (Particle A)),
      unpackBuffer pc plan buf policy = Res.ok result ∧
      (∀ idx, idx ∉ pc.MakeMFIter → result idx = pc.GetParticles idx) ∧
      (∀ m ∈ pc.MakeMFIter, ∃ (tile' : ParticleTile (Particle A)) (L : List (Particle A)),
        result m = some tile' ∧
        tile'.m_data.take (policy.recordCount (tileAt pc.GetParticles m) + L.length) =
          (tileAt pc.GetParticles m).m_data.take (policy.recordCount (tileAt pc.GetParticles m))
            ++ L ∧
        policy.recordCount tile' = policy.recordCount (tileAt pc.GetParticles m) + L.length ∧
        (L.map some).Perm ((routedEvents pc op m.1).map fun x => packedRecord pc op x.1 x.2)) ∧
      (∀ x ∈ packEvents pc.MakeMFIter (sequentialOrders op), op.copied (x.1.1, x.2) = true →
        ∃ m ∈ pc.MakeMFIter, x ∈ routedEvents pc op m.1) := by
  obtain ⟨result, hunpack⟩ := unpackBuffer_returns self pc op do_handshake buildMPIStart orders
    orders' pastEnd plan snd0 buf policy hnt hmfi hgrid hbucket horders horders' hN hfit hwf hbuild
    hpack
  exact ⟨result, hunpack, unpackBuffer_result_of_ok self pc op do_handshake buildMPIStart orders
    orders' pastEnd plan snd0 buf policy result hnt hmfi hlocal hbm
    horders horders' hN hfit hwf hbuild hpack hunpack⟩

/-- Witness for C7: the example round trip with the redistribute policy; the tile of box 0
receives the particle with attribute 20 routed to it from box 1. -/
theorem unpackBuffer_round_trip_witness :
    ¬ (examplePC.numBoxes = 1 ∧ ¬ examplePC.Geom.isAnyPeriodic) ∧
    (examplePC.MakeMFIter.map Prod.fst).Nodup ∧
    (∀ g, g < examplePC.gridToBucket.length → g ∈ examplePC.MakeMFIter.map Prod.fst) ∧
    (∀ m ∈ examplePC.MakeMFIter, m.1 < examplePC.gridToBucket.length) ∧
    examplePC.gridToBucket.Nodup ∧
    (∀ b ∈ examplePC.gridToBucket, b < examplePC.numBoxes) ∧
    (∀ m ∈ examplePC.MakeMFIter, (exampleOrders m.1).Perm (sequentialOrders exampleOp m.1)) ∧
    (∀ m ∈ examplePC.MakeMFIter,
      ((fun g => if g = 0 then [1, 2, 0] else [0]) m.1).Perm (sequentialOrders exampleOp m.1)) ∧
    numCopied exampleOp examplePC.MakeMFIter < 2147483648 ∧
    exampleOp.fits examplePC.MakeMFIter ∧
    (∀ idx, (tileAt examplePC.GetParticles idx).wf) ∧
    ParticleCopyPlan.fresh.build examplePC exampleOp true exampleMPIStart exampleOrders 0 =
      Res.ok examplePlan ∧
    packBuffer examplePC exampleOp examplePlan [] (fun g => if g = 0 then [1, 2, 0] else [0]) =
      Res.ok exampleBuffer ∧
    unpackBuffer examplePC examplePlan exampleBuffer UnpackPolicy.redistribute =
      Res.ok exampleResult ∧
    (exampleResult (0, 0)).map (fun t => t.m_data.map fun p => p.attr) =
      some [10, 11, 12, 20] ∧
    ∃ result : TileIndex → Option (ParticleTile (Particle Nat)),
      unpackBuffer examplePC examplePlan exampleBuffer UnpackPolicy.redistribute =
        Res.ok result ∧
      (∀ idx, idx ∉ examplePC.MakeMFIter → result idx = examplePC.GetParticles idx) ∧
      (∀ m ∈ examplePC.MakeMFIter,
        ∃ (tile' : ParticleTile (Particle Nat)) (L : List (Particle Nat)),
        result m = some tile' ∧
        tile'.m_data.take (UnpackPolicy.redistribute.recordCount
            (tileAt examplePC.GetParticles m) + L.length) =
          (tileAt examplePC.GetParticles m).m_data.take
            (UnpackPolicy.redistribute.recordCount (tileAt examplePC.GetParticles m)) ++ L ∧
        UnpackPolicy.redistribute.recordCount tile' =
          UnpackPolicy.redistribute.recordCount (tileAt examplePC.GetParticles m) + L.length ∧
        (L.map some).Perm ((routedEvents examplePC exampleOp m.1).map
          fun x => packedRecord examplePC exampleOp x.1 x.2)) ∧
      (∀ x ∈ packEvents examplePC.MakeMFIter (sequentialOrders exampleOp),
        exampleOp.copied (x.1.1, x.2) = true →
        ∃ m ∈ examplePC.MakeMFIter, x ∈ routedEvents examplePC exampleOp m.1) :=
  ⟨by decide, by decide, by decide, by decide, by decide, by decide, by decide, by decide,
    by decide, by decide,
    fun idx => by
      unfold ParticleTile.wf tileAt examplePC
      dsimp only
      split_ifs <;> simp [ParticleTile.empty],
    rfl, rfl, rfl, by decide,
    unpackBuffer_round_trip ParticleCopyPlan.fresh examplePC exampleOp true exampleMPIStart
      exampleOrders (fun g => if g = 0 then [1, 2, 0] else [0]) 0 examplePlan [] exampleBuffer
      UnpackPolicy.redistribute (by decide) (by decide) (by decide) (by decide) (by decide)
      (by decide) (by decide) (by decide) (by decide) (by decide)
      (fun idx => by
        unfold ParticleTile.wf tileAt examplePC
        dsimp only
        split_ifs <;> simp [ParticleTile.empty])
      rfl rfl⟩

/-! ## The bucket offsets -/

/-- The counters and offsets of a non-trivial `build`: one counter per bucket, their sum the
number of copied descriptors, and the offsets the running sums of the counters. -/
theorem ParticleCopyPlan.build_offsets {P : Type} (self : ParticleCopyPlan)
    (pc : ParticleContainer P) (op : ParticleCopyOp) (do_handshake : Bool)
    (buildMPIStart : ParticleCopyPlan → Bool → Res CommSchedule)
    (orders : Nat → List Nat) (pastEnd : Nat) (plan : ParticleCopyPlan)
    (hnt : ¬ (pc.numBoxes = 1 ∧ ¬ pc.Geom.isAnyPeriodic))
    (horders : ∀ m ∈ pc.MakeMFIter, (orders m.1).Perm (sequentialOrders op m.1))
    (hN : numCopied op pc.MakeMFIter < 2147483648)
    (hfit : op.fits pc.MakeMFIter)
    (h : self.build pc op do_handshake buildMPIStart orders pastEnd = Res.ok plan) :
    plan.m_box_counts.length = pc.numBoxes ∧
    plan.m_box_counts.sum = numCopied op pc.MakeMFIter ∧
    plan.m_box_offsets.length = pc.numBoxes + 1 ∧
    ∀ k : Nat, k ≤ pc.numBoxes →
      plan.m_box_offsets[k]? = some (plan.m_box_counts.take k).sum := by
  obtain ⟨-, dst0, -, hloop, hoff⟩ :=
    ParticleCopyPlan.build_parts self pc op do_handshake buildMPIStart orders pastEnd plan hnt h
  have hev := ParticleCopyPlan.gridLoop_events _ _ _ _ hfit horders _ _ hloop
  have hsum' := (ParticleCopyPlan.build_counts_sum self pc op do_handshake buildMPIStart orders
    pastEnd plan hnt horders hN hfit h).1
  have hcl : plan.m_box_counts.length = pc.numBoxes := by
    have := ParticleCopyPlan.eventLoop_length pc.gridToBucket op _ _ _ hev
    simpa using this
  have hscanl : (exclusive_scan 0 (plan.m_box_counts ++ [pastEnd])).length =
      pc.numBoxes + 1 := by
    rw [exclusive_scan_length]; simp [hcl]
  have hoff' : plan.m_box_offsets = exclusive_scan 0 (plan.m_box_counts ++ [pastEnd]) := by
    rw [hoff, hscanl, List.drop_of_length_le (by rw [resize_length]), List.append_nil]
  refine ⟨hcl, hsum', ?_, ?_⟩
  · rw [hoff', hscanl]
  · intro k hk
    have htake : (plan.m_box_counts ++ [pastEnd]).take k = plan.m_box_counts.take k :=
      List.take_append_of_le_length (by omega)
    have hle := sum_take_le plan.m_box_counts k
    have := exclusive_scan_getElem? 0 (plan.m_box_counts ++ [pastEnd]) k
      (by simp [hcl]; omega) (by rw [htake]; omega)
    rw [hoff', this, htake]
    simp

/-- The copy loop of `packBuffer` keeps the size of the send buffer. -/
theorem packLoop_length {A : Type} (pc : ParticleContainer (Particle A))
    (op : ParticleCopyOp) (plan : ParticleCopyPlan) (orders : Nat → List Nat)
    (buf0 buf : List (Particle A))
    (h : loopM (packGrid pc op plan orders) buf0 pc.MakeMFIter = Res.ok buf) :
    buf.length = buf0.length :=
  loopM_inv (packEventStep pc op plan) (fun _ b => b.length = buf0.length)
    (packEvents pc.MakeMFIter (op.runOrder orders))
    (fun done x rest s s' _ hinv hs => by
      rcases packEventStep_cases pc op plan s s' x hs with
        ⟨-, rfl⟩ | ⟨b, k, sp, rec, sh, -, -, -, -, -, -, -, -, rfl⟩
      · exact hinv
      · simpa using hinv)
    (packEvents pc.MakeMFIter (op.runOrder orders)) [] buf0 buf (by simp) rfl
    (packGrid_events_run pc op plan orders pc.MakeMFIter buf0 buf h)

/-- C11. After a non-trivial `build` (loops in any order, fewer than `2^31` copied
descriptors) `m_box_counts` has `num_boxes` and `m_box_offsets` has `num_boxes + 1` entries,
`m_box_offsets[0] = 0`, `m_box_offsets[b + 1] = m_box_offsets[b] + m_box_counts[b]` for every
bucket `b`, `m_box_offsets[num_boxes]` is the number of copied (non-dropped) descriptors, and
that is the size of the send buffer that `packBuffer` returns.
Every box visited holds fewer than `2^31` descriptors (`op.fits`), so that `numCopies`, an
`int`, returns the number of its descriptors. -/
theorem ParticleCopyPlan.build_offsets_prefix_sum {A : Type} [Inhabited A]
    (self : ParticleCopyPlan) (pc : ParticleContainer (Particle A)) (op : ParticleCopyOp)
    (do_handshake : Bool) (buildMPIStart : ParticleCopyPlan → Bool → Res CommSchedule)
    (orders : Nat → List Nat) (pastEnd : Nat) (plan : ParticleCopyPlan)
    (hnt : ¬ (pc.numBoxes = 1 ∧ ¬ pc.Geom.isAnyPeriodic))
    (horders : ∀ m ∈ pc.MakeMFIter, (orders m.1).Perm (sequentialOrders op m.1))
    (hN : numCopied op pc.MakeMFIter < 2147483648)
    (hfit : op.fits pc.MakeMFIter)
    (h : self.build pc op do_handshake buildMPIStart orders pastEnd = Res.ok plan) :
    plan.m_box_counts.length = pc.numBoxes ∧
    plan.m_box_offsets.length = pc.numBoxes + 1 ∧
    plan.m_box_offsets[0]? = some 0 ∧
    (∀ b : Nat, b < pc.numBoxes → ∃ o c : Nat, plan.m_box_offsets[b]? = some o ∧
      plan.m_box_counts[b]? = some c ∧ plan.m_box_offsets[b + 1]? = some (o + c)) ∧
    plan.m_box_offsets[pc.numBoxes]? = some (numCopied op pc.MakeMFIter) ∧
    ∀ (snd0 buf : List (Particle A)) (orders' : Nat → List Nat),
      packBuffer pc op plan snd0 orders' = Res.ok buf →
      buf.length = numCopied op pc.MakeMFIter := by
  obtain ⟨hcl, hsum, hol, hoff⟩ := ParticleCopyPlan.build_offsets self pc op do_handshake
    buildMPIStart orders pastEnd plan hnt horders hN hfit h
  have hlast : plan.m_box_offsets[pc.numBoxes]? = some (numCopied op pc.MakeMFIter) := by
    rw [hoff pc.numBoxes (Nat.le_refl _), ← hsum, ← hcl, List.take_length]
  refine ⟨hcl, hol, ?_, ?_, hlast, ?_⟩
  · rw [hoff 0 (Nat.zero_le _)]; simp
  · intro b hb
    have hc : plan.m_box_counts[b]? = some plan.m_box_counts[b] :=
      List.getElem?_eq_getElem (by omega)
    refine ⟨_, _, hoff b (Nat.le_of_lt hb), hc, ?_⟩
    rw [hoff (b + 1) hb, sum_take_succ _ _ _ hc]
  · intro snd0 buf orders' hpack
    obtain ⟨-, total, htotal, -, hploop⟩ :=
      packBuffer_parts pc op plan snd0 orders' buf hnt hpack
    rw [hlast] at htotal
    have ht : total = numCopied op pc.MakeMFIter := (Option.some.inj htotal).symm
    subst ht
    rw [packLoop_length pc op plan orders' _ buf hploop, resize_length,
      toInt32_of_lt _ hN]
    simp

/-- Witness for C11: the example plan has counts `[2, 1]` and offsets `[0, 2, 3]`. -/
theorem ParticleCopyPlan.build_offsets_prefix_sum_witness :
    ¬ (examplePC.numBoxes = 1 ∧ ¬ examplePC.Geom.isAnyPeriodic) ∧
    (∀ m ∈ examplePC.MakeMFIter, (exampleOrders m.1).Perm (sequentialOrders exampleOp m.1)) ∧
    numCopied exampleOp examplePC.MakeMFIter < 2147483648 ∧
    exampleOp.fits examplePC.MakeMFIter ∧
    ParticleCopyPlan.fresh.build examplePC exampleOp true exampleMPIStart exampleOrders 0 =
      Res.ok examplePlan ∧
    examplePlan.m_box_counts = [2, 1] ∧ examplePlan.m_box_offsets = [0, 2, 3] ∧
    numCopied exampleOp examplePC.MakeMFIter = 3 ∧
    examplePlan.m_box_offsets[examplePC.numBoxes]? =
      some (numCopied exampleOp examplePC.MakeMFIter) :=
  ⟨by decide, by decide, by decide, by decide, rfl, by decide, by decide, by decide,
    (ParticleCopyPlan.build_offsets_prefix_sum ParticleCopyPlan.fresh examplePC exampleOp true
      exampleMPIStart exampleOrders 0 examplePlan (by decide) (by decide) (by decide)
      (by decide) rfl).2.2.2.2.1⟩

/-- C12, counterexample to strict monotonicity: with the descriptors `emptyBucketOp` nothing
is copied to bucket 1, and `build` leaves the offsets `[0, 2, 2]`:
`m_box_offsets[1] = m_box_offsets[2]`. -/
theorem ParticleCopyPlan.build_offsets_not_strict_counterexample :
    ParticleCopyPlan.fresh.build examplePC emptyBucketOp true exampleMPIStart
      (sequentialOrders emptyBucketOp) 0 = Res.ok emptyBucketPlan ∧
    emptyBucketPlan.m_box_counts = [2, 0] ∧ emptyBucketPlan.m_box_offsets = [0, 2, 2] ∧
    ¬ (∀ b : Nat, b < examplePC.numBoxes → ∃ o o' : Nat,
      emptyBucketPlan.m_box_offsets[b]? = some o ∧
      emptyBucketPlan.m_box_offsets[b + 1]? = some o' ∧ o < o') := by
  refine ⟨rfl, by decide, by decide, ?_⟩
  intro h
  obtain ⟨o, o', h1, h2, hlt⟩ := h 1 (by decide)
  have e1 : emptyBucketPlan.m_box_offsets[1]? = some 2 := by decide
  have e2 : emptyBucketPlan.m_box_offsets[1 + 1]? = some 2 := by decide
  rw [e1] at h1
  rw [e2] at h2
  cases h1
  cases h2
  omega

/-- C12, amended. After a non-trivial `build` (loops in any order, every box visited once,
fewer than `2^31` copied descriptors) the bucket offsets are monotone,
`m_box_offsets[b] ≤ m_box_offsets[b + 1]` for every bucket `b`, and the inequality is strict
exactly when the count of bucket `b` is positive, that is when some non-dropped descriptor of
a visited box is destined to bucket `b`.
Every box visited holds fewer than `2^31` descriptors (`op.fits`), so that `numCopies`, an
`int`, returns the number of its descriptors. -/
theorem ParticleCopyPlan.build_offsets_monotone {P : Type} (self : ParticleCopyPlan)
    (pc : ParticleContainer P) (op : ParticleCopyOp) (do_handshake : Bool)
    (buildMPIStart : ParticleCopyPlan → Bool → Res CommSchedule)
    (orders : Nat → List Nat) (pastEnd : Nat) (plan : ParticleCopyPlan)
    (hnt : ¬ (pc.numBoxes = 1 ∧ ¬ pc.Geom.isAnyPeriodic))
    (hmfi : (pc.MakeMFIter.map Prod.fst).Nodup)
    (horders : ∀ m ∈ pc.MakeMFIter, (orders m.1).Perm (sequentialOrders op m.1))
    (hN : numCopied op pc.MakeMFIter < 2147483648)
    (hfit : op.fits pc.MakeMFIter)
    (h : self.build pc op do_handshake buildMPIStart orders pastEnd = Res.ok plan) :
    ∀ b : Nat, b < pc.numBoxes → ∃ o o' c : Nat, plan.m_box_offsets[b]? = some o ∧
      plan.m_box_offsets[b + 1]? = some o' ∧ plan.m_box_counts[b]? = some c ∧ o ≤ o' ∧
      (o < o' ↔ 0 < c) ∧
      (0 < c ↔ ∃ m ∈ pc.MakeMFIter, ∃ i : Nat, op.bucketOf pc.gridToBucket (m.1, i) = some b) := by
  intro b hb
  have ht := ParticleCopyPlan.build_planTables self pc op do_handshake buildMPIStart orders
    pastEnd plan hnt hmfi horders hN hfit h
  have hbl : b < plan.m_box_counts.length := by rw [ht.counts_length]; exact hb
  have hc : plan.m_box_counts[b]? = some plan.m_box_counts[b] := List.getElem?_eq_getElem hbl
  refine ⟨_, _, _, ht.offsets_eq b (Nat.le_of_lt hb), ht.offsets_eq (b + 1) hb, hc, ?_, ?_, ?_⟩
  · rw [sum_take_succ _ _ _ hc]; omega
  · rw [sum_take_succ _ _ _ hc]; omega
  · rw [ht.counts_eq b _ hc, List.length_pos_iff_exists_mem]
    constructor
    · rintro ⟨e, he⟩
      obtain ⟨hmem, hbk⟩ := (bucketSegment_mem _ _ _ _ _).mp he
      obtain ⟨hm, -⟩ := (mem_copyEvents _ _ _).mp hmem
      obtain ⟨m, hm', hm1⟩ := List.mem_map.mp hm
      exact ⟨m, hm', e.2, by rw [hm1]; exact hbk⟩
    · rintro ⟨m, hm, i, hbk⟩
      refine ⟨(m.1, i), (bucketSegment_mem _ _ _ _ _).mpr ⟨?_, hbk⟩⟩
      exact mem_copyEvents_of_bucketOf pc op orders horders (m.1, i) b
        (List.mem_map.mpr ⟨m, hm, rfl⟩) hbk

/-- Witness for C12 (amended) on the plan with an empty bucket. -/
theorem ParticleCopyPlan.build_offsets_monotone_witness :
    ¬ (examplePC.numBoxes = 1 ∧ ¬ examplePC.Geom.isAnyPeriodic) ∧
    (examplePC.MakeMFIter.map Prod.fst).Nodup ∧
    (∀ m ∈ examplePC.MakeMFIter,
      (sequentialOrders emptyBucketOp m.1).Perm (sequentialOrders emptyBucketOp m.1)) ∧
    numCopied emptyBucketOp examplePC.MakeMFIter < 2147483648 ∧
    emptyBucketOp.fits examplePC.MakeMFIter ∧
    ParticleCopyPlan.fresh.build examplePC emptyBucketOp true exampleMPIStart
      (sequentialOrders emptyBucketOp) 0 = Res.ok emptyBucketPlan ∧
    ∀ b : Nat, b < examplePC.numBoxes → ∃ o o' c : Nat,
      emptyBucketPlan.m_box_offsets[b]? = some o ∧
      emptyBucketPlan.m_box_offsets[b + 1]? = some o' ∧
      emptyBucketPlan.m_box_counts[b]? = some c ∧ o ≤ o' ∧ (o < o' ↔ 0 < c) ∧
      (0 < c ↔ ∃ m ∈ examplePC.MakeMFIter, ∃ i : Nat,
        emptyBucketOp.bucketOf examplePC.gridToBucket (m.1, i) = some b) :=
  ⟨by decide, by decide, fun _ _ => List.Perm.refl _, by decide, by decide, rfl,
    ParticleCopyPlan.build_offsets_monotone ParticleCopyPlan.fresh examplePC emptyBucketOp true
      exampleMPIStart (sequentialOrders emptyBucketOp) 0 emptyBucketPlan (by decide) (by decide)
      (fun _ _ => List.Perm.refl _) (by decide) (by decide) rfl⟩

/-! ## Rebuilding a plan, and the trivial case -/

/-- The early return of `build`: with one box and no periodic axis only the neighbor
processes are recorded. -/
theorem ParticleCopyPlan.build_trivial {P : Type} (self : ParticleCopyPlan)
    (pc : ParticleContainer P) (op : ParticleCopyOp) (do_handshake : Bool)
    (buildMPIStart : ParticleCopyPlan → Bool → Res CommSchedule)
    (orders : Nat → List Nat) (pastEnd : Nat) (hl : pc.numLevels = 1)
    (ht : pc.numBoxes = 1 ∧ ¬ pc.Geom.isAnyPeriodic) :
    self.build pc op do_handshake buildMPIStart orders pastEnd =
      Res.ok { self with m_neighbor_procs := pc.NeighborProcs } := by
  unfold ParticleCopyPlan.build
  simp only [hl, ne_eq, not_true_eq_false, if_false]
  rw [if_pos ht]
  rfl

theorem copyEvents_perm (mfi : List TileIndex) (orders orders' : Nat → List Nat)
    (h : ∀ m ∈ mfi, (orders m.1).Perm (orders' m.1)) :
    (copyEvents mfi orders).Perm (copyEvents mfi orders') := by
  unfold copyEvents
  exact List.Perm.flatMap_left _ (fun m hm => (h m hm).map _)

/-- C13. A second `build` on the plan that a first `build` returned, with the same container
and the same descriptors (the slot loops of the two calls in any two orders, every box visited
once, fewer than `2^31` copied descriptors), returns a plan with the same `m_box_counts` and
the same `m_box_offsets` as the first: the counters are reset and do not accumulate.
Every box visited holds fewer than `2^31` descriptors (`op.fits`), so that `numCopies`, an
`int`, returns the number of its descriptors. -/
theorem ParticleCopyPlan.build_twice_same_tables {P : Type} (self : ParticleCopyPlan)
    (pc : ParticleContainer P) (op : ParticleCopyOp) (do_handshake do_handshake' : Bool)
    (buildMPIStart : ParticleCopyPlan → Bool → Res CommSchedule)
    (orders orders' : Nat → List Nat) (pastEnd pastEnd' : Nat) (plan plan' : ParticleCopyPlan)
    (hmfi : (pc.MakeMFIter.map Prod.fst).Nodup)
    (horders : ∀ m ∈ pc.MakeMFIter, (orders m.1).Perm (sequentialOrders op m.1))
    (horders' : ∀ m ∈ pc.MakeMFIter, (orders' m.1).Perm (sequentialOrders op m.1))
    (hN : numCopied op pc.MakeMFIter < 2147483648)
    (hfit : op.fits pc.MakeMFIter)
    (h : self.build pc op do_handshake buildMPIStart orders pastEnd = Res.ok plan)
    (h' : plan.build pc op do_handshake' buildMPIStart orders' pastEnd' = Res.ok plan') :
    plan'.m_box_counts = plan.m_box_counts ∧ plan'.m_box_offsets = plan.m_box_offsets := by
  by_cases hnt : pc.numBoxes = 1 ∧ ¬ pc.Geom.isAnyPeriodic
  · have hl : pc.numLevels = 1 := by
      by_contra hl
      unfold ParticleCopyPlan.build at h
      simp [hl] at h
    rw [ParticleCopyPlan.build_trivial plan pc op do_handshake' buildMPIStart orders' pastEnd' hl
      hnt] at h'
    cases h'
    exact ⟨rfl, rfl⟩
  · have ht := ParticleCopyPlan.build_planTables self pc op do_handshake buildMPIStart orders
      pastEnd plan hnt hmfi horders hN hfit h
    have ht' := ParticleCopyPlan.build_planTables plan pc op do_handshake' buildMPIStart orders'
      pastEnd' plan' hnt hmfi horders' hN hfit h'
    have hperm : (copyEvents pc.MakeMFIter orders').Perm (copyEvents pc.MakeMFIter orders) :=
      copyEvents_perm _ _ _ (fun m hm => (horders' m hm).trans (horders m hm).symm)
    have hcounts : plan'.m_box_counts = plan.m_box_counts := by
      apply List.ext_getElem?
      intro b
      by_cases hb : b < pc.numBoxes
      · have hb1 : b < plan.m_box_counts.length := by rw [ht.counts_length]; exact hb
        have hb2 : b < plan'.m_box_counts.length := by rw [ht'.counts_length]; exact hb
        have hc1 := List.getElem?_eq_getElem hb1
        have hc2 := List.getElem?_eq_getElem hb2
        rw [hc1, hc2, ht.counts_eq b _ hc1, ht'.counts_eq b _ hc2]
        congr 1
        unfold bucketSegment
        exact (hperm.filter _).length_eq
      · have e1 := ht.counts_length
        have e2 := ht'.counts_length
        rw [List.getElem?_eq_none (by omega), List.getElem?_eq_none (by omega)]
    refine ⟨hcounts, ?_⟩
    apply List.ext_getElem?
    intro k
    by_cases hk : k ≤ pc.numBoxes
    · rw [ht.offsets_eq k hk, ht'.offsets_eq k hk, hcounts]
    · have e1 := ht.offsets_length
      have e2 := ht'.offsets_length
      rw [List.getElem?_eq_none (by omega), List.getElem?_eq_none (by omega)]

/-- Witness for C13: the example plan rebuilt, the loops in another order and another value
behind the end of the counters. -/
theorem ParticleCopyPlan.build_twice_same_tables_witness :
    (examplePC.MakeMFIter.map Prod.fst).Nodup ∧
    (∀ m ∈ examplePC.MakeMFIter, (exampleOrders m.1).Perm (sequentialOrders exampleOp m.1)) ∧
    (∀ m ∈ examplePC.MakeMFIter,
      (sequentialOrders exampleOp m.1).Perm (sequentialOrders exampleOp m.1)) ∧
    numCopied exampleOp examplePC.MakeMFIter < 2147483648 ∧
    exampleOp.fits examplePC.MakeMFIter ∧
    ParticleCopyPlan.fresh.build examplePC exampleOp true exampleMPIStart exampleOrders 0 =
      Res.ok examplePlan ∧
    examplePlan.build examplePC exampleOp true exampleMPIStart (sequentialOrders exampleOp) 7 =
      Res.ok exampleRebuilt ∧
    exampleRebuilt.m_box_counts = [2, 1] ∧ exampleRebuilt.m_box_offsets = [0, 2, 3] ∧
    exampleRebuilt.m_box_counts = examplePlan.m_box_counts ∧
    exampleRebuilt.m_box_offsets = examplePlan.m_box_offsets :=
  ⟨by decide, by decide, fun _ _ => List.Perm.refl _, by decide, by decide, rfl, rfl, by decide,
    by decide,
    ParticleCopyPlan.build_twice_same_tables ParticleCopyPlan.fresh examplePC exampleOp true true
      exampleMPIStart exampleOrders (sequentialOrders exampleOp) 0 7 examplePlan exampleRebuilt
      (by decide) (by decide) (fun _ _ => List.Perm.refl _) (by decide) (by decide) rfl rfl⟩

/-- C14. With a single level, exactly one box and no periodic axis: `build` returns and
leaves `m_box_counts`, `m_box_offsets` and `m_dst_indices` as they were; `packBuffer` returns
the send buffer unchanged; `unpackBuffer` returns the tile map unchanged. -/
theorem trivial_case_no_change {A : Type} [Inhabited A] (self : ParticleCopyPlan)
    (pc : ParticleContainer (Particle A)) (op : ParticleCopyOp) (do_handshake : Bool)
    (buildMPIStart : ParticleCopyPlan → Bool → Res CommSchedule)
    (orders : Nat → List Nat) (pastEnd : Nat) (hl : pc.numLevels = 1)
    (ht : pc.numBoxes = 1 ∧ ¬ pc.Geom.isAnyPeriodic) :
    (∃ plan, self.build pc op do_handshake buildMPIStart orders pastEnd = Res.ok plan ∧
      plan.m_box_counts = self.m_box_counts ∧ plan.m_box_offsets = self.m_box_offsets ∧
      plan.m_dst_indices = self.m_dst_indices) ∧
    (∀ (plan : ParticleCopyPlan) (snd_buffer : List (Particle A)) (orders' : Nat → List Nat),
      packBuffer pc op plan snd_buffer orders' = Res.ok snd_buffer) ∧
    (∀ (plan : ParticleCopyPlan) (snd_buffer : List (Particle A)) (policy : UnpackPolicy),
      unpackBuffer pc plan snd_buffer policy = Res.ok pc.GetParticles) := by
  refine ⟨⟨_, ParticleCopyPlan.build_trivial self pc op do_handshake buildMPIStart orders
    pastEnd hl ht, rfl, rfl, rfl⟩, ?_, ?_⟩
  · intro plan snd_buffer orders'
    unfold packBuffer
    simp only [hl, ne_eq, not_true_eq_false, if_false]
    rw [if_pos ht]
    rfl
  · intro plan snd_buffer policy
    unfold unpackBuffer
    simp only [hl, ne_eq, not_true_eq_false, if_false]
    rw [if_pos ht]
    rfl

/-- Witness for C14: a container with one box and no periodic axis; the plan of the example,
its buffer and the tiles stay as they are although the descriptors ask for copies. -/
theorem trivial_case_no_change_witness :
    singleBoxPC.numLevels = 1 ∧
    (singleBoxPC.numBoxes = 1 ∧ ¬ singleBoxPC.Geom.isAnyPeriodic) ∧
    (∃ plan, examplePlan.build singleBoxPC exampleOp true exampleMPIStart exampleOrders 0 =
        Res.ok plan ∧
      plan.m_box_counts = examplePlan.m_box_counts ∧
      plan.m_box_offsets = examplePlan.m_box_offsets ∧
      plan.m_dst_indices = examplePlan.m_dst_indices) ∧
    packBuffer singleBoxPC exampleOp examplePlan exampleBuffer exampleOrders =
      Res.ok exampleBuffer ∧
    unpackBuffer singleBoxPC examplePlan exampleBuffer UnpackPolicy.redistribute =
      Res.ok singleBoxPC.GetParticles :=
  ⟨rfl, by decide,
    (trivial_case_no_change examplePlan singleBoxPC exampleOp true exampleMPIStart exampleOrders
      0 rfl (by decide)).1,
    rfl, rfl⟩

/-! ## `communicateParticlesStart` -/

/-- C15. `communicateParticlesStart` on a single-level container changes nothing when there
is one process or `m_NumSnds` is 0: it returns the plan (with its `m_nrcvs` and its request
list), the receive buffer and the transport as they were, so nothing is posted. -/
theorem communicateParticlesStart_noop {P : Type} [Inhabited P] (pc : ParticleContainer P)
    (plan : ParticleCopyPlan) (rcv_buffer : List P) (NProcs MyProc : Nat) (SeqNum : Int)
    (sizeofParticle : Nat) (firstBucketOnProc : Nat → Int) (net : Transport)
    (hl : pc.numLevels = 1) (h : NProcs = 1 ∨ plan.comm.m_NumSnds = 0) :
    communicateParticlesStart pc plan rcv_buffer NProcs MyProc SeqNum sizeofParticle
      firstBucketOnProc net = Res.ok (plan, rcv_buffer, net) := by
  unfold communicateParticlesStart
  simp only [hl, ne_eq, not_true_eq_false, if_false]
  rw [if_pos h]
  rfl

/-- Witness for C15: the example exchange run on one process, and run with `m_NumSnds = 0`. -/
theorem communicateParticlesStart_noop_witness :
    examplePC.numLevels = 1 ∧ ((1 : Nat) = 1 ∨ exchangePlan.comm.m_NumSnds = 0) ∧
    communicateParticlesStart examplePC exchangePlan exampleReceived 1 0 5 8 exampleFirstBucket
      ⟨[], []⟩ = Res.ok (exchangePlan, exampleReceived, ⟨[], []⟩) :=
  ⟨rfl, Or.inl rfl,
    communicateParticlesStart_noop examplePC exchangePlan exampleReceived 1 0 5 8
      exampleFirstBucket ⟨[], []⟩ rfl (Or.inl rfl)⟩

/-- The parts of a `communicateParticlesStart` that is not a no-op. -/
theorem communicateParticlesStart_parts {P : Type} [Inhabited P] (pc : ParticleContainer P)
    (plan : ParticleCopyPlan) (rcv_buffer : List P) (NProcs MyProc : Nat) (SeqNum : Int)
    (sizeofParticle : Nat) (firstBucketOnProc : Nat → Int) (net : Transport)
    (out : ParticleCopyPlan × List P × Transport)
    (hne : ¬ (NProcs = 1 ∨ plan.comm.m_NumSnds = 0))
    (h : communicateParticlesStart pc plan rcv_buffer NProcs MyProc SeqNum sizeofParticle
      firstBucketOnProc net = Res.ok out) :
    pc.numLevels = 1 ∧
    ∃ (rcv : List Int × List Int × Int) (m_stats : List Unit) (m_rreqs : List (Option Message))
      (posted : List (Option Message) × Transport),
      loopM (rcvCount plan.comm.m_rcv_num_particles) ([], [], 0) (List.range NProcs) =
        Res.ok rcv ∧
      resizeInt rcv_buffer rcv.2.2 default = Res.ok out.2.1 ∧
      resizeInt ([] : List Unit) (toInt32 rcv.1.length) () = Res.ok m_stats ∧
      resizeInt ([] : List (Option Message)) (toInt32 rcv.1.length) none = Res.ok m_rreqs ∧
      loopM (postReceive NProcs SeqNum sizeofParticle plan.comm.m_rcv_num_particles rcv.1
        rcv.2.1) (m_rreqs, net) (List.range (toInt32 rcv.1.length).toNat) = Res.ok posted ∧
      loopM (postSend NProcs MyProc SeqNum sizeofParticle firstBucketOnProc
        plan.comm.m_snd_num_particles plan.m_box_offsets) posted.2 (List.range NProcs) =
        Res.ok out.2.2 ∧
      out.1 = { plan with comm := { plan.comm with m_nrcvs := toInt32 rcv.1.length },
                          m_stats := m_stats, m_rreqs := posted.1 } := by
  unfold communicateParticlesStart at h
  by_cases hl : pc.numLevels = 1
  · refine ⟨hl, ?_⟩
    simp only [hl, ne_eq, not_true_eq_false, if_false] at h
    rw [if_neg hne] at h
    rw [Res.bind_eq_ok] at h
    obtain ⟨rcv, h1, h⟩ := h
    rw [Res.bind_eq_ok] at h
    obtain ⟨rb, h2, h⟩ := h
    rw [Res.bind_eq_ok] at h
    obtain ⟨m_stats, h3, h⟩ := h
    rw [Res.bind_eq_ok] at h
    obtain ⟨m_rreqs, h4, h⟩ := h
    rw [Res.bind_eq_ok] at h
    obtain ⟨posted, h5, h⟩ := h
    rw [Res.bind_eq_ok] at h
    obtain ⟨net', h6, h⟩ := h
    simp only [Res.pure_eq, Res.ok.injEq] at h
    subst h
    exact ⟨rcv, m_stats, m_rreqs, posted, h1, h2, h3, h4, h5, h6, rfl⟩
  · simp [hl] at h

theorem int_sum_take_succ (l : List Int) (i : Nat) (v : Int) (h : l[i]? = some v) :
    (l.take (i + 1)).sum = (l.take i).sum + v := by
  rw [List.take_succ, h]
  simp

theorem rcvProcs_succ (m : List Int) (i : Nat) :
    rcvProcs m (i + 1) = rcvProcs m i ++ if 0 < (m[i]?).getD 0 then [i] else [] := by
  unfold rcvProcs
  rw [List.range_succ, List.filter_append]
  by_cases h : 0 < (m[i]?).getD 0 <;> simp [h]

theorem rcvCount_inv (m : List Int) (hnn : ∀ n ∈ m, 0 ≤ n) (i : Nat)
    (st st' : List Int × List Int × Int) (hinv : RcvCountInv m i st)
    (h : rcvCount m st i = Res.ok st') : RcvCountInv m (i + 1) st' := by
  obtain ⟨h1, h2, h3⟩ := hinv
  unfold rcvCount at h
  rw [Res.bind_eq_ok] at h
  obtain ⟨n, hn, h⟩ := h
  rw [readNat_eq_ok] at hn
  have hmem : n ∈ m := List.mem_iff_getElem?.mpr ⟨i, hn⟩
  have hsum := int_sum_take_succ m i n hn
  have hp := rcvProcs_succ m i
  rw [hn] at hp
  simp only [Option.getD_some] at hp
  by_cases hpos : n > 0
  · rw [if_pos hpos] at h
    simp only [Res.pure_eq, Res.ok.injEq] at h
    subst h
    rw [if_pos hpos] at hp
    refine ⟨?_, ?_, ?_⟩
    · simp [hp, h1]
    · simp [hp, h2, h3]
    · simp [hsum, h3]
  · rw [if_neg hpos] at h
    simp only [Res.pure_eq, Res.ok.injEq] at h
    subst h
    rw [if_neg hpos] at hp
    have h0 : n = 0 := by
      have := hnn n hmem
      omega
    refine ⟨?_, ?_, ?_⟩
    · simp [hp, h1]
    · simp [hp, h2]
    · rw [hsum, h3, h0]; simp

theorem rcvCountLoop_inv (m : List Int) (hnn : ∀ n ∈ m, 0 ≤ n) (N : Nat)
    (st : List Int × List Int × Int)
    (h : loopM (rcvCount m) ([], [], 0) (List.range N) = Res.ok st) : RcvCountInv m N st :=
  loopM_range_inv (rcvCount m) (RcvCountInv m) N _ st
    ⟨by simp [rcvProcs], by simp [rcvProcs], by simp⟩
    (fun i s s' _ hinv hs => rcvCount_inv m hnn i s s' hinv hs) h

theorem rcvProcs_length_le (m : List Int) (n : Nat) : (rcvProcs m n).length ≤ n := by
  unfold rcvProcs
  have := List.length_filter_le (fun i => decide (0 < (m[i]?).getD 0)) (List.range n)
  simpa using this

theorem mem_rcvProcs (m : List Int) (n i : Nat) :
    i ∈ rcvProcs m n ↔ i < n ∧ 0 < (m[i]?).getD 0 := by
  unfold rcvProcs
  simp

theorem postReceive_eq_ok (NProcs : Nat) (SeqNum : Int) (sizeofParticle : Nat)
    (m RcvProc rOffset : List Int) (st st' : List (Option Message) × Transport) (i : Nat)
    (h : postReceive NProcs SeqNum sizeofParticle m RcvProc rOffset st i = Res.ok st') :
    ∃ (Who offset n : Int), RcvProc[i]? = some Who ∧ rOffset[i]? = some offset ∧ 0 ≤ Who ∧
      m[Who.toNat]? = some n ∧ 0 < byteCount n sizeofParticle ∧
      byteCount n sizeofParticle < 2147483647 ∧ Who < (NProcs : Int) ∧ i < st.1.length ∧
      st' = (st.1.set i (some ⟨offset, byteCount n sizeofParticle, Who, SeqNum⟩),
        { st.2 with recvs := st.2.recvs ++ [⟨offset, byteCount n sizeofParticle, Who, SeqNum⟩] }) := by
  unfold postReceive at h
  rw [Res.bind_eq_ok] at h
  obtain ⟨Who, hWho, h⟩ := h
  rw [Res.bind_eq_ok] at h
  obtain ⟨offset, hoff, h⟩ := h
  rw [Res.bind_eq_ok] at h
  obtain ⟨n, hn, h⟩ := h
  rw [readNat_eq_ok] at hWho hoff
  rw [readAt_eq_ok] at hn
  dsimp only at h
  by_cases h1 : byteCount n sizeofParticle > 0
  · by_cases h2 : byteCount n sizeofParticle < 2147483647
    · by_cases h3 : Who ≥ 0 ∧ Who < (NProcs : Int)
      · simp only [h1, h2, h3, not_true_eq_false, if_false, and_self] at h
        rw [Res.bind_eq_ok] at h
        obtain ⟨w, hw, h⟩ := h
        rw [writeNat_eq_ok] at hw
        simp only [Res.pure_eq, Res.ok.injEq] at h
        subst h
        exact ⟨Who, offset, n, hWho, hoff, hn.1, hn.2, h1, h2, h3.2, hw.1, by rw [hw.2]⟩
      · simp [h1, h2, h3] at h
    · simp [h1, h2] at h
  · simp [h1] at h

theorem postReceive_inv (NProcs : Nat) (SeqNum : Int) (sizeofParticle : Nat) (m : List Int)
    (net0 : Transport) (k : Nat)
    (hk : k < (rcvProcs m NProcs).length)
    (st st' : List (Option Message) × Transport)
    (hinv : PostRecvInv ((rcvProcs m NProcs).map (expectedRecv m SeqNum sizeofParticle)) net0 k st)
    (h : postReceive NProcs SeqNum sizeofParticle m
      ((rcvProcs m NProcs).map (fun (j : Nat) => (j : Int)))
      ((rcvProcs m NProcs).map (fun j => (m.take j).sum)) st k = Res.ok st') :
    PostRecvInv ((rcvProcs m NProcs).map (expectedRecv m SeqNum sizeofParticle)) net0 (k + 1)
      st' := by
  obtain ⟨hlen, hlow, hhigh, hrec, hsnd⟩ := hinv
  obtain ⟨Who, offset, n, hWho, hoff, hW0, hn, -, -, -, hkl, rfl⟩ :=
    postReceive_eq_ok NProcs SeqNum sizeofParticle m _ _ st st' k h
  have hp : (rcvProcs m NProcs)[k]? = some (rcvProcs m NProcs)[k] := List.getElem?_eq_getElem hk
  rw [List.getElem?_map, hp] at hWho hoff
  simp only [Option.map_some', Option.some.injEq] at hWho hoff
  subst hWho
  subst hoff
  simp only [Int.toNat_ofNat] at hn
  have hmsg : ((rcvProcs m NProcs).map (expectedRecv m SeqNum sizeofParticle))[k]? =
      some ⟨(m.take (rcvProcs m NProcs)[k]).sum, byteCount n sizeofParticle,
        ((rcvProcs m NProcs)[k] : Nat), SeqNum⟩ := by
    rw [List.getElem?_map, hp]
    simp [expectedRecv, hn]
  refine ⟨by simpa using hlen, ?_, ?_, ?_, hsnd⟩
  · intro j hj
    dsimp only
    rw [List.getElem?_set]
    by_cases hjk : k = j
    · subst hjk
      rw [if_pos rfl, if_pos hkl, hmsg]
      rfl
    · rw [if_neg hjk]
      exact hlow j (by omega)
  · intro j hj1 hj2
    dsimp only
    rw [List.getElem?_set, if_neg (by omega)]
    exact hhigh j (by omega) hj2
  · dsimp only
    rw [hrec, List.take_succ, hmsg]
    simp

theorem postReceiveLoop_inv (NProcs : Nat) (SeqNum : Int) (sizeofParticle : Nat) (m : List Int)
    (net0 : Transport) (rreqs0 : List (Option Message))
    (h0 : rreqs0 = List.replicate (rcvProcs m NProcs).length none)
    (st : List (Option Message) × Transport)
    (h : loopM (postReceive NProcs SeqNum sizeofParticle m
      ((rcvProcs m NProcs).map (fun (j : Nat) => (j : Int)))
      ((rcvProcs m NProcs).map (fun j => (m.take j).sum))) (rreqs0, net0)
      (List.range (rcvProcs m NProcs).length) = Res.ok st) :
    st.1 = ((rcvProcs m NProcs).map (expectedRecv m SeqNum sizeofParticle)).map some ∧
    st.2.recvs = net0.recvs ++ (rcvProcs m NProcs).map (expectedRecv m SeqNum sizeofParticle) ∧
    st.2.sends = net0.sends := by
  have hinv := loopM_range_inv _
    (PostRecvInv ((rcvProcs m NProcs).map (expectedRecv m SeqNum sizeofParticle)) net0)
    (rcvProcs m NProcs).length (rreqs0, net0) st
    ⟨by simp [h0], by intro j hj; omega, by
      intro j _ hj
      simp only [List.length_map] at hj
      simp [h0, List.getElem?_replicate, hj], by simp, rfl⟩
    (fun k s s' hk hinv hs => postReceive_inv NProcs SeqNum sizeofParticle m net0 k hk s s'
      hinv hs) h
  obtain ⟨hlen, hlow, -, hrec, hsnd⟩ := hinv
  refine ⟨?_, ?_, hsnd⟩
  · apply List.ext_getElem?
    intro j
    by_cases hj : j < (rcvProcs m NProcs).length
    · rw [hlow j hj]
      simp [List.getElem?_map]
    · rw [List.getElem?_eq_none (by rw [hlen]; simp; omega),
        List.getElem?_eq_none (by simp; omega)]
  · rw [hrec, List.take_of_length_le (by simp)]

theorem postSend_cases (NProcs MyProc : Nat) (SeqNum : Int) (sizeofParticle : Nat)
    (firstBucketOnProc : Nat → Int) (m_snd : List Int) (m_box_offsets : List Nat)
    (net net' : Transport) (i : Nat)
    (h : postSend NProcs MyProc SeqNum sizeofParticle firstBucketOnProc m_snd m_box_offsets
      net i = Res.ok net') :
    (i = MyProc ∧ net' = net) ∨
    (i ≠ MyProc ∧ ∃ n, m_snd[i]? = some n ∧
      ((byteCount n sizeofParticle = 0 ∧ net' = net) ∨
       (byteCount n sizeofParticle ≠ 0 ∧ byteCount n sizeofParticle < 2147483647 ∧
        (i : Int) < (NProcs : Int) ∧ 0 ≤ firstBucketOnProc i ∧
        ∃ o : Nat, m_box_offsets[(firstBucketOnProc i).toNat]? = some o ∧
          net' = { net with sends := net.sends ++
            [⟨(o : Int), byteCount n sizeofParticle, (i : Int), SeqNum⟩] }))) := by
  unfold postSend at h
  by_cases hi : i = MyProc
  · rw [if_pos hi] at h
    simp only [Res.pure_eq, Res.ok.injEq] at h
    exact Or.inl ⟨hi, h.symm⟩
  · rw [if_neg hi] at h
    rw [Res.bind_eq_ok] at h
    obtain ⟨n, hn, h⟩ := h
    rw [readNat_eq_ok] at hn
    dsimp only at h
    refine Or.inr ⟨hi, n, hn, ?_⟩
    by_cases h0 : byteCount n sizeofParticle = 0
    · rw [if_pos h0] at h
      simp only [Res.pure_eq, Res.ok.injEq] at h
      exact Or.inl ⟨h0, h.symm⟩
    · rw [if_neg h0] at h
      by_cases h3 : (i : Int) ≥ 0 ∧ (i : Int) < (NProcs : Int)
      · by_cases h2 : byteCount n sizeofParticle < 2147483647
        · simp only [h2, h3, not_true_eq_false, if_false, and_self] at h
          rw [Res.bind_eq_ok] at h
          obtain ⟨o, ho, h⟩ := h
          rw [readAt_eq_ok] at ho
          simp only [Res.pure_eq, Res.ok.injEq] at h
          exact Or.inr ⟨h0, h2, h3.2, ho.1, o, ho.2, h.symm⟩
        · rw [if_neg (not_not.mpr h3), if_pos h2] at h
          cases h
      · rw [if_pos h3] at h
        cases h

theorem sndProcs_succ (m_snd : List Int) (MyProc sizeofParticle : Nat) (i : Nat) :
    sndProcs m_snd MyProc sizeofParticle (i + 1) = sndProcs m_snd MyProc sizeofParticle i ++
      if i ≠ MyProc ∧ byteCount ((m_snd[i]?).getD 0) sizeofParticle ≠ 0 then [i] else [] := by
  unfold sndProcs
  rw [List.range_succ, List.filter_append]
  by_cases h : i ≠ MyProc ∧ byteCount ((m_snd[i]?).getD 0) sizeofParticle ≠ 0
  · rw [if_pos h]; simp [h.1, h.2]
  · rw [if_neg h]
    congr 1
    rw [List.filter_singleton]
    have : (decide (i ≠ MyProc) &&
        decide (byteCount ((m_snd[i]?).getD 0) sizeofParticle ≠ 0)) = false := by
      simpa using h
    rw [this]
    rfl

theorem postSendLoop_inv (NProcs MyProc : Nat) (SeqNum : Int) (sizeofParticle : Nat)
    (firstBucketOnProc : Nat → Int) (m_snd : List Int) (m_box_offsets : List Nat)
    (net0 net : Transport) (N : Nat)
    (h : loopM (postSend NProcs MyProc SeqNum sizeofParticle firstBucketOnProc m_snd
      m_box_offsets) net0 (List.range N) = Res.ok net) :
    net.recvs = net0.recvs ∧
    net.sends = net0.sends ++ (sndProcs m_snd MyProc sizeofParticle N).map
      (expectedSend m_snd m_box_offsets firstBucketOnProc SeqNum sizeofParticle) ∧
    ∀ i ∈ sndProcs m_snd MyProc sizeofParticle N, ∃ (n : Int) (o : Nat), m_snd[i]? = some n ∧
      0 ≤ firstBucketOnProc i ∧ m_box_offsets[(firstBucketOnProc i).toNat]? = some o ∧
      byteCount n sizeofParticle < 2147483647 := by
  refine loopM_range_inv _ (fun i (s : Transport) => s.recvs = net0.recvs ∧
    s.sends = net0.sends ++ (sndProcs m_snd MyProc sizeofParticle i).map
      (expectedSend m_snd m_box_offsets firstBucketOnProc SeqNum sizeofParticle) ∧
    ∀ j ∈ sndProcs m_snd MyProc sizeofParticle i, ∃ (n : Int) (o : Nat), m_snd[j]? = some n ∧
      0 ≤ firstBucketOnProc j ∧ m_box_offsets[(firstBucketOnProc j).toNat]? = some o ∧
      byteCount n sizeofParticle < 2147483647) N net0 net
    ⟨rfl, by simp [sndProcs], by simp [sndProcs]⟩ ?_ h
  intro i s s' _ hinv hs
  obtain ⟨hr, hsd, hall⟩ := hinv
  have hsucc := sndProcs_succ m_snd MyProc sizeofParticle i
  rcases postSend_cases NProcs MyProc SeqNum sizeofParticle firstBucketOnProc m_snd
    m_box_offsets s s' i hs with ⟨hi, rfl⟩ | ⟨hi, n, hn, ⟨h0, rfl⟩ | ⟨h0, h2, -, hb, o, ho, rfl⟩⟩
  · rw [if_neg (by simp [hi])] at hsucc
    rw [hsucc, List.append_nil]
    exact ⟨hr, hsd, hall⟩
  · rw [hn, if_neg (by simp [h0])] at hsucc
    rw [hsucc, List.append_nil]
    exact ⟨hr, hsd, hall⟩
  · rw [hn, if_pos ⟨hi, by simpa using h0⟩] at hsucc
    rw [hsucc]
    refine ⟨hr, ?_, ?_⟩
    · dsimp only
      rw [hsd]
      simp [expectedSend, hn, ho]
    · intro j hj
      rw [List.mem_append] at hj
      rcases hj with hj | hj
      · exact hall j hj
      · simp only [List.mem_singleton] at hj
        subst hj
        exact ⟨n, o, hn, hb, ho, h2⟩

theorem chained_append (a b c : Int) (l1 l2 : List (Int × Int))
    (h1 : chained a l1 b = true) (h2 : chained b l2 c = true) :
    chained a (l1 ++ l2) c = true := by
  induction l1 generalizing a with
  | nil =>
    simp only [chained, decide_eq_true_eq] at h1
    subst h1
    simpa using h2
  | cons r rest ih =>
    simp only [chained, Bool.and_eq_true, decide_eq_true_eq] at h1
    simp only [List.cons_append, chained, Bool.and_eq_true, decide_eq_true_eq]
    exact ⟨h1.1, ih _ h1.2⟩

theorem chained_rcvRanges (m : List Int) (hnn : ∀ n ∈ m, 0 ≤ n) (n : Nat) :
    chained 0 ((rcvProcs m n).map (rcvRange m)) (m.take n).sum = true := by
  induction n with
  | zero => simp [rcvProcs, chained]
  | succ n ih =>
    rw [rcvProcs_succ, List.map_append]
    apply chained_append 0 (m.take n).sum _ _ _ ih
    cases hn : m[n]? with
    | none =>
      have hlen : m.length ≤ n := by
        by_contra hc
        rw [List.getElem?_eq_getElem (by omega)] at hn
        cases hn
      simp [chained, List.take_of_length_le hlen, List.take_of_length_le (Nat.le_succ_of_le hlen)]
    | some v =>
      have hsum := int_sum_take_succ m n v hn
      have hv : 0 ≤ v := hnn v (List.mem_iff_getElem?.mpr ⟨n, hn⟩)
      by_cases hpos : 0 < v
      · simp [chained, hpos, rcvRange, hn, hsum]
      · have h0 : v = 0 := by omega
        simp [chained, h0, hsum]

/-- Ranges that follow each other without gap from `start` to `stop` lie in `[start, stop)`,
are pairwise disjoint and cover `[start, stop)`. -/
theorem chained_spec (l : List (Int × Int)) (start stop : Int)
    (h : chained start l stop = true) :
    (∀ (j : Nat) (r : Int × Int), l[j]? = some r → start ≤ r.1 ∧ 0 < r.2 ∧ r.1 + r.2 ≤ stop) ∧
    (∀ (i j : Nat) (r r' : Int × Int), i < j → l[i]? = some r → l[j]? = some r' →
      r.1 + r.2 ≤ r'.1) ∧
    (∀ p : Int, start ≤ p → p < stop →
      ∃ (j : Nat) (r : Int × Int), l[j]? = some r ∧ r.1 ≤ p ∧ p < r.1 + r.2) := by
  induction l generalizing start with
  | nil =>
    simp only [chained, decide_eq_true_eq] at h
    subst h
    refine ⟨by simp, by simp, ?_⟩
    intro p h1 h2
    omega
  | cons r0 rest ih =>
    simp only [chained, Bool.and_eq_true, decide_eq_true_eq] at h
    obtain ⟨⟨h1, h2⟩, h3⟩ := h
    obtain ⟨ihA, ihB, ihC⟩ := ih _ h3
    have hstop : start + r0.2 ≤ stop := by
      cases rest with
      | nil =>
        simp only [chained, decide_eq_true_eq] at h3
        omega
      | cons r1 rest' =>
        have := ihA 0 r1 (by simp)
        omega
    refine ⟨?_, ?_, ?_⟩
    · intro j r hj
      cases j with
      | zero =>
        simp only [List.getElem?_cons_zero, Option.some.injEq] at hj
        subst hj
        omega
      | succ j =>
        simp only [List.getElem?_cons_succ] at hj
        have := ihA j r hj
        omega
    · intro i j r r' hij hi hj
      cases j with
      | zero => omega
      | succ j =>
        simp only [List.getElem?_cons_succ] at hj
        cases i with
        | zero =>
          simp only [List.getElem?_cons_zero, Option.some.injEq] at hi
          subst hi
          have := ihA j r' hj
          omega
        | succ i =>
          simp only [List.getElem?_cons_succ] at hi
          exact ihB i j r r' (by omega) hi hj
    · intro p hp1 hp2
      by_cases hp : p < start + r0.2
      · exact ⟨0, r0, by simp, by omega, by omega⟩
      · obtain ⟨j, r, hj, hr1, hr2⟩ := ihC p (by omega) hp2
        exact ⟨j + 1, r, by simpa using hj, hr1, hr2⟩

/-- C16. When `communicateParticlesStart` is not a no-op and returns (fewer than `2^31`
processes, expected counts not negative), then, with the expected counts
`m_rcv_num_particles` of the processes `0 .. NProcs - 1`:

* the receive buffer has as many elements as the sum of the expected counts;
* `m_nrcvs` is the number of processes with a positive expected count;
* the receives posted are exactly one for each such process, in increasing rank order, each
  starting at the sum of the expected counts of the processes of lower rank, and their
  requests are the request list of the plan;
* the element ranges of these receives lie in the receive buffer, are pairwise disjoint and
  cover it. -/
theorem communicateParticlesStart_receives {P : Type} [Inhabited P] (pc : ParticleContainer P)
    (plan : ParticleCopyPlan) (rcv_buffer : List P) (NProcs MyProc : Nat) (SeqNum : Int)
    (sizeofParticle : Nat) (firstBucketOnProc : Nat → Int) (net : Transport)
    (out : ParticleCopyPlan × List P × Transport)
    (hne : ¬ (NProcs = 1 ∨ plan.comm.m_NumSnds = 0)) (hNP : NProcs < 2147483648)
    (hnn : ∀ n ∈ plan.comm.m_rcv_num_particles, 0 ≤ n)
    (h : communicateParticlesStart pc plan rcv_buffer NProcs MyProc SeqNum sizeofParticle
      firstBucketOnProc net = Res.ok out) :
    (out.2.1.length : Int) = (plan.comm.m_rcv_num_particles.take NProcs).sum ∧
    out.1.comm.m_nrcvs = ((rcvProcs plan.comm.m_rcv_num_particles NProcs).length : Int) ∧
    out.2.2.recvs = net.recvs ++ (rcvProcs plan.comm.m_rcv_num_particles NProcs).map
      (expectedRecv plan.comm.m_rcv_num_particles SeqNum sizeofParticle) ∧
    out.1.m_rreqs = ((rcvProcs plan.comm.m_rcv_num_particles NProcs).map
      (expectedRecv plan.comm.m_rcv_num_particles SeqNum sizeofParticle)).map some ∧
    (∀ (j : Nat) (r : Int × Int),
      ((rcvProcs plan.comm.m_rcv_num_particles NProcs).map
        (rcvRange plan.comm.m_rcv_num_particles))[j]? = some r →
      0 ≤ r.1 ∧ 0 < r.2 ∧ r.1 + r.2 ≤ (out.2.1.length : Int)) ∧
    (∀ (i j : Nat) (r r' : Int × Int), i < j →
      ((rcvProcs plan.comm.m_rcv_num_particles NProcs).map
        (rcvRange plan.comm.m_rcv_num_particles))[i]? = some r →
      ((rcvProcs plan.comm.m_rcv_num_particles NProcs).map
        (rcvRange plan.comm.m_rcv_num_particles))[j]? = some r' → r.1 + r.2 ≤ r'.1) ∧
    (∀ p : Int, 0 ≤ p → p < (out.2.1.length : Int) → ∃ (j : Nat) (r : Int × Int),
      ((rcvProcs plan.comm.m_rcv_num_particles NProcs).map
        (rcvRange plan.comm.m_rcv_num_particles))[j]? = some r ∧ r.1 ≤ p ∧ p < r.1 + r.2) := by
  obtain ⟨-, rcv, m_stats, m_rreqs, posted, h1, h2, -, h4, h5, h6, hout⟩ :=
    communicateParticlesStart_parts pc plan rcv_buffer NProcs MyProc SeqNum sizeofParticle
      firstBucketOnProc net out hne h
  obtain ⟨hr1, hr2, hr3⟩ := rcvCountLoop_inv _ hnn NProcs rcv h1
  have hlenle := rcvProcs_length_le plan.comm.m_rcv_num_particles NProcs
  have hlen : rcv.1.length = (rcvProcs plan.comm.m_rcv_num_particles NProcs).length := by
    rw [hr1]; simp
  have hn32 : toInt32 rcv.1.length =
      ((rcvProcs plan.comm.m_rcv_num_particles NProcs).length : Int) := by
    rw [hlen, toInt32_of_lt _ (by omega)]
  rw [hn32] at h4 h5
  rw [resizeInt_eq_ok] at h2 h4
  simp only [Int.toNat_ofNat] at h4 h5
  rw [hr1, hr2] at h5
  obtain ⟨hp1, hp2, -⟩ := postReceiveLoop_inv NProcs SeqNum sizeofParticle
    plan.comm.m_rcv_num_particles net m_rreqs (by rw [h4.2, resize_nil]) posted h5
  obtain ⟨hs1, -, -⟩ := postSendLoop_inv NProcs MyProc SeqNum sizeofParticle firstBucketOnProc
    plan.comm.m_snd_num_particles plan.m_box_offsets posted.2 out.2.2 NProcs h6
  have hblen : (out.2.1.length : Int) = (plan.comm.m_rcv_num_particles.take NProcs).sum := by
    rw [h2.2, resize_length, hr3]
    have := h2.1
    rw [hr3] at this
    omega
  have hch := chained_rcvRanges plan.comm.m_rcv_num_particles hnn NProcs
  rw [← hblen] at hch
  obtain ⟨hA, hB, hC⟩ := chained_spec _ _ _ hch
  refine ⟨hblen, ?_, ?_, ?_, hA, hB, hC⟩
  · rw [hout]
    exact hn32
  · rw [hs1, hp2]
  · rw [hout]
    exact hp1

/-- Witness for C16: the example exchange on process 1 of 3 posts the receives for processes
0 and 2 at the offsets 0 and 2 and sizes the receive buffer to 5 elements. -/
theorem communicateParticlesStart_receives_witness :
    ¬ ((3 : Nat) = 1 ∨ exchangePlan.comm.m_NumSnds = 0) ∧ (3 : Nat) < 2147483648 ∧
    (∀ n ∈ exchangePlan.comm.m_rcv_num_particles, 0 ≤ n) ∧
    communicateParticlesStart examplePC exchangePlan [] 3 1 5 8 exampleFirstBucket ⟨[], []⟩ =
      Res.ok exampleStarted ∧
    exampleStarted.2.1.length = 5 ∧ exampleStarted.1.comm.m_nrcvs = 2 ∧
    exampleStarted.2.2.recvs = [⟨0, 16, 0, 5⟩, ⟨2, 24, 2, 5⟩] ∧
    exampleStarted.2.2.recvs = [] ++ (rcvProcs exchangePlan.comm.m_rcv_num_particles 3).map
      (expectedRecv exchangePlan.comm.m_rcv_num_particles 5 8) :=
  ⟨by decide, by decide, by decide, rfl, by decide, by decide, by decide,
    (communicateParticlesStart_receives examplePC exchangePlan [] 3 1 5 8 exampleFirstBucket
      ⟨[], []⟩ exampleStarted (by decide) (by decide) (by decide) rfl).2.2.1⟩

theorem byteCount_of_fit (n : Int) (size : Nat) (h0 : 0 ≤ n) (hsize : 0 < size)
    (hfit : n * (size : Int) < 18446744073709551616) :
    byteCount n size = n.toNat * size := by
  have hn : n < 18446744073709551616 := by
    have : n * 1 ≤ n * (size : Int) := Int.mul_le_mul_of_nonneg_left (by omega) h0
    omega
  have h1 : toUInt64 n = n.toNat := by
    unfold toUInt64
    rw [Int.emod_eq_of_lt h0 hn]
  have h2 : n.toNat * size < 18446744073709551616 := by
    have : ((n.toNat * size : Nat) : Int) = n * (size : Int) := by
      rw [Nat.cast_mul, Int.toNat_of_nonneg h0]
    omega
  unfold byteCount u64mul
  rw [h1, Nat.mod_eq_of_lt h2]

theorem sndProcs_eq_sendTargets (m_snd : List Int) (MyProc size : Nat) (hsize : 0 < size)
    (hfit : ∀ n ∈ m_snd, 0 ≤ n ∧ n * (size : Int) < 18446744073709551616) (N : Nat) :
    sndProcs m_snd MyProc size N = sendTargets m_snd MyProc N := by
  unfold sndProcs sendTargets
  apply List.filter_congr
  intro i _
  congr 1
  cases hn : m_snd[i]? with
  | none => simp [byteCount, toUInt64, u64mul]
  | some n =>
    obtain ⟨h0, h1⟩ := hfit n (List.mem_iff_getElem?.mpr ⟨i, hn⟩)
    simp only [Option.getD_some]
    have hb := byteCount_of_fit n size h0 hsize h1
    have : byteCount n size = 0 ↔ n = 0 := by
      rw [hb]
      constructor
      · intro h
        rcases Nat.mul_eq_zero.mp h with h | h
        · omega
        · omega
      · intro h
        simp [h]
    simp [this]

/-- C17. When `communicateParticlesStart` is not a no-op and returns (record size positive,
send counts not negative and their byte counts below `2^64`), the sends posted are exactly one
for every process other than the caller whose entry of `m_snd_num_particles` is not 0, in
increasing rank order; the send to process `i` starts at element
`m_box_offsets[firstBucketOnProc(i)]` of the send buffer and carries the bytes of
`m_snd_num_particles[i]` records. -/
theorem communicateParticlesStart_sends {P : Type} [Inhabited P] (pc : ParticleContainer P)
    (plan : ParticleCopyPlan) (rcv_buffer : List P) (NProcs MyProc : Nat) (SeqNum : Int)
    (sizeofParticle : Nat) (firstBucketOnProc : Nat → Int) (net : Transport)
    (out : ParticleCopyPlan × List P × Transport)
    (hne : ¬ (NProcs = 1 ∨ plan.comm.m_NumSnds = 0)) (hsize : 0 < sizeofParticle)
    (hfit : ∀ n ∈ plan.comm.m_snd_num_particles,
      0 ≤ n ∧ n * (sizeofParticle : Int) < 18446744073709551616)
    (h : communicateParticlesStart pc plan rcv_buffer NProcs MyProc SeqNum sizeofParticle
      firstBucketOnProc net = Res.ok out) :
    out.2.2.sends = net.sends ++ (sendTargets plan.comm.m_snd_num_particles MyProc NProcs).map
      (expectedSend plan.comm.m_snd_num_particles plan.m_box_offsets firstBucketOnProc SeqNum
        sizeofParticle) ∧
    (∀ i : Nat, i ∈ sendTargets plan.comm.m_snd_num_particles MyProc NProcs ↔
      i < NProcs ∧ i ≠ MyProc ∧ ∃ n : Int, plan.comm.m_snd_num_particles[i]? = some n ∧ n ≠ 0) ∧
    ∀ i ∈ sendTargets plan.comm.m_snd_num_particles MyProc NProcs, ∃ (n : Int) (o : Nat),
      plan.comm.m_snd_num_particles[i]? = some n ∧ 0 ≤ firstBucketOnProc i ∧
      plan.m_box_offsets[(firstBucketOnProc i).toNat]? = some o ∧
      expectedSend plan.comm.m_snd_num_particles plan.m_box_offsets firstBucketOnProc SeqNum
        sizeofParticle i = ⟨(o : Int), n.toNat * sizeofParticle, (i : Int), SeqNum⟩ := by
  obtain ⟨-, rcv, m_stats, m_rreqs, posted, h1, h2, -, h4, h5, h6, hout⟩ :=
    communicateParticlesStart_parts pc plan rcv_buffer NProcs MyProc SeqNum sizeofParticle
      firstBucketOnProc net out hne h
  have hposted : posted.2.sends = net.sends := by
    have := loopM_range_inv _ (fun _ (s : List (Option Message) × Transport) =>
      s.2.sends = net.sends) _ (m_rreqs, net) posted rfl
      (fun i s s' _ hinv hs => by
        obtain ⟨Who, offset, n, -, -, -, -, -, -, -, -, rfl⟩ :=
          postReceive_eq_ok NProcs SeqNum sizeofParticle _ _ _ s s' i hs
        exact hinv) h5
    exact this
  obtain ⟨-, hs2, hs3⟩ := postSendLoop_inv NProcs MyProc SeqNum sizeofParticle
    firstBucketOnProc plan.comm.m_snd_num_particles plan.m_box_offsets posted.2 out.2.2 NProcs h6
  have heq := sndProcs_eq_sendTargets plan.comm.m_snd_num_particles MyProc sizeofParticle hsize
    hfit NProcs
  rw [heq] at hs2 hs3
  refine ⟨by rw [hs2, hposted], ?_, ?_⟩
  · intro i
    unfold sendTargets
    simp only [List.mem_filter, List.mem_range, Bool.and_eq_true, decide_eq_true_eq]
    constructor
    · rintro ⟨hi, hne', hn0⟩
      refine ⟨hi, hne', ?_⟩
      cases hn : plan.comm.m_snd_num_particles[i]? with
      | none => simp [hn] at hn0
      | some n => exact ⟨n, rfl, by simpa [hn] using hn0⟩
    · rintro ⟨hi, hne', n, hn, hn0⟩
      exact ⟨hi, hne', by simpa [hn] using hn0⟩
  · intro i hi
    obtain ⟨n, o, hn, hb, ho, -⟩ := hs3 i hi
    obtain ⟨h0, hf⟩ := hfit n (List.mem_iff_getElem?.mpr ⟨i, hn⟩)
    refine ⟨n, o, hn, hb, ho, ?_⟩
    simp [expectedSend, hn, ho, byteCount_of_fit n sizeofParticle h0 hsize hf]

/-- Witness for C17: the example exchange on process 1 of 3 sends 2 records (16 bytes) to
process 0 from element 0 and 1 record (8 bytes) to process 2 from element 2, and nothing to
itself although its own entry is 5. -/
theorem communicateParticlesStart_sends_witness :
    ¬ ((3 : Nat) = 1 ∨ exchangePlan.comm.m_NumSnds = 0) ∧ (0 : Nat) < 8 ∧
    (∀ n ∈ exchangePlan.comm.m_snd_num_particles,
      0 ≤ n ∧ n * ((8 : Nat) : Int) < 18446744073709551616) ∧
    communicateParticlesStart examplePC exchangePlan [] 3 1 5 8 exampleFirstBucket ⟨[], []⟩ =
      Res.ok exampleStarted ∧
    sendTargets exchangePlan.comm.m_snd_num_particles 1 3 = [0, 2] ∧
    exampleStarted.2.2.sends = [⟨0, 16, 0, 5⟩, ⟨2, 8, 2, 5⟩] ∧
    exampleStarted.2.2.sends = [] ++ (sendTargets exchangePlan.comm.m_snd_num_particles 1 3).map
      (expectedSend exchangePlan.comm.m_snd_num_particles exchangePlan.m_box_offsets
        exampleFirstBucket 5 8) :=
  ⟨by decide, by decide, by decide, rfl, by decide, by decide,
    (communicateParticlesStart_sends examplePC exchangePlan [] 3 1 5 8 exampleFirstBucket
      ⟨[], []⟩ exampleStarted (by decide) (by decide) (by decide) rfl).1⟩

/-! ## `unpackRemotes` -/

section PolicyFrame

variable {κ P : Type} [DecidableEq κ] [Inhabited P]

/-- The growth policies return one offset per entry, the ranges handed to entries of the same
tile are disjoint, and tiles that are not named are left as they are. -/
theorem UnpackPolicy.resizeTiles_offsets (policy : UnpackPolicy)
    (heap : κ → ParticleTile P) (tiles : List κ) (sizes : List Nat)
    (heap' : κ → ParticleTile P) (offsets : List Nat) (hwf : ∀ t, (heap t).wf)
    (h : policy.resizeTiles heap tiles sizes [] = Res.ok (heap', offsets)) :
    offsets.length = sizes.length ∧ RangesDisjoint tiles sizes offsets ∧
    ∀ t, t ∉ tiles → heap' t = heap t := by
  cases policy with
  | neighbor =>
    have hN := NeighborUnpackPolicy.resizeTiles_inv heap tiles sizes [] hwf (heap', offsets) h
    obtain ⟨hlen, -, hnn, hdata, hoff⟩ := hN
    dsimp only at hlen hnn hdata hoff
    simp only [List.length_nil, Nat.zero_add] at hlen hoff
    obtain ⟨hd, -⟩ := ranges_of_closed_form (fun t => (heap t).m_data.length) tiles sizes
      offsets hlen hoff
    refine ⟨hlen, hd, ?_⟩
    intro t ht
    have h1 := hnn t
    have h2 := hdata t
    rw [addedBefore_of_not_mem tiles sizes t _ ht] at h1 h2
    simp only [Nat.add_zero, List.replicate_zero, List.append_nil] at h1 h2
    cases hh : heap' t
    cases hh0 : heap t
    simp only [hh, hh0] at h1 h2
    simp [h1, h2]
  | redistribute =>
    obtain ⟨-, hlen, -, hheap, hoff⟩ :=
      RedistributeUnpackPolicy.resizeTiles_spec heap tiles sizes [] (heap', offsets) h
    dsimp only at hlen hheap hoff
    simp only [List.length_nil, Nat.zero_add] at hlen hoff
    obtain ⟨hd, -⟩ := ranges_of_closed_form (fun t => (heap t).numParticles) tiles sizes
      offsets hlen hoff
    refine ⟨hlen, hd, ?_⟩
    intro t ht
    rw [hheap t, if_neg (fun hm => ht (List.mem_of_mem_take hm))]

end PolicyFrame

theorem remoteCount_inv {P : Type} (pc : ParticleContainer P) (plan : ParticleCopyPlan)
    (i : Nat) (st st' : (TileIndex → Option (ParticleTile P)) × List Nat × List TileIndex)
    (hinv : RemoteCountInv pc plan i st) (h : remoteCount plan st i = Res.ok st') :
    RemoteCountInv pc plan (i + 1) st' := by
  obtain ⟨hsl, htl, hent, hplev⟩ := hinv
  unfold remoteCount at h
  rw [Res.bind_eq_ok] at h
  obtain ⟨c, hc, h⟩ := h
  rw [Res.bind_eq_ok] at h
  obtain ⟨g, hg, h⟩ := h
  rw [readNat_eq_ok] at hc hg
  by_cases hgn : g < 0
  · simp [hgn] at h
  · rw [if_neg hgn] at h
    dsimp only at h
    by_cases hcn : c < 0
    · simp [hcn] at h
    · rw [if_neg hcn] at h
      simp only [Res.pure_eq, Res.ok.injEq] at h
      subst h
      refine ⟨by simp [hsl], by simp [htl], ?_, ?_⟩
      · intro j hj
        dsimp only
        by_cases hji : j < i
        · obtain ⟨c', g', h1, h2, h3, h4, h5, h6⟩ := hent j hji
          refine ⟨c', g', h1, h2, h3, h4, ?_, ?_⟩
          · rw [List.getElem?_append_left (by omega)]; exact h5
          · rw [List.getElem?_append_left (by omega)]; exact h6
        · have hji' : j = i := by omega
          subst hji'
          refine ⟨c, g, hc, hg, by omega, by omega, ?_, ?_⟩
          · rw [← hsl, List.getElem?_concat_length]
          · rw [← htl, List.getElem?_concat_length]
      · intro idx
        dsimp only
        by_cases hidx : idx = (g.toNat, 0)
        · subst hidx
          simp only [Function.update_same, List.mem_append, List.mem_singleton, or_true, if_true]
          congr 1
          unfold tileAt
          rw [hplev (g.toNat, 0)]
          by_cases hd : (g.toNat, 0) ∈ st.2.2 <;> simp [hd, tileAt]
        · rw [Function.update_noteq hidx, hplev idx]
          simp [hidx]

theorem remoteCountLoop_inv {P : Type} (pc : ParticleContainer P) (plan : ParticleCopyPlan)
    (n : Nat) (st : (TileIndex → Option (ParticleTile P)) × List Nat × List TileIndex)
    (h : loopM (remoteCount plan) (pc.GetParticles, [], []) (List.range n) = Res.ok st) :
    RemoteCountInv pc plan n st :=
  loopM_range_inv (remoteCount plan) (RemoteCountInv pc plan) n (pc.GetParticles, [], []) st
    ⟨rfl, rfl, by intro j hj; omega, by intro idx; simp⟩
    (fun i s s' _ hinv hs => remoteCount_inv pc plan i s s' hinv hs) h

theorem remoteCopy_inv {P : Type} (buf : List P) (ro : Int) (offset : Nat)
    (tile : ParticleTile P) (j : Nat) (t t' : ParticleTile P)
    (hinv : RemoteCopyInv buf ro offset tile j t)
    (h : remoteCopy buf ro offset t j = Res.ok t') :
    RemoteCopyInv buf ro offset tile (j + 1) t' := by
  obtain ⟨hnn, hlen, hin, hout⟩ := hinv
  unfold remoteCopy at h
  rw [Res.bind_eq_ok] at h
  obtain ⟨p, hp, h⟩ := h
  rw [readAt_eq_ok] at hp
  unfold ParticleTile.setSuperParticle at h
  rw [Res.bind_eq_ok] at h
  obtain ⟨d, hd, h⟩ := h
  rw [writeNat_eq_ok] at hd
  obtain ⟨hw, rfl⟩ := hd
  simp only [Res.pure_eq, Res.ok.injEq] at h
  subst h
  refine ⟨hnn, by simp [hlen], ?_, ?_⟩
  · intro i hi
    dsimp only
    rw [List.getElem?_set]
    by_cases hij : i = j
    · subst hij
      refine ⟨hp.1, by rw [hp.2]; rfl, ?_⟩
      simp [hw, hp.2]
    · obtain ⟨h1, h2, h3⟩ := hin i (by omega)
      refine ⟨h1, h2, ?_⟩
      have : ¬ offset + j = offset + i := by omega
      rw [if_neg this]
      exact h3
  · intro q hq
    dsimp only
    rw [List.getElem?_set]
    have : ¬ offset + j = q := by omega
    rw [if_neg this]
    exact hout q (by omega)

theorem remoteCopy_loop {P : Type} (buf : List P) (ro : Int) (offset : Nat)
    (tile : ParticleTile P) (size : Nat) (t' : ParticleTile P)
    (h : loopM (remoteCopy buf ro offset) tile (List.range size) = Res.ok t') :
    RemoteCopyInv buf ro offset tile size t' :=
  loopM_range_inv _ (RemoteCopyInv buf ro offset tile) size tile t'
    ⟨rfl, rfl, by intro i hi; omega, by intro p _; rfl⟩
    (fun j t t1 _ hinv ht => remoteCopy_inv buf ro offset tile j t t1 hinv ht) h

theorem remoteGrid_inv {P : Type} (plan : ParticleCopyPlan) (buf : List P) (MyProc : Nat)
    (dmap : List Int) (tiles : List TileIndex) (sizes offsets : List Nat)
    (heap0 : TileIndex → ParticleTile P)
    (htiles : ∀ (j : Nat) (g : Int), plan.comm.m_rcv_box_ids[j]? = some g →
      j < tiles.length → tiles[j]? = some (g.toNat, 0))
    (hdisj : RangesDisjoint tiles sizes offsets)
    (i : Nat) (hi : i < tiles.length) (st st' : (TileIndex → ParticleTile P) × Nat)
    (hinv : RemoteGridInv plan buf tiles sizes offsets heap0 i st)
    (h : remoteGrid plan buf MyProc dmap sizes offsets st i = Res.ok st') :
    RemoteGridInv plan buf tiles sizes offsets heap0 (i + 1) st' := by
  obtain ⟨hu, hsize, hdone, hframe⟩ := hinv
  unfold remoteGrid at h
  rw [Res.bind_eq_ok] at h
  obtain ⟨g, hg, h⟩ := h
  rw [Res.bind_eq_ok] at h
  obtain ⟨ro, hro, h⟩ := h
  rw [readNat_eq_ok] at hg hro
  by_cases hgn : g < 0
  · simp [hgn] at h
  · rw [if_neg hgn] at h
    dsimp only at h
    rw [Res.bind_eq_ok] at h
    obtain ⟨owner, -, h⟩ := h
    by_cases hown : (MyProc : Int) = owner
    · rw [if_neg (not_not.mpr hown)] at h
      rw [Res.bind_eq_ok] at h
      obtain ⟨o, ho, h⟩ := h
      rw [Res.bind_eq_ok] at h
      obtain ⟨s, hs, h⟩ := h
      rw [Res.bind_eq_ok] at h
      obtain ⟨tile, htile, h⟩ := h
      simp only [Res.pure_eq, Res.ok.injEq] at h
      subst h
      rw [readNat_eq_ok, hu] at ho hs
      have hti := htiles i g hg hi
      have hcopy := remoteCopy_loop buf ro o (st.1 (g.toNat, 0)) s tile htile
      obtain ⟨cnn, clen, cin, cout⟩ := hcopy
      refine ⟨by simp [hu], ?_, ?_, ?_⟩
      · intro t
        dsimp only
        by_cases ht : t = (g.toNat, 0)
        · subst ht
          rw [Function.update_same]
          exact ⟨clen.trans (hsize _).1, cnn.trans (hsize _).2⟩
        · rw [Function.update_noteq ht]
          exact hsize t
      · intro j t s' o' ro' hj htj hsj hoj hroj k hk
        dsimp only
        by_cases hji : j < i
        · have hold := hdone j t s' o' ro' hji htj hsj hoj hroj k hk
          by_cases ht : t = (g.toNat, 0)
          · subst ht
            rw [Function.update_same]
            have hd := hdisj j i (g.toNat, 0) s' o' o hji htj hti hsj hoj ho
            rw [cout (o' + k) (Or.inl (by omega))]
            exact hold
          · rw [Function.update_noteq ht]
            exact hold
        · have hji' : j = i := by omega
          subst hji'
          rw [hti] at htj
          rw [hs] at hsj
          rw [ho] at hoj
          rw [hro] at hroj
          cases htj
          cases hsj
          cases hoj
          cases hroj
          rw [Function.update_same]
          exact cin k hk
      · intro t p hp
        dsimp only
        by_cases ht : t = (g.toNat, 0)
        · subst ht
          rw [Function.update_same]
          have hrange := hp i s o (by omega) hti hs ho
          rw [cout p hrange]
          exact hframe _ p (fun j s' o' hj htj hsj hoj => hp j s' o' (by omega) htj hsj hoj)
        · rw [Function.update_noteq ht]
          exact hframe t p (fun j s' o' hj htj hsj hoj => hp j s' o' (by omega) htj hsj hoj)
    · rw [if_pos hown] at h
      cases h

/-- The parts of an `unpackRemotes` that is not a no-op. -/
theorem unpackRemotes_parts {P : Type} [Inhabited P] (pc : ParticleContainer P)
    (plan : ParticleCopyPlan) (rcv_buffer : List P) (policy : UnpackPolicy) (NProcs MyProc : Nat)
    (dmap : List Int) (result : TileIndex → Option (ParticleTile P))
    (hNP : NProcs ≠ 1) (hrc : 0 < plan.comm.m_nrcvs)
    (h : unpackRemotes pc plan rcv_buffer policy NProcs MyProc dmap = Res.ok result) :
    ∃ (counted : (TileIndex → Option (ParticleTile P)) × List Nat × List TileIndex)
      (resized : (TileIndex → ParticleTile P) × List Nat)
      (copied : (TileIndex → ParticleTile P) × Nat),
      loopM (remoteCount plan) (pc.GetParticles, [], [])
        (List.range plan.comm.m_rcv_box_counts.length) = Res.ok counted ∧
      policy.resizeTiles (tileAt counted.1) counted.2.2 counted.2.1 [] = Res.ok resized ∧
      loopM (remoteGrid plan rcv_buffer MyProc dmap counted.2.1 resized.2) (resized.1, 0)
        (List.range plan.comm.m_rcv_box_counts.length) = Res.ok copied ∧
      result = fun index => (counted.1 index).map fun _ => copied.1 index := by
  unfold unpackRemotes at h
  by_cases hl : pc.numLevels = 1
  · simp only [hl, ne_eq, not_true_eq_false, if_false] at h
    rw [if_neg hNP, if_pos hrc] at h
    rw [Res.bind_eq_ok] at h
    obtain ⟨counted, h1, h⟩ := h
    rw [Res.bind_eq_ok] at h
    obtain ⟨resized, h2, h⟩ := h
    rw [Res.bind_eq_ok] at h
    obtain ⟨copied, h3, h⟩ := h
    simp only [Res.pure_eq, Res.ok.injEq] at h
    exact ⟨counted, resized, copied, h1, h2, h3, h.symm⟩
  · simp [hl] at h

/-- C18. `unpackRemotes` on a single-level container changes nothing when there is one
process or `m_nrcvs` is not positive. Otherwise, when it returns (well-formed tiles), the
entries `i` of `m_rcv_box_counts` name the tiles `(m_rcv_box_ids[i], 0)` with the sizes
`m_rcv_box_counts[i]`, the growth policy returns one offset per entry for these tiles and
sizes, the ranges of entries that name the same tile are disjoint, and afterwards:

* for every entry `i` and every `k < m_rcv_box_counts[i]`, record `offset_i + k` of the tile
  of box `m_rcv_box_ids[i]` is record `m_rcv_box_offsets[i] + k` of the receive buffer;
* the tiles named have the size and neighbor count the policy gave them and, outside the
  ranges of their entries, the records the policy left; the other tiles are untouched. -/
theorem unpackRemotes_copies {P : Type} [Inhabited P] (pc : ParticleContainer P)
    (plan : ParticleCopyPlan) (rcv_buffer : List P) (policy : UnpackPolicy) (NProcs MyProc : Nat)
    (ParticleDistributionMap : List Int) (hwf : ∀ idx, (tileAt pc.GetParticles idx).wf) :
    (pc.numLevels = 1 → (NProcs = 1 ∨ plan.comm.m_nrcvs ≤ 0) →
      unpackRemotes pc plan rcv_buffer policy NProcs MyProc ParticleDistributionMap =
        Res.ok pc.GetParticles) ∧
    ∀ result : TileIndex → Option (ParticleTile P), NProcs ≠ 1 → 0 < plan.comm.m_nrcvs →
      unpackRemotes pc plan rcv_buffer policy NProcs MyProc ParticleDistributionMap =
        Res.ok result →
      ∃ (tiles : List TileIndex) (sizes offsets : List Nat)
        (heap0 : TileIndex → ParticleTile P),
        tiles.length = plan.comm.m_rcv_box_counts.length ∧
        sizes.length = plan.comm.m_rcv_box_counts.length ∧
        offsets.length = plan.comm.m_rcv_box_counts.length ∧
        (∀ i, i < plan.comm.m_rcv_box_counts.length → ∃ c g ro : Int,
          plan.comm.m_rcv_box_counts[i]? = some c ∧ plan.comm.m_rcv_box_ids[i]? = some g ∧
          plan.comm.m_rcv_box_offsets[i]? = some ro ∧ 0 ≤ c ∧ 0 ≤ g ∧
          sizes[i]? = some c.toNat ∧ tiles[i]? = some (g.toNat, 0)) ∧
        policy.resizeTiles (tileAt pc.GetParticles) tiles sizes [] = Res.ok (heap0, offsets) ∧
        RangesDisjoint tiles sizes offsets ∧
        (∀ (i : Nat) (t : TileIndex) (s o : Nat) (ro : Int), tiles[i]? = some t →
          sizes[i]? = some s → offsets[i]? = some o →
          plan.comm.m_rcv_box_offsets[i]? = some ro →
          ∃ tile, result t = some tile ∧ ∀ k, k < s → 0 ≤ ro + (k : Int) ∧
            (rcv_buffer[(ro + (k : Int)).toNat]?).isSome = true ∧
            tile.m_data[o + k]? = rcv_buffer[(ro + (k : Int)).toNat]?) ∧
        (∀ t ∈ tiles, ∃ tile, result t = some tile ∧
          tile.m_data.length = (heap0 t).m_data.length ∧
          tile.m_num_neighbors = (heap0 t).m_num_neighbors ∧
          ∀ p : Nat, (∀ (j : Nat) (s o : Nat), tiles[j]? = some t → sizes[j]? = some s →
            offsets[j]? = some o → p < o ∨ o + s ≤ p) →
            tile.m_data[p]? = (heap0 t).m_data[p]?) ∧
        (∀ t, t ∉ tiles → result t = pc.GetParticles t) := by
  constructor
  · intro hl hnoop
    unfold unpackRemotes
    simp only [hl, ne_eq, not_true_eq_false, if_false]
    by_cases h1 : NProcs = 1
    · rw [if_pos h1]; rfl
    · rw [if_neg h1]
      have h2 : ¬ plan.comm.m_nrcvs > 0 := by
        rcases hnoop with h | h
        · exact absurd h h1
        · omega
      rw [if_neg h2]
      rfl
  · intro result hNP hrc h
    obtain ⟨⟨plev, sizes, tiles⟩, ⟨heap0, offsets⟩, ⟨heap, u⟩, h1, h2, h3, hres⟩ :=
      unpackRemotes_parts pc plan rcv_buffer policy NProcs MyProc ParticleDistributionMap result
        hNP hrc h
    dsimp only at h2 h3 hres
    obtain ⟨hsl, htl, hent, hplev⟩ := remoteCountLoop_inv pc plan _ _ h1
    dsimp only at hsl htl hent hplev
    have hold : tileAt plev = tileAt pc.GetParticles := by
      funext idx
      unfold tileAt
      rw [hplev idx]
      by_cases hm : idx ∈ tiles <;> simp [hm, tileAt]
    rw [hold] at h2
    obtain ⟨hol, hdisj, hpout⟩ := UnpackPolicy.resizeTiles_offsets policy _ _ _ _ _ hwf h2
    have htiles : ∀ (j : Nat) (g : Int), plan.comm.m_rcv_box_ids[j]? = some g →
        j < tiles.length → tiles[j]? = some (g.toNat, 0) := by
      intro j g hg hj
      obtain ⟨c', g', -, h2', -, -, -, h6⟩ := hent j (by omega)
      rw [hg] at h2'
      cases h2'
      exact h6
    have hreads : ∀ i, i < plan.comm.m_rcv_box_counts.length →
        ∃ ro, plan.comm.m_rcv_box_offsets[i]? = some ro := by
      have := loopM_range_inv _ (fun i (_ : (TileIndex → ParticleTile P) × Nat) =>
        ∀ j, j < i → ∃ ro, plan.comm.m_rcv_box_offsets[j]? = some ro)
        plan.comm.m_rcv_box_counts.length (heap0, 0) (heap, u) (by intro j hj; omega)
        (fun i s s' _ hinv hs => by
          intro j hj
          by_cases hji : j < i
          · exact hinv j hji
          · have hji' : j = i := by omega
            subst hji'
            unfold remoteGrid at hs
            rw [Res.bind_eq_ok] at hs
            obtain ⟨g, -, hs⟩ := hs
            rw [Res.bind_eq_ok] at hs
            obtain ⟨ro, hro, -⟩ := hs
            exact ⟨ro, readNat_eq_ok.mp hro⟩) h3
      exact this
    have hginv : RemoteGridInv plan rcv_buffer tiles sizes offsets heap0
        plan.comm.m_rcv_box_counts.length (heap, u) :=
      loopM_range_inv _ (RemoteGridInv plan rcv_buffer tiles sizes offsets heap0)
        plan.comm.m_rcv_box_counts.length (heap0, 0) (heap, u)
        ⟨rfl, by intro t; exact ⟨rfl, rfl⟩, by intro j t s o ro hj; omega,
          by intro t p _; rfl⟩
        (fun i s s' hi hinv hs => remoteGrid_inv plan rcv_buffer MyProc
          ParticleDistributionMap tiles sizes offsets heap0 htiles hdisj i (by omega) s s'
          hinv hs) h3
    obtain ⟨-, hgsize, hgdone, hgframe⟩ := hginv
    dsimp only at hgsize hgdone hgframe
    have hres_in : ∀ t ∈ tiles, result t = some (heap t) := by
      intro t ht
      rw [hres]
      dsimp only
      rw [hplev t, if_pos ht]
      rfl
    refine ⟨tiles, sizes, offsets, heap0, htl, hsl, by rw [hol, hsl], ?_, h2, hdisj, ?_, ?_, ?_⟩
    · intro i hi
      obtain ⟨c, g, hc, hg, hc0, hg0, hs, ht⟩ := hent i hi
      obtain ⟨ro, hro⟩ := hreads i hi
      exact ⟨c, g, ro, hc, hg, hro, hc0, hg0, hs, ht⟩
    · intro i t s o ro ht hs ho hro
      have hi : i < plan.comm.m_rcv_box_counts.length := by
        have := (List.getElem?_eq_some.mp ht).1
        omega
      exact ⟨heap t, hres_in t (List.mem_iff_getElem?.mpr ⟨i, ht⟩),
        hgdone i t s o ro hi ht hs ho hro⟩
    · intro t ht
      refine ⟨heap t, hres_in t ht, (hgsize t).1, (hgsize t).2, ?_⟩
      intro p hp
      exact hgframe t p (fun j s o _ htj hsj hoj => hp j s o htj hsj hoj)
    · intro t ht
      rw [hres]
      dsimp only
      rw [hplev t, if_neg ht]
      have hframe := hgframe t
      have hheap : heap t = heap0 t := by
        have hlen := (hgsize t).1
        have hnn := (hgsize t).2
        have hdata : (heap t).m_data = (heap0 t).m_data := by
          apply List.ext_getElem?
          intro p
          exact hframe p (fun j s o _ htj _ _ =>
            absurd (List.mem_iff_getElem?.mpr ⟨j, htj⟩) ht)
        cases hh : heap t
        cases hh0 : heap0 t
        simp only [hh, hh0] at hdata hnn
        simp [hdata, hnn]
      rw [hheap, hpout t ht]
      cases hg : pc.GetParticles t <;> simp [tileAt, hg]

/-- Witness for C18: the example receive buffer merged on process 1 of 3 with the neighbor
policy; the two entries for box 1 fill the disjoint ranges `1 .. 2` and `3 .. 4` of its tile
and the entry for box 0 fills record 3 of the tile of box 0. -/
theorem unpackRemotes_copies_witness :
    (∀ idx, (tileAt examplePC.GetParticles idx).wf) ∧
    unpackRemotes examplePC exchangePlan exampleReceived UnpackPolicy.neighbor 3 1 [1, 1] =
      Res.ok exampleMerged ∧
    (exampleMerged (1, 0)).map (fun t => (t.m_data.map fun p => p.attr, t.m_num_neighbors)) =
      some ([20, 30, 31, 33, 34], 4) ∧
    (exampleMerged (0, 0)).map (fun t => (t.m_data.map fun p => p.attr, t.m_num_neighbors)) =
      some ([10, 11, 12, 32], 1) ∧
    unpackRemotes examplePC exchangePlan exampleReceived UnpackPolicy.neighbor 1 0 [1, 1] =
      Res.ok examplePC.GetParticles ∧
    ∃ (tiles : List TileIndex) (sizes offsets : List Nat)
      (heap0 : TileIndex → ParticleTile (Particle Nat)),
      tiles.length = exchangePlan.comm.m_rcv_box_counts.length ∧
      sizes.length = exchangePlan.comm.m_rcv_box_counts.length ∧
      offsets.length = exchangePlan.comm.m_rcv_box_counts.length ∧
      (∀ i, i < exchangePlan.comm.m_rcv_box_counts.length → ∃ c g ro : Int,
        exchangePlan.comm.m_rcv_box_counts[i]? = some c ∧
        exchangePlan.comm.m_rcv_box_ids[i]? = some g ∧
        exchangePlan.comm.m_rcv_box_offsets[i]? = some ro ∧ 0 ≤ c ∧ 0 ≤ g ∧
        sizes[i]? = some c.toNat ∧ tiles[i]? = some (g.toNat, 0)) ∧
      UnpackPolicy.neighbor.resizeTiles (tileAt examplePC.GetParticles) tiles sizes [] =
        Res.ok (heap0, offsets) ∧
      RangesDisjoint tiles sizes offsets ∧
      (∀ (i : Nat) (t : TileIndex) (s o : Nat) (ro : Int), tiles[i]? = some t →
        sizes[i]? = some s → offsets[i]? = some o →
        exchangePlan.comm.m_rcv_box_offsets[i]? = some ro →
        ∃ tile, exampleMerged t = some tile ∧ ∀ k, k < s → 0 ≤ ro + (k : Int) ∧
          (exampleReceived[(ro + (k : Int)).toNat]?).isSome = true ∧
          tile.m_data[o + k]? = exampleReceived[(ro + (k : Int)).toNat]?) ∧
      (∀ t ∈ tiles, ∃ tile, exampleMerged t = some tile ∧
        tile.m_data.length = (heap0 t).m_data.length ∧
        tile.m_num_neighbors = (heap0 t).m_num_neighbors ∧
        ∀ p : Nat, (∀ (j : Nat) (s o : Nat), tiles[j]? = some t → sizes[j]? = some s →
          offsets[j]? = some o → p < o ∨ o + s ≤ p) →
          tile.m_data[p]? = (heap0 t).m_data[p]?) ∧
      (∀ t, t ∉ tiles → exampleMerged t = examplePC.GetParticles t) :=
  ⟨fun idx => by
      unfold ParticleTile.wf tileAt examplePC
      dsimp only
      split_ifs <;> simp [ParticleTile.empty],
    rfl, by decide, by decide,
    (unpackRemotes_copies examplePC exchangePlan exampleReceived UnpackPolicy.neighbor 1 0 [1, 1]
      (fun idx => by
        unfold ParticleTile.wf tileAt examplePC
        dsimp only
        split_ifs <;> simp [ParticleTile.empty])).1 rfl (Or.inl rfl),
    (unpackRemotes_copies examplePC exchangePlan exampleReceived UnpackPolicy.neighbor 3 1 [1, 1]
      (fun idx => by
        unfold ParticleTile.wf tileAt examplePC
        dsimp only
        split_ifs <;> simp [ParticleTile.empty])).2 exampleMerged (by decide) (by decide) rfl⟩

/-! ## The assertion on the number of levels -/

theorem Res.bind_ne_fail {α β : Type} {r : Res α} {f : α → Res β} {e : Err}
    (hr : r ≠ Res.fail e) (hf : ∀ a, f a ≠ Res.fail e) : (r >>= f) ≠ Res.fail e := by
  cases r with
  | ok a => simpa using hf a
  | fail e' =>
    intro h
    simp only [Res.fail_bind] at h
    cases h
    exact hr rfl

theorem loopM_ne_fail {σ α : Type} (f : σ → α → Res σ) (e : Err)
    (hf : ∀ s x, f s x ≠ Res.fail e) (s : σ) (xs : List α) : loopM f s xs ≠ Res.fail e := by
  induction xs generalizing s with
  | nil =>
    intro h
    cases h
  | cons x xs ih =>
    rw [loopM_cons]
    exact Res.bind_ne_fail (hf s x) (fun a => ih a)

theorem readNat_ne_assertion {α : Type} (v : List α) (i : Nat) :
    readNat v i ≠ Res.fail Err.assertion := by
  unfold readNat
  cases v[i]? <;> simp

theorem readAt_ne_assertion {α : Type} (v : List α) (i : Int) :
    readAt v i ≠ Res.fail Err.assertion := by
  unfold readAt
  split_ifs
  · exact readNat_ne_assertion _ _
  · simp

theorem writeNat_ne_assertion {α : Type} (v : List α) (i : Nat) (a : α) :
    writeNat v i a ≠ Res.fail Err.assertion := by
  unfold writeNat
  split_ifs <;> simp

theorem mapAt_ne_assertion {κ α : Type} (m : κ → Option α) (key : κ) :
    mapAt m key ≠ Res.fail Err.assertion := by
  unfold mapAt
  cases m key <;> simp

theorem resizeInt_ne_assertion {α : Type} (v : List α) (n : Int) (d : α) :
    resizeInt v n d ≠ Res.fail Err.assertion := by
  unfold resizeInt
  split_ifs <;> simp

theorem Res.ok_ne_fail {α : Type} (a : α) (e : Err) : (Res.ok a : Res α) ≠ Res.fail e := by
  intro h
  cases h

theorem Res.pure_ne_fail {α : Type} (a : α) (e : Err) : (pure a : Res α) ≠ Res.fail e := by
  intro h
  cases h

theorem numCopies_ne_assertion (op : ParticleCopyOp) (gid : Nat) :
    op.numCopies gid ≠ Res.fail Err.assertion := by
  unfold ParticleCopyOp.numCopies
  exact Res.bind_ne_fail (mapAt_ne_assertion _ _) (fun _ => Res.pure_ne_fail _ _)

theorem setSuperParticle_ne_assertion {P : Type} (t : ParticleTile P) (p : P) (i : Nat) :
    t.setSuperParticle p i ≠ Res.fail Err.assertion := by
  unfold ParticleTile.setSuperParticle
  exact Res.bind_ne_fail (writeNat_ne_assertion _ _ _) (fun _ => Res.pure_ne_fail _ _)

theorem slotStep_ne_assertion (p_box_perm : List Nat) (p_boxes : List Int) (gid : Nat)
    (st : List Nat × (Nat → Option (List Int))) (i : Nat) :
    ParticleCopyPlan.slotStep p_box_perm p_boxes gid st i ≠ Res.fail Err.assertion := by
  unfold ParticleCopyPlan.slotStep
  refine Res.bind_ne_fail (readNat_ne_assertion _ _) (fun d => ?_)
  split_ifs
  · exact Res.pure_ne_fail _ _
  · refine Res.bind_ne_fail (readAt_ne_assertion _ _) (fun b => ?_)
    refine Res.bind_ne_fail (readNat_ne_assertion _ _) (fun old => ?_)
    refine Res.bind_ne_fail (writeNat_ne_assertion _ _ _) (fun c => ?_)
    refine Res.bind_ne_fail (writeNat_ne_assertion _ _ _) (fun c => ?_)
    exact Res.pure_ne_fail _ _

theorem gridStep_ne_assertion (p_box_perm : List Nat) (op : ParticleCopyOp)
    (orders : Nat → List Nat) (st : List Nat × (Nat → Option (List Int))) (mfi : TileIndex) :
    ParticleCopyPlan.gridStep p_box_perm op orders st mfi ≠ Res.fail Err.assertion := by
  unfold ParticleCopyPlan.gridStep
  refine Res.bind_ne_fail (numCopies_ne_assertion _ _) (fun _ => ?_)
  refine Res.bind_ne_fail (mapAt_ne_assertion _ _) (fun _ => ?_)
  exact loopM_ne_fail _ _ (fun s x => slotStep_ne_assertion _ _ _ s x) _ _

theorem resizeStep_ne_assertion (op : ParticleCopyOp) (dst : Nat → Option (List Int))
    (mfi : TileIndex) : ParticleCopyPlan.resizeStep op dst mfi ≠ Res.fail Err.assertion := by
  unfold ParticleCopyPlan.resizeStep
  refine Res.bind_ne_fail (numCopies_ne_assertion _ _) (fun _ => ?_)
  exact Res.bind_ne_fail (resizeInt_ne_assertion _ _ _) (fun _ => Res.pure_ne_fail _ _)

theorem packStep_ne_assertion {A : Type} (geom : Geometry) (src_tile : ParticleTile (Particle A))
    (p_boxes p_src_indices p_dst_indices : List Int) (p_periodic_shift : List (Fin 3 → Int))
    (p_box_offsets p_box_perm : List Nat) (snd_buffer : List (Particle A)) (i : Nat) :
    packStep geom src_tile p_boxes p_src_indices p_dst_indices p_periodic_shift p_box_offsets
      p_box_perm snd_buffer i ≠ Res.fail Err.assertion := by
  unfold packStep
  refine Res.bind_ne_fail (readNat_ne_assertion _ _) (fun d => ?_)
  split_ifs
  · exact Res.pure_ne_fail _ _
  · refine Res.bind_ne_fail (readAt_ne_assertion _ _) (fun b => ?_)
    refine Res.bind_ne_fail (readNat_ne_assertion _ _) (fun _ => ?_)
    refine Res.bind_ne_fail (readNat_ne_assertion _ _) (fun _ => ?_)
    refine Res.bind_ne_fail (readNat_ne_assertion _ _) (fun _ => ?_)
    refine Res.bind_ne_fail (readAt_ne_assertion _ _) (fun _ => ?_)
    refine Res.bind_ne_fail (readNat_ne_assertion _ _) (fun _ => ?_)
    split_ifs
    · exact writeNat_ne_assertion _ _ _
    · simp

theorem packGrid_ne_assertion {A : Type} (pc : ParticleContainer (Particle A))
    (op : ParticleCopyOp) (plan : ParticleCopyPlan) (orders : Nat → List Nat)
    (snd_buffer : List (Particle A)) (mfi : TileIndex) :
    packGrid pc op plan orders snd_buffer mfi ≠ Res.fail Err.assertion := by
  unfold packGrid
  refine Res.bind_ne_fail (mapAt_ne_assertion _ _) (fun _ => ?_)
  refine Res.bind_ne_fail (numCopies_ne_assertion _ _) (fun _ => ?_)
  refine Res.bind_ne_fail (mapAt_ne_assertion _ _) (fun _ => ?_)
  refine Res.bind_ne_fail (mapAt_ne_assertion _ _) (fun _ => ?_)
  refine Res.bind_ne_fail (mapAt_ne_assertion _ _) (fun _ => ?_)
  refine Res.bind_ne_fail (mapAt_ne_assertion _ _) (fun _ => ?_)
  exact loopM_ne_fail _ _ (fun s x => packStep_ne_assertion _ _ _ _ _ _ _ _ s x) _ _

section PolicyAssert

variable {κ P : Type} [DecidableEq κ] [Inhabited P]

theorem UnpackPolicy.resizeTiles_ne_assertion (policy : UnpackPolicy)
    (heap : κ → ParticleTile P) (tiles : List κ) (sizes offsets : List Nat) :
    policy.resizeTiles heap tiles sizes offsets ≠ Res.fail Err.assertion := by
  cases policy with
  | neighbor =>
    show NeighborUnpackPolicy.resizeTiles heap tiles sizes offsets ≠ _
    unfold NeighborUnpackPolicy.resizeTiles
    refine loopM_ne_fail _ _ (fun s i => ?_) _ _
    unfold NeighborUnpackPolicy.step
    refine Res.bind_ne_fail (readNat_ne_assertion _ _) (fun _ => ?_)
    refine Res.bind_ne_fail (readNat_ne_assertion _ _) (fun _ => ?_)
    exact Res.pure_ne_fail _ _
  | redistribute =>
    show RedistributeUnpackPolicy.resizeTiles heap tiles sizes offsets ≠ _
    unfold RedistributeUnpackPolicy.resizeTiles
    refine Res.bind_ne_fail (loopM_ne_fail _ _ (fun s i => ?_) _ _) (fun _ => ?_)
    · unfold RedistributeUnpackPolicy.initStep
      exact Res.bind_ne_fail (readNat_ne_assertion _ _) (fun _ => Res.pure_ne_fail _ _)
    · refine Res.bind_ne_fail (loopM_ne_fail _ _ (fun s i => ?_) _ _) (fun _ => ?_)
      · unfold RedistributeUnpackPolicy.offsetStep
        refine Res.bind_ne_fail (readNat_ne_assertion _ _) (fun _ => ?_)
        refine Res.bind_ne_fail (readNat_ne_assertion _ _) (fun _ => ?_)
        exact Res.pure_ne_fail _ _
      · exact Res.pure_ne_fail _ _

end PolicyAssert

theorem unpackCount_ne_assertion {P : Type} (gridToBucket : List Nat) (plan : ParticleCopyPlan)
    (st : (TileIndex → Option (ParticleTile P)) × List Nat × List TileIndex) (mfi : TileIndex) :
    unpackCount gridToBucket plan st mfi ≠ Res.fail Err.assertion := by
  unfold unpackCount
  refine Res.bind_ne_fail (readNat_ne_assertion _ _) (fun _ => ?_)
  refine Res.bind_ne_fail (readNat_ne_assertion _ _) (fun _ => ?_)
  dsimp only
  split_ifs
  · simp
  · exact Res.pure_ne_fail _ _

theorem unpackCopy_ne_assertion {P : Type} (p_box_offsets p_box_perm : List Nat)
    (buf : List P) (gid offset : Nat) (tile : ParticleTile P) (i : Nat) :
    unpackCopy p_box_offsets p_box_perm buf gid offset tile i ≠ Res.fail Err.assertion := by
  unfold unpackCopy
  refine Res.bind_ne_fail (readNat_ne_assertion _ _) (fun _ => ?_)
  refine Res.bind_ne_fail (readNat_ne_assertion _ _) (fun _ => ?_)
  refine Res.bind_ne_fail (readAt_ne_assertion _ _) (fun _ => ?_)
  exact setSuperParticle_ne_assertion _ _ _

theorem unpackGrid_ne_assertion {P : Type} (gridToBucket : List Nat) (plan : ParticleCopyPlan)
    (buf : List P) (sizes offsets : List Nat) (st : (TileIndex → ParticleTile P) × Nat)
    (mfi : TileIndex) :
    unpackGrid gridToBucket plan buf sizes offsets st mfi ≠ Res.fail Err.assertion := by
  unfold unpackGrid
  refine Res.bind_ne_fail (readNat_ne_assertion _ _) (fun _ => ?_)
  refine Res.bind_ne_fail (readNat_ne_assertion _ _) (fun _ => ?_)
  refine Res.bind_ne_fail
    (loopM_ne_fail _ _ (fun s x => unpackCopy_ne_assertion _ _ _ _ _ s x) _ _) (fun _ => ?_)
  exact Res.pure_ne_fail _ _

theorem rcvCount_ne_assertion (m : List Int) (st : List Int × List Int × Int) (i : Nat) :
    rcvCount m st i ≠ Res.fail Err.assertion := by
  unfold rcvCount
  refine Res.bind_ne_fail (readNat_ne_assertion _ _) (fun _ => ?_)
  split_ifs <;> exact Res.pure_ne_fail _ _

theorem postReceive_ne_assertion (NProcs : Nat) (SeqNum : Int) (sizeofParticle : Nat)
    (m RcvProc rOffset : List Int) (st : List (Option Message) × Transport) (i : Nat) :
    postReceive NProcs SeqNum sizeofParticle m RcvProc rOffset st i ≠
      Res.fail Err.assertion := by
  unfold postReceive
  refine Res.bind_ne_fail (readNat_ne_assertion _ _) (fun _ => ?_)
  refine Res.bind_ne_fail (readNat_ne_assertion _ _) (fun _ => ?_)
  refine Res.bind_ne_fail (readAt_ne_assertion _ _) (fun _ => ?_)
  dsimp only
  split_ifs <;> first
    | exact Res.bind_ne_fail (writeNat_ne_assertion _ _ _) (fun _ => Res.pure_ne_fail _ _)
    | simp

theorem postSend_ne_assertion (NProcs MyProc : Nat) (SeqNum : Int) (sizeofParticle : Nat)
    (firstBucketOnProc : Nat → Int) (m_snd : List Int) (m_box_offsets : List Nat)
    (net : Transport) (i : Nat) :
    postSend NProcs MyProc SeqNum sizeofParticle firstBucketOnProc m_snd m_box_offsets net i ≠
      Res.fail Err.assertion := by
  unfold postSend
  split_ifs
  · exact Res.pure_ne_fail _ _
  · refine Res.bind_ne_fail (readNat_ne_assertion _ _) (fun _ => ?_)
    dsimp only
    split_ifs <;> first
      | exact Res.pure_ne_fail _ _
      | exact Res.bind_ne_fail (readAt_ne_assertion _ _) (fun _ => Res.pure_ne_fail _ _)
      | simp

theorem remoteCount_ne_assertion {P : Type} (plan : ParticleCopyPlan)
    (st : (TileIndex → Option (ParticleTile P)) × List Nat × List TileIndex) (i : Nat) :
    remoteCount plan st i ≠ Res.fail Err.assertion := by
  unfold remoteCount
  refine Res.bind_ne_fail (readNat_ne_assertion _ _) (fun _ => ?_)
  refine Res.bind_ne_fail (readNat_ne_assertion _ _) (fun _ => ?_)
  split_ifs
  · simp
  · simp
  · exact Res.pure_ne_fail _ _

theorem remoteCopy_ne_assertion {P : Type} (buf : List P) (offset : Int) (dst_offset : Nat)
    (tile : ParticleTile P) (ip : Nat) :
    remoteCopy buf offset dst_offset tile ip ≠ Res.fail Err.assertion := by
  unfold remoteCopy
  refine Res.bind_ne_fail (readAt_ne_assertion _ _) (fun _ => ?_)
  exact setSuperParticle_ne_assertion _ _ _

theorem remoteGrid_ne_assertion {P : Type} (plan : ParticleCopyPlan) (buf : List P)
    (MyProc : Nat) (dmap : List Int) (sizes offsets : List Nat)
    (st : (TileIndex → ParticleTile P) × Nat) (i : Nat) :
    remoteGrid plan buf MyProc dmap sizes offsets st i ≠ Res.fail Err.assertion := by
  unfold remoteGrid
  refine Res.bind_ne_fail (readNat_ne_assertion _ _) (fun _ => ?_)
  refine Res.bind_ne_fail (readNat_ne_assertion _ _) (fun _ => ?_)
  split_ifs
  · simp
  · refine Res.bind_ne_fail (readAt_ne_assertion _ _) (fun _ => ?_)
    split_ifs
    · refine Res.bind_ne_fail (readNat_ne_assertion _ _) (fun _ => ?_)
      refine Res.bind_ne_fail (readNat_ne_assertion _ _) (fun _ => ?_)
      refine Res.bind_ne_fail
        (loopM_ne_fail _ _ (fun s x => remoteCopy_ne_assertion _ _ _ s x) _ _) (fun _ => ?_)
      exact Res.pure_ne_fail _ _
    · simp

/-- The five functions `build`, `packBuffer`, `unpackBuffer`, `communicateParticlesStart` and
`unpackRemotes` stop at the assertion `pc.numLevels() == 1` exactly when the number of levels
is not 1 (`buildMPIStart`, which is outside the sources, is assumed not to stop at that
assertion itself). -/
theorem level_assertion_results {A : Type} [Inhabited A] (self : ParticleCopyPlan)
    (pc : ParticleContainer (Particle A)) (op : ParticleCopyOp) (do_handshake : Bool)
    (buildMPIStart : ParticleCopyPlan → Bool → Res CommSchedule)
    (orders : Nat → List Nat) (pastEnd : Nat) (plan : ParticleCopyPlan)
    (snd_buffer rcv_buffer : List (Particle A)) (policy : UnpackPolicy)
    (NProcs MyProc : Nat) (SeqNum : Int) (sizeofParticle : Nat) (firstBucketOnProc : Nat → Int)
    (net : Transport) (ParticleDistributionMap : List Int)
    (hMPI : ∀ p b, buildMPIStart p b ≠ Res.fail Err.assertion) :
    (self.build pc op do_handshake buildMPIStart orders pastEnd = Res.fail Err.assertion ↔
      pc.numLevels ≠ 1) ∧
    (packBuffer pc op plan snd_buffer orders = Res.fail Err.assertion ↔ pc.numLevels ≠ 1) ∧
    (unpackBuffer pc plan snd_buffer policy = Res.fail Err.assertion ↔ pc.numLevels ≠ 1) ∧
    (communicateParticlesStart pc plan rcv_buffer NProcs MyProc SeqNum sizeofParticle
      firstBucketOnProc net = Res.fail Err.assertion ↔ pc.numLevels ≠ 1) ∧
    (unpackRemotes pc plan rcv_buffer policy NProcs MyProc ParticleDistributionMap =
      Res.fail Err.assertion ↔ pc.numLevels ≠ 1) := by
  refine ⟨?_, ?_, ?_, ?_, ?_⟩
  · constructor
    · intro h hl
      revert h
      unfold ParticleCopyPlan.build
      simp only [hl, ne_eq, not_true_eq_false, if_false]
      split_ifs
      · first | exact Res.pure_ne_fail _ _ | exact id
      · refine Res.bind_ne_fail
          (loopM_ne_fail _ _ (fun s x => resizeStep_ne_assertion _ s x) _ _) (fun _ => ?_)
        refine Res.bind_ne_fail
          (loopM_ne_fail _ _ (fun s x => gridStep_ne_assertion _ _ _ s x) _ _) (fun _ => ?_)
        exact Res.bind_ne_fail (hMPI _ _) (fun _ => Res.pure_ne_fail _ _)
    · intro hl
      unfold ParticleCopyPlan.build
      rw [if_pos hl]
  · constructor
    · intro h hl
      revert h
      unfold packBuffer
      simp only [hl, ne_eq, not_true_eq_false, if_false]
      split_ifs
      · first | exact Res.pure_ne_fail _ _ | exact id
      · refine Res.bind_ne_fail (readNat_ne_assertion _ _) (fun _ => ?_)
        refine Res.bind_ne_fail (resizeInt_ne_assertion _ _ _) (fun _ => ?_)
        exact loopM_ne_fail _ _ (fun s x => packGrid_ne_assertion _ _ _ _ s x) _ _
    · intro hl
      unfold packBuffer
      rw [if_pos hl]
  · constructor
    · intro h hl
      revert h
      unfold unpackBuffer
      simp only [hl, ne_eq, not_true_eq_false, if_false]
      split_ifs
      · first | exact Res.pure_ne_fail _ _ | exact id
      · refine Res.bind_ne_fail
          (loopM_ne_fail _ _ (fun s x => unpackCount_ne_assertion _ _ s x) _ _) (fun _ => ?_)
        refine Res.bind_ne_fail (UnpackPolicy.resizeTiles_ne_assertion _ _ _ _ _) (fun _ => ?_)
        refine Res.bind_ne_fail
          (loopM_ne_fail _ _ (fun s x => unpackGrid_ne_assertion _ _ _ _ _ s x) _ _)
          (fun _ => ?_)
        exact Res.pure_ne_fail _ _
    · intro hl
      unfold unpackBuffer
      rw [if_pos hl]
  · constructor
    · intro h hl
      revert h
      unfold communicateParticlesStart
      simp only [hl, ne_eq, not_true_eq_false, if_false]
      split_ifs
      · first | exact Res.pure_ne_fail _ _ | exact id
      · refine Res.bind_ne_fail
          (loopM_ne_fail _ _ (fun s x => rcvCount_ne_assertion _ s x) _ _) (fun _ => ?_)
        refine Res.bind_ne_fail (resizeInt_ne_assertion _ _ _) (fun _ => ?_)
        refine Res.bind_ne_fail (resizeInt_ne_assertion _ _ _) (fun _ => ?_)
        refine Res.bind_ne_fail (resizeInt_ne_assertion _ _ _) (fun _ => ?_)
        refine Res.bind_ne_fail
          (loopM_ne_fail _ _ (fun s x => postReceive_ne_assertion _ _ _ _ _ _ s x) _ _)
          (fun _ => ?_)
        refine Res.bind_ne_fail
          (loopM_ne_fail _ _ (fun s x => postSend_ne_assertion _ _ _ _ _ _ _ s x) _ _)
          (fun _ => ?_)
        exact Res.pure_ne_fail _ _
    · intro hl
      unfold communicateParticlesStart
      rw [if_pos hl]
  · constructor
    · intro h hl
      revert h
      unfold unpackRemotes
      simp only [hl, ne_eq, not_true_eq_false, if_false]
      split_ifs
      · first | exact Res.pure_ne_fail _ _ | exact id
      · refine Res.bind_ne_fail
          (loopM_ne_fail _ _ (fun s x => remoteCount_ne_assertion _ s x) _ _) (fun _ => ?_)
        refine Res.bind_ne_fail (UnpackPolicy.resizeTiles_ne_assertion _ _ _ _ _) (fun _ => ?_)
        refine Res.bind_ne_fail
          (loopM_ne_fail _ _ (fun s x => remoteGrid_ne_assertion _ _ _ _ _ _ s x) _ _)
          (fun _ => ?_)
        exact Res.pure_ne_fail _ _
      · first | exact Res.pure_ne_fail _ _ | exact id
    · intro hl
      unfold unpackRemotes
      rw [if_pos hl]

/-! ## Counts beyond the range of the counters -/

theorem numCopied_floodOp (n : Nat) : numCopied (floodOp n) oneBucketPC.MakeMFIter = n := by
  simp [numCopied, floodOp, oneBucketPC, List.countP_replicate]

/-- The slot loop of `build` over the first `c` of `n` descriptors that copy to one bucket: the
counter ends at `c` modulo `2^32`. -/
theorem flood_slots (n c : Nat) (hc : c ≤ n) (dst0 : Nat → Option (List Int))
    (hdst : ((dst0 0).getD []).length = c) :
    ∃ st, loopM (ParticleCopyPlan.slotStep [0] (List.replicate n 0) 0) ([0], dst0)
        (List.range c) = Res.ok st ∧ st.1 = [c % 4294967296] := by
  obtain ⟨st, h, hinv⟩ := loopM_range_ok_inv
    (ParticleCopyPlan.slotStep [0] (List.replicate n 0) 0)
    (fun i st => st.1 = [i % 4294967296] ∧ ((st.2 0).getD []).length = c) c ([0], dst0)
    ⟨by simp, hdst⟩
    (fun i st hi hinv => by
      obtain ⟨h1, h2⟩ := hinv
      have hb : (List.replicate n (0 : Int))[i]? = some 0 := by
        rw [List.getElem?_replicate, if_pos (lt_of_lt_of_le hi hc)]
      have hc : st.1[0]? = some (i % 4294967296) := by rw [h1]; rfl
      have hperm : ([0] : List Nat)[(0 : Int).toNat]? = some 0 := rfl
      unfold ParticleCopyPlan.slotStep
      rw [readNat_eq_ok.mpr hb]
      simp only [Res.ok_bind, lt_self_iff_false, if_false]
      rw [readAt_eq_ok.mpr ⟨le_refl _, hperm⟩]
      simp only [Res.ok_bind]
      rw [readNat_eq_ok.mpr hc]
      simp only [Res.ok_bind]
      rw [writeNat_eq_ok.mpr ⟨by rw [h1]; simp, rfl⟩]
      simp only [Res.ok_bind]
      rw [writeNat_eq_ok.mpr ⟨by rw [h2]; exact hi, rfl⟩]
      refine ⟨_, rfl, ?_, ?_⟩
      · dsimp only
        rw [h1]
        simp only [atomicInc, u32add, List.set_cons_zero]
        congr 1
        omega
      · dsimp only
        simp [h2])
  exact ⟨st, h, hinv.1⟩

/-- The iterations `0 .. n - 1` that are below a non-negative `int` bound `c ≤ n`. -/
theorem filter_range_lt (n : Nat) (c : Int) (h0 : 0 ≤ c) (hc : c.toNat ≤ n) :
    (List.range n).filter (fun (i : Nat) => decide ((i : Int) < c)) = List.range c.toNat := by
  obtain ⟨k, rfl⟩ := Int.eq_ofNat_of_zero_le h0
  simp only [Int.toNat_ofNat] at hc ⊢
  obtain ⟨d, rfl⟩ := Nat.exists_eq_add_of_le hc
  rw [List.range_add, List.filter_append]
  have h1 : (List.range k).filter (fun (i : Nat) => decide ((i : Int) < (k : Int))) =
      List.range k := by
    rw [List.filter_eq_self]
    intro i hi
    have := List.mem_range.mp hi
    simp only [decide_eq_true_eq]
    omega
  have h2 : ((List.range d).map (fun x => k + x)).filter
      (fun (i : Nat) => decide ((i : Int) < (k : Int))) = [] := by
    rw [List.filter_eq_nil_iff]
    intro i hi
    obtain ⟨x, _, rfl⟩ := List.mem_map.mp hi
    simp only [decide_eq_true_eq]
    omega
  rw [h1, h2, List.append_nil]

/-- The value of `numCopies`, when it is not negative, is at most the number of descriptors. -/
theorem toInt32_toNat_le (n : Nat) : (toInt32 n).toNat ≤ n := by
  unfold toInt32
  have := Nat.mod_le n 4294967296
  split_ifs <;> omega

/-- With `n` descriptors of one box that copy to a single bucket, `build` checks no count. The
descriptor count is converted to `int`: when the converted value is negative the call `resize`
fails; otherwise `build` returns and has counted only as many descriptors as the converted
value says. -/
theorem ParticleCopyPlan.build_flood (n : Nat) (self : ParticleCopyPlan) (do_handshake : Bool)
    (pastEnd : Nat) :
    (toInt32 n < 0 → self.build oneBucketPC (floodOp n) do_handshake exampleMPIStart
        (fun _ => List.range n) pastEnd = Res.fail Err.badSize) ∧
    (0 ≤ toInt32 n → ∃ plan, self.build oneBucketPC (floodOp n) do_handshake exampleMPIStart
        (fun _ => List.range n) pastEnd = Res.ok plan ∧
      plan.m_box_counts = [(toInt32 n).toNat] ∧
      plan.m_box_offsets = [0, (toInt32 n).toNat]) := by
  have hnum : (floodOp n).numCopies 0 = Res.ok (toInt32 n) := by
    simp [ParticleCopyOp.numCopies, floodOp, mapAt]
  have hboxes : mapAt (floodOp n).m_boxes 0 = Res.ok (List.replicate n 0) := by
    simp [floodOp, mapAt]
  have hl : oneBucketPC.numLevels = 1 := rfl
  have hnt : ¬ (oneBucketPC.numBoxes = 1 ∧ ¬ oneBucketPC.Geom.isAnyPeriodic) := by decide
  refine ⟨fun hneg => ?_, fun hpos => ?_⟩
  · have hres : loopM (ParticleCopyPlan.resizeStep (floodOp n)) self.m_dst_indices
        oneBucketPC.MakeMFIter = Res.fail Err.badSize := by
      show loopM _ _ [(0, 0)] = _
      rw [loopM_cons]
      unfold ParticleCopyPlan.resizeStep
      dsimp only
      rw [hnum]
      simp only [Res.ok_bind]
      unfold resizeInt
      rw [if_neg (not_le.mpr hneg)]
      rfl
    unfold ParticleCopyPlan.build
    simp only [hl, ne_eq, not_true_eq_false, if_false]
    rw [if_neg hnt]
    rw [hres]
    rfl
  · have hcn : (toInt32 n).toNat ≤ n := toInt32_toNat_le n
    have hres : loopM (ParticleCopyPlan.resizeStep (floodOp n)) self.m_dst_indices
        oneBucketPC.MakeMFIter = Res.ok (Function.update self.m_dst_indices 0
          (some (resize ((self.m_dst_indices 0).getD []) (toInt32 n).toNat 0))) := by
      show loopM _ _ [(0, 0)] = _
      rw [loopM_cons]
      unfold ParticleCopyPlan.resizeStep
      dsimp only
      rw [hnum]
      simp only [Res.ok_bind]
      unfold resizeInt
      rw [if_pos hpos]
      rfl
    obtain ⟨st, hst, hcounts⟩ := flood_slots n (toInt32 n).toNat hcn
      (Function.update self.m_dst_indices 0
        (some (resize ((self.m_dst_indices 0).getD []) (toInt32 n).toNat 0)))
      (by simp [resize_length])
    have hlt : (toInt32 n).toNat < 2147483648 := by
      unfold toInt32
      have := Nat.mod_lt n (show 0 < 4294967296 by decide)
      split_ifs <;> omega
    rw [Nat.mod_eq_of_lt (lt_trans hlt (by decide))] at hcounts
    have hgrid : loopM (ParticleCopyPlan.gridStep oneBucketPC.gridToBucket (floodOp n)
        (fun _ => List.range n)) (resize [] oneBucketPC.numBoxes 0, Function.update
          self.m_dst_indices 0
          (some (resize ((self.m_dst_indices 0).getD []) (toInt32 n).toNat 0)))
        oneBucketPC.MakeMFIter = Res.ok st := by
      show loopM _ _ [(0, 0)] = _
      rw [loopM_cons]
      unfold ParticleCopyPlan.gridStep
      dsimp only
      rw [hnum]
      simp only [Res.ok_bind]
      rw [hboxes]
      simp only [Res.ok_bind]
      rw [filter_range_lt n (toInt32 n) hpos hcn]
      have : (resize ([] : List Nat) oneBucketPC.numBoxes 0) = [0] := rfl
      rw [this]
      show (loopM (ParticleCopyPlan.slotStep [0] (List.replicate n 0) 0) _
        (List.range (toInt32 n).toNat) >>= fun s' => loopM _ s' []) = _
      rw [hst]
      rfl
    have key : ∃ plan, self.build oneBucketPC (floodOp n) do_handshake exampleMPIStart
        (fun _ => List.range n) pastEnd = Res.ok plan ∧ plan.m_box_counts = st.1 ∧
        plan.m_box_offsets = exclusive_scan 0 (st.1 ++ [pastEnd]) ++
          (resize self.m_box_offsets (oneBucketPC.numBoxes + 1) 0).drop
            (exclusive_scan 0 (st.1 ++ [pastEnd])).length := by
      unfold ParticleCopyPlan.build
      simp only [hl, ne_eq, not_true_eq_false, if_false]
      rw [if_neg hnt]
      rw [hres]
      simp only [Res.ok_bind]
      rw [hgrid]
      exact ⟨_, rfl, rfl, rfl⟩
    obtain ⟨plan, hb, hc, ho⟩ := key
    refine ⟨plan, hb, hc.trans hcounts, ?_⟩
    rw [ho, hcounts]
    have hscan : exclusive_scan 0 ([(toInt32 n).toNat] ++ [pastEnd]) =
        [0, (toInt32 n).toNat] := by
      simp only [List.singleton_append, exclusive_scan, u32add, Nat.zero_add]
      rw [Nat.mod_eq_of_lt (lt_trans hlt (by decide))]
    rw [hscan]
    have : (resize self.m_box_offsets (oneBucketPC.numBoxes + 1) 0).drop
        ([0, (toInt32 n).toNat] : List Nat).length = [] := by
      apply List.drop_of_length_le
      rw [resize_length]
      rfl
    rw [this]
    rfl

/-- C20, counterexample: `2^32` descriptors copy to one bucket. The count of the bucket
exceeds every 32-bit limit, yet `build` returns normally, with the count `0` and the offsets
`[0, 0]`: `numCopies` converts the size `2^32` to the `int` value `0`, the slot loop runs no
iteration, and nothing failed. -/
theorem ParticleCopyPlan.build_wraps_counterexample :
    numCopied (floodOp 4294967296) oneBucketPC.MakeMFIter = 4294967296 ∧
    ∃ plan, ParticleCopyPlan.fresh.build oneBucketPC (floodOp 4294967296) true exampleMPIStart
        (fun _ => List.range 4294967296) 0 = Res.ok plan ∧
      plan.m_box_counts = [0] ∧ plan.m_box_offsets = [0, 0] := by
  refine ⟨numCopied_floodOp 4294967296, ?_⟩
  have h0 : toInt32 4294967296 = 0 := by decide
  obtain ⟨plan, h, hc, ho⟩ :=
    (ParticleCopyPlan.build_flood 4294967296 ParticleCopyPlan.fresh true 0).2 (by rw [h0])
  rw [h0] at hc ho
  exact ⟨plan, h, hc, ho⟩

theorem rcvCountLoop_procs (m : List Int) (N : Nat) (st : List Int × List Int × Int)
    (h : loopM (rcvCount m) ([], [], 0) (List.range N) = Res.ok st) :
    st.1 = (rcvProcs m N).map (fun (j : Nat) => (j : Int)) := by
  refine loopM_range_inv (rcvCount m)
    (fun i s => s.1 = (rcvProcs m i).map (fun (j : Nat) => (j : Int))) N ([], [], 0) st
    (by simp [rcvProcs]) ?_ h
  intro i s s' _ hinv hs
  unfold rcvCount at hs
  rw [Res.bind_eq_ok] at hs
  obtain ⟨n, hn, hs⟩ := hs
  rw [readNat_eq_ok] at hn
  have hp := rcvProcs_succ m i
  rw [hn] at hp
  simp only [Option.getD_some] at hp
  by_cases hpos : n > 0
  · rw [if_pos hpos] at hs
    simp only [Res.pure_eq, Res.ok.injEq] at hs
    subst hs
    rw [if_pos hpos] at hp
    simp [hp, hinv]
  · rw [if_neg hpos] at hs
    simp only [Res.pure_eq, Res.ok.injEq] at hs
    subst hs
    rw [if_neg hpos] at hp
    simp [hp, hinv]

/-- When the loop that posts the receives returns, the byte count of every receive it went
through is positive and below `INT_MAX`. -/
theorem postReceiveLoop_bounds (NProcs : Nat) (SeqNum : Int) (sizeofParticle : Nat)
    (m RcvProc rOffset : List Int) (st0 st : List (Option Message) × Transport) (K : Nat)
    (h : loopM (postReceive NProcs SeqNum sizeofParticle m RcvProc rOffset) st0
      (List.range K) = Res.ok st) :
    ∀ j, j < K → ∃ Who n : Int, RcvProc[j]? = some Who ∧ 0 ≤ Who ∧ m[Who.toNat]? = some n ∧
      0 < byteCount n sizeofParticle ∧ byteCount n sizeofParticle < 2147483647 := by
  refine loopM_range_inv _ (fun i (_ : List (Option Message) × Transport) =>
    ∀ j, j < i → ∃ Who n : Int, RcvProc[j]? = some Who ∧ 0 ≤ Who ∧ m[Who.toNat]? = some n ∧
      0 < byteCount n sizeofParticle ∧ byteCount n sizeofParticle < 2147483647) K st0 st
    (by intro j hj; omega) ?_ h
  intro i s s' _ hinv hs j hj
  by_cases hji : j < i
  · exact hinv j hji
  · have hji' : j = i := by omega
    subst hji'
    obtain ⟨Who, offset, n, hWho, -, hW0, hn, h1, h2, -, -, -⟩ :=
      postReceive_eq_ok NProcs SeqNum sizeofParticle m RcvProc rOffset s s' j hs
    exact ⟨Who, n, hWho, hW0, hn, h1, h2⟩

/-- When the loop that posts the sends returns, the byte count for every process other than
the caller is below `INT_MAX`. -/
theorem postSendLoop_bounds (NProcs MyProc : Nat) (SeqNum : Int) (sizeofParticle : Nat)
    (firstBucketOnProc : Nat → Int) (m_snd : List Int) (m_box_offsets : List Nat)
    (net0 net : Transport) (N : Nat)
    (h : loopM (postSend NProcs MyProc SeqNum sizeofParticle firstBucketOnProc m_snd
      m_box_offsets) net0 (List.range N) = Res.ok net) :
    ∀ (i : Nat) (n : Int), i < N → i ≠ MyProc → m_snd[i]? = some n →
      byteCount n sizeofParticle < 2147483647 := by
  refine loopM_range_inv _ (fun k (_ : Transport) =>
    ∀ (i : Nat) (n : Int), i < k → i ≠ MyProc → m_snd[i]? = some n →
      byteCount n sizeofParticle < 2147483647) N net0 net
    (by intro i n hi; omega) ?_ h
  intro k s s' _ hinv hs i n hi hne hn
  by_cases hik : i < k
  · exact hinv i n hik hne hn
  · have hik' : i = k := by omega
    subst hik'
    rcases postSend_cases NProcs MyProc SeqNum sizeofParticle firstBucketOnProc m_snd
      m_box_offsets s s' i hs with ⟨hi', -⟩ | ⟨-, n', hn', ⟨h0, -⟩ | ⟨-, h2, -⟩⟩
    · exact absurd hi' hne
    · rw [hn] at hn'
      cases hn'
      omega
    · rw [hn] at hn'
      cases hn'
      exact h2

/-- C20, amended. The overflow checks that the code makes are these.

* `communicateParticlesStart` (not a no-op, fewer than `2^31` processes) returns only if the
  byte count of every process with a positive expected count is positive and below `INT_MAX`,
  and the byte count of every send to another process is below `INT_MAX`; the byte count is
  the particle count times the record size, computed in `std::size_t`, that is modulo `2^64`.
  Otherwise it stops.
* `packBuffer` stops when the total `m_box_offsets[num_boxes]` is `2^31` or more: converted
  to `int` it is a negative size.
* `build` makes no check of a count. With `n` descriptors that copy to one bucket, the only
  thing that can stop it is the call `resize` of the destination indices: `numCopies`
  converts `n` to `int`, and when the converted value is negative `resize` fails. When the
  converted value `c` is not negative `build` returns, with the count `c` and the offsets
  `[0, c]`, whatever `n` is: the descriptors from `c` on are not counted. -/
theorem overflow_checks {A : Type} [Inhabited A] (pc : ParticleContainer (Particle A))
    (plan : ParticleCopyPlan) (rcv_buffer : List (Particle A)) (NProcs MyProc : Nat)
    (SeqNum : Int) (sizeofParticle : Nat) (firstBucketOnProc : Nat → Int) (net : Transport)
    (out : ParticleCopyPlan × List (Particle A) × Transport)
    (hne : ¬ (NProcs = 1 ∨ plan.comm.m_NumSnds = 0)) (hNP : NProcs < 2147483648)
    (h : communicateParticlesStart pc plan rcv_buffer NProcs MyProc SeqNum sizeofParticle
      firstBucketOnProc net = Res.ok out) :
    (∀ (i : Nat) (n : Int), i < NProcs → plan.comm.m_rcv_num_particles[i]? = some n → 0 < n →
      0 < byteCount n sizeofParticle ∧ byteCount n sizeofParticle < 2147483647) ∧
    (∀ (i : Nat) (n : Int), i < NProcs → i ≠ MyProc →
      plan.comm.m_snd_num_particles[i]? = some n → byteCount n sizeofParticle < 2147483647) ∧
    (∀ (op : ParticleCopyOp) (plan' : ParticleCopyPlan) (snd_buffer : List (Particle A))
      (orders : Nat → List Nat) (t : Nat),
      ¬ (pc.numBoxes = 1 ∧ ¬ pc.Geom.isAnyPeriodic) →
      plan'.m_box_offsets[pc.numBoxes]? = some t → 2147483648 ≤ t % 4294967296 →
      packBuffer pc op plan' snd_buffer orders = Res.fail Err.badSize) ∧
    (∀ (n : Nat) (self : ParticleCopyPlan) (do_handshake : Bool) (pastEnd : Nat),
      (toInt32 n < 0 → self.build oneBucketPC (floodOp n) do_handshake exampleMPIStart
          (fun _ => List.range n) pastEnd = Res.fail Err.badSize) ∧
      (0 ≤ toInt32 n → ∃ built, self.build oneBucketPC (floodOp n) do_handshake exampleMPIStart
          (fun _ => List.range n) pastEnd = Res.ok built ∧
        built.m_box_counts = [(toInt32 n).toNat] ∧
        built.m_box_offsets = [0, (toInt32 n).toNat])) := by
  obtain ⟨hl, rcv, m_stats, m_rreqs, posted, h1, -, -, -, h5, h6, -⟩ :=
    communicateParticlesStart_parts pc plan rcv_buffer NProcs MyProc SeqNum sizeofParticle
      firstBucketOnProc net out hne h
  have hprocs := rcvCountLoop_procs _ NProcs rcv h1
  have hlenle := rcvProcs_length_le plan.comm.m_rcv_num_particles NProcs
  have hlen : rcv.1.length = (rcvProcs plan.comm.m_rcv_num_particles NProcs).length := by
    rw [hprocs]; simp
  have hn32 : (toInt32 rcv.1.length).toNat =
      (rcvProcs plan.comm.m_rcv_num_particles NProcs).length := by
    rw [hlen, toInt32_of_lt _ (by omega)]
    simp
  rw [hn32] at h5
  have hb := postReceiveLoop_bounds NProcs SeqNum sizeofParticle _ _ _ _ _ _ h5
  refine ⟨?_, ?_, ?_, ?_⟩
  · intro i n hi hn hpos
    have hmem : i ∈ rcvProcs plan.comm.m_rcv_num_particles NProcs := by
      rw [mem_rcvProcs]
      exact ⟨hi, by simpa [hn] using hpos⟩
    obtain ⟨j, hj⟩ := List.mem_iff_getElem?.mp hmem
    have hjl : j < (rcvProcs plan.comm.m_rcv_num_particles NProcs).length :=
      (List.getElem?_eq_some.mp hj).1
    obtain ⟨Who, n', hWho, -, hn', hb1, hb2⟩ := hb j hjl
    rw [hprocs, List.getElem?_map, hj] at hWho
    simp only [Option.map_some', Option.some.injEq] at hWho
    subst hWho
    simp only [Int.toNat_ofNat] at hn'
    rw [hn] at hn'
    cases hn'
    exact ⟨hb1, hb2⟩
  · exact postSendLoop_bounds NProcs MyProc SeqNum sizeofParticle firstBucketOnProc _ _ _ _ _ h6
  · intro op plan' snd_buffer orders t hnt ht hbig
    unfold packBuffer
    simp only [hl, ne_eq, not_true_eq_false, if_false]
    rw [if_neg hnt, readNat_eq_ok.mpr ht]
    simp only [Res.ok_bind]
    have hneg : ¬ 0 ≤ toInt32 t := by
      unfold toInt32
      rw [if_neg (by omega)]
      have : t % 4294967296 < 4294967296 := Nat.mod_lt _ (by decide)
      omega
    unfold resizeInt
    rw [if_neg hneg]
    rfl
  · intro n self do_handshake pastEnd
    exact ParticleCopyPlan.build_flood n self do_handshake pastEnd

/-- Witness for C20 (amended): the example exchange returns, and its byte counts (16 and 24
bytes to receive, 16 and 8 bytes to send) are within the limit. -/
theorem overflow_checks_witness :
    ¬ ((3 : Nat) = 1 ∨ exchangePlan.comm.m_NumSnds = 0) ∧ (3 : Nat) < 2147483648 ∧
    communicateParticlesStart examplePC exchangePlan [] 3 1 5 8 exampleFirstBucket ⟨[], []⟩ =
      Res.ok exampleStarted ∧
    byteCount 3 8 = 24 ∧
    ∀ (i : Nat) (n : Int), i < 3 → exchangePlan.comm.m_rcv_num_particles[i]? = some n → 0 < n →
      0 < byteCount n 8 ∧ byteCount n 8 < 2147483647 :=
  ⟨by decide, by decide, rfl, by decide,
    (overflow_checks examplePC exchangePlan [] 3 1 5 8 exampleFirstBucket ⟨[], []⟩
      exampleStarted (by decide) (by decide) rfl).1⟩


/-! ## The tables of `ParticleLocator::build` as a counting sort -/

/-- The first loop of `build` stores in `pcell[i]` the bin computed for box `i`. -/
theorem ParticleLocator.countLoop_cells (boxes : List Box) (lo hi bin_size : Dim3) (n : Nat)
    (st0 st : List Nat × List Nat)
    (h : loopM (ParticleLocator.countStep boxes lo hi bin_size) st0 (List.range n) = Res.ok st) :
    ∀ i, i < n → ∃ (box : Box) (c : Nat), boxes[i]? = some box ∧
      ParticleLocator.cellOf lo hi bin_size box = Res.ok c ∧ st.1[i]? = some c := by
  refine loopM_range_inv _ (fun k s => ∀ i, i < k → ∃ (box : Box) (c : Nat),
    boxes[i]? = some box ∧ ParticleLocator.cellOf lo hi bin_size box = Res.ok c ∧
    s.1[i]? = some c) n st0 st (by intro i hi; omega) ?_ h
  intro k s s' _ hinv hs i hi
  unfold ParticleLocator.countStep at hs
  rw [Res.bind_eq_ok] at hs
  obtain ⟨box, hbox, hs⟩ := hs
  rw [Res.bind_eq_ok] at hs
  obtain ⟨c, hc, hs⟩ := hs
  rw [Res.bind_eq_ok] at hs
  obtain ⟨cells', hw1, hs⟩ := hs
  rw [Res.bind_eq_ok] at hs
  obtain ⟨old, -, hs⟩ := hs
  rw [Res.bind_eq_ok] at hs
  obtain ⟨counts', -, hs⟩ := hs
  simp only [Res.pure_eq, Res.ok.injEq] at hs
  subst hs
  rw [writeNat_eq_ok] at hw1
  obtain ⟨hkl, rfl⟩ := hw1
  rw [readNat_eq_ok] at hbox
  by_cases hik : i = k
  · subst hik
    exact ⟨box, c, hbox, hc, by simp [List.getElem?_set, hkl]⟩
  · obtain ⟨box', c', h1, h2, h3⟩ := hinv i (by omega)
    refine ⟨box', c', h1, h2, ?_⟩
    dsimp only
    rw [List.getElem?_set_ne (by omega)]
    exact h3

/-- After `build`, `m_cells[i]` is the bin computed from the lower corner of box `i` with the
stored bin geometry. -/
theorem ParticleLocator.build_cells (self : ParticleLocator) (ba : List Box)
    (order : List Nat) (loc : ParticleLocator) (h : self.build ba order = Res.ok loc) :
    ∀ i, i < ba.length → ∃ (box : Box) (c : Nat), ba[i]? = some box ∧
      ParticleLocator.cellOf loc.m_bins_lo loc.m_bins_hi loc.m_bin_size box = Res.ok c ∧
      loc.m_cells[i]? = some c := by
  unfold ParticleLocator.build at h
  rw [Res.bind_eq_ok] at h
  obtain ⟨hx, -, h⟩ := h
  rw [Res.bind_eq_ok] at h
  obtain ⟨hy, -, h⟩ := h
  rw [Res.bind_eq_ok] at h
  obtain ⟨hz, -, h⟩ := h
  rw [Res.bind_eq_ok] at h
  obtain ⟨counts0, -, h⟩ := h
  rw [Res.bind_eq_ok] at h
  obtain ⟨offsets0, -, h⟩ := h
  rw [Res.bind_eq_ok] at h
  obtain ⟨⟨cells, counts1⟩, hloop1, h⟩ := h
  dsimp only at h
  rw [Res.bind_eq_ok] at h
  obtain ⟨⟨counts, perm⟩, -, h⟩ := h
  simp only [Res.pure_eq, Res.ok.injEq] at h
  subst h
  exact ParticleLocator.countLoop_cells ba _ _ _ ba.length _ _ hloop1

/-- The slots of bin `b` in the permutation of a built locator are the boxes of the bin in the
order of placement. -/
theorem LocatorTables.segment {ba : List Box} {order : List Nat} {loc : ParticleLocator}
    (ht : LocatorTables ba order loc) (b : Nat) (hb : (b : Int) < loc.numBins) :
    (loc.m_permutation.drop (loc.m_cells.countP fun c => c < b)).take (loc.m_cells.count b) =
      binSegment loc.m_cells order b := by
  apply List.ext_getElem?
  intro j
  by_cases hj : j < loc.m_cells.count b
  · have hjl : j < (binSegment loc.m_cells order b).length := by
      rw [ht.segment_length]; exact hj
    have hget := List.getElem?_eq_getElem hjl
    rw [List.getElem?_take_of_lt hj, List.getElem?_drop, ht.segment_eq b j _ hb hget, hget]
  · have hl := ht.segment_length b
    rw [List.getElem?_eq_none (by simp only [List.length_take]; omega),
      List.getElem?_eq_none (by omega)]

/-- The permutation table of a built locator holds every box index once. -/
theorem LocatorTables.perm {ba : List Box} {order : List Nat} {loc : ParticleLocator}
    (ht : LocatorTables ba order loc) (horder : order.Perm (List.range ba.length)) :
    loc.m_permutation.Perm (List.range ba.length) := by
  have hsub : List.range ba.length ⊆ loc.m_permutation := by
    intro i hi
    rw [List.mem_range] at hi
    have hic : i < loc.m_cells.length := by rw [ht.cells_length]; exact hi
    have hc := List.getElem?_eq_getElem hic
    have hclt := ht.cells_lt i _ hc
    have hmem : i ∈ binSegment loc.m_cells order loc.m_cells[i] := by
      unfold binSegment
      rw [List.mem_filter]
      exact ⟨horder.mem_iff.mpr (List.mem_range.mpr hi), by simp [hc]⟩
    obtain ⟨j, hj⟩ := List.mem_iff_getElem?.mp hmem
    exact List.mem_iff_getElem?.mpr ⟨_, ht.segment_eq _ j i hclt hj⟩
  have hsp := List.subperm_of_subset (List.nodup_range ba.length) hsub
  exact (hsp.perm_of_length_le (by rw [ht.perm_length, List.length_range])).symm

/-- C25. After `ParticleLocator::build` on `n` boxes (at most `INT_MAX`, the placement pass in
any order): `m_offsets` has `num_bins + 1` entries, `m_offsets[0] = 0`, consecutive entries do
not decrease and `m_offsets[num_bins] = n`; `m_permutation` is a permutation of
`0, ..., n - 1`; for every bin `b` the segment `m_permutation[m_offsets[b] .. m_offsets[b+1])`
holds exactly the indices `i` with `m_cells[i] = b`, each once; and `m_cells[i]` is the bin
that the first pass computed from the lower corner of box `i`. -/
theorem ParticleLocator.build_csr_permutation (self : ParticleLocator) (ba : List Box)
    (order : List Nat) (loc : ParticleLocator) (hn : ba.length < 2147483648)
    (horder : order.Perm (List.range ba.length)) (h : self.build ba order = Res.ok loc) :
    (loc.m_offsets.length : Int) = loc.numBins + 1 ∧
    loc.m_offsets[0]? = some 0 ∧
    loc.m_offsets[loc.numBins.toNat]? = some ba.length ∧
    loc.m_permutation.Perm (List.range ba.length) ∧
    (∀ b : Nat, (b : Int) < loc.numBins → ∃ o o' : Nat, loc.m_offsets[b]? = some o ∧
      loc.m_offsets[b + 1]? = some o' ∧ o ≤ o' ∧
      ((loc.m_permutation.drop o).take (o' - o)).Perm
        ((List.range ba.length).filter fun i => loc.m_cells[i]? == some b)) ∧
    (∀ i, i < ba.length → ∃ (box : Box) (c : Nat), ba[i]? = some box ∧
      ParticleLocator.cellOf loc.m_bins_lo loc.m_bins_hi loc.m_bin_size box = Res.ok c ∧
      loc.m_cells[i]? = some c) := by
  have ht := ParticleLocator.build_locatorTables self ba order loc hn horder h
  have hB := ht.numBins_nonneg
  refine ⟨ht.offsets_length, ?_, ?_, ht.perm horder, ?_,
    ParticleLocator.build_cells self ba order loc h⟩
  · have := ht.offsets_eq 0 (by simpa using hB)
    simpa using this
  · have h1 := ht.offsets_eq loc.numBins.toNat (by omega)
    rw [h1, countP_lt_of_all_lt loc.m_cells _ ?_, ht.cells_length]
    intro c hc
    obtain ⟨i, hi⟩ := List.mem_iff_getElem?.mp hc
    have := ht.cells_lt i c hi
    omega
  · intro b hb
    refine ⟨_, _, ht.offsets_eq b (by omega), ht.offsets_eq (b + 1) (by push_cast; omega), ?_, ?_⟩
    · rw [countP_lt_succ]; omega
    · rw [countP_lt_succ, Nat.add_sub_cancel_left, ht.segment b hb]
      unfold binSegment
      exact horder.filter _

/-- Witness for C25: the locator of `originBoxes`, the placement pass in the order
`3, 1, 0, 2`. -/
theorem ParticleLocator.build_csr_permutation_witness :
    originBoxes.length < 2147483648 ∧ [3, 1, 0, 2].Perm (List.range originBoxes.length) ∧
    ParticleLocator.fresh.build originBoxes [3, 1, 0, 2] = Res.ok exampleLocator ∧
    exampleLocator.m_cells = [0, 6, 2, 8] ∧
    exampleLocator.m_offsets = [0, 1, 1, 2, 2, 2, 2, 3, 3, 4, 4, 4, 4, 4, 4, 4, 4, 4, 4] ∧
    exampleLocator.m_permutation = [0, 2, 1, 3] ∧
    exampleLocator.m_permutation.Perm (List.range originBoxes.length) :=
  ⟨by decide, by decide, rfl, by decide, by decide, by decide,
    (ParticleLocator.build_csr_permutation ParticleLocator.fresh originBoxes [3, 1, 0, 2]
      exampleLocator (by decide) (by decide) rfl).2.2.2.1⟩

/-! ## Reads of `assignGrid::operator()` on tables of the shape of `build` -/

/-- Scanning a valid bin of tables of the shape of `build` performs only reads in bounds. -/
theorem assignGrid.scanBin_reads (boxes : List Box) (poffset pperm : List Nat)
    (bins_lo bins_hi bin_size : Dim3) (iv : Dim3) (index : Int)
    (hbound : ∀ o ∈ poffset, o ≤ boxes.length)
    (hpl : pperm.length = boxes.length)
    (hperm : ∀ id ∈ pperm, id < boxes.length)
    (h0 : 0 ≤ index) (h1 : index + 1 < (poffset.length : Int)) :
    ∃ r, (assignGrid.construct boxes poffset pperm bins_lo bins_hi bin_size).scanBin iv index =
      Res.ok r ∧ ∀ v : Int, r = some v → True := by
  have hi0 : index.toNat < poffset.length := by omega
  have hi1 : index.toNat + 1 < poffset.length := by omega
  have hr1 : readAt poffset index = Res.ok poffset[index.toNat] := by
    rw [readAt_eq_ok]; exact ⟨h0, List.getElem?_eq_getElem hi0⟩
  have hr2 : readAt poffset (index + 1) = Res.ok poffset[index.toNat + 1] := by
    rw [readAt_eq_ok]
    refine ⟨by omega, ?_⟩
    have : (index + 1).toNat = index.toNat + 1 := by omega
    rw [this]; exact List.getElem?_eq_getElem hi1
  have hlast := hbound _ (List.getElem_mem hi1)
  unfold assignGrid.scanBin
  simp only [assignGrid.construct, hr1, hr2, Res.ok_bind]
  apply firstM_total
  intro p hp
  rw [List.mem_range'_1] at hp
  have hpl' : p < pperm.length := by omega
  have hid := hperm _ (List.getElem_mem hpl')
  have hrp : readNat pperm p = Res.ok pperm[p] := by
    rw [readNat_eq_ok]; exact List.getElem?_eq_getElem hpl'
  have hrb : readNat boxes pperm[p] = Res.ok boxes[pperm[p]] := by
    rw [readNat_eq_ok]; exact List.getElem?_eq_getElem hid
  simp only [hrp, hrb, Res.ok_bind]
  split
  · exact ⟨_, rfl, fun _ _ => trivial⟩
  · exact ⟨none, rfl, fun _ _ => trivial⟩

/-- C27. For every query point and every table of the shape `build` produces (`num_bins + 1`
offsets, each at most the number of boxes; one permutation entry per box, each below the number
of boxes), `assignGrid::operator()` returns a value: every read of the offset, permutation and
box arrays is in bounds (a read out of bounds ends the modelled call with `Err.badAccess`),
whatever the bin coordinates of the point, negative or beyond the last bin. Monotone offsets
are not needed for this. -/
theorem assignGrid.call_reads_in_bounds (boxes : List Box) (poffset pperm : List Nat)
    (bins_lo bins_hi bin_size : Dim3) (iv : Dim3)
    (hlen : (poffset.length : Int) = (bins_hi.x - bins_lo.x + 1) * (bins_hi.y - bins_lo.y + 1) *
      (bins_hi.z - bins_lo.z + 1) + 1)
    (hbound : ∀ o ∈ poffset, o ≤ boxes.length)
    (hpl : pperm.length = boxes.length)
    (hperm : ∀ id ∈ pperm, id < boxes.length) :
    ∃ id, (assignGrid.construct boxes poffset pperm bins_lo bins_hi bin_size).call iv =
      Res.ok id := by
  have hs : ∃ r, (assignGrid.construct boxes poffset pperm bins_lo bins_hi bin_size).search iv =
      Res.ok r ∧ ∀ v : Int, r = some v → True := by
    unfold assignGrid.search
    apply firstM_total
    intro ii hii
    apply firstM_total
    intro jj hjj
    apply firstM_total
    intro kk hkk
    rw [mem_intRange] at hii hjj hkk
    have hb := flat_index_bounds (bins_hi.x - bins_lo.x + 1) (bins_hi.y - bins_lo.y + 1)
      (bins_hi.z - bins_lo.z + 1) ii jj kk (by omega)
      (by simp only [assignGrid.construct] at hii; omega) (by omega)
      (by simp only [assignGrid.construct] at hjj; omega) (by omega)
      (by simp only [assignGrid.construct] at hkk; omega)
    exact assignGrid.scanBin_reads boxes poffset pperm bins_lo bins_hi bin_size iv _ hbound hpl
      hperm hb.1 (by simp only [assignGrid.construct]; omega)
  obtain ⟨r, hr, -⟩ := hs
  unfold assignGrid.call
  rw [hr]
  cases r with
  | none => exact ⟨-1, rfl⟩
  | some v => exact ⟨v, rfl⟩

/-- Witness for C27: tables for a grid of `2 x 1 x 1` bins and the point `(-5, 100, 2)`, whose
bin coordinates are `-1`, `12` and `0`. -/
theorem assignGrid.call_reads_in_bounds_witness :
    (([0, 2, 4] : List Nat).length : Int) = (1 - 0 + 1) * (0 - 0 + 1) * (0 - 0 + 1) + 1 ∧
    (∀ o ∈ ([0, 2, 4] : List Nat), o ≤ originBoxes.length) ∧
    ([0, 2, 1, 3] : List Nat).length = originBoxes.length ∧
    (∀ id ∈ ([0, 2, 1, 3] : List Nat), id < originBoxes.length) ∧
    exampleAssignor.call ⟨-5, 100, 2⟩ = Res.ok (-1) ∧
    ∃ id, exampleAssignor.call ⟨-5, 100, 2⟩ = Res.ok id :=
  ⟨by decide, by decide, by decide, by decide, by decide,
    assignGrid.call_reads_in_bounds originBoxes [0, 2, 4] [0, 2, 1, 3] ⟨0, 0, 0⟩ ⟨1, 0, 0⟩
      ⟨4, 8, 4⟩ ⟨-5, 100, 2⟩ (by decide) (by decide) (by decide) (by decide)⟩

/-! ## The bin grid of `build` away from the origin -/

/-- C23, the code at the failing input. For the three boxes `offsetBoxes`, whose lower corners
start at `x = 6`, `build` stores `m_bins_lo.x = 6` in cell units and
`m_bins_hi.x = (11 + 2 - 1) / 2 = 6` in bin units, so the grid has `6 - 6 + 1 = 1` bin along
`x`, while the lower corner of the third box has bin coordinate `(10 - 6) / 2 = 2`, outside
`[0, 0]`; only the clamp brings its bin in `m_cells` into range. For the single box `farBox`
with lower corner `x = 100` the number of bins along `x` is `51 - 100 + 1 = -48` and `build`
stops at the `resize` of the counters. -/
theorem ParticleLocator.build_offsetBoxes_grid_short :
    (∀ b ∈ offsetBoxes, b.ok) ∧
    ParticleLocator.fresh.build offsetBoxes [0, 1, 2] = Res.ok offsetLocator ∧
    offsetLocator.m_bins_lo.x = 6 ∧ offsetLocator.m_bins_hi.x = 6 ∧
    offsetLocator.m_bin_size.x = 2 ∧
    offsetLocator.m_bins_hi.x - offsetLocator.m_bins_lo.x + 1 = 1 ∧
    offsetBoxes.map (fun b => Int.tdiv (b.smallEnd.x - offsetLocator.m_bins_lo.x)
      offsetLocator.m_bin_size.x) = [0, 1, 2] ∧
    offsetLocator.m_cells = [0, 0, 0] ∧
    (∀ b ∈ farBox, b.ok) ∧
    ParticleLocator.fresh.build farBox [0] = Res.fail Err.badSize := by
  decide

/-- C24, the code at the failing input. In the locator built from `offsetBoxes` the point
`(10, 0, 0)` lies in the third box, which `build` put in bin 0; the point has bin coordinate
`ix = 2` on a grid with one bin along `x`, so the loop of `operator()` over
`max(ix-1, 0) .. min(ix, nx-1)` visits no bin and the call returns `-1`, while the reference
query clamps the bin coordinate to `0`, scans bin 0 and returns the third box. -/
theorem assignGrid.call_offsetBoxes_differs_from_reference :
    ParticleLocator.fresh.build offsetBoxes [0, 1, 2] = Res.ok offsetLocator ∧
    offsetBoxes.map (fun b => b.contains ⟨10, 0, 0⟩) = [false, false, true] ∧
    offsetLocator.m_cells[2]? = some 0 ∧
    intRange (max (Int.tdiv (10 - offsetLocator.getGridAssignor.m_lo.x)
        offsetLocator.getGridAssignor.m_bin_size.x - 1) 0)
      (min (Int.tdiv (10 - offsetLocator.getGridAssignor.m_lo.x)
        offsetLocator.getGridAssignor.m_bin_size.x)
        (offsetLocator.getGridAssignor.m_hi.x - offsetLocator.getGridAssignor.m_lo.x + 1 - 1))
      = [] ∧
    offsetLocator.getGridAssignor.call ⟨10, 0, 0⟩ = Res.ok (-1) ∧
    offsetLocator.getGridAssignor.referenceCall ⟨10, 0, 0⟩ = Res.ok 2 := by
  decide


/-! ## The addressing of `packBuffer` -/

/-- An index below the sum of the counters lies in the range of exactly one bucket. -/
theorem exists_bucket_of_lt_sum (l : List Nat) (k : Nat) (h : k < l.sum) :
    ∃ b v : Nat, l[b]? = some v ∧ (l.take b).sum ≤ k ∧ k < (l.take b).sum + v := by
  induction l generalizing k with
  | nil => simp at h
  | cons x xs ih =>
    by_cases hk : k < x
    · exact ⟨0, x, by simp, by simp, by simpa using hk⟩
    · rw [List.sum_cons] at h
      obtain ⟨b, v, hb, h1, h2⟩ := ih (k - x) (by omega)
      refine ⟨b + 1, v, by simpa using hb, ?_, ?_⟩
      · rw [List.take_succ_cons, List.sum_cons]; omega
      · rw [List.take_succ_cons, List.sum_cons]; omega

/-- A descriptor with a bucket is copied. -/
theorem copied_of_bucketOf (op : ParticleCopyOp) (p_box_perm : List Nat) (e : Descriptor)
    (b : Nat) (h : op.bucketOf p_box_perm e = some b) : op.copied e = true := by
  unfold ParticleCopyOp.bucketOf at h
  unfold ParticleCopyOp.copied
  cases hd : op.dest e with
  | none => simp [hd] at h
  | some d =>
    simp only [hd] at h ⊢
    by_cases hneg : d < 0
    · simp [hneg] at h
    · simp; omega

/-- A copied descriptor of a visited box is one of the events of the run. -/
theorem mem_copyEvents_of_copied {P : Type} (pc : ParticleContainer P) (op : ParticleCopyOp)
    (orders : Nat → List Nat)
    (horders : ∀ m ∈ pc.MakeMFIter, (orders m.1).Perm (sequentialOrders op m.1))
    (e : Descriptor) (hg : e.1 ∈ pc.MakeMFIter.map Prod.fst)
    (hc : op.copied e = true) : e ∈ copyEvents pc.MakeMFIter orders := by
  rw [mem_copyEvents]
  refine ⟨hg, ?_⟩
  rw [List.mem_map] at hg
  obtain ⟨m, hm, hm1⟩ := hg
  have hp := horders m hm
  rw [hm1] at hp
  rw [hp.mem_iff]
  unfold sequentialOrders
  rw [List.mem_range]
  unfold ParticleCopyOp.copied ParticleCopyOp.dest at hc
  cases hbx : op.m_boxes e.1 with
  | none => simp [hbx] at hc
  | some l =>
    simp only [hbx, Option.some_bind] at hc
    cases hl : l[e.2]? with
    | none => simp [hl] at hc
    | some d => exact (List.getElem?_eq_some.mp hl).1

/-- The address of a copied descriptor lies in the range of its bucket. -/
theorem PlanTables.address_range {P : Type} {pc : ParticleContainer P} {op : ParticleCopyOp}
    {orders : Nat → List Nat} {plan : ParticleCopyPlan} (ht : PlanTables pc op orders plan)
    (e : Descriptor) (b : Nat) (he : e ∈ copyEvents pc.MakeMFIter orders)
    (hb : op.bucketOf pc.gridToBucket e = some b) :
    ∃ k : Nat, plan.address pc.gridToBucket op e = some (k : Int) ∧
      (plan.m_box_counts.take b).sum ≤ k ∧ k < (plan.m_box_counts.take (b + 1)).sum := by
  obtain ⟨j, hj, -, hc, hl⟩ := ht.slot_of_bucket e b he hb
  refine ⟨_, ht.address_eq e b j he hb hj, by omega, ?_⟩
  rw [sum_take_succ _ b _ hc]
  omega

/-- Every index of the range of bucket `b` is the address of a descriptor of the bucket. -/
theorem PlanTables.address_onto {P : Type} {pc : ParticleContainer P} {op : ParticleCopyOp}
    {orders : Nat → List Nat} {plan : ParticleCopyPlan} (ht : PlanTables pc op orders plan)
    (b v k : Nat) (hb : plan.m_box_counts[b]? = some v)
    (h1 : (plan.m_box_counts.take b).sum ≤ k) (h2 : k < (plan.m_box_counts.take b).sum + v) :
    ∃ e : Descriptor, e ∈ copyEvents pc.MakeMFIter orders ∧
      op.bucketOf pc.gridToBucket e = some b ∧
      plan.address pc.gridToBucket op e = some (k : Int) := by
  have hv := ht.counts_eq b v hb
  have hlt : k - (plan.m_box_counts.take b).sum <
      (bucketSegment op pc.gridToBucket (copyEvents pc.MakeMFIter orders) b).length := by omega
  have hget := List.getElem?_eq_getElem hlt
  have hmem := (bucketSegment_mem op pc.gridToBucket _ _ b).mp (List.getElem_mem hlt)
  refine ⟨_, hmem.1, hmem.2, ?_⟩
  rw [ht.address_eq _ b _ hmem.1 hmem.2 hget]
  congr 2
  omega

/-- C26. After a non-trivial `build` followed by `packBuffer` (every source box visited once,
the loops of both run in any order, fewer than `2^31` copied descriptors), with `total` the
last offset: the buffer has `total` entries; every copied descriptor of a visited box has an
address `m_box_offsets[bucket(dst)] + m_dst_indices` in `[0, total)`; two copied descriptors
with the same address are equal; every index of `[0, total)` is the address of a copied
descriptor, so that every entry is written exactly once. With an injective box-to-bucket map,
for a box `g` with bucket `b`: a descriptor destined to `g` has its address in
`[m_box_offsets[b], m_box_offsets[b+1])`, and every entry of that range holds the record packed
for a descriptor destined to `g`.
Every box visited holds fewer than `2^31` descriptors (`op.fits`), so that `numCopies`, an
`int`, returns the number of its descriptors. -/
theorem packBuffer_addressing_bijection {A : Type} [Inhabited A] (self : ParticleCopyPlan)
    (pc : ParticleContainer (Particle A)) (op : ParticleCopyOp) (do_handshake : Bool)
    (buildMPIStart : ParticleCopyPlan → Bool → Res CommSchedule)
    (orders orders' : Nat → List Nat) (pastEnd : Nat) (plan : ParticleCopyPlan)
    (snd0 buf : List (Particle A))
    (hnt : ¬ (pc.numBoxes = 1 ∧ ¬ pc.Geom.isAnyPeriodic))
    (hmfi : (pc.MakeMFIter.map Prod.fst).Nodup)
    (horders : ∀ m ∈ pc.MakeMFIter, (orders m.1).Perm (sequentialOrders op m.1))
    (horders' : ∀ m ∈ pc.MakeMFIter, (orders' m.1).Perm (sequentialOrders op m.1))
    (hN : numCopied op pc.MakeMFIter < 2147483648)
    (hfit : op.fits pc.MakeMFIter)
    (hinj : pc.gridToBucket.Nodup)
    (hbuild : self.build pc op do_handshake buildMPIStart orders pastEnd = Res.ok plan)
    (hpack : packBuffer pc op plan snd0 orders' = Res.ok buf) :
    ∃ total : Nat, plan.m_box_offsets[pc.numBoxes]? = some total ∧ buf.length = total ∧
      (∀ e : Descriptor, e.1 ∈ pc.MakeMFIter.map Prod.fst → op.copied e = true →
        ∃ k : Nat, plan.address pc.gridToBucket op e = some (k : Int) ∧ k < total) ∧
      (∀ e1 e2 : Descriptor, e1.1 ∈ pc.MakeMFIter.map Prod.fst →
        e2.1 ∈ pc.MakeMFIter.map Prod.fst → op.copied e1 = true → op.copied e2 = true →
        plan.address pc.gridToBucket op e1 = plan.address pc.gridToBucket op e2 → e1 = e2) ∧
      (∀ k : Nat, k < total → ∃ e : Descriptor, e.1 ∈ pc.MakeMFIter.map Prod.fst ∧
        op.copied e = true ∧ plan.address pc.gridToBucket op e = some (k : Int)) ∧
      (∀ g b : Nat, pc.gridToBucket[g]? = some b → b < pc.numBoxes →
        ∃ off off' : Nat, plan.m_box_offsets[b]? = some off ∧
          plan.m_box_offsets[b + 1]? = some off' ∧
          (∀ e : Descriptor, e.1 ∈ pc.MakeMFIter.map Prod.fst → op.dest e = some (g : Int) →
            ∃ k : Nat, plan.address pc.gridToBucket op e = some (k : Int) ∧ off ≤ k ∧
              k < off') ∧
          (∀ k : Nat, off ≤ k → k < off' → ∃ (m : TileIndex) (i : Nat) (rec : Particle A),
            m ∈ pc.MakeMFIter ∧ op.dest (m.1, i) = some (g : Int) ∧
            plan.address pc.gridToBucket op (m.1, i) = some (k : Int) ∧
            packedRecord pc op m i = some rec ∧ buf[k]? = some rec)) := by
  have ht := ParticleCopyPlan.build_planTables self pc op do_handshake buildMPIStart orders pastEnd
    plan hnt hmfi horders hN hfit hbuild
  obtain ⟨-, total, htot, -, hloop⟩ := packBuffer_parts pc op plan snd0 orders' buf hnt hpack
  obtain ⟨hlen, hrec⟩ := packLoop_inv pc op plan orders orders' ht hmfi horders horders' hfit _ _ hloop
  have htot' := ht.offsets_eq pc.numBoxes (Nat.le_refl _)
  rw [htot] at htot'
  have htake : plan.m_box_counts.take pc.numBoxes = plan.m_box_counts :=
    List.take_of_length_le (by rw [ht.counts_length])
  rw [htake] at htot'
  have htsum : total = plan.m_box_counts.sum := Option.some.inj htot'
  have htN : total < 2147483648 := by
    rw [htsum, ht.counts_sum]; exact hN
  have hbl : buf.length = total := by
    rw [hlen, resize_length, toInt32_of_lt _ htN]
    simp
  have hrange : ∀ (e : Descriptor) (b : Nat), e ∈ copyEvents pc.MakeMFIter orders →
      op.bucketOf pc.gridToBucket e = some b →
      ∃ k : Nat, plan.address pc.gridToBucket op e = some (k : Int) ∧
        (plan.m_box_counts.take b).sum ≤ k ∧ k < (plan.m_box_counts.take (b + 1)).sum ∧
        k < total := by
    intro e b he hb
    obtain ⟨k, hk, h1, h2⟩ := ht.address_range e b he hb
    have := sum_take_le plan.m_box_counts (b + 1)
    exact ⟨k, hk, h1, h2, by omega⟩
  refine ⟨total, htot, hbl, ?_, ?_, ?_, ?_⟩
  · intro e hg hc
    have he := mem_copyEvents_of_copied pc op orders horders e hg hc
    obtain ⟨b, hb⟩ := ht.copied_bucket e he hc
    obtain ⟨k, hk, -, -, hlt⟩ := hrange e b he hb
    exact ⟨k, hk, hlt⟩
  · intro e1 e2 hg1 hg2 hc1 hc2 heq
    have he1 := mem_copyEvents_of_copied pc op orders horders e1 hg1 hc1
    have he2 := mem_copyEvents_of_copied pc op orders horders e2 hg2 hc2
    obtain ⟨b1, hb1⟩ := ht.copied_bucket e1 he1 hc1
    obtain ⟨b2, hb2⟩ := ht.copied_bucket e2 he2 hc2
    obtain ⟨k1, hk1, -⟩ := hrange e1 b1 he1 hb1
    obtain ⟨k2, hk2, -⟩ := hrange e2 b2 he2 hb2
    by_contra hne
    have := ht.address_injective e1 e2 b1 b2 k1 k2 he1 he2 hb1 hb2 hne hk1 hk2
    rw [hk1, hk2] at heq
    have hk : k1 = k2 := by
      have := Option.some.inj heq
      exact_mod_cast this
    exact this hk
  · intro k hk
    obtain ⟨b, v, hb, h1, h2⟩ := exists_bucket_of_lt_sum plan.m_box_counts k (by omega)
    obtain ⟨e, he, heb, hek⟩ := ht.address_onto b v k hb h1 h2
    exact ⟨e, ((mem_copyEvents _ _ _).mp he).1, copied_of_bucketOf op _ e b heb, hek⟩
  · intro g b hg hb
    have hbc : b < plan.m_box_counts.length := by rw [ht.counts_length]; exact hb
    have hc := List.getElem?_eq_getElem hbc
    refine ⟨_, _, ht.offsets_eq b (Nat.le_of_lt hb), ht.offsets_eq (b + 1) hb, ?_, ?_⟩
    · intro e heg hd
      have hbk := (bucketOf_eq_iff_dest op pc.gridToBucket hinj g b hg e).mpr hd
      have he := mem_copyEvents_of_bucketOf pc op orders horders e b heg hbk
      obtain ⟨k, hk, h1, h2, -⟩ := hrange e b he hbk
      exact ⟨k, hk, h1, h2⟩
    · intro k h1 h2
      rw [sum_take_succ _ b _ hc] at h2
      obtain ⟨e, he, heb, hek⟩ := ht.address_onto b _ k hc h1 h2
      have hd := (bucketOf_eq_iff_dest op pc.gridToBucket hinj g b hg e).mp heb
      obtain ⟨hem, hei⟩ := (mem_copyEvents _ _ _).mp he
      rw [List.mem_map] at hem
      obtain ⟨m, hm, hm1⟩ := hem
      have hi' : e.2 ∈ orders' m.1 := by
        rw [(horders' m hm).mem_iff, ← (horders m hm).mem_iff, hm1]; exact hei
      have hee : ((m.1, e.2) : Descriptor) = e := by rw [hm1]
      have hcop : op.copied (m.1, e.2) = true := by
        rw [hee]; exact copied_of_bucketOf op _ e b heb
      obtain ⟨k', rec, hadr, hpr, hbuf⟩ :=
        hrec (m, e.2) ((mem_packEvents _ _ _).mpr ⟨hm, hi'⟩) hcop
      dsimp only at hadr hpr
      rw [hee, hek] at hadr
      have hkk : k = k' := by
        have := Option.some.inj hadr
        exact_mod_cast this
      refine ⟨m, e.2, rec, hm, by rw [hee]; exact hd, by rw [hee]; exact hek, hpr, ?_⟩
      rw [hkk]; exact hbuf

/-- Witness for C26: the example, packed with the loop of box 0 in the order `1, 2, 0`; the
three copied descriptors fill the three entries of the buffer. -/
theorem packBuffer_addressing_bijection_witness :
    ¬ (examplePC.numBoxes = 1 ∧ ¬ examplePC.Geom.isAnyPeriodic) ∧
    (examplePC.MakeMFIter.map Prod.fst).Nodup ∧
    (∀ m ∈ examplePC.MakeMFIter, (exampleOrders m.1).Perm (sequentialOrders exampleOp m.1)) ∧
    (∀ m ∈ examplePC.MakeMFIter,
      ((fun g => if g = 0 then [1, 2, 0] else [0]) m.1).Perm (sequentialOrders exampleOp m.1)) ∧
    numCopied exampleOp examplePC.MakeMFIter < 2147483648 ∧
    exampleOp.fits examplePC.MakeMFIter ∧
    examplePC.gridToBucket.Nodup ∧
    ParticleCopyPlan.fresh.build examplePC exampleOp true exampleMPIStart exampleOrders 0 =
      Res.ok examplePlan ∧
    packBuffer examplePC exampleOp examplePlan [] (fun g => if g = 0 then [1, 2, 0] else [0]) =
      Res.ok exampleBuffer ∧
    [(0, 0), (0, 2), (1, 0)].map (examplePlan.address examplePC.gridToBucket exampleOp) =
      [some 1, some 0, some 2] ∧
    ∃ total : Nat, examplePlan.m_box_offsets[examplePC.numBoxes]? = some total ∧
      exampleBuffer.length = total :=
  ⟨by decide, by decide, by decide, by decide, by decide, by decide, by decide, rfl, rfl,
    by decide,
    (packBuffer_addressing_bijection ParticleCopyPlan.fresh examplePC exampleOp true
      exampleMPIStart exampleOrders (fun g => if g = 0 then [1, 2, 0] else [0]) 0 examplePlan []
      exampleBuffer (by decide) (by decide) (by decide) (by decide) (by decide) (by decide)
      (by decide) rfl rfl).imp fun _ h => ⟨h.1, h.2.1⟩⟩


/-! ## The frame of `unpackBuffer` -/

section PolicyZero

variable {κ P : Type} [DecidableEq κ] [Inhabited P]

/-- A growth policy leaves a tile as it was when the tile's only entry has size 0. -/
theorem UnpackPolicy.resizeTiles_zero (policy : UnpackPolicy)
    (heap0 : κ → ParticleTile P) (tiles : List κ) (sizes : List Nat)
    (heap : κ → ParticleTile P) (offsets : List Nat) (hwf : ∀ t, (heap0 t).wf)
    (hnd : tiles.Nodup)
    (h : policy.resizeTiles heap0 tiles sizes [] = Res.ok (heap, offsets))
    (j : Nat) (t : κ) (ht : tiles[j]? = some t) (hs : sizes[j]? = some 0) :
    heap t = heap0 t := by
  obtain ⟨-, aN⟩ := addedBefore_nodup tiles sizes hnd j t 0 ht hs
  cases policy with
  | neighbor =>
    have hN := NeighborUnpackPolicy.resizeTiles_inv heap0 tiles sizes [] hwf (heap, offsets) h
    obtain ⟨-, -, hnn, hdata, -⟩ := hN
    have h1 := hnn t
    have h2 := hdata t
    dsimp only at h1 h2
    rw [aN] at h1 h2
    simp only [Nat.add_zero, List.replicate_zero, List.append_nil] at h1 h2
    cases hh : heap t
    cases hh0 : heap0 t
    simp only [hh, hh0] at h1 h2
    simp [h1, h2]
  | redistribute =>
    obtain ⟨-, -, -, hheap, -⟩ :=
      RedistributeUnpackPolicy.resizeTiles_spec heap0 tiles sizes [] (heap, offsets) h
    have hj : j < sizes.length := (List.getElem?_eq_some.mp hs).1
    have hmem : t ∈ tiles.take sizes.length := by
      rw [List.mem_iff_getElem?]
      exact ⟨j, by rw [List.getElem?_take_of_lt hj]; exact ht⟩
    have h2 := hheap t
    dsimp only at h2
    rw [if_pos hmem, aN] at h2
    rw [h2]
    have hw := hwf t
    unfold ParticleTile.wf at hw
    cases hh0 : heap0 t with
    | mk d n =>
      rw [hh0] at hw
      simp only at hw
      simp only [ParticleTile.resize, ParticleTile.numParticles, Nat.add_zero]
      congr 1
      rw [resize_of_le _ _ _ (by omega)]
      have : d.length - n + n - d.length = 0 := by omega
      rw [this]
      simp

end PolicyZero

/-- The copy loop of the local unpack writes only the records `offset .. offset + size - 1` of
the tile. -/
theorem unpackCopy_loop_frame {P : Type} (p_box_offsets p_box_perm : List Nat) (buf : List P)
    (gid offset : Nat) (tile : ParticleTile P) (size : Nat) (t' : ParticleTile P)
    (h : loopM (unpackCopy p_box_offsets p_box_perm buf gid offset) tile (List.range size) =
      Res.ok t') :
    t'.m_num_neighbors = tile.m_num_neighbors ∧ t'.m_data.length = tile.m_data.length ∧
    ∀ p, (p < offset ∨ offset + size ≤ p) → t'.m_data[p]? = tile.m_data[p]? := by
  refine loopM_range_inv _ (fun j t => t.m_num_neighbors = tile.m_num_neighbors ∧
    t.m_data.length = tile.m_data.length ∧
    ∀ p, (p < offset ∨ offset + j ≤ p) → t.m_data[p]? = tile.m_data[p]?) size tile t'
    ⟨rfl, rfl, fun _ _ => rfl⟩ ?_ h
  intro j t t1 _ hinv ht
  obtain ⟨hnn, hlen, hout⟩ := hinv
  unfold unpackCopy at ht
  rw [Res.bind_eq_ok] at ht
  obtain ⟨b, -, ht⟩ := ht
  rw [Res.bind_eq_ok] at ht
  obtain ⟨off, -, ht⟩ := ht
  rw [Res.bind_eq_ok] at ht
  obtain ⟨p, -, ht⟩ := ht
  unfold ParticleTile.setSuperParticle at ht
  rw [Res.bind_eq_ok] at ht
  obtain ⟨d, hd, ht⟩ := ht
  rw [writeNat_eq_ok] at hd
  obtain ⟨-, rfl⟩ := hd
  simp only [Res.pure_eq, Res.ok.injEq] at ht
  subst ht
  refine ⟨hnn, by simp [hlen], ?_⟩
  intro q hq
  dsimp only
  rw [List.getElem?_set_ne (by omega)]
  exact hout q (by omega)

/-- The second loop of `unpackBuffer` over distinct tiles writes, in the tile of entry `j`, only
the records of the range handed out for entry `j`. -/
theorem unpackGridLoop_frame {P : Type} (gridToBucket : List Nat) (plan : ParticleCopyPlan)
    (buf : List P) (sizes offsets : List Nat) (heap0 : TileIndex → ParticleTile P)
    (all : List TileIndex) (hnd : all.Nodup) (st : (TileIndex → ParticleTile P) × Nat)
    (h : loopM (unpackGrid gridToBucket plan buf sizes offsets) (heap0, 0) all = Res.ok st) :
    (∀ idx, idx ∉ all → st.1 idx = heap0 idx) ∧
    ∀ (j : Nat) (m : TileIndex), all[j]? = some m →
      ∃ offset size : Nat, offsets[j]? = some offset ∧ sizes[j]? = some size ∧
        (st.1 m).m_num_neighbors = (heap0 m).m_num_neighbors ∧
        (st.1 m).m_data.length = (heap0 m).m_data.length ∧
        ∀ p, (p < offset ∨ offset + size ≤ p) → (st.1 m).m_data[p]? = (heap0 m).m_data[p]? := by
  have key := loopM_inv (unpackGrid gridToBucket plan buf sizes offsets)
    (fun done s => s.2 = done.length ∧ (∀ idx, idx ∉ done → s.1 idx = heap0 idx) ∧
      ∀ (j : Nat) (m : TileIndex), done[j]? = some m →
        ∃ offset size : Nat, offsets[j]? = some offset ∧ sizes[j]? = some size ∧
          (s.1 m).m_num_neighbors = (heap0 m).m_num_neighbors ∧
          (s.1 m).m_data.length = (heap0 m).m_data.length ∧
          ∀ p, (p < offset ∨ offset + size ≤ p) → (s.1 m).m_data[p]? = (heap0 m).m_data[p]?)
    all
    (by
      intro done m rest s s' hall hinv hs
      obtain ⟨hu, hrest, hdone⟩ := hinv
      have hm_not : m ∉ done := by
        rw [← hall] at hnd
        have := List.nodup_append.mp hnd
        intro hmem
        exact this.2.2 hmem (List.mem_cons_self _ _)
      unfold unpackGrid at hs
      rw [Res.bind_eq_ok] at hs
      obtain ⟨offset, hoffset, hs⟩ := hs
      rw [Res.bind_eq_ok] at hs
      obtain ⟨size, hsize, hs⟩ := hs
      rw [Res.bind_eq_ok] at hs
      obtain ⟨tile, htile, hs⟩ := hs
      simp only [Res.pure_eq, Res.ok.injEq] at hs
      subst hs
      rw [readNat_eq_ok] at hoffset hsize
      have hcopy := unpackCopy_loop_frame _ _ _ _ _ _ _ _ htile
      rw [hrest m hm_not] at hcopy
      refine ⟨by simp [hu], ?_, ?_⟩
      · intro idx hidx
        have h1 : idx ≠ m := by
          intro h; apply hidx; simp [h]
        have h2 : idx ∉ done := by
          intro h; apply hidx; simp [h]
        dsimp only
        rw [Function.update_noteq h1]
        exact hrest idx h2
      · intro j m' hj
        dsimp only
        by_cases hjl : j < done.length
        · rw [List.getElem?_append_left hjl] at hj
          have hmem : m' ∈ done := List.mem_iff_getElem?.mpr ⟨j, hj⟩
          have hne : m' ≠ m := fun h => hm_not (h ▸ hmem)
          rw [Function.update_noteq hne]
          exact hdone j m' hj
        · have hjl' : j = done.length := by
            have := (List.getElem?_eq_some.mp hj).1
            simp only [List.length_append, List.length_singleton] at this
            omega
          subst hjl'
          rw [List.getElem?_concat_length] at hj
          cases hj
          rw [Function.update_same]
          exact ⟨offset, size, hu ▸ hoffset, hu ▸ hsize, hcopy⟩)
    all [] (heap0, 0) st (by simp) ⟨rfl, fun _ _ => rfl, by intro j m hj; simp at hj⟩ h
  exact ⟨key.2.1, key.2.2⟩

/-- C28. `unpackBuffer`, with either growth policy, on tiles visited once each: a tile outside
the visited ones is untouched; in every tile the records below the count the policy appends
after (all records of the tile for `NeighborUnpackPolicy`, the primary particles for
`RedistributeUnpackPolicy`) are unchanged and keep their index; and a tile whose bucket count
is 0 keeps its size and contents. -/
theorem unpackBuffer_frame {P : Type} [Inhabited P] (pc : ParticleContainer P)
    (plan : ParticleCopyPlan) (buf : List P) (policy : UnpackPolicy)
    (result : TileIndex → Option (ParticleTile P))
    (hnd : pc.MakeMFIter.Nodup) (hwf : ∀ idx, (tileAt pc.GetParticles idx).wf)
    (hunpack : unpackBuffer pc plan buf policy = Res.ok result) :
    (∀ idx, idx ∉ pc.MakeMFIter → result idx = pc.GetParticles idx) ∧
    (∀ (m : TileIndex) (p : Nat), p < policy.recordCount (tileAt pc.GetParticles m) →
      (tileAt result m).m_data[p]? = (tileAt pc.GetParticles m).m_data[p]?) ∧
    (∀ (m : TileIndex) (b : Nat), pc.gridToBucket[m.1]? = some b →
      plan.m_box_counts[b]? = some 0 → tileAt result m = tileAt pc.GetParticles m) := by
  by_cases hnt : pc.numBoxes = 1 ∧ ¬ pc.Geom.isAnyPeriodic
  · have hres : result = pc.GetParticles := by
      unfold unpackBuffer at hunpack
      by_cases hl : pc.numLevels = 1
      · simp only [hl, ne_eq, not_true_eq_false, if_false] at hunpack
        rw [if_pos hnt] at hunpack
        simp only [Res.pure_eq, Res.ok.injEq] at hunpack
        exact hunpack.symm
      · simp [hl] at hunpack
    subst hres
    exact ⟨fun _ _ => rfl, fun _ _ _ => rfl, fun _ _ _ _ => rfl⟩
  obtain ⟨plev, sizes, tiles, heap0, heap, offsets, u, h1, h2, h3, hres⟩ :=
    unpackBuffer_parts pc plan buf policy result hnt hunpack
  obtain ⟨htiles, hslen, hsizes, hplev⟩ := unpackCountLoop_inv pc plan _ h1
  dsimp only at htiles hslen hsizes hplev
  subst htiles
  have hold : tileAt plev = tileAt pc.GetParticles := by
    funext idx
    unfold tileAt
    rw [hplev idx]
    by_cases hmem : idx ∈ pc.MakeMFIter
    · rw [if_pos hmem]; rfl
    · rw [if_neg hmem]
  rw [hold] at h2
  obtain ⟨-, hout0, hpol⟩ := UnpackPolicy.resizeTiles_nodup policy _ _ _ _ _ hwf hnd h2
  obtain ⟨hout, hframe⟩ := unpackGridLoop_frame pc.gridToBucket plan buf sizes offsets heap0
    pc.MakeMFIter hnd _ h3
  dsimp only at hout hframe
  have hresm : ∀ m, m ∈ pc.MakeMFIter → tileAt result m = heap m := by
    intro m hm
    rw [hres]
    unfold tileAt
    dsimp only
    rw [hplev m, if_pos hm]
    rfl
  have hresn : ∀ idx, idx ∉ pc.MakeMFIter → result idx = pc.GetParticles idx := by
    intro idx hidx
    rw [hres]
    dsimp only
    rw [hplev idx, if_neg hidx]
    cases hg : pc.GetParticles idx with
    | none => rfl
    | some val =>
      simp only [Option.map_some']
      rw [hout idx hidx, hout0 idx hidx]
      unfold tileAt
      rw [hg]
      rfl
  refine ⟨hresn, ?_, ?_⟩
  · intro m p hp
    by_cases hm : m ∈ pc.MakeMFIter
    · obtain ⟨j, hj⟩ := List.mem_iff_getElem?.mp hm
      obtain ⟨b, c, -, -, -, hsz⟩ := hsizes j m hj
      obtain ⟨hoff, -, -, htake, -⟩ := hpol j m _ hj hsz
      obtain ⟨offset, size, hoff', -, -, -, hfr⟩ := hframe j m hj
      rw [hoff] at hoff'
      have hoe : offset = policy.recordCount (tileAt pc.GetParticles m) :=
        (Option.some.inj hoff').symm
      rw [hresm m hm, hfr p (Or.inl (by omega))]
      have e1 := congrArg (fun l => l[p]?) htake
      dsimp only at e1
      rw [List.getElem?_take_of_lt hp, List.getElem?_take_of_lt hp] at e1
      exact e1
    · unfold tileAt
      rw [hresn m hm]
  · intro m b hb hc
    by_cases hm : m ∈ pc.MakeMFIter
    · obtain ⟨j, hj⟩ := List.mem_iff_getElem?.mp hm
      obtain ⟨b', c', hb', hc', -, hsz⟩ := hsizes j m hj
      rw [hb] at hb'
      cases hb'
      rw [hc] at hc'
      cases hc'
      have hz : (toInt32 0).toNat = 0 := by decide
      rw [hz] at hsz
      have h0 := UnpackPolicy.resizeTiles_zero policy _ _ _ _ _ hwf hnd h2 j m hj hsz
      obtain ⟨offset, size, -, hsz', hnn, hlen, hfr⟩ := hframe j m hj
      rw [hsz] at hsz'
      cases hsz'
      rw [hresm m hm, ← h0]
      have hd : (heap m).m_data = (heap0 m).m_data := by
        apply List.ext_getElem?
        intro p
        exact hfr p (by omega)
      cases hh : heap m
      cases hh0 : heap0 m
      simp only [hh, hh0] at hnn hd
      simp [hnn, hd]
    · unfold tileAt
      rw [hresn m hm]

/-- The claim C28 as stated fails: with `RedistributeUnpackPolicy` on the tile of box 1 of
`ghostPC`, which holds one primary particle and one neighbor record (attribute 99, index 1),
the two incoming records are written from index 1 on, over the neighbor record. -/
theorem unpackBuffer_overwrites_neighbor_counterexample :
    ghostPC.MakeMFIter.Nodup ∧
    unpackBuffer ghostPC ghostPlan ghostBuffer UnpackPolicy.redistribute =
      Res.ok (ghostResult UnpackPolicy.redistribute) ∧
    (tileAt ghostPC.GetParticles (1, 0)).m_data.map (fun p => p.attr) = [20, 99] ∧
    (tileAt ghostPC.GetParticles (1, 0)).m_num_neighbors = 1 ∧
    (tileAt (ghostResult UnpackPolicy.redistribute) (1, 0)).m_data.map (fun p => p.attr) =
      [20, 12, 10, 0] ∧
    ¬ (∀ p : Nat, p < (tileAt ghostPC.GetParticles (1, 0)).m_data.length →
      ((tileAt (ghostResult UnpackPolicy.redistribute) (1, 0)).m_data.map fun p => p.attr)[p]? =
        ((tileAt ghostPC.GetParticles (1, 0)).m_data.map fun p => p.attr)[p]?) := by
  refine ⟨by decide, rfl, by decide, by decide, by decide, ?_⟩
  intro h
  have := h 1 (by decide)
  revert this
  decide

/-- Witness for C28: the neighbor policy on `ghostPC`; the tile of box 1 keeps its two records
and receives the two incoming ones behind them. -/
theorem unpackBuffer_frame_witness :
    ghostPC.MakeMFIter.Nodup ∧ (∀ idx, (tileAt ghostPC.GetParticles idx).wf) ∧
    unpackBuffer ghostPC ghostPlan ghostBuffer UnpackPolicy.neighbor =
      Res.ok (ghostResult UnpackPolicy.neighbor) ∧
    (tileAt (ghostResult UnpackPolicy.neighbor) (1, 0)).m_data.map (fun p => p.attr) =
      [20, 99, 12, 10] ∧
    ∀ (m : TileIndex) (p : Nat),
      p < UnpackPolicy.neighbor.recordCount (tileAt ghostPC.GetParticles m) →
      (tileAt (ghostResult UnpackPolicy.neighbor) m).m_data[p]? =
        (tileAt ghostPC.GetParticles m).m_data[p]? :=
  ⟨by decide,
    fun idx => by
      unfold ParticleTile.wf tileAt ghostPC
      dsimp only
      split_ifs <;> simp [ParticleTile.empty],
    rfl, by decide,
    (unpackBuffer_frame ghostPC ghostPlan ghostBuffer UnpackPolicy.neighbor
      (ghostResult UnpackPolicy.neighbor) (by decide)
      (fun idx => by
        unfold ParticleTile.wf tileAt ghostPC
        dsimp only
        split_ifs <;> simp [ParticleTile.empty])
      rfl).2.1⟩


/-! ## Interpolation of boundary data -/

theorem Array4.set_apply {T : Type} (a : Array4 T) (i j k n : Int) (v : T)
    (i' j' k' n' : Int) :
    Array4.set a i j k n v i' j' k' n' =
      if i' = i ∧ j' = j ∧ k' = k ∧ n' = n then v else a i' j' k' n' := rfl

/-- A loop whose iterations each store the value `c` in the cells `P x` and leave the other
cells: the cells of some iteration hold `c`, the others are as before. -/
theorem foldl_overwrite {α T : Type} (xs : List α) (step : Array4 T → α → Array4 T)
    (P : α → Int → Int → Int → Int → Prop) (c : T)
    (h1 : ∀ b x i j k n, P x i j k n → step b x i j k n = c)
    (h2 : ∀ b x i j k n, ¬ P x i j k n → step b x i j k n = b i j k n)
    (a : Array4 T) (i j k n : Int) :
    ((∃ x ∈ xs, P x i j k n) → xs.foldl step a i j k n = c) ∧
    ((¬ ∃ x ∈ xs, P x i j k n) → xs.foldl step a i j k n = a i j k n) := by
  induction xs generalizing a with
  | nil => simp
  | cons x xs ih =>
    rw [List.foldl_cons]
    obtain ⟨ih1, ih2⟩ := ih (step a x)
    constructor
    · rintro ⟨y, hy, hP⟩
      by_cases hex : ∃ x' ∈ xs, P x' i j k n
      · exact ih1 hex
      · rw [ih2 hex]
        rcases List.mem_cons.mp hy with rfl | hy'
        · exact h1 a y i j k n hP
        · exact absurd ⟨y, hy', hP⟩ hex
    · intro hno
      have hex : ¬ ∃ x' ∈ xs, P x' i j k n := by
        rintro ⟨y, hy, hP⟩
        exact hno ⟨y, List.mem_cons_of_mem _ hy, hP⟩
      rw [ih2 hex]
      exact h2 a x i j k n (fun hP => hno ⟨x, List.mem_cons_self _ _, hP⟩)

/-- Two nested loops that store `c` in the cell `(ci x y, cj x y, ck x y, cn x y)` for every
`x` of the outer and `y` of the inner loop. -/
theorem foldl_foldl_set {T : Type} (xs ys : List Int) (ci cj ck cn : Int → Int → Int) (c : T)
    (a : Array4 T) (i j k n : Int) :
    ((∃ x ∈ xs, ∃ y ∈ ys, i = ci x y ∧ j = cj x y ∧ k = ck x y ∧ n = cn x y) →
      xs.foldl (fun b x => ys.foldl (fun b y =>
        Array4.set b (ci x y) (cj x y) (ck x y) (cn x y) c) b) a i j k n = c) ∧
    ((¬ ∃ x ∈ xs, ∃ y ∈ ys, i = ci x y ∧ j = cj x y ∧ k = ck x y ∧ n = cn x y) →
      xs.foldl (fun b x => ys.foldl (fun b y =>
        Array4.set b (ci x y) (cj x y) (ck x y) (cn x y) c) b) a i j k n = a i j k n) := by
  have inner : ∀ (x : Int) (b : Array4 T) (i j k n : Int),
      ((∃ y ∈ ys, i = ci x y ∧ j = cj x y ∧ k = ck x y ∧ n = cn x y) →
        ys.foldl (fun b y => Array4.set b (ci x y) (cj x y) (ck x y) (cn x y) c) b i j k n
          = c) ∧
      ((¬ ∃ y ∈ ys, i = ci x y ∧ j = cj x y ∧ k = ck x y ∧ n = cn x y) →
        ys.foldl (fun b y => Array4.set b (ci x y) (cj x y) (ck x y) (cn x y) c) b i j k n
          = b i j k n) := by
    intro x b i j k n
    exact foldl_overwrite ys
      (fun b y => Array4.set b (ci x y) (cj x y) (ck x y) (cn x y) c)
      (fun y i j k n => i = ci x y ∧ j = cj x y ∧ k = ck x y ∧ n = cn x y) c
      (fun b y i j k m hP => by
        dsimp only at hP ⊢
        rw [Array4.set_apply, if_pos hP])
      (fun b y i j k m hP => by
        dsimp only at hP ⊢
        rw [Array4.set_apply, if_neg hP]) b i j k n
  exact foldl_overwrite xs
    (fun b x => ys.foldl (fun b y => Array4.set b (ci x y) (cj x y) (ck x y) (cn x y) c) b)
    (fun x i j k n => ∃ y ∈ ys, i = ci x y ∧ j = cj x y ∧ k = ck x y ∧ n = cn x y) c
    (fun b x i j k m hP => (inner x b i j k m).1 hP)
    (fun b x i j k m hP => (inner x b i j k m).2 hP) a i j k n

/-- The cells `interpbndrydata_x_o1` writes and the value it stores there. -/
theorem interpbndrydata_x_o1_apply (islo ic jc kc n : Int) (bdry : Array4 ℚ) (nb : Int)
    (crse : Array4 ℚ) (nc : Int) (r : Dim3) (i' j' k' n' : Int) :
    interpbndrydata_x_o1 islo ic jc kc n bdry nb crse nc r i' j' k' n' =
      if i' = ic * r.x + islo * (r.x - 1) ∧ jc * r.y ≤ j' ∧ j' < jc * r.y + r.y ∧
          kc * r.z ≤ k' ∧ k' < kc * r.z + r.z ∧ n' = n + nb
      then crse ic jc kc (n + nc) else bdry i' j' k' n' := by
  have key := foldl_foldl_set (intRange 0 (r.z - 1)) (intRange 0 (r.y - 1))
    (fun _ _ => ic * r.x + islo * (r.x - 1)) (fun _ joff => jc * r.y + joff)
    (fun koff _ => kc * r.z + koff) (fun _ _ => n + nb) (crse ic jc kc (n + nc)) bdry
    i' j' k' n'
  unfold interpbndrydata_x_o1
  dsimp only at key ⊢
  split_ifs with hc
  · apply key.1
    obtain ⟨h1, h2, h3, h4, h5, h6⟩ := hc
    exact ⟨k' - kc * r.z, (mem_intRange _ _ _).mpr ⟨by omega, by omega⟩,
      j' - jc * r.y, (mem_intRange _ _ _).mpr ⟨by omega, by omega⟩, h1, by omega, by omega, h6⟩
  · apply key.2
    rintro ⟨koff, hk, joff, hj, h1, h2, h3, h4⟩
    rw [mem_intRange] at hk hj
    exact hc ⟨h1, by omega, by omega, by omega, by omega, h4⟩

/-- The cells `interpbndrydata_y_o1` writes and the value it stores there. -/
theorem interpbndrydata_y_o1_apply (islo ic jc kc n : Int) (bdry : Array4 ℚ) (nb : Int)
    (crse : Array4 ℚ) (nc : Int) (r : Dim3) (i' j' k' n' : Int) :
    interpbndrydata_y_o1 islo ic jc kc n bdry nb crse nc r i' j' k' n' =
      if ic * r.x ≤ i' ∧ i' < ic * r.x + r.x ∧ j' = jc * r.y + islo * (r.y - 1) ∧
          kc * r.z ≤ k' ∧ k' < kc * r.z + r.z ∧ n' = n + nb
      then crse ic jc kc (n + nc) else bdry i' j' k' n' := by
  have key := foldl_foldl_set (intRange 0 (r.z - 1)) (intRange 0 (r.x - 1))
    (fun _ ioff => ic * r.x + ioff) (fun _ _ => jc * r.y + islo * (r.y - 1))
    (fun koff _ => kc * r.z + koff) (fun _ _ => n + nb) (crse ic jc kc (n + nc)) bdry
    i' j' k' n'
  unfold interpbndrydata_y_o1
  dsimp only at key ⊢
  split_ifs with hc
  · apply key.1
    obtain ⟨h1, h2, h3, h4, h5, h6⟩ := hc
    exact ⟨k' - kc * r.z, (mem_intRange _ _ _).mpr ⟨by omega, by omega⟩,
      i' - ic * r.x, (mem_intRange _ _ _).mpr ⟨by omega, by omega⟩, by omega, h3, by omega, h6⟩
  · apply key.2
    rintro ⟨koff, hk, ioff, hi, h1, h2, h3, h4⟩
    rw [mem_intRange] at hk hi
    exact hc ⟨by omega, by omega, h2, by omega, by omega, h4⟩

/-- The cells `interpbndrydata_z_o1` writes and the value it stores there. -/
theorem interpbndrydata_z_o1_apply (islo ic jc kc n : Int) (bdry : Array4 ℚ) (nb : Int)
    (crse : Array4 ℚ) (nc : Int) (r : Dim3) (i' j' k' n' : Int) :
    interpbndrydata_z_o1 islo ic jc kc n bdry nb crse nc r i' j' k' n' =
      if ic * r.x ≤ i' ∧ i' < ic * r.x + r.x ∧ jc * r.y ≤ j' ∧ j' < jc * r.y + r.y ∧
          k' = kc * r.z + islo * (r.z - 1) ∧ n' = n + nb
      then crse ic jc kc (n + nc) else bdry i' j' k' n' := by
  have key := foldl_foldl_set (intRange 0 (r.y - 1)) (intRange 0 (r.x - 1))
    (fun _ ioff => ic * r.x + ioff) (fun joff _ => jc * r.y + joff)
    (fun _ _ => kc * r.z + islo * (r.z - 1)) (fun _ _ => n + nb) (crse ic jc kc (n + nc)) bdry
    i' j' k' n'
  unfold interpbndrydata_z_o1
  dsimp only at key ⊢
  split_ifs with hc
  · apply key.1
    obtain ⟨h1, h2, h3, h4, h5, h6⟩ := hc
    exact ⟨j' - jc * r.y, (mem_intRange _ _ _).mpr ⟨by omega, by omega⟩,
      i' - ic * r.x, (mem_intRange _ _ _).mpr ⟨by omega, by omega⟩, by omega, by omega, h5, h6⟩
  · apply key.2
    rintro ⟨joff, hj, ioff, hi, h1, h2, h3, h4⟩
    rw [mem_intRange] at hj hi
    exact hc ⟨by omega, by omega, by omega, by omega, h3, h4⟩

/-- With no consulted mask cell equal to `not_covered`, `interpbndrydata_x_o3` is
`interpbndrydata_x_o1`. -/
theorem interpbndrydata_x_o3_eq_o1 (islo ic jc kc n : Int) (bdry : Array4 ℚ) (nb : Int)
    (crse : Array4 ℚ) (nc : Int) (r : Dim3) (mask : Array4 Int) (not_covered : Int)
    (h : maskClear_x islo ic jc kc r mask not_covered) :
    interpbndrydata_x_o3 islo ic jc kc n bdry nb crse nc r mask not_covered =
      interpbndrydata_x_o1 islo ic jc kc n bdry nb crse nc r := by
  obtain ⟨h1, h2, h3, h4, h5⟩ := h
  unfold interpbndrydata_x_o3 interpbndrydata_x_o1
  simp [h1, h2, h3, h4, h5]

/-- With no consulted mask cell equal to `not_covered`, `interpbndrydata_y_o3` is
`interpbndrydata_y_o1`. -/
theorem interpbndrydata_y_o3_eq_o1 (islo ic jc kc n : Int) (bdry : Array4 ℚ) (nb : Int)
    (crse : Array4 ℚ) (nc : Int) (r : Dim3) (mask : Array4 Int) (not_covered : Int)
    (h : maskClear_y islo ic jc kc r mask not_covered) :
    interpbndrydata_y_o3 islo ic jc kc n bdry nb crse nc r mask not_covered =
      interpbndrydata_y_o1 islo ic jc kc n bdry nb crse nc r := by
  obtain ⟨h1, h2, h3, h4, h5⟩ := h
  unfold interpbndrydata_y_o3 interpbndrydata_y_o1
  simp [h1, h2, h3, h4, h5]

/-- With no consulted mask cell equal to `not_covered`, `interpbndrydata_z_o3` is
`interpbndrydata_z_o1`. -/
theorem interpbndrydata_z_o3_eq_o1 (islo ic jc kc n : Int) (bdry : Array4 ℚ) (nb : Int)
    (crse : Array4 ℚ) (nc : Int) (r : Dim3) (mask : Array4 Int) (not_covered : Int)
    (h : maskClear_z islo ic jc kc r mask not_covered) :
    interpbndrydata_z_o3 islo ic jc kc n bdry nb crse nc r mask not_covered =
      interpbndrydata_z_o1 islo ic jc kc n bdry nb crse nc r := by
  obtain ⟨h1, h2, h3, h4, h5⟩ := h
  unfold interpbndrydata_z_o3 interpbndrydata_z_o1
  simp [h1, h2, h3, h4, h5]

/-- C29. When no mask cell consulted by `interpbndrydata_x_o3` equals `not_covered`, the call
leaves `bdry` exactly as `interpbndrydata_x_o1` does (exact arithmetic): every cell
`(i, j, k, n + nb)` with `i = ic*r.x + islo*(r.x-1)`, `jc*r.y <= j < jc*r.y + r.y` and
`kc*r.z <= k < kc*r.z + r.z` holds `crse(ic,jc,kc,n+nc)` and every other cell is as before.
Likewise for the `y` and the `z` variant, on their faces. -/
theorem interpbndrydata_o3_unmasked_eq_o1 (islo ic jc kc n : Int) (bdry : Array4 ℚ) (nb : Int)
    (crse : Array4 ℚ) (nc : Int) (r : Dim3) (mask : Array4 Int) (not_covered : Int) :
    (maskClear_x islo ic jc kc r mask not_covered →
      interpbndrydata_x_o3 islo ic jc kc n bdry nb crse nc r mask not_covered =
        interpbndrydata_x_o1 islo ic jc kc n bdry nb crse nc r ∧
      ∀ i' j' k' n' : Int,
        interpbndrydata_x_o3 islo ic jc kc n bdry nb crse nc r mask not_covered i' j' k' n' =
          if i' = ic * r.x + islo * (r.x - 1) ∧ jc * r.y ≤ j' ∧ j' < jc * r.y + r.y ∧
              kc * r.z ≤ k' ∧ k' < kc * r.z + r.z ∧ n' = n + nb
          then crse ic jc kc (n + nc) else bdry i' j' k' n') ∧
    (maskClear_y islo ic jc kc r mask not_covered →
      interpbndrydata_y_o3 islo ic jc kc n bdry nb crse nc r mask not_covered =
        interpbndrydata_y_o1 islo ic jc kc n bdry nb crse nc r ∧
      ∀ i' j' k' n' : Int,
        interpbndrydata_y_o3 islo ic jc kc n bdry nb crse nc r mask not_covered i' j' k' n' =
          if ic * r.x ≤ i' ∧ i' < ic * r.x + r.x ∧ j' = jc * r.y + islo * (r.y - 1) ∧
              kc * r.z ≤ k' ∧ k' < kc * r.z + r.z ∧ n' = n + nb
          then crse ic jc kc (n + nc) else bdry i' j' k' n') ∧
    (maskClear_z islo ic jc kc r mask not_covered →
      interpbndrydata_z_o3 islo ic jc kc n bdry nb crse nc r mask not_covered =
        interpbndrydata_z_o1 islo ic jc kc n bdry nb crse nc r ∧
      ∀ i' j' k' n' : Int,
        interpbndrydata_z_o3 islo ic jc kc n bdry nb crse nc r mask not_covered i' j' k' n' =
          if ic * r.x ≤ i' ∧ i' < ic * r.x + r.x ∧ jc * r.y ≤ j' ∧ j' < jc * r.y + r.y ∧
              k' = kc * r.z + islo * (r.z - 1) ∧ n' = n + nb
          then crse ic jc kc (n + nc) else bdry i' j' k' n') := by
  refine ⟨fun h => ?_, fun h => ?_, fun h => ?_⟩
  · have e := interpbndrydata_x_o3_eq_o1 islo ic jc kc n bdry nb crse nc r mask not_covered h
    refine ⟨e, fun i' j' k' n' => ?_⟩
    rw [e]
    exact interpbndrydata_x_o1_apply islo ic jc kc n bdry nb crse nc r i' j' k' n'
  · have e := interpbndrydata_y_o3_eq_o1 islo ic jc kc n bdry nb crse nc r mask not_covered h
    refine ⟨e, fun i' j' k' n' => ?_⟩
    rw [e]
    exact interpbndrydata_y_o1_apply islo ic jc kc n bdry nb crse nc r i' j' k' n'
  · have e := interpbndrydata_z_o3_eq_o1 islo ic jc kc n bdry nb crse nc r mask not_covered h
    refine ⟨e, fun i' j' k' n' => ?_⟩
    rw [e]
    exact interpbndrydata_z_o1_apply islo ic jc kc n bdry nb crse nc r i' j' k' n'

/-- Witness for C29: coarse cell `(1, 1, 1)` on the high side, refinement ratio 2, a mask
without uncovered cells; the fine cell `(3, 2, 3)` of the `x` face receives the coarse
value. -/
theorem interpbndrydata_o3_unmasked_eq_o1_witness :
    maskClear_x 1 1 1 1 ⟨2, 2, 2⟩ exampleMask 1 ∧
    maskClear_y 1 1 1 1 ⟨2, 2, 2⟩ exampleMask 1 ∧
    maskClear_z 1 1 1 1 ⟨2, 2, 2⟩ exampleMask 1 ∧
    interpbndrydata_x_o3 1 1 1 1 0 exampleBdry 0 exampleCrse 0 ⟨2, 2, 2⟩ exampleMask 1 3 2 3 0 =
      exampleCrse 1 1 1 0 ∧
    interpbndrydata_y_o3 1 1 1 1 0 exampleBdry 0 exampleCrse 0 ⟨2, 2, 2⟩ exampleMask 1 =
      interpbndrydata_y_o1 1 1 1 1 0 exampleBdry 0 exampleCrse 0 ⟨2, 2, 2⟩ ∧
    interpbndrydata_z_o3 1 1 1 1 0 exampleBdry 0 exampleCrse 0 ⟨2, 2, 2⟩ exampleMask 1 =
      interpbndrydata_z_o1 1 1 1 1 0 exampleBdry 0 exampleCrse 0 ⟨2, 2, 2⟩ :=
  ⟨by decide, by decide, by decide,
    (((interpbndrydata_o3_unmasked_eq_o1 1 1 1 1 0 exampleBdry 0 exampleCrse 0 ⟨2, 2, 2⟩
      exampleMask 1).1 (by decide)).2 3 2 3 0).trans (if_pos (by decide)),
    ((interpbndrydata_o3_unmasked_eq_o1 1 1 1 1 0 exampleBdry 0 exampleCrse 0 ⟨2, 2, 2⟩
      exampleMask 1).2.1 (by decide)).1,
    ((interpbndrydata_o3_unmasked_eq_o1 1 1 1 1 0 exampleBdry 0 exampleCrse 0 ⟨2, 2, 2⟩
      exampleMask 1).2.2 (by decide)).1⟩


/-! ## Averaging down with volume fractions -/

theorem mem_blockCells (i j k : Int) (ratio : Dim3) (p : Int × Int × Int) :
    p ∈ blockCells i j k ratio ↔
      i * ratio.x ≤ p.1 ∧ p.1 < (i + 1) * ratio.x ∧ j * ratio.y ≤ p.2.1 ∧
      p.2.1 < (j + 1) * ratio.y ∧ k * ratio.z ≤ p.2.2 ∧ p.2.2 < (k + 1) * ratio.z := by
  unfold blockCells
  simp only [List.mem_flatMap, List.mem_map, mem_intRange]
  constructor
  · rintro ⟨kk, hk, jj, hj, ii, hi, rfl⟩
    dsimp only
    omega
  · intro h
    exact ⟨p.2.2, by omega, p.2.1, by omega, p.1, by omega, rfl⟩

/-- A loop that accumulates two sums. -/
theorem foldl_two_sums {α : Type} (xs : List α) (f g : α → ℚ) (acc : ℚ × ℚ) :
    xs.foldl (fun acc x => (acc.1 + f x, acc.2 + g x)) acc =
      (acc.1 + (xs.map f).sum, acc.2 + (xs.map g).sum) := by
  induction xs generalizing acc with
  | nil => simp
  | cons x xs ih =>
    rw [List.foldl_cons, ih]
    simp only [List.map_cons, List.sum_cons]
    ext <;> simp only <;> ring

theorem sum_map_flatMap {α β : Type} (xs : List α) (h : α → List β) (F : β → ℚ) :
    ((xs.flatMap h).map F).sum = (xs.map fun x => ((h x).map F).sum).sum := by
  induction xs with
  | nil => simp
  | cons x xs ih => simp [List.flatMap_cons, ih]

/-- The sums of `eb_avgdown` are the sums over the cells of the block. -/
theorem eb_avgdown_sums_eq (i j k : Int) (fine : Array4 ℚ) (fcomp : Int) (vfrc : Array4 ℚ)
    (ratio : Dim3) (n : Int) :
    eb_avgdown_sums i j k fine fcomp vfrc ratio n =
      (blockSum (blockCells i j k ratio) (fun ii jj kk => fine ii jj kk (n + fcomp) *
          vfrc ii jj kk 0),
        blockSum (blockCells i j k ratio) (fun ii jj kk => vfrc ii jj kk 0)) := by
  unfold eb_avgdown_sums blockSum blockCells
  simp only [foldl_two_sums, sum_map_flatMap, List.map_map, Function.comp_def, zero_add]

/-- A weighted sum with non-negative weights lies between the bounds of the values times the
sum of the weights. -/
theorem weighted_sum_bounds (cells : List (Int × Int × Int)) (f w : Int → Int → Int → ℚ)
    (m M : ℚ) (hw : ∀ p ∈ cells, 0 ≤ w p.1 p.2.1 p.2.2)
    (hf : ∀ p ∈ cells, m ≤ f p.1 p.2.1 p.2.2 ∧ f p.1 p.2.1 p.2.2 ≤ M) :
    m * blockSum cells w ≤ blockSum cells (fun ii jj kk => f ii jj kk * w ii jj kk) ∧
    blockSum cells (fun ii jj kk => f ii jj kk * w ii jj kk) ≤ M * blockSum cells w := by
  unfold blockSum
  induction cells with
  | nil => simp
  | cons p ps ih =>
    obtain ⟨ih1, ih2⟩ := ih (fun q hq => hw q (List.mem_cons_of_mem _ hq))
      (fun q hq => hf q (List.mem_cons_of_mem _ hq))
    have h0 := hw p (List.mem_cons_self _ _)
    obtain ⟨h1, h2⟩ := hf p (List.mem_cons_self _ _)
    simp only [List.map_cons, List.sum_cons]
    have e1 := mul_le_mul_of_nonneg_right h1 h0
    have e2 := mul_le_mul_of_nonneg_right h2 h0
    constructor
    · rw [mul_add]; linarith
    · rw [mul_add]; linarith

/-- A loop that stores `v x` in component `x + ccomp` of one cell, for every `x`: component
`n + ccomp` holds `v n` when `n` is among the iterations. -/
theorem foldl_set_component {T : Type} (xs : List Int) (i j k ccomp : Int) (v : Int → T)
    (a : Array4 T) (n : Int) (hn : n ∈ xs) :
    xs.foldl (fun b x => Array4.set b i j k (x + ccomp) (v x)) a i j k (n + ccomp) = v n := by
  have key : ∀ (xs : List Int) (a : Array4 T),
      (n ∈ xs → xs.foldl (fun b x => Array4.set b i j k (x + ccomp) (v x)) a i j k (n + ccomp)
        = v n) ∧
      (n ∉ xs → xs.foldl (fun b x => Array4.set b i j k (x + ccomp) (v x)) a i j k (n + ccomp)
        = a i j k (n + ccomp)) := by
    intro xs
    induction xs with
    | nil => intro a; simp
    | cons x xs ih =>
      intro a
      rw [List.foldl_cons]
      obtain ⟨ih1, ih2⟩ := ih (Array4.set a i j k (x + ccomp) (v x))
      constructor
      · intro hmem
        by_cases hx : n ∈ xs
        · exact ih1 hx
        · rw [ih2 hx, Array4.set_apply]
          have : n = x := by
            rcases List.mem_cons.mp hmem with h | h
            · exact h
            · exact absurd h hx
          subst this
          simp
      · intro hmem
        have hx : n ∉ xs := fun h => hmem (List.mem_cons_of_mem _ h)
        have hne : n ≠ x := fun h => hmem (h ▸ List.mem_cons_self _ _)
        rw [ih2 hx, Array4.set_apply, if_neg]
        rintro ⟨-, -, -, h⟩
        exact hne (by omega)
  exact (key xs a).1 hn

/-- The value `eb_avgdown` leaves in component `n + ccomp` of the coarse cell. -/
theorem eb_avgdown_apply (i j k : Int) (fine : Array4 ℚ) (fcomp : Int) (crse : Array4 ℚ)
    (ccomp : Int) (vfrc : Array4 ℚ) (ratio : Dim3) (ncomp n : Int) (hn0 : 0 ≤ n)
    (hn1 : n < ncomp) :
    eb_avgdown i j k fine fcomp crse ccomp vfrc ratio ncomp i j k (n + ccomp) =
      if (eb_avgdown_sums i j k fine fcomp vfrc ratio n).2 > 1 / 10 ^ 30 then
        (eb_avgdown_sums i j k fine fcomp vfrc ratio n).1 /
          (eb_avgdown_sums i j k fine fcomp vfrc ratio n).2
      else fine (i * ratio.x) (j * ratio.y) (k * ratio.z) (n + fcomp) := by
  have hstep : (fun (crse : Array4 ℚ) (n : Int) =>
      let s := eb_avgdown_sums i j k fine fcomp vfrc ratio n
      if s.2 > 1 / 10 ^ 30 then Array4.set crse i j k (n + ccomp) (s.1 / s.2)
      else Array4.set crse i j k (n + ccomp)
        (fine (i * ratio.x) (j * ratio.y) (k * ratio.z) (n + fcomp))) =
      fun (crse : Array4 ℚ) (n : Int) => Array4.set crse i j k (n + ccomp)
        (if (eb_avgdown_sums i j k fine fcomp vfrc ratio n).2 > 1 / 10 ^ 30 then
          (eb_avgdown_sums i j k fine fcomp vfrc ratio n).1 /
            (eb_avgdown_sums i j k fine fcomp vfrc ratio n).2
        else fine (i * ratio.x) (j * ratio.y) (k * ratio.z) (n + fcomp)) := by
    funext crse n
    dsimp only
    split_ifs <;> rfl
  unfold eb_avgdown
  rw [hstep]
  exact foldl_set_component (intRange 0 (ncomp - 1)) i j k ccomp _ crse n
    ((mem_intRange _ _ _).mpr ⟨hn0, by omega⟩)

/-- C30. For `eb_avgdown` and a component `0 <= n < ncomp`, with non-negative volume
fractions on the fine cells of the coarse cell `(i, j, k)` (exact arithmetic): if the
fractions of the block sum to more than `1e-30`, the value left in `crse(i,j,k,n+ccomp)` is
the sum of `fine * vfrc` over the block divided by the sum of `vfrc`, and it lies between
every lower bound `m` and every upper bound `M` of the fine values of the block, hence between
their minimum and maximum; otherwise it is the fine value at the lower corner
`(i*ratio.x, j*ratio.y, k*ratio.z)`. -/
theorem eb_avgdown_weighted_mean (i j k : Int) (fine : Array4 ℚ) (fcomp : Int)
    (crse : Array4 ℚ) (ccomp : Int) (vfrc : Array4 ℚ) (ratio : Dim3) (ncomp n : Int)
    (hn0 : 0 ≤ n) (hn1 : n < ncomp)
    (hv : ∀ ii jj kk : Int, i * ratio.x ≤ ii → ii < (i + 1) * ratio.x → j * ratio.y ≤ jj →
      jj < (j + 1) * ratio.y → k * ratio.z ≤ kk → kk < (k + 1) * ratio.z →
      0 ≤ vfrc ii jj kk 0) :
    (blockSum (blockCells i j k ratio) (fun ii jj kk => vfrc ii jj kk 0) > 1 / 10 ^ 30 →
      eb_avgdown i j k fine fcomp crse ccomp vfrc ratio ncomp i j k (n + ccomp) =
        blockSum (blockCells i j k ratio)
            (fun ii jj kk => fine ii jj kk (n + fcomp) * vfrc ii jj kk 0) /
          blockSum (blockCells i j k ratio) (fun ii jj kk => vfrc ii jj kk 0) ∧
      ∀ m M : ℚ,
        (∀ ii jj kk : Int, i * ratio.x ≤ ii → ii < (i + 1) * ratio.x → j * ratio.y ≤ jj →
          jj < (j + 1) * ratio.y → k * ratio.z ≤ kk → kk < (k + 1) * ratio.z →
          m ≤ fine ii jj kk (n + fcomp) ∧ fine ii jj kk (n + fcomp) ≤ M) →
        m ≤ eb_avgdown i j k fine fcomp crse ccomp vfrc ratio ncomp i j k (n + ccomp) ∧
        eb_avgdown i j k fine fcomp crse ccomp vfrc ratio ncomp i j k (n + ccomp) ≤ M) ∧
    (¬ blockSum (blockCells i j k ratio) (fun ii jj kk => vfrc ii jj kk 0) > 1 / 10 ^ 30 →
      eb_avgdown i j k fine fcomp crse ccomp vfrc ratio ncomp i j k (n + ccomp) =
        fine (i * ratio.x) (j * ratio.y) (k * ratio.z) (n + fcomp)) := by
  have happ := eb_avgdown_apply i j k fine fcomp crse ccomp vfrc ratio ncomp n hn0 hn1
  rw [eb_avgdown_sums_eq] at happ
  dsimp only at happ
  constructor
  · intro hcv
    rw [if_pos hcv] at happ
    refine ⟨happ, ?_⟩
    intro m M hb
    have hpos : 0 < blockSum (blockCells i j k ratio) (fun ii jj kk => vfrc ii jj kk 0) :=
      lt_trans (by norm_num) hcv
    obtain ⟨b1, b2⟩ := weighted_sum_bounds (blockCells i j k ratio)
      (fun ii jj kk => fine ii jj kk (n + fcomp)) (fun ii jj kk => vfrc ii jj kk 0) m M
      (fun p hp => by
        obtain ⟨h1, h2, h3, h4, h5, h6⟩ := (mem_blockCells i j k ratio p).mp hp
        exact hv p.1 p.2.1 p.2.2 h1 h2 h3 h4 h5 h6)
      (fun p hp => by
        obtain ⟨h1, h2, h3, h4, h5, h6⟩ := (mem_blockCells i j k ratio p).mp hp
        exact hb p.1 p.2.1 p.2.2 h1 h2 h3 h4 h5 h6)
    rw [happ]
    exact ⟨(le_div_iff₀ hpos).mpr b1, (div_le_iff₀ hpos).mpr b2⟩
  · intro hcv
    rw [if_neg hcv] at happ
    exact happ

/-- Witness for C30: a block of two fine cells along `x` with values 1 and 3 and volume
fractions 1 and one half; the coarse value lies between 1 and 3. -/
theorem eb_avgdown_weighted_mean_witness :
    (0 : Int) ≤ 0 ∧ (0 : Int) < 1 ∧
    blockSum (blockCells 0 0 0 ⟨2, 1, 1⟩) (fun ii jj kk => exampleVfrc ii jj kk 0) = 3 / 2 ∧
    1 ≤ eb_avgdown 0 0 0 exampleFine 0 exampleBdry 0 exampleVfrc ⟨2, 1, 1⟩ 1 0 0 0 (0 + 0) ∧
    eb_avgdown 0 0 0 exampleFine 0 exampleBdry 0 exampleVfrc ⟨2, 1, 1⟩ 1 0 0 0 (0 + 0) ≤ 3 :=
  have hsum : blockSum (blockCells 0 0 0 ⟨2, 1, 1⟩) (fun ii jj kk => exampleVfrc ii jj kk 0) =
      3 / 2 := by
    simp [blockSum, blockCells, intRange, exampleVfrc, List.range_succ]
    norm_num
  ⟨by decide, by decide, hsum,
    ((eb_avgdown_weighted_mean 0 0 0 exampleFine 0 exampleBdry 0 exampleVfrc ⟨2, 1, 1⟩ 1 0
      (by decide) (by decide)
      (fun ii jj kk _ _ _ _ _ _ => by unfold exampleVfrc; split_ifs <;> norm_num)).1
      (by rw [hsum]; norm_num)).2 1 3
      (fun ii jj kk _ _ _ _ _ _ => by unfold exampleFine; split_ifs <;> norm_num)⟩



/-! ## Order independence of slot resolution -/

theorem loopM_filter {σ α : Type} (f : σ → α → Res σ) (p : α → Bool) (s : σ) (xs : List α) :
    loopM f s (xs.filter p) = loopM (fun s x => if p x then f s x else pure s) s xs := by
  induction xs generalizing s with
  | nil => rfl
  | cons x xs ih =>
    rw [loopM_cons]
    by_cases hp : p x = true
    · rw [List.filter_cons_of_pos hp, loopM_cons, if_pos hp]
      cases f s x with
      | ok s' => simp [ih]
      | fail e => simp
    · rw [List.filter_cons_of_neg hp, if_neg hp, ih]
      rfl

/-- An iteration of a visited box whose descriptor count fits `int` is the loop body. -/
theorem ParticleCopyPlan.interleavedStep_eq_eventStep (p_box_perm : List Nat)
    (op : ParticleCopyOp) (st : List Nat × (Nat → Option (List Int))) (e : Descriptor)
    (hlen : ((op.m_boxes e.1).getD []).length < 2147483648)
    (he : e.2 ∈ sequentialOrders op e.1) :
    ParticleCopyPlan.interleavedStep p_box_perm op st e =
      ParticleCopyPlan.eventStep p_box_perm op st e := by
  unfold sequentialOrders at he
  rw [List.mem_range] at he
  unfold ParticleCopyPlan.interleavedStep ParticleCopyPlan.eventStep ParticleCopyOp.numCopies
  cases hb : op.m_boxes e.1 with
  | none => simp [hb] at he
  | some b =>
    rw [hb] at hlen he
    simp only [Option.getD_some] at hlen he
    have hm : mapAt op.m_boxes e.1 = Res.ok b := mapAt_eq_ok.mpr hb
    simp only [hm, Res.ok_bind, Res.pure_eq]
    rw [toInt32_of_lt _ hlen, if_pos (by exact_mod_cast he)]

/-- The boxes by boxes run of the slot loops is the run of the descriptors of `copyEvents`. -/
theorem ParticleCopyPlan.gridLoop_eq_interleaved (p_box_perm : List Nat) (op : ParticleCopyOp)
    (orders : Nat → List Nat) (mfi : List TileIndex)
    (hok : ∀ m ∈ mfi, ∃ b, op.m_boxes m.1 = some b)
    (st : List Nat × (Nat → Option (List Int))) :
    loopM (ParticleCopyPlan.gridStep p_box_perm op orders) st mfi =
      loopM (ParticleCopyPlan.interleavedStep p_box_perm op) st (copyEvents mfi orders) := by
  induction mfi generalizing st with
  | nil => rfl
  | cons m ms ih =>
    have hev : copyEvents (m :: ms) orders =
        (orders m.1).map (fun i => (m.1, i)) ++ copyEvents ms orders := by
      simp [copyEvents]
    obtain ⟨b, hb⟩ := hok m (List.mem_cons_self _ _)
    have hm : mapAt op.m_boxes m.1 = Res.ok b := mapAt_eq_ok.mpr hb
    have hstep : ∀ s, ParticleCopyPlan.gridStep p_box_perm op orders s m =
        loopM (ParticleCopyPlan.interleavedStep p_box_perm op) s
          ((orders m.1).map (fun i => (m.1, i))) := by
      intro s
      unfold ParticleCopyPlan.gridStep ParticleCopyOp.numCopies
      simp only [hm, Res.ok_bind, Res.pure_eq]
      rw [loopM_filter, loopM_map]
      apply loopM_congr
      intro s' x _
      unfold ParticleCopyPlan.interleavedStep ParticleCopyOp.numCopies
      simp only [hm, Res.ok_bind, Res.pure_eq, decide_eq_true_eq]
    rw [loopM_cons, hev, loopM_append, hstep]
    cases loopM (ParticleCopyPlan.interleavedStep p_box_perm op) st
        ((orders m.1).map (fun i => (m.1, i))) with
    | ok s1 =>
      simp only [Res.ok_bind]
      exact ih (fun k hk => hok k (List.mem_cons_of_mem _ hk)) s1
    | fail e => rfl

/-- When the first `MFIter` loop of `build` returns, every box visited has descriptors. -/
theorem ParticleCopyPlan.resizeLoop_boxes (op : ParticleCopyOp) (mfi : List TileIndex)
    (dst dst0 : Nat → Option (List Int))
    (h : loopM (ParticleCopyPlan.resizeStep op) dst mfi = Res.ok dst0) :
    ∀ m ∈ mfi, ∃ b, op.m_boxes m.1 = some b := by
  induction mfi generalizing dst with
  | nil => intro m hm; cases hm
  | cons x xs ih =>
    rw [loopM_cons, Res.bind_eq_ok] at h
    obtain ⟨d1, h1, h2⟩ := h
    intro m hm
    rcases List.mem_cons.mp hm with rfl | hm
    · unfold ParticleCopyPlan.resizeStep at h1
      rw [Res.bind_eq_ok] at h1
      obtain ⟨nc, hnc, -⟩ := h1
      obtain ⟨b, hb, -⟩ := (ParticleCopyOp.numCopies_eq_ok op _ nc).mp hnc
      exact ⟨b, hb⟩
    · exact ih d1 h2 m hm

/-- The method `build`, whose slot loops run box by box, is `buildInterleaved` on the
descriptors in that order. -/
theorem ParticleCopyPlan.build_eq_buildInterleaved {P : Type} (self : ParticleCopyPlan)
    (pc : ParticleContainer P) (op : ParticleCopyOp) (do_handshake : Bool)
    (buildMPIStart : ParticleCopyPlan → Bool → Res CommSchedule)
    (orders : Nat → List Nat) (pastEnd : Nat) :
    self.build pc op do_handshake buildMPIStart orders pastEnd =
      self.buildInterleaved pc op do_handshake buildMPIStart (copyEvents pc.MakeMFIter orders)
        pastEnd := by
  unfold ParticleCopyPlan.build ParticleCopyPlan.buildInterleaved
  by_cases hl : pc.numLevels = 1
  · simp only [hl, ne_eq, not_true_eq_false, if_false]
    by_cases hnt : pc.numBoxes = 1 ∧ ¬ pc.Geom.isAnyPeriodic
    · rw [if_pos hnt, if_pos hnt]
    · rw [if_neg hnt, if_neg hnt]
      cases h0 : loopM (ParticleCopyPlan.resizeStep op) self.m_dst_indices pc.MakeMFIter with
      | fail e => rfl
      | ok dst0 =>
        simp only [Res.ok_bind]
        rw [ParticleCopyPlan.gridLoop_eq_interleaved _ _ _ _
          (ParticleCopyPlan.resizeLoop_boxes op _ _ _ h0)]
  · simp [hl]

/-- The parts of a non-trivial `buildInterleaved` that returns. -/
theorem ParticleCopyPlan.buildInterleaved_parts {P : Type} (self : ParticleCopyPlan)
    (pc : ParticleContainer P) (op : ParticleCopyOp) (do_handshake : Bool)
    (buildMPIStart : ParticleCopyPlan → Bool → Res CommSchedule)
    (events : List Descriptor) (pastEnd : Nat) (plan : ParticleCopyPlan)
    (hnt : ¬ (pc.numBoxes = 1 ∧ ¬ pc.Geom.isAnyPeriodic))
    (h : self.buildInterleaved pc op do_handshake buildMPIStart events pastEnd = Res.ok plan) :
    pc.numLevels = 1 ∧
    ∃ dst0, loopM (ParticleCopyPlan.resizeStep op) self.m_dst_indices pc.MakeMFIter =
        Res.ok dst0 ∧
      loopM (ParticleCopyPlan.interleavedStep pc.gridToBucket op)
        (List.replicate pc.numBoxes 0, dst0) events =
        Res.ok (plan.m_box_counts, plan.m_dst_indices) ∧
      plan.m_box_offsets = exclusive_scan 0 (plan.m_box_counts ++ [pastEnd]) ++
        (resize self.m_box_offsets (pc.numBoxes + 1) 0).drop
          (exclusive_scan 0 (plan.m_box_counts ++ [pastEnd])).length := by
  unfold ParticleCopyPlan.buildInterleaved at h
  by_cases hl : pc.numLevels = 1
  · refine ⟨hl, ?_⟩
    simp only [hl, ne_eq, not_true_eq_false, if_false, hnt] at h
    rw [Res.bind_eq_ok] at h
    obtain ⟨dst0, h0, h⟩ := h
    rw [Res.bind_eq_ok] at h
    obtain ⟨⟨counts, dst⟩, h1, h⟩ := h
    dsimp only at h
    rw [Res.bind_eq_ok] at h
    obtain ⟨sched, -, h⟩ := h
    simp only [Res.pure_eq, Res.ok.injEq] at h
    subst h
    rw [resize_nil] at h1
    exact ⟨dst0, h0, h1, rfl⟩
  · simp [hl] at h

/-- What the slot iterations of a non-trivial `buildInterleaved` leave, whatever their global
order: the counter of a bucket is the number of descriptors copied to it, and the `j`-th of
them in the order of the run holds slot `j`. -/
theorem ParticleCopyPlan.buildInterleaved_segments {P : Type} (self : ParticleCopyPlan)
    (pc : ParticleContainer P) (op : ParticleCopyOp) (do_handshake : Bool)
    (buildMPIStart : ParticleCopyPlan → Bool → Res CommSchedule)
    (events : List Descriptor) (pastEnd : Nat) (plan : ParticleCopyPlan)
    (hnt : ¬ (pc.numBoxes = 1 ∧ ¬ pc.Geom.isAnyPeriodic))
    (hmfi : (pc.MakeMFIter.map Prod.fst).Nodup)
    (hev : events.Perm (copyEvents pc.MakeMFIter (sequentialOrders op)))
    (hN : numCopied op pc.MakeMFIter < 2147483648)
    (hfit : op.fits pc.MakeMFIter)
    (h : self.buildInterleaved pc op do_handshake buildMPIStart events pastEnd = Res.ok plan) :
    plan.m_box_counts.length = pc.numBoxes ∧
    SegInv op pc.gridToBucket events (plan.m_box_counts, plan.m_dst_indices) ∧
    plan.m_box_offsets = exclusive_scan 0 (plan.m_box_counts ++ [pastEnd]) := by
  obtain ⟨-, dst0, -, hloop, hoff⟩ := ParticleCopyPlan.buildInterleaved_parts self pc op
    do_handshake buildMPIStart events pastEnd plan hnt h
  have hloop2 : loopM (ParticleCopyPlan.eventStep pc.gridToBucket op)
      (List.replicate pc.numBoxes 0, dst0) events =
      Res.ok (plan.m_box_counts, plan.m_dst_indices) := by
    rw [← hloop]
    apply loopM_congr
    intro s e he
    have hmem := (mem_copyEvents _ _ e).mp (hev.mem_iff.mp he)
    obtain ⟨m, hm, hm1⟩ := List.mem_map.mp hmem.1
    have hlen := hfit m hm
    rw [hm1] at hlen
    exact (ParticleCopyPlan.interleavedStep_eq_eventStep _ op s e hlen hmem.2).symm
  have hnd : events.Nodup :=
    hev.nodup_iff.mpr (copyEvents_nodup _ _ hmfi
      (fun m _ => sequentialOrders_nodup_of_perm op _ _ (List.Perm.refl _)))
  have hlen : (events.filter op.copied).length = numCopied op pc.MakeMFIter := by
    rw [(hev.filter _).length_eq]
    exact copyEvents_copied_length op pc.MakeMFIter _ (fun _ _ => List.Perm.refl _)
  obtain ⟨-, hseg⟩ := ParticleCopyPlan.eventLoop_inv pc.gridToBucket op events hnd
    (by rw [hlen]; exact hN) _ _ pc.numBoxes rfl hloop2
  have hcl : plan.m_box_counts.length = pc.numBoxes := by
    have := ParticleCopyPlan.eventLoop_length pc.gridToBucket op _ _ _ hloop2
    simpa using this
  refine ⟨hcl, hseg, ?_⟩
  have hscanl : (exclusive_scan 0 (plan.m_box_counts ++ [pastEnd])).length =
      pc.numBoxes + 1 := by
    rw [exclusive_scan_length]; simp [hcl]
  rw [hoff, hscanl, List.drop_of_length_le (by rw [resize_length]), List.append_nil]

/-- C22. Slot resolution in a non-trivial `ParticleCopyPlan::build` does not depend on the
order of execution. The slot iterations of all the source boxes perform their atomic
fetch-and-increment in one global order `events`, any rearrangement of all the descriptors of
the boxes visited, so that iterations of different boxes may alternate on the shared counters
(`buildInterleaved`; every source box visited once, fewer than `2^31` copied descriptors and
fewer than `2^31` descriptors per box). For any two such orders, two runs from the same plan
object return the same `m_box_counts` and the same `m_box_offsets`, and in a run the resolved
slots of the descriptors copied to a bucket `b` are a bijection onto
`{0, ..., m_box_counts[b] - 1}`: every such descriptor has a slot in the range, two of them
with the same slot are equal, and every slot of the range belongs to one of them. The method
`build`, whose slot loops run box by box in the orders `orders`, is the run in the global
order `copyEvents pc.MakeMFIter orders`. -/
theorem ParticleCopyPlan.build_order_independent {P : Type} (self : ParticleCopyPlan)
    (pc : ParticleContainer P) (op : ParticleCopyOp) (do_handshake : Bool)
    (buildMPIStart : ParticleCopyPlan → Bool → Res CommSchedule)
    (events events' : List Descriptor) (pastEnd : Nat) (plan plan' : ParticleCopyPlan)
    (hnt : ¬ (pc.numBoxes = 1 ∧ ¬ pc.Geom.isAnyPeriodic))
    (hmfi : (pc.MakeMFIter.map Prod.fst).Nodup)
    (hev : events.Perm (copyEvents pc.MakeMFIter (sequentialOrders op)))
    (hev' : events'.Perm (copyEvents pc.MakeMFIter (sequentialOrders op)))
    (hN : numCopied op pc.MakeMFIter < 2147483648)
    (hfit : op.fits pc.MakeMFIter)
    (h : self.buildInterleaved pc op do_handshake buildMPIStart events pastEnd = Res.ok plan)
    (h' : self.buildInterleaved pc op do_handshake buildMPIStart events' pastEnd =
      Res.ok plan') :
    plan'.m_box_counts = plan.m_box_counts ∧ plan'.m_box_offsets = plan.m_box_offsets ∧
    (∀ (b c : Nat), plan.m_box_counts[b]? = some c →
      (∀ e : Descriptor, e.1 ∈ pc.MakeMFIter.map Prod.fst →
        op.bucketOf pc.gridToBucket e = some b →
        ∃ s : Nat, slotOf plan.m_dst_indices e = some (s : Int) ∧ s < c) ∧
      (∀ e1 e2 : Descriptor, e1.1 ∈ pc.MakeMFIter.map Prod.fst →
        e2.1 ∈ pc.MakeMFIter.map Prod.fst → op.bucketOf pc.gridToBucket e1 = some b →
        op.bucketOf pc.gridToBucket e2 = some b →
        slotOf plan.m_dst_indices e1 = slotOf plan.m_dst_indices e2 → e1 = e2) ∧
      (∀ s : Nat, s < c → ∃ e : Descriptor, e.1 ∈ pc.MakeMFIter.map Prod.fst ∧
        op.bucketOf pc.gridToBucket e = some b ∧
        slotOf plan.m_dst_indices e = some (s : Int))) ∧
    (∀ orders : Nat → List Nat,
      self.build pc op do_handshake buildMPIStart orders pastEnd =
        self.buildInterleaved pc op do_handshake buildMPIStart
          (copyEvents pc.MakeMFIter orders) pastEnd) := by
  obtain ⟨hcl, ⟨hcnt, hslot, -, -⟩, hoff⟩ := ParticleCopyPlan.buildInterleaved_segments self pc
    op do_handshake buildMPIStart events pastEnd plan hnt hmfi hev hN hfit h
  obtain ⟨hcl', ⟨hcnt', -, -, -⟩, hoff'⟩ := ParticleCopyPlan.buildInterleaved_segments self pc
    op do_handshake buildMPIStart events' pastEnd plan' hnt hmfi hev' hN hfit h'
  dsimp only at hcnt hslot hcnt'
  have hperm : events'.Perm events := hev'.trans hev.symm
  have hcounts : plan'.m_box_counts = plan.m_box_counts := by
    apply List.ext_getElem?
    intro b
    by_cases hb : b < pc.numBoxes
    · have hb1 : b < plan.m_box_counts.length := by rw [hcl]; exact hb
      have hb2 : b < plan'.m_box_counts.length := by rw [hcl']; exact hb
      have hc1 := List.getElem?_eq_getElem hb1
      have hc2 := List.getElem?_eq_getElem hb2
      rw [hc1, hc2, hcnt b _ hc1, hcnt' b _ hc2]
      congr 1
      unfold bucketSegment
      exact (hperm.filter _).length_eq
    · rw [List.getElem?_eq_none (by omega), List.getElem?_eq_none (by omega)]
  refine ⟨hcounts, by rw [hoff, hoff', hcounts], ?_,
    fun orders => ParticleCopyPlan.build_eq_buildInterleaved self pc op do_handshake
      buildMPIStart orders pastEnd⟩
  intro b c hbc
  have hcl2 := hcnt b c hbc
  have hmemev : ∀ e : Descriptor, e.1 ∈ pc.MakeMFIter.map Prod.fst →
      op.bucketOf pc.gridToBucket e = some b →
      e ∈ bucketSegment op pc.gridToBucket events b := by
    intro e hg hb
    have he := mem_copyEvents_of_bucketOf pc op (sequentialOrders op)
      (fun _ _ => List.Perm.refl _) e b hg hb
    exact (bucketSegment_mem op pc.gridToBucket _ e b).mpr ⟨hev.mem_iff.mpr he, hb⟩
  refine ⟨?_, ?_, ?_⟩
  · intro e hg hb
    obtain ⟨j, hj⟩ := List.mem_iff_getElem?.mp (hmemev e hg hb)
    have hjl := (List.getElem?_eq_some.mp hj).1
    exact ⟨j, hslot b j e hj, by omega⟩
  · intro e1 e2 hg1 hg2 hb1 hb2 heq
    obtain ⟨j1, hj1⟩ := List.mem_iff_getElem?.mp (hmemev e1 hg1 hb1)
    obtain ⟨j2, hj2⟩ := List.mem_iff_getElem?.mp (hmemev e2 hg2 hb2)
    rw [hslot b j1 e1 hj1, hslot b j2 e2 hj2] at heq
    have hj : j1 = j2 := by
      have := Option.some.inj heq
      exact_mod_cast this
    rw [hj, hj2] at hj1
    exact (Option.some.inj hj1).symm
  · intro s hs
    have hlt : s < (bucketSegment op pc.gridToBucket events b).length := by omega
    have hget := List.getElem?_eq_getElem hlt
    have hmem := (bucketSegment_mem op pc.gridToBucket events _ b).mp (List.getElem_mem hlt)
    have hbox := ((mem_copyEvents _ _ _).mp (hev.mem_iff.mp hmem.1)).1
    exact ⟨_, hbox, hmem.2, hslot b s _ hget⟩

/-- Witness for C22: the example with the two boxes alternating (box 0 descriptor 0, box 1
descriptor 0, box 0 descriptor 1, box 0 descriptor 2) and with the loop of box 0 run first in
the order `2, 0, 1`; the counters and offsets agree while the slots of bucket 0 differ between
the runs. -/
theorem ParticleCopyPlan.build_order_independent_witness :
    ¬ (examplePC.numBoxes = 1 ∧ ¬ examplePC.Geom.isAnyPeriodic) ∧
    (examplePC.MakeMFIter.map Prod.fst).Nodup ∧
    exampleInterleaving.Perm (copyEvents examplePC.MakeMFIter (sequentialOrders exampleOp)) ∧
    (copyEvents examplePC.MakeMFIter exampleOrders).Perm
      (copyEvents examplePC.MakeMFIter (sequentialOrders exampleOp)) ∧
    numCopied exampleOp examplePC.MakeMFIter < 2147483648 ∧
    exampleOp.fits examplePC.MakeMFIter ∧
    ParticleCopyPlan.fresh.buildInterleaved examplePC exampleOp true exampleMPIStart
      exampleInterleaving 0 = Res.ok exampleInterleavedPlan ∧
    ParticleCopyPlan.fresh.buildInterleaved examplePC exampleOp true exampleMPIStart
      (copyEvents examplePC.MakeMFIter exampleOrders) 0 = Res.ok examplePlan ∧
    slotOf exampleInterleavedPlan.m_dst_indices (0, 0) = some 0 ∧
    slotOf examplePlan.m_dst_indices (0, 0) = some 1 ∧
    examplePlan.m_box_counts = [2, 1] ∧ examplePlan.m_box_offsets = [0, 2, 3] ∧
    examplePlan.m_box_counts = exampleInterleavedPlan.m_box_counts ∧
    examplePlan.m_box_offsets = exampleInterleavedPlan.m_box_offsets :=
  ⟨by decide, by decide, by decide, by decide, by decide, by decide, rfl, rfl, by decide,
    by decide, by decide, by decide,
    (ParticleCopyPlan.build_order_independent ParticleCopyPlan.fresh examplePC exampleOp true
      exampleMPIStart exampleInterleaving (copyEvents examplePC.MakeMFIter exampleOrders) 0
      exampleInterleavedPlan examplePlan (by decide) (by decide) (by decide) (by decide)
      (by decide) (by decide) rfl rfl).1,
    (ParticleCopyPlan.build_order_independent ParticleCopyPlan.fresh examplePC exampleOp true
      exampleMPIStart exampleInterleaving (copyEvents examplePC.MakeMFIter exampleOrders) 0
      exampleInterleavedPlan examplePlan (by decide) (by decide) (by decide) (by decide)
      (by decide) (by decide) rfl rfl).2.1⟩


/-! ## The level assertion and the state it leaves -/

/-- A call that starts with the level assertion: it stops there, in the state on entry, exactly
when the number of levels is not 1, and it does not stop at that assertion later. -/
theorem Outcome.level_assertion {σ α : Type} (n : Nat) (w : σ) (r : Res α) (k : α → σ)
    (hr : r = Res.fail Err.assertion ↔ n ≠ 1) :
    (∀ s, (if n ≠ 1 then Outcome.asserted w else Outcome.ofRes r k) = Outcome.asserted s ↔
      n ≠ 1 ∧ s = w) ∧
    (if n ≠ 1 then Outcome.asserted w else Outcome.ofRes r k) ≠
      Outcome.stopped Err.assertion := by
  by_cases hn : n = 1
  · have hne : ¬ n ≠ 1 := fun h => h hn
    rw [if_neg hne]
    cases hres : r with
    | ok a =>
      refine ⟨fun s => ?_, ?_⟩
      · constructor
        · intro h; cases h
        · intro h; exact absurd hn h.1
      · intro h; cases h
    | fail e =>
      have he : e ≠ Err.assertion := by
        intro h
        rw [h] at hres
        exact hr.mp hres hn
      refine ⟨fun s => ?_, ?_⟩
      · constructor
        · intro h; cases h
        · intro h; exact absurd hn h.1
      · intro h
        apply he
        simpa [Outcome.ofRes] using h
  · rw [if_pos hn]
    refine ⟨fun s => ?_, fun h => by cases h⟩
    constructor
    · intro h
      refine ⟨hn, ?_⟩
      cases h
      rfl
    · rintro ⟨-, rfl⟩
      rfl

/-- C19. `build`, `packBuffer`, `unpackBuffer`, `communicateParticlesStart` and
`unpackRemotes` stop at the assertion `pc.numLevels() == 1` exactly when the number of levels
is not 1, and then nothing has been modified: each call, run on a state `w` of the container,
the plan, the two buffers and the transport, stops at the assertion leaving a state `s` if and
only if the number of levels is not 1 and `s` is `w`, the state on entry; and no call stops at
that assertion after its first statement (`buildMPIStart`, which is outside the sources, is
assumed not to stop at that assertion itself). The last five parts say the same of the values
that the functions compute: the result is the assertion failure exactly when the number of
levels is not 1, whatever the other arguments are. -/
theorem level_assertion_iff {A : Type} [Inhabited A] (w : ExchangeState (Particle A))
    (op : ParticleCopyOp) (do_handshake : Bool)
    (buildMPIStart : ParticleCopyPlan → Bool → Res CommSchedule)
    (orders : Nat → List Nat) (pastEnd : Nat) (policy : UnpackPolicy)
    (NProcs MyProc : Nat) (SeqNum : Int) (sizeofParticle : Nat) (firstBucketOnProc : Nat → Int)
    (ParticleDistributionMap : List Int)
    (hMPI : ∀ p b, buildMPIStart p b ≠ Res.fail Err.assertion) :
    ((∀ s, InPlace.build w op do_handshake buildMPIStart orders pastEnd = Outcome.asserted s ↔
        w.pc.numLevels ≠ 1 ∧ s = w) ∧
      InPlace.build w op do_handshake buildMPIStart orders pastEnd ≠
        Outcome.stopped Err.assertion) ∧
    ((∀ s, InPlace.packBuffer w op orders = Outcome.asserted s ↔ w.pc.numLevels ≠ 1 ∧ s = w) ∧
      InPlace.packBuffer w op orders ≠ Outcome.stopped Err.assertion) ∧
    ((∀ s, InPlace.unpackBuffer w policy = Outcome.asserted s ↔ w.pc.numLevels ≠ 1 ∧ s = w) ∧
      InPlace.unpackBuffer w policy ≠ Outcome.stopped Err.assertion) ∧
    ((∀ s, InPlace.communicateParticlesStart w NProcs MyProc SeqNum sizeofParticle
          firstBucketOnProc = Outcome.asserted s ↔ w.pc.numLevels ≠ 1 ∧ s = w) ∧
      InPlace.communicateParticlesStart w NProcs MyProc SeqNum sizeofParticle
          firstBucketOnProc ≠ Outcome.stopped Err.assertion) ∧
    ((∀ s, InPlace.unpackRemotes w policy NProcs MyProc ParticleDistributionMap =
          Outcome.asserted s ↔ w.pc.numLevels ≠ 1 ∧ s = w) ∧
      InPlace.unpackRemotes w policy NProcs MyProc ParticleDistributionMap ≠
        Outcome.stopped Err.assertion) ∧
    (w.plan.build w.pc op do_handshake buildMPIStart orders pastEnd = Res.fail Err.assertion ↔
      w.pc.numLevels ≠ 1) ∧
    (packBuffer w.pc op w.plan w.snd_buffer orders = Res.fail Err.assertion ↔
      w.pc.numLevels ≠ 1) ∧
    (unpackBuffer w.pc w.plan w.snd_buffer policy = Res.fail Err.assertion ↔
      w.pc.numLevels ≠ 1) ∧
    (communicateParticlesStart w.pc w.plan w.rcv_buffer NProcs MyProc SeqNum sizeofParticle
      firstBucketOnProc w.net = Res.fail Err.assertion ↔ w.pc.numLevels ≠ 1) ∧
    (unpackRemotes w.pc w.plan w.rcv_buffer policy NProcs MyProc ParticleDistributionMap =
      Res.fail Err.assertion ↔ w.pc.numLevels ≠ 1) := by
  obtain ⟨h1, h2, h3, h4, h5⟩ := level_assertion_results w.plan w.pc op do_handshake
    buildMPIStart orders pastEnd w.plan w.snd_buffer w.rcv_buffer policy NProcs MyProc SeqNum
    sizeofParticle firstBucketOnProc w.net ParticleDistributionMap hMPI
  exact ⟨Outcome.level_assertion _ w _ _ h1, Outcome.level_assertion _ w _ _ h2,
    Outcome.level_assertion _ w _ _ h3, Outcome.level_assertion _ w _ _ h4,
    Outcome.level_assertion _ w _ _ h5, h1, h2, h3, h4, h5⟩

/-- Witness for C19: on the example state with two levels each of the five calls stops at the
assertion and leaves the state as it was on entry. -/
theorem level_assertion_iff_witness :
    (∀ p b, exampleMPIStart p b ≠ Res.fail Err.assertion) ∧
    twoLevelState.pc.numLevels ≠ 1 ∧
    InPlace.build twoLevelState exampleOp true exampleMPIStart exampleOrders 0 =
      Outcome.asserted twoLevelState ∧
    InPlace.packBuffer twoLevelState exampleOp exampleOrders = Outcome.asserted twoLevelState ∧
    InPlace.unpackBuffer twoLevelState UnpackPolicy.neighbor =
      Outcome.asserted twoLevelState ∧
    InPlace.communicateParticlesStart twoLevelState 3 1 5 8 exampleFirstBucket =
      Outcome.asserted twoLevelState ∧
    InPlace.unpackRemotes twoLevelState UnpackPolicy.neighbor 3 1 [1, 1] =
      Outcome.asserted twoLevelState ∧
    (∀ s, InPlace.build twoLevelState exampleOp true exampleMPIStart exampleOrders 0 =
        Outcome.asserted s ↔ twoLevelState.pc.numLevels ≠ 1 ∧ s = twoLevelState) :=
  ⟨fun _ _ h => Res.noConfusion h, by decide, rfl, rfl, rfl, rfl, rfl,
    (level_assertion_iff twoLevelState exampleOp true exampleMPIStart exampleOrders 0
      UnpackPolicy.neighbor 3 1 5 8 exampleFirstBucket [1, 1]
      (fun _ _ h => Res.noConfusion h)).1.1⟩

end amrex
